import Mathlib

/-!
# Second-level translation tables of the okernel VT-x driver

A shallow embedding of the EPT manager of `arch/x86/okernel/vmx.c`
(`no_cache_region`, `vt_alloc_page`, `find_pd_entry`, `find_pt_entry`,
`split_2M_mapping`, `replace_ept_page`, `vt_ept_2M_init`), of its VCPU
management (`vmx_allocate_vpid`, `vmx_free_vpid`, `vmx_get_cpu`, `vmx_put_cpu`,
`vmx_create_vcpu`, `vmx_run_vcpu`, the loop of `vmx_launch`) and of its set-up
functions (`e820_end_paddr`, `adjust_vmx_controls`, `vmx_enable`,
`vmx_disable`), together with the properties its specification states about
them.

Conventions of the embedding:

* machine integers are natural numbers, reduced modulo `2^32` or `2^64` where
  the C expression is evaluated in that width;
* physical memory is a map from physical byte addresses to the 64-bit word
  stored there (only 8-byte aligned addresses are ever accessed);
* kernel pointers are direct-map virtual addresses, converted with `__va` and
  `__pa` exactly as in the source;
* the page allocator and the slab allocator are oracles recorded in the state:
  the n-th call returns what the oracle says for n;
* the VCPU management works on a `Machine`: the identity-tag bitmap, the VCPU
  structures, the per-core VMX state and the kernel state, with a log of the
  instructions and kernel calls made; what the surroundings answer during the
  loop of `vmx_launch` is given as a script of passes.
-/

namespace Okernel

/-! ## Constants -/

/-- Modelled from the spec: `constants2.h` is missing from the sources; the size
of a small page, 4K. -/
def PAGESIZE : Nat := 0x1000

/-- Modelled from the spec: `constants2.h` is missing; shift of a 4K page. -/
def PAGESIZE_SHIFT : Nat := 12

/-- Modelled from the spec: `constants2.h` is missing; the size of a large
page, 2MB. -/
def PAGESIZE2M : Nat := 0x200000

/-- Modelled from the spec: `constants2.h` is missing; shift of a 2MB page. -/
def PAGESIZE2M_SHIFT : Nat := 21

/-- Modelled from the spec: `constants2.h` is missing; one gigabyte. -/
def GIGABYTE : Nat := 0x40000000

/-- Modelled from the spec: `constants2.h` is missing; shift of a gigabyte. -/
def GIGABYTE_SHIFT : Nat := 30

/-- Modelled from the spec: `constants2.h` is missing; the read permission bit
of an entry (bit 0). -/
def EPT_R : Nat := 0x1

/-- Modelled from the spec: `constants2.h` is missing; the write permission bit
of an entry (bit 1). -/
def EPT_W : Nat := 0x2

/-- Modelled from the spec: `constants2.h` is missing; the execute permission
bit of an entry (bit 2). -/
def EPT_X : Nat := 0x4

/-- Modelled from the spec: `constants2.h` is missing; bit 4 of an entry, the
middle bit of its memory type (write-back is `EPT_CACHE_2 | EPT_CACHE_3`). -/
def EPT_CACHE_2 : Nat := 0x10

/-- Modelled from the spec: `constants2.h` is missing; bit 5 of an entry, the
top bit of its memory type. -/
def EPT_CACHE_3 : Nat := 0x20

/-- Modelled from the spec: `constants2.h` is missing; the large page flag of a
PD entry (bit 7). -/
def EPT_2M_PAGE : Nat := 0x80

/-- Modelled from the spec: `constants2.h` is missing; the number of gigabytes
one top-level entry can map, 512. -/
def PML4E_MAP_LIMIT : Nat := 512

/-- The end of the legacy BIOS area (`BIOS_END` of the Linux e820 header). -/
def BIOS_END : Nat := 0x100000

/-- The usable RAM ceiling, `#define END_PHYSICAL 0x3FFEFFFFF`. -/
def END_PHYSICAL : Nat := 0x3FFEFFFFF

/-- The base of the kernel direct map (`PAGE_OFFSET` of x86-64 Linux). -/
def PAGE_OFFSET : Nat := 0xffff880000000000

/-! ## Machine arithmetic -/

/-- The 64-bit complement `~x` of a constant `x` after promotion to 64 bits. -/
def lnot64 (x : Nat) : Nat := 2 ^ 64 - 1 - x

/-- Conversion of an unsigned 64-bit value to `int` (low 32 bits, signed). -/
def toInt32 (n : Nat) : Int :=
  if n % 2 ^ 32 < 2 ^ 31 then (n % 2 ^ 32 : Nat) else (n % 2 ^ 32 : Nat) - 2 ^ 32

/-- The kernel virtual address of a physical address, `__va`. -/
def __va (x : Nat) : Nat := (x + PAGE_OFFSET) % 2 ^ 64

/-- The physical address of a direct-map virtual address, `__pa`. -/
def __pa (v : Nat) : Nat := (v + (2 ^ 64 - PAGE_OFFSET)) % 2 ^ 64

/-- The address `&q[i]` of element `i` of an array of 64-bit words. -/
def elem_ptr (q : Nat) (i : Int) : Nat := (((q : Int) + 8 * i) % 2 ^ 64).toNat

/-! ## Kernel state -/

/-- A page descriptor, `pt_page`: the virtual and physical address of a page. -/
structure pt_page where
  virt : Nat
  phys : Nat

/-- The part of the kernel state the EPT manager touches. -/
structure Kernel where
  /-- Physical memory: the 64-bit word stored at a physical byte address. -/
  mem : Nat → Nat
  /-- Page allocator oracle: the physical address of the page the n-th call of
  `alloc_page` hands out, or `none` when that call yields no page (its
  `page_address` is `NULL`). -/
  pages : Nat → Option Nat
  /-- Number of `alloc_page` calls made so far. -/
  npages : Nat
  /-- Slab allocator oracle: whether the n-th `kmalloc` call succeeds. -/
  slab : Nat → Bool
  /-- Number of `kmalloc` calls made so far. -/
  nslab : Nat

/-- Reading the 64-bit word a kernel pointer designates, `*p`. -/
def load (s : Kernel) (p : Nat) : Nat := s.mem (__pa p)

/-- Writing a 64-bit word through a kernel pointer, `*p = v`. -/
def store (s : Kernel) (p v : Nat) : Kernel :=
  { s with mem := fun x => if x = __pa p then v % 2 ^ 64 else s.mem x }

/-- The call `memset(p, 0, n)` on the direct map. -/
def memset0 (s : Kernel) (p n : Nat) : Kernel :=
  { s with mem := fun x => if __pa p ≤ x ∧ x < __pa p + n then 0 else s.mem x }

/-- The call `memcpy(dst, src, n)` on the direct map. -/
def memcpy (s : Kernel) (dst src n : Nat) : Kernel :=
  { s with mem := fun x =>
      if __pa dst ≤ x ∧ x < __pa dst + n then s.mem (__pa src + (x - __pa dst)) else s.mem x }

/-- The call `memset(p, 0, n)` on the direct map for a length that need not be
a multiple of 8: a word that lies within the `n` bytes becomes 0, and the word
in which the area ends loses the bytes that lie within it, which are its low
ones (the byte order is little-endian). -/
def memset0_bytes (s : Kernel) (p n : Nat) : Kernel :=
  { s with mem := fun x =>
      if __pa p ≤ x ∧ x + 8 ≤ __pa p + n then 0
      else if __pa p ≤ x ∧ x < __pa p + n then
        s.mem x / 2 ^ (8 * (__pa p + n - x)) * 2 ^ (8 * (__pa p + n - x))
      else s.mem x }

/-- Writing a 32-bit value through a kernel pointer, `*(u32 *)p = v`: the low
half of the 64-bit word at `p` is replaced, the high half stays. -/
def store32 (s : Kernel) (p v : Nat) : Kernel :=
  { s with mem := fun x =>
      if x = __pa p then s.mem x / 2 ^ 32 * 2 ^ 32 + v % 2 ^ 32 else s.mem x }

/-- The call `kmalloc(..., GFP_KERNEL)` for a descriptor: whether it succeeds. -/
def kmalloc (s : Kernel) : Bool × Kernel :=
  (s.slab s.nslab, { s with nslab := s.nslab + 1 })

/-- The loop `for (i = 0; i < n; i++) body`. -/
def forLoop {σ : Type} (n : Nat) (body : Nat → σ → σ) (s : σ) : σ :=
  match n with
  | 0 => s
  | n + 1 => body n (forLoop n body s)

/-- The loop `for (i = 0; i < n; i++) body` whose body may leave the function
with `return`: `Except.error` carries the state at the `return`. -/
def forLoopE {ε σ : Type} (n : Nat) (body : Nat → σ → Except ε σ) (s : σ) : Except ε σ :=
  match n with
  | 0 => Except.ok s
  | n + 1 =>
    match forLoopE n body s with
    | Except.ok s1 => body n s1
    | Except.error e => Except.error e

/-! ## The EPT manager -/

/-- The function `no_cache_region`: 0 for cacheable addresses, 1 otherwise. -/
def no_cache_region (addr _size : Nat) : Nat :=
  if (addr ≥ 0 ∧ addr < 0x9F00) ∨ (addr ≥ BIOS_END ∧ addr < END_PHYSICAL) then 0 else 1

/-- The function `vt_alloc_page`: a page with its virtual and physical address,
or `none` for the failure return 0. -/
def vt_alloc_page (s : Kernel) : Option pt_page × Kernel :=
  let s1 := { s with npages := s.npages + 1 }
  match s.pages s.npages with
  | none => (none, s1)
  | some pg =>
    let v := __va pg
    if v = 0 then (none, s1) else (some ⟨v, pg⟩, s1)

/-- Modelled from the spec: `vmx.h` is missing; the target physical address of
an entry, the entry with its low 12 bits cleared (`epte_addr`). -/
def epte_addr (epte : Nat) : Nat := epte &&& lnot64 (PAGESIZE - 1)

/-- Modelled from the spec: `vmx.h` is missing; the kernel pointer to the table
an entry points to (`epte_page_vaddr`). -/
def epte_page_vaddr (epte : Nat) : Nat := __va (epte_addr epte)

/-- The function `find_pd_entry`: pointer to the PD entry of the 2MB region
containing `paddr`. -/
def find_pd_entry (s : Kernel) (ept_root paddr : Nat) : Nat :=
  let pml4 := __va ept_root
  let pml3 := epte_page_vaddr (load s pml4)
  let pml3_index := toInt32 ((paddr &&& lnot64 (GIGABYTE - 1)) >>> GIGABYTE_SHIFT)
  let pml2 := epte_page_vaddr (load s (elem_ptr pml3 pml3_index))
  let pml2_index := toInt32 ((paddr &&& (GIGABYTE - 1)) >>> PAGESIZE2M_SHIFT)
  elem_ptr pml2 pml2_index

/-- The function `find_pt_entry`: pointer to the PT entry of the 4K page
containing `paddr`, or `none` when `BUG_ON(*pml1 & EPT_2M_PAGE)` fires. -/
def find_pt_entry (s : Kernel) (ept_root paddr : Nat) : Option Nat :=
  let pml4 := __va ept_root
  let pml3 := epte_page_vaddr (load s pml4)
  let pml3_index := toInt32 ((paddr &&& lnot64 (GIGABYTE - 1)) >>> GIGABYTE_SHIFT)
  let pml2 := epte_page_vaddr (load s (elem_ptr pml3 pml3_index))
  let pml2_index := toInt32 ((paddr &&& (GIGABYTE - 1)) >>> PAGESIZE2M_SHIFT)
  let pml1 := epte_page_vaddr (load s (elem_ptr pml2 pml2_index))
  if load s pml1 &&& EPT_2M_PAGE ≠ 0 then none
  else
    let pml1_index := toInt32 ((paddr &&& (PAGESIZE2M - 1)) >>> PAGESIZE_SHIFT)
    some (elem_ptr pml1 pml1_index)

/-- The PT entry `split_2M_mapping` writes for the page at `addr`. -/
def split_pte (addr : Nat) : Nat :=
  if no_cache_region addr PAGESIZE ≠ 0 then addr ||| EPT_R ||| EPT_W ||| EPT_X
  else addr ||| EPT_R ||| EPT_W ||| EPT_X ||| EPT_CACHE_2 ||| EPT_CACHE_3

/-- The function `split_2M_mapping`: the returned `int` and the new state. -/
def split_2M_mapping (s : Kernel) (ept_root paddr : Nat) : Nat × Kernel :=
  let n_entries := PAGESIZE / 8
  if paddr &&& (PAGESIZE2M - 1) ≠ 0 then (0, s)
  else
    let pml2_e := find_pd_entry s ept_root paddr
    if pml2_e = 0 then (0, s)
    else if load s pml2_e &&& EPT_2M_PAGE = 0 then (1, s)
    else
      let p_base_addr := load s pml2_e &&& lnot64 (PAGESIZE2M - 1)
      match kmalloc s with
      | (false, s1) => (0, s1)
      | (true, s1) =>
        match vt_alloc_page s1 with
        | (none, s2) => (0, s2)
        | (some pt, s2) =>
          let s3 := memset0 s2 pt.virt PAGESIZE
          let q := pt.virt
          let s4 := forLoop n_entries
            (fun i t => store t (elem_ptr q i) (split_pte ((p_base_addr + i * PAGESIZE) % 2 ^ 64))) s3
          (1, store s4 pml2_e (pt.phys + EPT_R + EPT_W + EPT_X))

/-- The part of `replace_ept_page` after the call of `split_2M_mapping` has
succeeded: the leaf is looked up, a page is allocated and zeroed, the address
recorded in the leaf is checked, the leaf is rewritten and the page is copied. -/
def replace_ept_page_tail (s1 : Kernel) (ept_root paddr : Nat) : Option (Nat × Kernel) :=
  match find_pt_entry s1 ept_root paddr with
  | none => none
  | some pml1_p =>
    if pml1_p = 0 then some (0, s1)
    else
      match kmalloc s1 with
      | (false, s2) => some (0, s2)
      | (true, s2) =>
        match vt_alloc_page s2 with
        | (none, s3) => some (0, s3)
        | (some pt, s3) =>
          if load (memset0 s3 pt.virt PAGESIZE) pml1_p &&& lnot64 (PAGESIZE - 1) ≠ paddr then
            some (0, memset0 s3 pt.virt PAGESIZE)
          else
            some (pt.virt,
              memcpy
                (store (memset0 s3 pt.virt PAGESIZE) pml1_p
                  (pt.phys ||| EPT_R ||| EPT_W ||| EPT_X ||| EPT_CACHE_2 ||| EPT_CACHE_3))
                pt.virt
                (__va (load (memset0 s3 pt.virt PAGESIZE) pml1_p &&& lnot64 (PAGESIZE - 1)))
                PAGESIZE)

/-- The function `replace_ept_page`: the returned pointer (0 is `NULL`) and the
new state, or `none` when the `BUG_ON` of `find_pt_entry` fires. First
`split_2M_mapping` is called on `split_addr`, the address rounded down to 2MB;
when it returns 0 the function returns `NULL`, otherwise it continues with
`replace_ept_page_tail`. -/
def replace_ept_page (s : Kernel) (ept_root paddr : Nat) : Option (Nat × Kernel) :=
  match split_2M_mapping s ept_root (paddr &&& lnot64 (PAGESIZE2M - 1)) with
  | (0, s1) => some (0, s1)
  | (_, s1) => replace_ept_page_tail s1 ept_root paddr

/-- The entry the first loop of `vt_ept_2M_init` writes into slot `i` of the PT
of the first 2MB: `i << 12` is an `int` expression. -/
def init_pte (i : Nat) : Nat :=
  let addr := i <<< 12
  if no_cache_region addr PAGESIZE ≠ 0 then (i <<< 12) ||| EPT_R ||| EPT_W ||| EPT_X
  else (i <<< 12) ||| EPT_R ||| EPT_W ||| EPT_X ||| EPT_CACHE_2 ||| EPT_CACHE_3

/-- The entry `vt_ept_2M_init` writes into slot `i` of PD table `k`:
`(i + k*n_entries) << 21` is an `unsigned int` expression, evaluated modulo
`2^32` before it is widened to the 64-bit entry. -/
def init_pde (n_entries k i : Nat) : Nat :=
  let addr := (((i + k * n_entries) % 2 ^ 32) <<< 21) % 2 ^ 32
  if no_cache_region addr PAGESIZE2M ≠ 0 then
    ((((i + k * n_entries) % 2 ^ 32) <<< 21) % 2 ^ 32) ||| EPT_R ||| EPT_W ||| EPT_X ||| EPT_2M_PAGE
  else
    ((((i + k * n_entries) % 2 ^ 32) <<< 21) % 2 ^ 32) ||| EPT_R ||| EPT_W ||| EPT_X ||| EPT_2M_PAGE
      ||| EPT_CACHE_2 ||| EPT_CACHE_3

/-- The allocation loops of `vt_ept_2M_init`: `n` pages are allocated and
zeroed, descriptor `i` of the array receiving page `i`. `ok` tells whether the
`kmalloc` of the descriptor array succeeded. `Except.error (some s)` is the
`return 0` of a failed page allocation; `Except.error none` is the kernel fault
of `vt_alloc_page` writing the new page into a descriptor of a null array
(the page is allocated before the descriptor is written). -/
def alloc_tables (ok : Bool) (n : Nat) (tab : Nat → pt_page) (s : Kernel) :
    Except (Option Kernel) ((Nat → pt_page) × Kernel) :=
  forLoopE n (fun i (st : (Nat → pt_page) × Kernel) =>
    match vt_alloc_page st.2 with
    | (none, s1) => Except.error (some s1)
    | (some pg, s1) =>
      if ok then
        Except.ok (fun j => if j = i then pg else st.1 j, memset0 s1 pg.virt PAGESIZE)
      else Except.error none) (tab, s)

/-- The outcome of `vt_ept_2M_init` when an allocation loop stops: `return 0`
with the state reached, or the kernel fault (`none`). -/
def alloc_failed (e : Option Kernel) : Option (Nat × Kernel) :=
  match e with
  | some s1 => some (0, s1)
  | none => none

/-- Last part of `vt_ept_2M_init` (from "Finally create the PML4 table" to the
`return`): the PML4 page is allocated, zeroed and linked to the PDPT pages. -/
def init_pml4 (n_pdpt : Nat) (pdpt : Nat → pt_page) (s : Kernel) : Option (Nat × Kernel) :=
  match vt_alloc_page s with
  | (none, s1) => some (0, s1)
  | (some pml4, s1) =>
    some (pml4.phys,
      forLoop n_pdpt (fun i t =>
        store t (elem_ptr pml4.virt i) ((pdpt i).phys + EPT_R + EPT_W + EPT_X))
        (memset0 s1 pml4.virt PAGESIZE))

/-- The part of `vt_ept_2M_init` from "Now the PDPT (PML3) tables" on: the PDPT
pages are allocated, zeroed and linked to the PD tables; then `init_pml4`.
`ok_pdpt` tells whether the `kmalloc` of the array `pdpt` succeeded. -/
def init_pdpt (n_pdpt n_pd : Nat) (ok_pdpt : Bool) (pd : Nat → pt_page) (s : Kernel) :
    Option (Nat × Kernel) :=
  match alloc_tables ok_pdpt n_pdpt (fun _ => ⟨0, 0⟩) s with
  | Except.error e => alloc_failed e
  | Except.ok r =>
    init_pml4 n_pdpt r.1
      (forLoop n_pdpt (fun k t =>
        forLoop n_pd (fun i u =>
          store u (elem_ptr (r.1 k).virt i) ((pd i).phys + EPT_R + EPT_W + EPT_X)) t) r.2)

/-- The part of `vt_ept_2M_init` from "Now the PD (PML2) tables" on: the PD
pages are allocated and zeroed, every entry is filled with a 2MB mapping, and
entry 0 of the first PD is pointed to the PT; then `init_pdpt`. With
`n_pd = 0` the array `pd` has no element and the read of `pd[0].virt` is a
kernel fault (`none`). -/
def init_pd (n_entries n_pdpt n_pd : Nat) (ok_pdpt ok_pd : Bool) (pt : Nat → pt_page)
    (s : Kernel) : Option (Nat × Kernel) :=
  match alloc_tables ok_pd n_pd (fun _ => ⟨0, 0⟩) s with
  | Except.error e => alloc_failed e
  | Except.ok r =>
    if n_pd = 0 then none
    else
      init_pdpt n_pdpt n_pd ok_pdpt r.1
        (store
          (forLoop n_pd (fun k t =>
            forLoop n_entries (fun i u =>
              store u (elem_ptr (r.1 k).virt i) (init_pde n_entries k i)) t) r.2)
          (elem_ptr (r.1 0).virt 0) ((pt 0).phys + EPT_R + EPT_W + EPT_X))

/-- The part of `vt_ept_2M_init` from `BUG_ON(n_pt != 1)` on: the PT of the
first 2MB is allocated, zeroed and filled with 4K mappings; then `init_pd`.
`ok_pdpt`, `ok_pd` and `ok_pt` tell whether the three `kmalloc` calls
succeeded. -/
def init_pt (n_entries n_pdpt n_pd n_pt : Nat) (ok_pdpt ok_pd ok_pt : Bool) (s : Kernel) :
    Option (Nat × Kernel) :=
  match alloc_tables ok_pt n_pt (fun _ => ⟨0, 0⟩) s with
  | Except.error e => alloc_failed e
  | Except.ok r =>
    init_pd n_entries n_pdpt n_pd ok_pdpt ok_pd r.1
      (forLoop n_entries (fun i t => store t (elem_ptr (r.1 0).virt i) (init_pte i)) r.2)

/-- The local `rounded_mappingsize` of `vt_ept_2M_init`: the extent rounded up
to a whole number of gigabytes, in 64-bit arithmetic. -/
def rounded_mappingsize (mappingsize : Nat) : Nat :=
  ((mappingsize + (GIGABYTE - 1)) % 2 ^ 64) &&& lnot64 (GIGABYTE - 1)

/-- The function `vt_ept_2M_init`, with the extent `e820_end_paddr(MAXMEM)`
as parameter `mappingsize`: the returned root (0 on failure) and the new state,
or `none` when the kernel faults on a descriptor array that `kmalloc` did not
provide. The three `kmalloc` calls are made in the order `pdpt`, `pd`, `pt`,
none of them checked; the body after them is `init_pt`, with
`n_entries = PAGESIZE / 8`, `n_pdpt = 1`,
`n_pd = rounded_mappingsize >> GIGABYTE_SHIFT` (an `unsigned int`) and
`n_pt = 1`. -/
def vt_ept_2M_init (mappingsize : Nat) (s : Kernel) : Option (Nat × Kernel) :=
  if rounded_mappingsize mappingsize >>> GIGABYTE_SHIFT > PML4E_MAP_LIMIT then some (0, s)
  else
    init_pt (PAGESIZE / 8) 1 ((rounded_mappingsize mappingsize >>> GIGABYTE_SHIFT) % 2 ^ 32) 1
      (kmalloc s).1 (kmalloc (kmalloc s).2).1 (kmalloc (kmalloc (kmalloc s).2).2).1
      (kmalloc (kmalloc (kmalloc s).2).2).2

/-! ## Auxiliary notions for the statements -/

/-- Modelled from the spec: the Linux memory-layout headers are missing; the
highest physical address the direct map covers (`MAXMEM`, 46 physical address
bits), to which `e820_end_paddr(MAXMEM)` clamps the extent. -/
def MAXMEM : Nat := 2 ^ 46

/-- The page the allocator hands out at the `j`-th call counted from state `s`
(0 when that call fails). -/
def nthPage (s : Kernel) (j : Nat) : Nat := (s.pages (s.npages + j)).getD 0

/-- The assumptions on the page allocator: pages are 4K aligned, lie below
`MAXMEM`, physical page 0 is never handed out, and no page is handed out twice. -/
structure PoolOK (pages : Nat → Option Nat) : Prop where
  aligned : ∀ n p, pages n = some p → p % 4096 = 0
  bound : ∀ n p, pages n = some p → p + 4096 ≤ 2 ^ 46
  nonzero : ∀ n p, pages n = some p → p ≠ 0
  inj : ∀ i j p, pages i = some p → pages j = some p → i = j

/-- Memory after `n` 64-bit stores `q[i] = f i` into the table at physical
address `P`. -/
def fillMem (P n : Nat) (f : Nat → Nat) (m : Nat → Nat) : Nat → Nat :=
  fun x => if P ≤ x ∧ x < P + 8 * n ∧ (x - P) % 8 = 0 then f ((x - P) / 8) % 2 ^ 64 else m x

/-- Memory after zeroing the 4K page at physical address `P`. -/
def zeroMem (P : Nat) (m : Nat → Nat) : Nat → Nat :=
  fun x => if P ≤ x ∧ x < P + 4096 then 0 else m x

/-- Memory after zeroing the pages `pg 0`, ..., `pg (n-1)` in this order. -/
def zeroPages (pg : Nat → Nat) (n : Nat) (m : Nat → Nat) : Nat → Nat :=
  match n with
  | 0 => m
  | n + 1 => zeroMem (pg n) (zeroPages pg n m)

/-- Memory after filling the 512 entries of the tables `pg 0`, ..., `pg (n-1)`
in this order, entry `i` of table `k` with `f k i`. -/
def fillPages (pg : Nat → Nat) (f : Nat → Nat → Nat) (n : Nat) (m : Nat → Nat) : Nat → Nat :=
  match n with
  | 0 => m
  | n + 1 => fillMem (pg n) 512 (f n) (fillPages pg f n m)


/-- Memory after the 64-bit store of `v` at physical address `P`. -/
def storeMem (P v : Nat) (m : Nat → Nat) : Nat → Nat :=
  fun x => if x = P then v % 2 ^ 64 else m x

/-- Memory after the PD stage of `vt_ept_2M_init` run on the pages `pg 0`, ...,
`pg (n-1)`, with the PT at physical address `T`. -/
def pd_mem (pg : Nat → Nat) (T n_entries n : Nat) (m : Nat → Nat) : Nat → Nat :=
  storeMem (pg 0) (T + EPT_R + EPT_W + EPT_X)
    (fillPages pg (init_pde n_entries) n (zeroPages pg n m))

/-- Memory after the PDPT and PML4 stages of `vt_ept_2M_init`: the PDPT at `P3`
links the `n` PD tables `pd 0`, ..., the PML4 at `P4` links the PDPT. -/
def top_mem (P4 P3 : Nat) (pd : Nat → Nat) (n : Nat) (m : Nat → Nat) : Nat → Nat :=
  fillMem P4 1 (fun _ => P3 + EPT_R + EPT_W + EPT_X)
    (zeroMem P4
      (fillMem P3 n (fun i => pd i + EPT_R + EPT_W + EPT_X) (zeroMem P3 m)))

/-- Memory as a successful `vt_ept_2M_init` leaves it: `pg 0` is the PT of the
first 2MB, `pg 1`, ..., `pg n` are the PD tables, `pg (n+1)` is the PDPT and
`pg (n+2)` the PML4. -/
def init_mem (pg : Nat → Nat) (n : Nat) (m : Nat → Nat) : Nat → Nat :=
  top_mem (pg (n + 2)) (pg (n + 1)) (fun k => pg (1 + k)) n
    (pd_mem (fun k => pg (1 + k)) (pg 0) 512 n
      (fillMem (pg 0) 512 init_pte (zeroMem (pg 0) m)))

/-- A sample kernel state: empty memory, an allocator with 4096 free pages, the
consecutive pages from physical address `0x10000000` on, a slab that never
fails. -/
def sample_kernel : Kernel :=
  { mem := fun _ => 0
    pages := fun n => if n < 4096 then some (0x10000000 + 4096 * n) else none
    npages := 0
    slab := fun _ => true
    nslab := 0 }

/-- What a successful `vt_ept_2M_init` leaves in the state: the pages `pg 0`
(the PT), `pg 1 .. pg n` (the PD tables), `pg (n+1)` (the PDPT) and `pg (n+2)`
(the PML4, the returned root) come from the allocator and hold the entries
listed; everything else is unchanged. -/
structure InitPost (s s' : Kernel) (root n : Nat) : Prop where
  n_pos : 1 ≤ n
  n_le : n ≤ 512
  pages_eq : s'.pages = s.pages
  npages_eq : s'.npages = s.npages + (n + 3)
  slab_eq : s'.slab = s.slab
  nslab_eq : s'.nslab = s.nslab + 3
  alloc : ∀ j, j < n + 3 → s.pages (s.npages + j) = some (nthPage s j)
  root_eq : root = nthPage s (n + 2)
  pml4_0 : s'.mem root = nthPage s (n + 1) + 7
  pml4_rest : ∀ i, 0 < i → i < 512 → s'.mem (root + 8 * i) = 0
  pdpt_lo : ∀ k, k < n → s'.mem (nthPage s (n + 1) + 8 * k) = nthPage s (1 + k) + 7
  pdpt_hi : ∀ k, n ≤ k → k < 512 → s'.mem (nthPage s (n + 1) + 8 * k) = 0
  pd_00 : s'.mem (nthPage s 1) = nthPage s 0 + 7
  pd_at : ∀ k i, k < n → i < 512 → ¬ (k = 0 ∧ i = 0) →
    s'.mem (nthPage s (1 + k) + 8 * i) = init_pde 512 k i % 2 ^ 64
  pt_at : ∀ i, i < 512 → s'.mem (nthPage s 0 + 8 * i) = init_pte i % 2 ^ 64
  frame : ∀ x, (∀ j, j < n + 3 → ¬ (nthPage s j ≤ x ∧ x < nthPage s j + 4096)) →
    s'.mem x = s.mem x


/-- A leaf entry reached by the hardware walk: the physical address of the
entry, the number of bytes it maps and its value. -/
structure Leaf where
  slot : Nat
  span : Nat
  entry : Nat

/-- The walk the hardware makes from the root for a guest-physical address:
PML4 entry, PDPT entry, PD entry and, when the PD entry is not a large page, PT
entry; `none` when an entry on the way is not present (none of the read, write
and execute bits set). -/
def ept_walk (s : Kernel) (root gpa : Nat) : Option Leaf :=
  if s.mem (root + 8 * (gpa / 2 ^ 39 % 512)) &&& 7 = 0 then none
  else if s.mem (epte_addr (s.mem (root + 8 * (gpa / 2 ^ 39 % 512)))
      + 8 * (gpa / 2 ^ 30 % 512)) &&& 7 = 0 then none
  else
    let slot2 := epte_addr (s.mem (epte_addr (s.mem (root + 8 * (gpa / 2 ^ 39 % 512)))
      + 8 * (gpa / 2 ^ 30 % 512))) + 8 * (gpa / 2 ^ 21 % 512)
    if s.mem slot2 &&& 7 = 0 then none
    else if s.mem slot2 &&& EPT_2M_PAGE ≠ 0 then some ⟨slot2, PAGESIZE2M, s.mem slot2⟩
    else
      let slot1 := epte_addr (s.mem slot2) + 8 * (gpa / 2 ^ 12 % 512)
      if s.mem slot1 &&& 7 = 0 then none else some ⟨slot1, PAGESIZE, s.mem slot1⟩

/-- The host-physical address a leaf gives a guest-physical address. -/
def Leaf.hpa (l : Leaf) (gpa : Nat) : Nat := (l.entry &&& lnot64 (l.span - 1)) + gpa % l.span

/-- The read, write and execute bits of a leaf. -/
def Leaf.perm (l : Leaf) : Nat := l.entry &&& (EPT_R ||| EPT_W ||| EPT_X)

/-- The write-back cache bits of a leaf. -/
def Leaf.cache (l : Leaf) : Nat := l.entry &&& (EPT_CACHE_2 ||| EPT_CACHE_3)

/-- The table `vt_ept_2M_init` builds from the sample state for an extent: the
root and the state (the sample state itself if the call faults). -/
def sample_built (E : Nat) : Nat × Kernel :=
  (vt_ept_2M_init E sample_kernel).getD (0, sample_kernel)


/-- The role of a page in the table hierarchy. -/
inductive Role where
  | pml4 : Role
  | pdpt : Role
  | pd (k : Nat) : Role
  | pt (k i : Nat) : Role

/-- The layout of a table hierarchy: the role of every physical page that
belongs to it (`none` for all other pages), the PDPT page and the PD pages. -/
structure EptLayout where
  role : Nat → Option Role
  pdpt : Nat
  pd : Nat → Nat

/-- A PD entry that maps a large page: a 2MB-aligned target with read, write,
execute and the large page flag, with or without the write-back cache bits. -/
def IsLargeLeaf (e : Nat) : Prop :=
  ∃ base, base % 2 ^ 21 = 0 ∧ base + 2 ^ 21 ≤ 2 ^ 64 ∧ (e = base + 0x87 ∨ e = base + 0xB7)

/-- A PT entry: a 4K-aligned target with read, write and execute, with or
without the write-back cache bits. -/
def IsSmallLeaf (e : Nat) : Prop :=
  ∃ a, a % 4096 = 0 ∧ a + 4096 ≤ 2 ^ 64 ∧ (e = a + 7 ∨ e = a + 0x37)

/-- The state holds a well-formed table hierarchy with root `root` covering `n`
gigabytes, laid out as `L` says: the tables are distinct 4K pages that the
allocator will not hand out again, the PML4 points to the PDPT, PDPT entry `k`
to PD table `k`, and every PD entry either maps a large page or points to a PT
of its own whose 512 entries are 4K mappings. -/
structure EptInv (s : Kernel) (root n : Nat) (L : EptLayout) : Prop where
  n_le : n ≤ 512
  pool : PoolOK s.pages
  fresh : ∀ j p, s.npages ≤ j → s.pages j = some p → L.role p = none
  table_ok : ∀ p r, L.role p = some r → p % 4096 = 0 ∧ p + 4096 ≤ 2 ^ 46
  role_root : L.role root = some Role.pml4
  role_pdpt : L.role L.pdpt = some Role.pdpt
  role_pd : ∀ k, k < n → L.role (L.pd k) = some (Role.pd k)
  root_entry : s.mem root = L.pdpt + 7
  pdpt_entry : ∀ k, k < n → s.mem (L.pdpt + 8 * k) = L.pd k + 7
  pd_entry : ∀ k i, k < n → i < 512 →
    IsLargeLeaf (s.mem (L.pd k + 8 * i)) ∨
    ∃ T, s.mem (L.pd k + 8 * i) = T + 7 ∧ L.role T = some (Role.pt k i) ∧
      ∀ j, j < 512 → IsSmallLeaf (s.mem (T + 8 * j))

/-- The physical address of the PD entry of the 2MB region containing `a`. -/
def pd_slot (L : EptLayout) (a : Nat) : Nat := L.pd (a / 2 ^ 30) + 8 * (a % 2 ^ 30 / 2 ^ 21)

/-- Memory after `memcpy` of the 4K page at `src` to the 4K page at `dst`. -/
def copyMem (dst src : Nat) (m : Nat → Nat) : Nat → Nat :=
  fun x => if dst ≤ x ∧ x < dst + 4096 then m (src + (x - dst)) else m x

/-- The state after `split_2M_mapping` has split the large entry at `slot`
with target `base`, using the page `N` for the new PT. -/
def split_state (s : Kernel) (slot base N : Nat) : Kernel :=
  { s with nslab := s.nslab + 1
           npages := s.npages + 1
           mem := storeMem slot (N + 7)
             (fillMem N 512 (fun j => split_pte ((base + j * PAGESIZE) % 2 ^ 64))
               (zeroMem N s.mem)) }

/-- The layout after a split: the new PT page `N` serves region `i` of PD
table `k`. -/
def split_layout (L : EptLayout) (N k i : Nat) : EptLayout :=
  { L with role := fun x => if x = N then some (Role.pt k i) else L.role x }


/-- The state after `replace_ept_page` has replaced the page `p`, whose leaf
entry is at physical address `leaf`, by the page `N`; `s1` is the state after
the split. -/
def replace_state (s1 : Kernel) (leaf N p : Nat) : Kernel :=
  { s1 with nslab := s1.nslab + 1
            npages := s1.npages + 1
            mem := copyMem N p (storeMem leaf (N + 0x37) (zeroMem N s1.mem)) }

/-- The physical address of the PT entry of the page containing `a`, in the PT
at physical address `T`. -/
def pt_slot (T a : Nat) : Nat := T + 8 * (a % 2 ^ 21 / 2 ^ 12)


/-- The layout of the table `vt_ept_2M_init` builds from the state `s` for `n`
gigabytes: the pages are those the allocator hands out from `s` on. -/
def init_layout (s : Kernel) (n : Nat) : EptLayout :=
  { role := fun x =>
      if x = nthPage s (n + 2) then some Role.pml4
      else if x = nthPage s (n + 1) then some Role.pdpt
      else if x = nthPage s 0 then some (Role.pt 0 0)
      else
        match (List.range n).find? (fun k => decide (x = nthPage s (1 + k))) with
        | some k => some (Role.pd k)
        | none => none
    pdpt := nthPage s (n + 1)
    pd := fun k => nthPage s (1 + k) }


/-- What holds after `split_2M_mapping` has returned 1 for the region of `p`:
the table is well formed (with the layout `L1`), the region is split with PT
`T`, and the state is either unchanged or the state `split_state`. -/
structure SplitPost (s s1 : Kernel) (root n : Nat) (L L1 : EptLayout) (p T : Nat) : Prop where
  inv : EptInv s1 root n L1
  pd_eq : L1.pd = L.pd
  role_mono : ∀ x r, L.role x = some r → L1.role x = some r
  pd_val : s1.mem (pd_slot L p) = T + 7
  role_T : L1.role T = some (Role.pt (p / 2 ^ 30) (p % 2 ^ 30 / 2 ^ 21))
  leaves : ∀ j, j < 512 → IsSmallLeaf (s1.mem (T + 8 * j))
  pages_eq : s1.pages = s.pages
  how : (s1 = s ∧ L1 = L ∧ s.mem (pd_slot L p) &&& EPT_2M_PAGE = 0) ∨
    (s.mem (pd_slot L p) &&& EPT_2M_PAGE ≠ 0 ∧ s.pages s.npages = some T ∧
      s1 = split_state s (pd_slot L p) (s.mem (pd_slot L p) / 2 ^ 21 * 2 ^ 21) T ∧
      L1 = split_layout L T (p / 2 ^ 30) (p % 2 ^ 30 / 2 ^ 21))


/-- The outcome of `replace_ept_page` on the page at `0x305000` in the table
built for 1GB from the sample state. -/
def sample_replaced : Nat × Kernel :=
  (replace_ept_page (sample_built GIGABYTE).2 (sample_built GIGABYTE).1 0x305000).getD
    (0, sample_kernel)



/-- The target address a leaf entry records: the entry with the bits below the
span of the leaf cleared. -/
def Leaf.target (l : Leaf) : Nat := l.entry &&& lnot64 (l.span - 1)


/-! ## The VCPU manager: state -/

/-- Linux `asm/vmx.h`: the number of identity tags, `#define VMX_NR_VPIDS (1 << 16)`. -/
def VMX_NR_VPIDS : Nat := 1 <<< 16

/-- Linux `asm/vmx.h`: `VMX_VPID_EXTENT_SINGLE_CONTEXT`. -/
def VMX_VPID_EXTENT_SINGLE_CONTEXT : Nat := 1

/-- Linux `asm/vmx.h`: `VMX_VPID_EXTENT_ALL_CONTEXT`. -/
def VMX_VPID_EXTENT_ALL_CONTEXT : Nat := 2

/-- Linux `asm/vmx.h`: `VMX_VPID_EXTENT_SINGLE_CONTEXT_BIT`, bit 9 of the VPID
capability word. -/
def VMX_VPID_EXTENT_SINGLE_CONTEXT_BIT : Nat := 1 <<< 9

/-- Linux `asm/vmx.h`: `VMX_VPID_EXTENT_GLOBAL_CONTEXT_BIT`, bit 10 of the VPID
capability word. -/
def VMX_VPID_EXTENT_GLOBAL_CONTEXT_BIT : Nat := 1 <<< 10

/-- Linux `asm/vmx.h`: `VMX_EPT_EXTENT_INDIVIDUAL_ADDR`. -/
def VMX_EPT_EXTENT_INDIVIDUAL_ADDR : Nat := 0

/-- Linux `asm/vmx.h`: `VMX_EPT_EXTENT_CONTEXT`. -/
def VMX_EPT_EXTENT_CONTEXT : Nat := 1

/-- Linux `asm/vmx.h`: `VMX_EPT_EXTENT_GLOBAL`. -/
def VMX_EPT_EXTENT_GLOBAL : Nat := 2

/-- Linux `asm/vmx.h`: `VMX_EPT_AD_BIT`, bit 21 of the EPT capability word. -/
def VMX_EPT_AD_BIT : Nat := 1 <<< 21

/-- Linux `asm/vmx.h`: `VMX_EPT_EXTENT_INDIVIDUAL_BIT`, bit 24 of the EPT
capability word. -/
def VMX_EPT_EXTENT_INDIVIDUAL_BIT : Nat := 1 <<< 24

/-- Linux `asm/vmx.h`: `VMX_EPT_EXTENT_CONTEXT_BIT`, bit 25 of the EPT capability
word. -/
def VMX_EPT_EXTENT_CONTEXT_BIT : Nat := 1 <<< 25

/-- Linux `asm/vmx.h`: `VMX_EPT_EXTENT_GLOBAL_BIT`, bit 26 of the EPT capability
word. -/
def VMX_EPT_EXTENT_GLOBAL_BIT : Nat := 1 <<< 26

/-- Linux `asm/vmx.h`: the memory type of the EPT paging structures,
write-back. -/
def VMX_EPT_DEFAULT_MT : Nat := 0x6

/-- Linux `asm/vmx.h`: the EPT page-walk length minus one. -/
def VMX_EPT_DEFAULT_GAW : Nat := 3

/-- Linux `asm/vmx.h`: position of the page-walk length in the EPT pointer. -/
def VMX_EPT_GAW_EPTP_SHIFT : Nat := 3

/-- Linux `asm/vmx.h`: the bit of the EPT pointer that enables the accessed and
dirty flags. -/
def VMX_EPT_AD_ENABLE_BIT : Nat := 1 <<< 6

/-- Linux `asm/vmx.h`, `enum vmcs_field`: the encodings of the VMCS fields the
model writes or reads. -/
def VIRTUAL_PROCESSOR_ID : Nat := 0x0000

/-- Linux `asm/vmx.h`, `enum vmcs_field`. -/
def EPT_POINTER : Nat := 0x201a

/-- Linux `asm/vmx.h`, `enum vmcs_field`. -/
def VM_INSTRUCTION_ERROR : Nat := 0x4400

/-- Linux `asm/vmx.h`, `enum vmcs_field`. -/
def VM_EXIT_REASON : Nat := 0x4402

/-- Linux `asm/vmx.h`, `enum vmcs_field`. -/
def VM_EXIT_INTR_INFO : Nat := 0x4404

/-- Linux `asm/vmx.h`, `enum vmcs_field`. -/
def VM_EXIT_INSTRUCTION_LEN : Nat := 0x440c

/-- Linux `asm/vmx.h`, `enum vmcs_field`. -/
def GUEST_PHYSICAL_ADDRESS : Nat := 0x2400

/-- Linux `asm/vmx.h`, `enum vmcs_field`. -/
def GUEST_RSP : Nat := 0x681c

/-- Linux `asm/vmx.h`, `enum vmcs_field`. -/
def GUEST_RIP : Nat := 0x681e

/-- Linux `asm/vmx.h`, `enum vmcs_field`. -/
def GUEST_RFLAGS : Nat := 0x6820

/-- Linux `asm/vmx.h`, `enum vmcs_field`. -/
def HOST_FS_BASE : Nat := 0x6c06

/-- Linux `asm/vmx.h`, `enum vmcs_field`. -/
def HOST_GS_BASE : Nat := 0x6c08

/-- Linux `asm/vmx.h`, `enum vmcs_field`. -/
def HOST_TR_BASE : Nat := 0x6c0a

/-- Linux `asm/vmx.h`, `enum vmcs_field`. -/
def HOST_GDTR_BASE : Nat := 0x6c0c

/-- Linux `asm/vmx.h`, `enum vmcs_field`. -/
def HOST_IA32_SYSENTER_ESP : Nat := 0x6c10

/-- Linux `asm/vmx.h`, `enum vmcs_field`: the host stack pointer, the operand
`"d"((unsigned long)HOST_RSP)` of the assembly of `vmx_run_vcpu`. -/
def HOST_RSP : Nat := 0x6c14

/-- Linux `asm/vmx.h`: the basic exit reasons the dispatch loop tests. -/
def EXIT_REASON_EXCEPTION_NMI : Int := 0

/-- Linux `asm/vmx.h`: exit reason of an external interrupt. -/
def EXIT_REASON_EXTERNAL_INTERRUPT : Int := 1

/-- Linux `asm/vmx.h`: exit reason of the `cpuid` instruction. -/
def EXIT_REASON_CPUID : Int := 10

/-- Linux `asm/vmx.h`: exit reason of the `vmcall` instruction. -/
def EXIT_REASON_VMCALL : Int := 18

/-- Linux `asm/vmx.h`: exit reason of an EPT violation. -/
def EXIT_REASON_EPT_VIOLATION : Int := 48

/-- Linux `asm/vmx.h`: `VMX_EXIT_REASONS_FAILED_VMENTRY`, `0x80000000`, as the
`int` that `vmx_run_vcpu` returns. -/
def VMX_EXIT_REASONS_FAILED_VMENTRY : Int := toInt32 0x80000000

/-- Modelled from the spec: `vmx.h` is missing; the hypercall command "yield".
Only that the two commands differ is used. -/
def VMCALL_SCHED : Nat := 1

/-- Modelled from the spec: `vmx.h` is missing; the hypercall command
"terminate". -/
def VMCALL_DOEXIT : Nat := 2

/-- Modelled from the spec: `vmx.h` is missing; index of `RAX` in the register
snapshot `regs` (the order of the x86 register encoding, as in KVM). -/
def VCPU_REGS_RAX : Nat := 0

/-- Modelled from the spec: `vmx.h` is missing; index of `RCX`. -/
def VCPU_REGS_RCX : Nat := 1

/-- Modelled from the spec: `vmx.h` is missing; index of `RDX`. -/
def VCPU_REGS_RDX : Nat := 2

/-- Modelled from the spec: `vmx.h` is missing; index of `RBX`. -/
def VCPU_REGS_RBX : Nat := 3

/-- Modelled from the spec: `vmx.h` is missing; index of `RSP`. -/
def VCPU_REGS_RSP : Nat := 4

/-- Modelled from the spec: `vmx.h` is missing; the number of registers in the
snapshot, `NR_VCPU_REGS`. -/
def NR_VCPU_REGS : Nat := 16

/-- Linux `signal.h`: the number of `SIGKILL`. -/
def SIGKILL : Nat := 9

/-- Linux `errno.h`: `ENOSYS`. -/
def ENOSYS : Int := 38

/-- Linux `errno.h`: `ENOMEM`. -/
def ENOMEM : Int := 12

/-- A function with one value replaced: the update of a per-core variable, of
a bit of a bitmap or of a cell of the heap. -/
def upd {α : Type} (f : Nat → α) (k : Nat) (v : α) : Nat → α :=
  fun x => if x = k then v else f x

/-- Modelled from the spec: `vmx.h` is missing; the fields of `struct vmx_vcpu`
that the code of `vmx.c` reads or writes. -/
structure vmx_vcpu where
  /-- The core on which the VMCS was last loaded, -1 for none. -/
  cpu : Int
  /-- The identity tag. -/
  vpid : Nat
  /-- Whether the VCPU has been entered (`vmlaunch` done, `vmresume` next). -/
  launched : Nat
  /-- The flag `fail` that `vmx_run_vcpu` sets from the outcome of the entry. -/
  fail : Nat
  /-- The stack pointer that `vmx_run_vcpu` last wrote to the VMCS field
  `HOST_RSP`. -/
  host_rsp : Nat
  /-- The register snapshot, indexed by `VCPU_REGS_*`. -/
  regs : Nat → Nat
  cr2 : Nat
  ept_root : Nat
  eptp : Nat
  ept_ad_enabled : Bool
  /-- The pointer to the VMCS region, 0 for `NULL`. -/
  vmcs : Nat
  ret_code : Int
  cloned_thread_info : Nat

/-- The VCPU structure after `memset(vcpu, 0, sizeof(*vcpu))`. -/
def zero_vcpu : vmx_vcpu :=
  { cpu := 0
    vpid := 0
    launched := 0
    fail := 0
    host_rsp := 0
    regs := fun _ => 0
    cr2 := 0
    ept_root := 0
    eptp := 0
    ept_ad_enabled := false
    vmcs := 0
    ret_code := 0
    cloned_thread_info := 0 }

/-- The fields of the global `vmcs_config` that the model uses. -/
structure VmcsConfig where
  size : Nat
  order : Nat
  revision_id : Nat

/-- The global `vmx_capability`: the EPT and VPID capability words read from
`MSR_IA32_VMX_EPT_VPID_CAP`. -/
structure VmxCapability where
  ept : Nat
  vpid : Nat

/-- Modelled from the spec: the global `cloned_thread` is defined outside
`vmx.c`; the registers of the thread that enters the restricted context, as far
as `vmx_setup_initial_guest_state` copies them. -/
structure ClonedThread where
  /-- The general-purpose registers, indexed by `VCPU_REGS_*`. -/
  regs : Nat → Nat
  rip : Nat
  rsp : Nat
  rflags : Nat
  cr2 : Nat

/-- What the model records of the actions that reach outside the VCPU manager:
the VMX instructions with the core that executes them, the calls that bind and
release the core, the scheduler calls, and the releases of memory. `binds` is
the number of `vmx_get_cpu` calls not yet matched by `vmx_put_cpu` at that
moment. `vmwrite` records a call of `vmcs_writel`; `vmentry` records the
assembly of `vmx_run_vcpu` as a whole, the `vmwrite` of the stack pointer at
its head included. -/
inductive Event where
  | get_cpu
  | put_cpu
  | vmclear (cpu vmcs : Nat)
  | vmptrld (cpu vmcs : Nat)
  | vmwrite (cpu field : Nat) (binds : Int)
  | invvpid (cpu ext vpid gva : Nat)
  | invept (cpu ext eptp gpa : Nat)
  | vmentry (cpu : Nat) (binds : Int)
  | cpuid (eax ecx : Nat)
  | cond_resched
  | schedule
  | dequeue_signal (signr : Nat)
  | bug_on
  | free_pages (p : Nat)
  | kfree (p : Nat)
  deriving DecidableEq

/-- The state of the VCPU manager: the globals of `vmx.c`, the VCPU structures
on the heap (indexed by their address), the executing thread (its core, its
preemption count and interrupt flag), the VMCS state of the hardware, and the
memory with its allocators. -/
structure Machine where
  /-- The bitmap `vmx_vpid_bitmap`: bit `i` is set when tag `i` is taken. -/
  vmx_vpid_bitmap : Nat → Bool
  /-- The per-core variable `local_vcpu` (0 is `NULL`). -/
  local_vcpu : Nat → Nat
  vmcs_config : VmcsConfig
  vmx_capability : VmxCapability
  /-- The VCPU structures, by address. -/
  vcpus : Nat → vmx_vcpu
  /-- The core the thread runs on, `raw_smp_processor_id()`. -/
  cpu : Nat
  /-- The nesting of `get_cpu()` over `put_cpu()`. -/
  preempt_count : Int
  irqs_disabled : Bool
  /-- The current-VMCS pointer of each core. -/
  current_vmcs : Nat → Option Nat
  /-- Whether a VMCS is active on a core: loaded there by `vmptrld` and not
  cleared there by `vmclear` since. -/
  vmcs_active : Nat → Nat → Bool
  /-- The fields of each VMCS, by VMCS pointer and field encoding. -/
  vmcs_field : Nat → Nat → Nat
  /-- The value of each per-core host-state field on each core (the base of
  the TSS and of the GDT, the `SYSENTER` stack, the `FS` and `GS` bases). -/
  host_state : Nat → Nat → Nat
  /-- The answer of the `cpuid` instruction for a leaf and sub-leaf. -/
  cpuid : Nat → Nat → Nat × Nat × Nat × Nat
  /-- The result of `vmx_create_ept`, which is defined outside `vmx.c`. -/
  create_ept_result : Int
  cloned_thread : ClonedThread
  kern : Kernel
  log : List Event

/-- Storing a VCPU structure on the heap. -/
def set_vcpu (m : Machine) (p : Nat) (v : vmx_vcpu) : Machine :=
  { m with vcpus := upd m.vcpus p v }

/-- Appending an event to the log. -/
def emit (m : Machine) (e : Event) : Machine :=
  { m with log := m.log ++ [e] }

/-! ## The identity-tag pool -/

/-- The search of `find_first_zero_bit` from bit `i` on, looking at no more
than `fuel` bits: the first clear bit below `size`, or `size`. -/
def find_zero_from (bitmap : Nat → Bool) (size : Nat) : Nat → Nat → Nat
  | 0, _ => size
  | fuel + 1, i =>
    if size ≤ i then size
    else if bitmap i = false then i
    else find_zero_from bitmap size fuel (i + 1)

/-- Linux `find_first_zero_bit(addr, size)`: the number of the first clear bit,
or `size` when all `size` bits are set. -/
def find_first_zero_bit (bitmap : Nat → Bool) (size : Nat) : Nat :=
  find_zero_from bitmap size size 0

/-- The function `vmx_allocate_vpid` applied to the VCPU at address `vmx`: the
returned `int` and the new state. -/
def vmx_allocate_vpid (m : Machine) (vmx : Nat) : Nat × Machine :=
  let m1 := set_vcpu m vmx { m.vcpus vmx with vpid := 0 }
  let vpid := find_first_zero_bit m1.vmx_vpid_bitmap VMX_NR_VPIDS
  if vpid < VMX_NR_VPIDS then
    (0, { set_vcpu m1 vmx { m1.vcpus vmx with vpid := vpid } with
            vmx_vpid_bitmap := upd m1.vmx_vpid_bitmap vpid true })
  else (1, m1)

/-- The function `vmx_free_vpid` applied to the VCPU at address `vmx`. -/
def vmx_free_vpid (m : Machine) (vmx : Nat) : Machine :=
  if (m.vcpus vmx).vpid ≠ 0 then
    { m with vmx_vpid_bitmap := upd m.vmx_vpid_bitmap (m.vcpus vmx).vpid false }
  else m

/-- The identity-tag pool as `vmx_init` leaves it: the static bitmap is all
zero and `set_bit(0, vmx_vpid_bitmap)` reserves tag 0. -/
def vmx_init_bitmap : Nat → Bool := upd (fun _ => false) 0 true

/-- A call of the pool interface. -/
inductive VpidCall where
  | allocate (vmx : Nat)
  | free (vmx : Nat)

/-- The VCPUs that hold a tag: `allocate` that returns 0 makes its VCPU live,
`free` makes it not live. -/
def live_after (live : List Nat) (c : VpidCall) (ret : Nat) : List Nat :=
  match c with
  | VpidCall.allocate vmx => if ret = 0 then vmx :: live.filter (fun w => w ≠ vmx)
                             else live.filter (fun w => w ≠ vmx)
  | VpidCall.free vmx => live.filter (fun w => w ≠ vmx)

/-- One call of the pool interface: the returned value (0 for `free`) and the
new state. -/
def vpid_call (m : Machine) (c : VpidCall) : Nat × Machine :=
  match c with
  | VpidCall.allocate vmx => vmx_allocate_vpid m vmx
  | VpidCall.free vmx => (0, vmx_free_vpid m vmx)

/-- A sequence of calls of the pool interface, run from a state and a list of
live VCPUs: the final state and the VCPUs live at the end. -/
def vpid_run : List VpidCall → Machine × List Nat → Machine × List Nat
  | [], st => st
  | c :: cs, st =>
    vpid_run cs ((vpid_call st.1 c).2, live_after st.2 c (vpid_call st.1 c).1)

/-- The discipline of the callers in `vmx.c`: `vmx_free_vpid` is called on a
VCPU that holds a tag (`vmx_destroy_vcpu`, and `vmx_create_vcpu` after a failure
that follows the allocation of the tag), or at most on one whose tag is 0, and
the structure is released right after, so that no VCPU is freed twice. -/
def vpid_disciplined : List VpidCall → Machine × List Nat → Bool
  | [], _ => true
  | c :: cs, st =>
    (match c with
      | VpidCall.allocate _ => true
      | VpidCall.free vmx => decide (vmx ∈ st.2) || decide ((st.1.vcpus vmx).vpid = 0)) &&
    vpid_disciplined cs ((vpid_call st.1 c).2, live_after st.2 c (vpid_call st.1 c).1)

/-- A sample state of the VCPU manager: the pool as `vmx_init` leaves it, no
VCPU, core 0, a processor with all the invalidation scopes, on top of the
sample kernel state. -/
def sample_machine : Machine :=
  { vmx_vpid_bitmap := vmx_init_bitmap
    local_vcpu := fun _ => 0
    vmcs_config := { size := 4096, order := 0, revision_id := 1 }
    vmx_capability := { ept := 0x7200000, vpid := 0x600 }
    vcpus := fun _ => zero_vcpu
    cpu := 0
    preempt_count := 0
    irqs_disabled := false
    current_vmcs := fun _ => none
    vmcs_active := fun _ _ => false
    vmcs_field := fun _ _ => 0
    host_state := fun c f => 0x1000 * c + f
    cpuid := fun eax ecx => (eax + 1, eax + 2, ecx + 3, ecx + 4)
    create_ept_result := 0
    cloned_thread := { regs := fun i => 0x100 + i, rip := 0x4000, rsp := 0x8000,
                       rflags := 0x202, cr2 := 0 }
    kern := sample_kernel
    log := [] }

/-- The invariant of the identity-tag pool for a list of live VCPUs: tag 0 is
taken, no VCPU is listed twice, and the live VCPUs hold pairwise different
tags, other than 0 and below `VMX_NR_VPIDS`, whose bits are set. -/
structure VpidInv (m : Machine) (live : List Nat) : Prop where
  zero : m.vmx_vpid_bitmap 0 = true
  nodup : live.Nodup
  taken : ∀ v, v ∈ live → m.vmx_vpid_bitmap (m.vcpus v).vpid = true
  nonzero : ∀ v, v ∈ live → (m.vcpus v).vpid ≠ 0
  bound : ∀ v, v ∈ live → (m.vcpus v).vpid < VMX_NR_VPIDS
  unique : ∀ v w, v ∈ live → w ∈ live → v ≠ w → (m.vcpus v).vpid ≠ (m.vcpus w).vpid


/-! ## Binding a VCPU to a core -/

/-- The function `cpu_has_vmx_invvpid_single`. -/
def cpu_has_vmx_invvpid_single (m : Machine) : Bool :=
  m.vmx_capability.vpid &&& VMX_VPID_EXTENT_SINGLE_CONTEXT_BIT ≠ 0

/-- The function `cpu_has_vmx_invvpid_global`. -/
def cpu_has_vmx_invvpid_global (m : Machine) : Bool :=
  m.vmx_capability.vpid &&& VMX_VPID_EXTENT_GLOBAL_CONTEXT_BIT ≠ 0

/-- The function `cpu_has_vmx_invept_individual_addr`. -/
def cpu_has_vmx_invept_individual_addr (m : Machine) : Bool :=
  m.vmx_capability.ept &&& VMX_EPT_EXTENT_INDIVIDUAL_BIT ≠ 0

/-- The function `cpu_has_vmx_invept_context`. -/
def cpu_has_vmx_invept_context (m : Machine) : Bool :=
  m.vmx_capability.ept &&& VMX_EPT_EXTENT_CONTEXT_BIT ≠ 0

/-- The function `cpu_has_vmx_invept_global`. -/
def cpu_has_vmx_invept_global (m : Machine) : Bool :=
  m.vmx_capability.ept &&& VMX_EPT_EXTENT_GLOBAL_BIT ≠ 0

/-- The function `cpu_has_vmx_ept_ad_bits`. -/
def cpu_has_vmx_ept_ad_bits (m : Machine) : Bool :=
  m.vmx_capability.ept &&& VMX_EPT_AD_BIT ≠ 0

/-- The function `__invept`: the `invept` instruction on the executing core. -/
def __invept (m : Machine) (ext eptp gpa : Nat) : Machine :=
  emit m (Event.invept m.cpu ext eptp gpa)

/-- The function `ept_sync_global`. -/
def ept_sync_global (m : Machine) : Machine :=
  if cpu_has_vmx_invept_global m then __invept m VMX_EPT_EXTENT_GLOBAL 0 0 else m

/-- The function `ept_sync_context`. -/
def ept_sync_context (m : Machine) (eptp : Nat) : Machine :=
  if cpu_has_vmx_invept_context m then __invept m VMX_EPT_EXTENT_CONTEXT eptp 0
  else ept_sync_global m

/-- The function `ept_sync_individual_addr`. -/
def ept_sync_individual_addr (m : Machine) (eptp gpa : Nat) : Machine :=
  if cpu_has_vmx_invept_individual_addr m then
    __invept m VMX_EPT_EXTENT_INDIVIDUAL_ADDR eptp gpa
  else ept_sync_context m eptp

/-- The function `__invvpid`: the `invvpid` instruction on the executing core. -/
def __invvpid (m : Machine) (ext vpid gva : Nat) : Machine :=
  emit m (Event.invvpid m.cpu ext vpid gva)

/-- The function `vpid_sync_vcpu_single`. -/
def vpid_sync_vcpu_single (m : Machine) (vpid : Nat) : Machine :=
  if vpid = 0 then m
  else if cpu_has_vmx_invvpid_single m then __invvpid m VMX_VPID_EXTENT_SINGLE_CONTEXT vpid 0
  else m

/-- The function `vpid_sync_vcpu_global`. -/
def vpid_sync_vcpu_global (m : Machine) : Machine :=
  if cpu_has_vmx_invvpid_global m then __invvpid m VMX_VPID_EXTENT_ALL_CONTEXT 0 0 else m

/-- The function `vpid_sync_context`; its argument is a `u16`. -/
def vpid_sync_context (m : Machine) (vpid : Nat) : Machine :=
  if cpu_has_vmx_invvpid_single m then vpid_sync_vcpu_single m vpid
  else vpid_sync_vcpu_global m

/-- The function `vmcs_clear`: `vmclear` on the executing core. The VMCS is no
longer active on that core and, if it was the current VMCS there, the core has
no current VMCS. -/
def vmcs_clear (m : Machine) (vmcs : Nat) : Machine :=
  emit
    { m with
        current_vmcs := upd m.current_vmcs m.cpu
          (if m.current_vmcs m.cpu = some vmcs then none else m.current_vmcs m.cpu)
        vmcs_active := upd m.vmcs_active m.cpu (upd (m.vmcs_active m.cpu) vmcs false) }
    (Event.vmclear m.cpu vmcs)

/-- The function `vmcs_load`: `vmptrld` on the executing core. The VMCS becomes
active and current on that core. -/
def vmcs_load (m : Machine) (vmcs : Nat) : Machine :=
  emit
    { m with
        current_vmcs := upd m.current_vmcs m.cpu (some vmcs)
        vmcs_active := upd m.vmcs_active m.cpu (upd (m.vmcs_active m.cpu) vmcs true) }
    (Event.vmptrld m.cpu vmcs)

/-- Modelled from the spec: `vmcs_readl` is defined outside `vmx.c`; `vmread`
of a field of the current VMCS of the executing core (0 when the core has no
current VMCS). -/
def vmcs_readl (m : Machine) (field : Nat) : Nat :=
  match m.current_vmcs m.cpu with
  | some v => m.vmcs_field v field
  | none => 0

/-- The function `vmcs_read32`. -/
def vmcs_read32 (m : Machine) (field : Nat) : Nat := vmcs_readl m field % 2 ^ 32

/-- The function `vmcs_writel`: `vmwrite` of a field of the current VMCS of the
executing core; without a current VMCS the instruction fails and only an error
is printed. -/
def vmcs_writel (m : Machine) (field value : Nat) : Machine :=
  emit
    (match m.current_vmcs m.cpu with
      | some v =>
        { m with vmcs_field := upd m.vmcs_field v (upd (m.vmcs_field v) field (value % 2 ^ 64)) }
      | none => m)
    (Event.vmwrite m.cpu field m.preempt_count)

/-- The function `__vmx_setup_cpu`: the host-state fields that differ from core
to core are written with the values of the executing core. -/
def __vmx_setup_cpu (m : Machine) : Machine :=
  let m1 := vmcs_writel m HOST_TR_BASE (m.host_state m.cpu HOST_TR_BASE)
  let m2 := vmcs_writel m1 HOST_GDTR_BASE (m1.host_state m1.cpu HOST_GDTR_BASE)
  let m3 := vmcs_writel m2 HOST_IA32_SYSENTER_ESP (m2.host_state m2.cpu HOST_IA32_SYSENTER_ESP)
  let m4 := vmcs_writel m3 HOST_FS_BASE (m3.host_state m3.cpu HOST_FS_BASE)
  vmcs_writel m4 HOST_GS_BASE (m4.host_state m4.cpu HOST_GS_BASE)

/-- The function `__vmx_get_cpu_helper`, run on the core that last loaded the
VMCS. Its `BUG_ON` cannot fire under `smp_call_function_single(vcpu->cpu, ...)`,
its only caller; the model records it in the log. -/
def __vmx_get_cpu_helper (m : Machine) (vcpu : Nat) : Machine :=
  let m0 := if (m.cpu : Int) ≠ (m.vcpus vcpu).cpu then emit m Event.bug_on else m
  let m1 := vmcs_clear m0 (m0.vcpus vcpu).vmcs
  if m1.local_vcpu m1.cpu = vcpu then { m1 with local_vcpu := upd m1.local_vcpu m1.cpu 0 }
  else m1

/-- Linux `smp_call_function_single(cpu, func, info, 1)`: `func` runs on core
`cpu` and the caller waits for it. -/
def smp_call_function_single (m : Machine) (cpu : Nat) (func : Machine → Machine) : Machine :=
  { func { m with cpu := cpu } with cpu := m.cpu }

/-- Linux `get_cpu()`: preemption is disabled. -/
def get_cpu (m : Machine) : Machine :=
  emit { m with preempt_count := m.preempt_count + 1 } Event.get_cpu

/-- The function `vmx_put_cpu`, that is `put_cpu()`: preemption is enabled
again. -/
def vmx_put_cpu (m : Machine) (_vcpu : Nat) : Machine :=
  emit { m with preempt_count := m.preempt_count - 1 } Event.put_cpu

/-- The branch `vcpu->cpu != cur_cpu` of `vmx_get_cpu`: the VMCS is cleared on
the core that last loaded it (by a cross-core call, or locally when there is no
such core), the cached translations are invalidated, and the VMCS is loaded on
the executing core, whose host-state fields are written. -/
def vmx_get_cpu_migrate (m : Machine) (vcpu cur_cpu : Nat) : Machine :=
  let m1 :=
    if (m.vcpus vcpu).cpu ≥ 0 then
      smp_call_function_single m (m.vcpus vcpu).cpu.toNat (fun t => __vmx_get_cpu_helper t vcpu)
    else vmcs_clear m (m.vcpus vcpu).vmcs
  let m2 := vpid_sync_context m1 ((m1.vcpus vcpu).vpid % 2 ^ 16)
  let m3 := ept_sync_context m2 (m2.vcpus vcpu).eptp
  let m4 := set_vcpu m3 vcpu { m3.vcpus vcpu with launched := 0 }
  let m5 := vmcs_load m4 (m4.vcpus vcpu).vmcs
  let m6 := __vmx_setup_cpu m5
  set_vcpu m6 vcpu { m6.vcpus vcpu with cpu := (cur_cpu : Int) }

/-- The function `vmx_get_cpu`. -/
def vmx_get_cpu (m : Machine) (vcpu : Nat) : Machine :=
  let m1 := get_cpu m
  if (m1.vcpus vcpu).launched ≠ 0 then vmcs_load m1 (m1.vcpus vcpu).vmcs
  else if m1.local_vcpu m1.cpu ≠ vcpu then
    if (m1.vcpus vcpu).cpu ≠ (m1.cpu : Int) then
      vmx_get_cpu_migrate { m1 with local_vcpu := upd m1.local_vcpu m1.cpu vcpu } vcpu m1.cpu
    else vmcs_load { m1 with local_vcpu := upd m1.local_vcpu m1.cpu vcpu } (m1.vcpus vcpu).vmcs
  else m1

/-- A VCPU that has been launched on core 0: its VMCS at `0x5000` is active and
current there, and its recorded core is 0. -/
def launched_vcpu : vmx_vcpu :=
  { zero_vcpu with cpu := 0, vpid := 1, launched := 1, vmcs := 0x5000, eptp := 0x1000701e }

/-- The sample state with the launched VCPU at address 100, the thread being
now on core 1. -/
def migrated_machine : Machine :=
  { sample_machine with
      vcpus := upd sample_machine.vcpus 100 launched_vcpu
      vmx_vpid_bitmap := upd sample_machine.vmx_vpid_bitmap 1 true
      local_vcpu := upd sample_machine.local_vcpu 0 100
      current_vmcs := upd sample_machine.current_vmcs 0 (some 0x5000)
      vmcs_active := upd sample_machine.vmcs_active 0 (upd (sample_machine.vmcs_active 0) 0x5000 true)
      cpu := 1 }


/-! ## Creating a VCPU -/

/-- Linux `PAGE_MASK`, the complement of `PAGE_SIZE - 1`. -/
def PAGE_MASK : Nat := lnot64 (0x1000 - 1)

/-- The function `vmx_alloc_vmcs` (`__vmx_alloc_vmcs` for the executing core):
the pointer to a VMCS region of which `vmcs_config.size` bytes are zeroed and
whose first 32 bits hold the revision identifier, or 0 when
`alloc_pages_exact_node` gives no pages. The type `struct vmcs` is declared in
the missing `vmx.h`; as in KVM, `revision_id` is the `u32` at offset 0. -/
def vmx_alloc_vmcs (m : Machine) : Nat × Machine :=
  match m.kern.pages m.kern.npages with
  | none => (0, { m with kern := { m.kern with npages := m.kern.npages + 1 } })
  | some pg =>
    (__va pg,
      { m with
          kern := store32
            (memset0_bytes { m.kern with npages := m.kern.npages + 1 } (__va pg)
              m.vmcs_config.size)
            (__va pg) m.vmcs_config.revision_id })

/-- The function `vmx_free_vmcs`: the pages of the VMCS region are released. -/
def vmx_free_vmcs (m : Machine) (vmcs : Nat) : Machine :=
  emit m (Event.free_pages vmcs)

/-- The function `construct_eptp`. -/
def construct_eptp (m : Machine) (root_hpa : Nat) : Nat :=
  (if cpu_has_vmx_ept_ad_bits m then
      VMX_EPT_DEFAULT_MT ||| (VMX_EPT_DEFAULT_GAW <<< VMX_EPT_GAW_EPTP_SHIFT)
        ||| VMX_EPT_AD_ENABLE_BIT
    else VMX_EPT_DEFAULT_MT ||| (VMX_EPT_DEFAULT_GAW <<< VMX_EPT_GAW_EPTP_SHIFT))
  ||| (root_hpa &&& PAGE_MASK)

/-- The function `vmx_setup_vmcs`, as far as it depends on the VCPU: the writes
of the identity tag and of the EPT pointer. The other fields it writes receive
the control words of `vmcs_config` and the constant host state, which are not
part of this model. -/
def vmx_setup_vmcs (m : Machine) (vcpu : Nat) : Machine :=
  vmcs_writel (vmcs_writel m VIRTUAL_PROCESSOR_ID ((m.vcpus vcpu).vpid % 2 ^ 16))
    EPT_POINTER (m.vcpus vcpu).eptp

/-- The function `vmx_setup_initial_guest_state`, as far as it concerns what
the dispatch loop reads later: the register snapshot (all registers of
`cloned_thread` but `RSP`) and `cr2`, and the guest instruction pointer, stack
pointer and flags. The other guest-state fields it writes are not part of this
model. -/
def vmx_setup_initial_guest_state (m : Machine) (vcpu : Nat) : Machine :=
  vmcs_writel
    (vmcs_writel
      (vmcs_writel
        (set_vcpu m vcpu
          { m.vcpus vcpu with
              regs := fun i =>
                if i < NR_VCPU_REGS ∧ i ≠ VCPU_REGS_RSP then m.cloned_thread.regs i
                else (m.vcpus vcpu).regs i
              cr2 := m.cloned_thread.cr2 })
        GUEST_RIP m.cloned_thread.rip)
      GUEST_RSP m.cloned_thread.rsp)
    GUEST_RFLAGS m.cloned_thread.rflags

/-- The label `fail_vmcs` of `vmx_create_vcpu`: `kfree(vcpu)`. -/
def fail_vmcs (m : Machine) (vcpu : Nat) : Machine := emit m (Event.kfree vcpu)

/-- The label `fail_vpid` of `vmx_create_vcpu`: the VMCS region is released,
then `fail_vmcs`. -/
def fail_vpid (m : Machine) (vcpu : Nat) : Machine :=
  fail_vmcs (vmx_free_vmcs m (m.vcpus vcpu).vmcs) vcpu

/-- The label `fail_ept` of `vmx_create_vcpu`: the identity tag is released,
then `fail_vpid`. -/
def fail_ept (m : Machine) (vcpu : Nat) : Machine :=
  fail_vpid (vmx_free_vpid m vcpu) vcpu

/-- The part of `vmx_create_vcpu` after the table has been built, up to the
call of `vmx_create_ept`: the EPT pointer is derived, the VMCS is bound to the
core and set up, and the accessed/dirty flag is recorded. -/
def create_vcpu_bind (m : Machine) (vcpu : Nat) : Machine :=
  let m1 := set_vcpu m vcpu
    { m.vcpus vcpu with eptp := construct_eptp m (m.vcpus vcpu).ept_root }
  let m2 := vmx_put_cpu
    (vmx_setup_initial_guest_state (vmx_setup_vmcs (vmx_get_cpu m1 vcpu) vcpu) vcpu) vcpu
  if cpu_has_vmx_ept_ad_bits m2 then
    set_vcpu m2 vcpu { m2.vcpus vcpu with ept_ad_enabled := true }
  else m2

/-- The part of `vmx_create_vcpu` after the table has been built. The function
`vmx_create_ept` is not defined in `vmx.c`: its result is the field
`create_ept_result` of the state. The result is the returned pointer (0 is
`NULL`) and the new state. -/
def create_vcpu_setup (m : Machine) (vcpu : Nat) : Nat × Machine :=
  if (create_vcpu_bind m vcpu).create_ept_result ≠ 0 then
    (0, fail_ept (create_vcpu_bind m vcpu) vcpu)
  else (vcpu, create_vcpu_bind m vcpu)

/-- The state of `vmx_create_vcpu` when `vcpu->cpu` and `vcpu->ept_root` have
been assigned: `m` is the state after `vmx_allocate_vpid`, `k` the kernel state
and `root` the value that `vt_ept_2M_init` returns. -/
def create_vcpu_root (m : Machine) (vcpu root : Nat) (k : Kernel) : Machine :=
  set_vcpu { m with kern := k } vcpu { m.vcpus vcpu with cpu := -1, ept_root := root }

/-- The part of `vmx_create_vcpu` from the call of `vmx_allocate_vpid` on;
`none` when `vt_ept_2M_init` faults. -/
def create_vcpu_vpid (E : Nat) (m : Machine) (vcpu : Nat) : Option (Nat × Machine) :=
  if (vmx_allocate_vpid m vcpu).1 ≠ 0 then some (0, fail_vpid (vmx_allocate_vpid m vcpu).2 vcpu)
  else
    match vt_ept_2M_init E (vmx_allocate_vpid m vcpu).2.kern with
    | none => none
    | some (root, k) =>
      if root = 0 then
        some (0, fail_ept (create_vcpu_root (vmx_allocate_vpid m vcpu).2 vcpu root k) vcpu)
      else some (create_vcpu_setup (create_vcpu_root (vmx_allocate_vpid m vcpu).2 vcpu root k) vcpu)

/-- The part of `vmx_create_vcpu` after `kmalloc` has returned the address
`vcpu`, up to the assignment of `vcpu->vmcs`: the structure is zeroed and
`vmx_alloc_vmcs` is called. The result is the VMCS pointer (0 is `NULL`) and
the new state. -/
def create_vcpu_vmcs (m : Machine) (vcpu : Nat) : Nat × Machine :=
  ((vmx_alloc_vmcs (set_vcpu { m with kern := (kmalloc m.kern).2 } vcpu zero_vcpu)).1,
    set_vcpu (vmx_alloc_vmcs (set_vcpu { m with kern := (kmalloc m.kern).2 } vcpu zero_vcpu)).2
      vcpu
      { zero_vcpu with
          vmcs := (vmx_alloc_vmcs
            (set_vcpu { m with kern := (kmalloc m.kern).2 } vcpu zero_vcpu)).1 })

/-- The function `vmx_create_vcpu`, with the extent `e820_end_paddr(MAXMEM)` as
parameter `E` and the address `vcpu` (not `NULL`) that `kmalloc` returns for
the VCPU structure when it succeeds. The result is the returned pointer (0 is
`NULL`) and the new state, or `none` when `vt_ept_2M_init` faults. -/
def vmx_create_vcpu (E : Nat) (vcpu : Nat) (m : Machine) : Option (Nat × Machine) :=
  if (kmalloc m.kern).1 = false then some (0, { m with kern := (kmalloc m.kern).2 })
  else if (create_vcpu_vmcs m vcpu).1 = 0 then
    some (0, fail_vmcs (create_vcpu_vmcs m vcpu).2 vcpu)
  else create_vcpu_vpid E (create_vcpu_vmcs m vcpu).2 vcpu

/-- The sample state of the VCPU manager with a slab allocator whose call
number `k`, counted from 0, fails and whose other calls succeed. From this
state call 0 is the `kmalloc` of the VCPU structure in `vmx_create_vcpu`, and
calls 1, 2 and 3 are the `kmalloc` calls of the descriptor arrays `pdpt`, `pd`
and `pt` in `vt_ept_2M_init`. -/
def slab_fail_machine (k : Nat) : Machine :=
  { sample_machine with kern := { sample_kernel with slab := fun n => decide (n ≠ k) } }

/-- The sample state of the VCPU manager with a page allocator whose call
number `k`, counted from 0, yields no page. From this state call 0 is the
allocation of the VCPU's VMCS region, and call 1 is the first `vt_alloc_page`
of `vt_ept_2M_init`. -/
def page_fail_machine (k : Nat) : Machine :=
  { sample_machine with
      kern := { sample_kernel with
        pages := fun n => if n = k then none else sample_kernel.pages n } }

/-- Two states with the same identity-tag pool: the same bitmap and the same
tag in every VCPU structure; the result of `vmx_create_ept` is the same too. -/
def SamePool (m m1 : Machine) : Prop :=
  m1.vmx_vpid_bitmap = m.vmx_vpid_bitmap ∧ (∀ p, (m1.vcpus p).vpid = (m.vcpus p).vpid) ∧
    m1.create_ept_result = m.create_ept_result


/-! ## The dispatch loop -/

/-- What the processor answers in one run of the assembly of `vmx_run_vcpu`:
the stack pointer of the thread when the assembly compares it with
`vcpu->host_rsp`, the guest registers and `cr2` at the exit, whether the entry
failed (`fail` is not 0 when `setbe` finds the flags of a failed entry), and
the exit reason, instruction
length, guest instruction pointer and guest-physical address (the faulting
address of an EPT violation) that the processor stores in the VMCS. -/
structure VmExit where
  host_rsp : Nat
  regs : Nat → Nat
  cr2 : Nat
  fail : Nat
  reason : Nat
  instruction_len : Nat
  guest_rip : Nat
  guest_physical_address : Nat

/-- What the surroundings answer during one pass of the loop of `vmx_launch`:
`need_resched()`, the core on which the thread continues after `cond_resched()`
or `schedule()`, `signal_pending(current)`, the signal `dequeue_signal` returns,
the outcome of the hardware entry, `current->hardirqs_enabled_nr` after it, and
`rcu_scheduler_active`. -/
structure Pass where
  need_resched : Bool
  resched_cpu : Nat
  signal_pending : Bool
  signr : Nat
  vmexit : VmExit
  hardirqs_enabled_nr : Int
  rcu_scheduler_active : Int

/-- How the loop of `vmx_launch` ends: `running` when the script of passes is
used up and the loop would go on, `do_exit` for the call `do_exit(0)`, and the
three places where the kernel stops with `BUG`: the check
`BUG_ON(irqs_disabled())`, the `default` case of the hypercall switch, and the
label `tmp_finish` (reached with the last value of `ret`). -/
inductive Ending where
  | running
  | do_exit (code : Int)
  | bug_on_irqs_disabled
  | bug_vmcall
  | bug_finish (ret : Int)
  deriving DecidableEq

/-- The outcome of one pass of the loop: the next pass starts with the given
`schedule_ok`, `ret` and state, or the loop ends. -/
inductive PassResult where
  | next (schedule_ok : Bool) (ret : Int) (m : Machine)
  | stop (e : Ending) (m : Machine)

/-- Linux `local_irq_disable()`. -/
def local_irq_disable (m : Machine) : Machine := { m with irqs_disabled := true }

/-- Linux `local_irq_enable()`. -/
def local_irq_enable (m : Machine) : Machine := { m with irqs_disabled := false }

/-- Linux `cond_resched()`: the thread may continue on another core. -/
def cond_resched (m : Machine) (cpu : Nat) : Machine :=
  emit { m with cpu := cpu } Event.cond_resched

/-- Linux `schedule()`: the thread may continue on another core. -/
def schedule (m : Machine) (cpu : Nat) : Machine :=
  emit { m with cpu := cpu } Event.schedule

/-- Linux `dequeue_signal`, with the number of the signal it returns. -/
def dequeue_signal (m : Machine) (signr : Nat) : Machine :=
  emit m (Event.dequeue_signal signr)

/-- The effect of the VM exit on the processor: the guest-physical address,
the exit reason, the instruction length and the guest instruction pointer are
stored in the current VMCS, and interrupts are disabled (a VM exit clears
`RFLAGS.IF`). An entry that fails stores nothing. -/
def vm_exit (m : Machine) (x : VmExit) : Machine :=
  if x.fail ≠ 0 then m
  else
    match m.current_vmcs m.cpu with
    | some v =>
      { m with
          vmcs_field := upd m.vmcs_field v
            (upd (upd (upd
              (upd (m.vmcs_field v) GUEST_PHYSICAL_ADDRESS x.guest_physical_address)
              VM_EXIT_REASON x.reason)
              VM_EXIT_INSTRUCTION_LEN x.instruction_len) GUEST_RIP x.guest_rip)
          irqs_disabled := true }
    | none => { m with irqs_disabled := true }

/-- The head of the assembly of `vmx_run_vcpu` (`cmp`, `je 1f`, `mov`,
`vmwrite`): when the stack pointer differs from `vcpu->host_rsp` it is stored
there and written to the field `HOST_RSP` of the current VMCS of the executing
core; without a current VMCS the `vmwrite` fails and only `vcpu->host_rsp`
changes. -/
def load_host_rsp (m : Machine) (vcpu rsp : Nat) : Machine :=
  if (m.vcpus vcpu).host_rsp = rsp then m
  else
    match m.current_vmcs m.cpu with
    | some v =>
      { m with
          vmcs_field := upd m.vmcs_field v (upd (m.vmcs_field v) HOST_RSP rsp)
          vcpus := upd m.vcpus vcpu { m.vcpus vcpu with host_rsp := rsp } }
    | none => { m with vcpus := upd m.vcpus vcpu { m.vcpus vcpu with host_rsp := rsp } }

/-- The tail of the assembly of `vmx_run_vcpu` and the assignment
`vcpu->launched = 1`, on the VCPU structure: the fifteen registers other than
the stack pointer are stored in the snapshot (there is no store to
`regs[VCPU_REGS_RSP]`), `%cr2` is stored in `cr2`, and `setbe` stores 1 or 0 in
`fail`. After an entry that failed the processor registers and `%cr2` still
hold the values the assembly loaded from the snapshot, so the stores write them
back. -/
def save_guest (c : vmx_vcpu) (x : VmExit) : vmx_vcpu :=
  { c with
      regs := fun i =>
        if x.fail = 0 ∧ i < NR_VCPU_REGS ∧ i ≠ VCPU_REGS_RSP then x.regs i else c.regs i
      cr2 := if x.fail = 0 then x.cr2 else c.cr2
      fail := if x.fail = 0 then 0 else 1
      launched := 1 }

/-- The state after the assembly of `vmx_run_vcpu` and `vcpu->launched = 1`:
the stack pointer is made known to the VMCS, the entry is made with the current
VMCS of the executing core, and the guest registers are saved. -/
def run_vcpu_state (m : Machine) (vcpu : Nat) (x : VmExit) : Machine :=
  set_vcpu
    (vm_exit (load_host_rsp (emit m (Event.vmentry m.cpu m.preempt_count)) vcpu x.host_rsp) x)
    vcpu
    (save_guest
      ((load_host_rsp (emit m (Event.vmentry m.cpu m.preempt_count)) vcpu x.host_rsp).vcpus
        vcpu) x)

/-- The function `vmx_run_vcpu`: the assembly with the hardware entry, and the
returned exit reason as an `int`, `VMX_EXIT_REASONS_FAILED_VMENTRY` when
`vcpu->fail` is set. -/
def vmx_run_vcpu (m : Machine) (vcpu : Nat) (x : VmExit) : Int × Machine :=
  if x.fail ≠ 0 then (VMX_EXIT_REASONS_FAILED_VMENTRY, run_vcpu_state m vcpu x)
  else (toInt32 (vmcs_read32 (run_vcpu_state m vcpu x) VM_EXIT_REASON), run_vcpu_state m vcpu x)

/-- The function `vmx_step_instruction`. -/
def vmx_step_instruction (m : Machine) : Machine :=
  vmcs_writel m GUEST_RIP (vmcs_readl m GUEST_RIP + vmcs_read32 m VM_EXIT_INSTRUCTION_LEN)

/-- The function `vmx_handle_cpuid`: `cpuid` is executed with the low 32 bits
of the snapshot's `RAX` and `RCX`, and its four 32-bit results are stored in
`RAX`, `RBX`, `RCX` and `RDX` of the snapshot. -/
def vmx_handle_cpuid (m : Machine) (vcpu : Nat) : Machine :=
  emit
    (set_vcpu m vcpu
      { m.vcpus vcpu with
          regs :=
            upd (upd (upd (upd (m.vcpus vcpu).regs
              VCPU_REGS_RAX
                ((m.cpuid ((m.vcpus vcpu).regs VCPU_REGS_RAX % 2 ^ 32)
                  ((m.vcpus vcpu).regs VCPU_REGS_RCX % 2 ^ 32)).1 % 2 ^ 32))
              VCPU_REGS_RBX
                ((m.cpuid ((m.vcpus vcpu).regs VCPU_REGS_RAX % 2 ^ 32)
                  ((m.vcpus vcpu).regs VCPU_REGS_RCX % 2 ^ 32)).2.1 % 2 ^ 32))
              VCPU_REGS_RCX
                ((m.cpuid ((m.vcpus vcpu).regs VCPU_REGS_RAX % 2 ^ 32)
                  ((m.vcpus vcpu).regs VCPU_REGS_RCX % 2 ^ 32)).2.2.1 % 2 ^ 32))
              VCPU_REGS_RDX
                ((m.cpuid ((m.vcpus vcpu).regs VCPU_REGS_RAX % 2 ^ 32)
                  ((m.vcpus vcpu).regs VCPU_REGS_RCX % 2 ^ 32)).2.2.2 % 2 ^ 32) })
    (Event.cpuid ((m.vcpus vcpu).regs VCPU_REGS_RAX % 2 ^ 32)
      ((m.vcpus vcpu).regs VCPU_REGS_RCX % 2 ^ 32))

/-- The label `tmp_finish` of `vmx_launch`: interrupts are enabled and the
kernel stops with `BUG()`. -/
def tmp_finish (ret : Int) (m : Machine) : PassResult :=
  PassResult.stop (Ending.bug_finish ret) (local_irq_enable m)

/-- The dispatch on the exit reason at the end of a pass of the loop of
`vmx_launch`, after `vmx_put_cpu`. -/
def launch_dispatch (vcpu : Nat) (x : Pass) (schedule_ok : Bool) (ret : Int) (m : Machine) :
    PassResult :=
  if ret = EXIT_REASON_VMCALL then
    if m.irqs_disabled then PassResult.stop Ending.bug_on_irqs_disabled m
    else if (m.vcpus vcpu).regs VCPU_REGS_RAX = VMCALL_SCHED then
      PassResult.next false ret (schedule m x.resched_cpu)
    else if (m.vcpus vcpu).regs VCPU_REGS_RAX = VMCALL_DOEXIT then
      PassResult.stop (Ending.do_exit 0) m
    else PassResult.stop Ending.bug_vmcall m
  else if ret = EXIT_REASON_CPUID then
    PassResult.next schedule_ok ret (vmx_handle_cpuid m vcpu)
  else if ret = EXIT_REASON_EPT_VIOLATION then tmp_finish ret m
  else if ret = EXIT_REASON_EXCEPTION_NMI then tmp_finish ret m
  else if ret ≠ EXIT_REASON_EXTERNAL_INTERRUPT then tmp_finish ret m
  else PassResult.next schedule_ok ret m

/-- The part of a pass of the loop of `vmx_launch` from the hardware entry on
(`schedule_ok` is 0 at this point): `vmx_run_vcpu`, the re-enabling of
interrupts when they were enabled in the restricted context, the step over the
instruction of a hypercall or `cpuid` exit, `vmx_put_cpu`, and the dispatch. -/
def launch_enter (vcpu : Nat) (x : Pass) (m : Machine) : PassResult :=
  launch_dispatch vcpu x
    (decide (x.hardirqs_enabled_nr = 1 ∧ x.rcu_scheduler_active = 0))
    (vmx_run_vcpu m vcpu x.vmexit).1
    (vmx_put_cpu
      (if (vmx_run_vcpu m vcpu x.vmexit).1 = EXIT_REASON_VMCALL
          ∨ (vmx_run_vcpu m vcpu x.vmexit).1 = EXIT_REASON_CPUID then
        vmx_step_instruction
          (if x.hardirqs_enabled_nr = 1 then local_irq_enable (vmx_run_vcpu m vcpu x.vmexit).2
            else (vmx_run_vcpu m vcpu x.vmexit).2)
      else
        (if x.hardirqs_enabled_nr = 1 then local_irq_enable (vmx_run_vcpu m vcpu x.vmexit).2
          else (vmx_run_vcpu m vcpu x.vmexit).2))
      vcpu)

/-- The part of a pass of the loop of `vmx_launch` taken when a signal is
pending: interrupts are enabled, the core is released and the signal is
dequeued; without a signal the loop starts over, `SIGKILL` records the result
code and leaves the loop, and after any other signal the pass goes on to the
hardware entry. -/
def launch_signal (vcpu : Nat) (x : Pass) (ret : Int) (m : Machine) : PassResult :=
  if x.signr = 0 then
    PassResult.next false ret
      (dequeue_signal (vmx_put_cpu (local_irq_enable m) vcpu) x.signr)
  else if x.signr = SIGKILL then
    tmp_finish ret
      (set_vcpu (dequeue_signal (vmx_put_cpu (local_irq_enable m) vcpu) x.signr) vcpu
        { (dequeue_signal (vmx_put_cpu (local_irq_enable m) vcpu) x.signr).vcpus vcpu with
            ret_code := ENOSYS * 2 ^ 8 })
  else launch_enter vcpu x (dequeue_signal (vmx_put_cpu (local_irq_enable m) vcpu) x.signr)

/-- One pass of the `while (1)` loop of `vmx_launch`, started with the values
of `schedule_ok` and `ret` that the previous pass left. -/
def launch_pass (vcpu : Nat) (x : Pass) (schedule_ok : Bool) (ret : Int) (m : Machine) :
    PassResult :=
  if schedule_ok = true ∧ x.need_resched = true then
    PassResult.next false ret
      (vmx_get_cpu
        (local_irq_disable
          (cond_resched
            (vmx_put_cpu (local_irq_enable (local_irq_disable (vmx_get_cpu m vcpu))) vcpu)
            x.resched_cpu))
        vcpu)
  else if x.signal_pending = true then
    launch_signal vcpu x ret (local_irq_disable (vmx_get_cpu m vcpu))
  else launch_enter vcpu x (local_irq_disable (vmx_get_cpu m vcpu))

/-- The `while (1)` loop of `vmx_launch` with the label `tmp_finish`, run on a
script of passes: how it ends and the final state. -/
def vmx_launch_loop (vcpu : Nat) : List Pass → Bool → Int → Machine → Ending × Machine
  | [], _, _, m => (Ending.running, m)
  | x :: rest, schedule_ok, ret, m =>
    match launch_pass vcpu x schedule_ok ret m with
    | PassResult.next ok1 ret1 m1 => vmx_launch_loop vcpu rest ok1 ret1 m1
    | PassResult.stop e m1 => (e, m1)

/-- The numbers of unmatched `vmx_get_cpu` calls at the hardware entries
recorded in a log, in order. -/
def entry_binds (log : List Event) : List Int :=
  log.filterMap (fun e =>
    match e with
    | Event.vmentry _ b => some b
    | _ => none)

/-- The numbers of unmatched `vmx_get_cpu` calls at the VMCS writes recorded in
a log, in order. -/
def write_binds (log : List Event) : List Int :=
  log.filterMap (fun e =>
    match e with
    | Event.vmwrite _ _ b => some b
    | _ => none)

/-- A hardware exit with the given reason and `RAX`: instruction length 3,
guest instruction pointer `0x4000`, guest-physical address 0; the stack pointer
of the thread is `0xffff88000001fe00` at every entry. -/
def sample_exit (reason rax : Nat) : VmExit :=
  { host_rsp := 0xffff88000001fe00
    regs := fun i => if i = VCPU_REGS_RAX then rax else 0
    cr2 := 0
    fail := 0
    reason := reason
    instruction_len := 3
    guest_rip := 0x4000
    guest_physical_address := 0 }

/-- A pass without pending signal or wish to reschedule, with interrupts
enabled in the restricted context, ending in the given exit. -/
def plain_pass (reason rax : Nat) : Pass :=
  { need_resched := false
    resched_cpu := 0
    signal_pending := false
    signr := 0
    vmexit := sample_exit reason rax
    hardirqs_enabled_nr := 1
    rcu_scheduler_active := 0 }

/-- The sample state with a VCPU at address 100 that is ready to be entered on
core 0: not launched, VMCS at `0x5000`, tag 1. -/
def loop_machine : Machine :=
  { sample_machine with
      vcpus := upd sample_machine.vcpus 100
        { zero_vcpu with cpu := -1, vpid := 1, vmcs := 0x5000, eptp := 0x1000701e }
      vmx_vpid_bitmap := upd sample_machine.vmx_vpid_bitmap 1 true }

/-- The fields of the VMCS `v` after the head of the assembly of
`vmx_run_vcpu`: the field `HOST_RSP` holds the stack pointer `rsp` when this
differs from `vcpu->host_rsp`. -/
def host_rsp_fields (m : Machine) (vcpu rsp v : Nat) : Nat → Nat :=
  if (m.vcpus vcpu).host_rsp = rsp then m.vmcs_field v
  else upd (m.vmcs_field v) HOST_RSP rsp

/-- The VCPU structure after a run of `vmx_run_vcpu`: `host_rsp` is the stack
pointer of the entry, and the registers, `cr2`, `fail` and `launched` are as
`save_guest` leaves them. -/
def entered_vcpu (c : vmx_vcpu) (e : VmExit) : vmx_vcpu :=
  save_guest { c with host_rsp := e.host_rsp } e

/-- The state at the dispatch of a pass whose hardware entry, made with current
VMCS `v`, ended in a hypercall or `cpuid` exit: the stack pointer and the exit
data are in the VMCS, the guest instruction pointer is advanced by the
instruction length, the guest registers are in the snapshot, the core is
released, and the log has grown by the entry, the VMCS write and the release.
`irq` tells whether interrupts are still disabled. -/
def after_step (m : Machine) (vcpu : Nat) (e : VmExit) (v : Nat) (irq : Bool) : Machine :=
  { m with
      vmcs_field := upd m.vmcs_field v
        (upd
          (upd (upd (upd
            (upd (host_rsp_fields m vcpu e.host_rsp v)
              GUEST_PHYSICAL_ADDRESS e.guest_physical_address)
            VM_EXIT_REASON e.reason)
            VM_EXIT_INSTRUCTION_LEN e.instruction_len) GUEST_RIP e.guest_rip)
          GUEST_RIP ((e.guest_rip + e.instruction_len % 2 ^ 32) % 2 ^ 64))
      irqs_disabled := irq
      preempt_count := m.preempt_count - 1
      log := m.log ++ [Event.vmentry m.cpu m.preempt_count,
        Event.vmwrite m.cpu GUEST_RIP m.preempt_count, Event.put_cpu]
      vcpus := upd m.vcpus vcpu (entered_vcpu (m.vcpus vcpu) e) }


/-! ## Capability words -/

/-- Linux `EIO`. -/
def EIO : Int := 5

/-- The complement `~x` of a `u32`. -/
def lnot32 (x : Nat) : Nat := 2 ^ 32 - 1 - x

/-- The function `adjust_vmx_controls`: `vmx_msr_low` and `vmx_msr_high` are the
two words `rdmsr` returns for the capability register `msr`, and `result` is
the old content of `*result`. The outcome is the returned `int` and the new
content of `*result`. All operands are `u32`. -/
def adjust_vmx_controls (ctl_min ctl_opt vmx_msr_low vmx_msr_high result : Nat) : Int × Nat :=
  if ctl_min &&& lnot32 (((ctl_min ||| ctl_opt) &&& vmx_msr_high) ||| vmx_msr_low) ≠ 0 then
    (- EIO, result)
  else (0, ((ctl_min ||| ctl_opt) &&& vmx_msr_high) ||| vmx_msr_low)


/-! ## The end of physical memory -/

/-- Linux `PAGE_SHIFT`. -/
def PAGE_SHIFT : Nat := 12

/-- Linux `struct e820entry`, without its `type`: the start and the size of a
memory segment, both `u64`. -/
structure e820entry where
  addr : Nat
  size : Nat

/-- The loop of `e820_end_paddr` over the entries still to visit, started with
the current `last_pfn`: an entry that starts at or above the limit is skipped,
an entry that ends above the limit ends the loop with the limit. The sum
`ei->addr + ei->size` is a `u64`. -/
def e820_scan (limit_pfn : Nat) : List e820entry → Nat → Nat
  | [], last_pfn => last_pfn
  | ei :: rest, last_pfn =>
    if ei.addr >>> PAGE_SHIFT ≥ limit_pfn then e820_scan limit_pfn rest last_pfn
    else if ((ei.addr + ei.size) % 2 ^ 64) >>> PAGE_SHIFT > limit_pfn then limit_pfn
    else if ((ei.addr + ei.size) % 2 ^ 64) >>> PAGE_SHIFT > last_pfn then
      e820_scan limit_pfn rest (((ei.addr + ei.size) % 2 ^ 64) >>> PAGE_SHIFT)
    else e820_scan limit_pfn rest last_pfn

/-- The function `e820_end_paddr`; `map` holds the `e820.nr_map` entries of
`e820.map`. -/
def e820_end_paddr (map : List e820entry) (limit_pfn : Nat) : Nat :=
  ((if e820_scan limit_pfn map 0 > MAXMEM >>> PAGE_SHIFT then MAXMEM >>> PAGE_SHIFT
    else e820_scan limit_pfn map 0) <<< PAGE_SHIFT) % 2 ^ 64

/-- The largest end page-frame number `(base + length) / PAGE_SIZE` over the
ranges whose start page frame is below `L`; 0 when there is no such range. -/
def last_end_pfn (L : Nat) : List e820entry → Nat
  | [] => 0
  | e :: rest =>
    if e.addr / 4096 < L then max ((e.addr + e.size) / 4096) (last_end_pfn L rest)
    else last_end_pfn L rest

/-- A sample memory map, not sorted: 1GB from 4GB on, 639K from 0 on, and
1023MB from 1MB on. -/
def sample_e820 : List e820entry :=
  [{ addr := 0x100000000, size := 0x40000000 }, { addr := 0, size := 0x9fc00 },
    { addr := 0x100000, size := 0x3ff00000 }]


/-! ## Enabling and disabling VMX operation on a core -/

/-- Linux `X86_CR4_VMXE`, bit 13 of `CR4`. -/
def X86_CR4_VMXE : Nat := 1 <<< 13

/-- Linux `FEATURE_CONTROL_LOCKED`. -/
def FEATURE_CONTROL_LOCKED : Nat := 1 <<< 0

/-- Linux `FEATURE_CONTROL_VMXON_ENABLED_OUTSIDE_SMX`. -/
def FEATURE_CONTROL_VMXON_ENABLED_OUTSIDE_SMX : Nat := 1 <<< 2

/-- Linux `EBUSY`. -/
def EBUSY : Int := 16

/-- The state the enable and disable operations work on: the machine state
`m` (whose `cpu` is the executing core), and for each core its `CR4`, its
`MSR_IA32_FEATURE_CONTROL`, whether it is in VMX operation and with which VMXON
region, its GDT register, and the per-cpu variables `vmxarea`, `host_gdt` and
`vmx_enabled`; `vmx_enable_failed` is the global failure counter. -/
structure Host where
  m : Machine
  cr4 : Nat → Nat
  feature_control : Nat → Nat
  vmx_operation : Nat → Bool
  vmxon_region : Nat → Nat
  gdtr : Nat → Nat
  vmxarea : Nat → Nat
  host_gdt : Nat → Nat
  vmx_enabled : Nat → Int
  vmx_enable_failed : Int

/-- The function `__vmx_enable` on the executing core: the returned `int` and
the new state. -/
def __vmx_enable (h : Host) (vmxon_buf : Nat) : Int × Host :=
  if h.cr4 h.m.cpu &&& X86_CR4_VMXE ≠ 0 then (-EBUSY, h)
  else
    let h1 : Host :=
      if h.feature_control h.m.cpu
          &&& (FEATURE_CONTROL_LOCKED ||| FEATURE_CONTROL_VMXON_ENABLED_OUTSIDE_SMX)
          ≠ (FEATURE_CONTROL_LOCKED ||| FEATURE_CONTROL_VMXON_ENABLED_OUTSIDE_SMX) then
        { h with
            feature_control := upd h.feature_control h.m.cpu
              (h.feature_control h.m.cpu
                ||| (FEATURE_CONTROL_LOCKED ||| FEATURE_CONTROL_VMXON_ENABLED_OUTSIDE_SMX)) }
      else h
    (0,
      { h1 with
          cr4 := upd h1.cr4 h1.m.cpu (h1.cr4 h1.m.cpu ||| X86_CR4_VMXE)
          vmx_operation := upd h1.vmx_operation h1.m.cpu true
          vmxon_region := upd h1.vmxon_region h1.m.cpu (__pa vmxon_buf)
          m := ept_sync_global (vpid_sync_vcpu_global h1.m) })

/-- The function `vmx_enable` on the executing core. -/
def vmx_enable (h : Host) : Host :=
  if (__vmx_enable h (h.vmxarea h.m.cpu)).1 ≠ 0 then
    { (__vmx_enable h (h.vmxarea h.m.cpu)).2 with
        vmx_enable_failed := (__vmx_enable h (h.vmxarea h.m.cpu)).2.vmx_enable_failed + 1 }
  else
    { (__vmx_enable h (h.vmxarea h.m.cpu)).2 with
        vmx_enabled := upd (__vmx_enable h (h.vmxarea h.m.cpu)).2.vmx_enabled
          (__vmx_enable h (h.vmxarea h.m.cpu)).2.m.cpu 1
        host_gdt := upd (__vmx_enable h (h.vmxarea h.m.cpu)).2.host_gdt
          (__vmx_enable h (h.vmxarea h.m.cpu)).2.m.cpu
          ((__vmx_enable h (h.vmxarea h.m.cpu)).2.gdtr
            (__vmx_enable h (h.vmxarea h.m.cpu)).2.m.cpu) }

/-- The function `vmx_disable` on the executing core. -/
def vmx_disable (h : Host) : Host :=
  if h.vmx_enabled h.m.cpu ≠ 0 then
    { h with
        vmx_operation := upd h.vmx_operation h.m.cpu false
        cr4 := upd h.cr4 h.m.cpu (h.cr4 h.m.cpu &&& lnot64 X86_CR4_VMXE)
        vmx_enabled := upd h.vmx_enabled h.m.cpu 0 }
  else h

/-- A sample state before `vmx_init` enables VMX: no core has `CR4.VMXE` set or
is in VMX operation, the failure counter is 0, and the VMXON region of core `c`
is at `__va (0x20000000 + 0x1000 * c)`. -/
def sample_host : Host :=
  { m := sample_machine
    cr4 := fun _ => 0x3406e0
    feature_control := fun _ => 0x5
    vmx_operation := fun _ => false
    vmxon_region := fun _ => 0
    gdtr := fun c => 0xffff88007fc00000 + 0x10000 * c
    vmxarea := fun c => __va (0x20000000 + 0x1000 * c)
    host_gdt := fun _ => 0
    vmx_enabled := fun _ => 0
    vmx_enable_failed := 0 }


/-! ## Sequences of table modifications -/

/-- A call that modifies a table: `split_2M_mapping` or `replace_ept_page` with
the given address. -/
inductive EptCall where
  | split (paddr : Nat)
  | replace (paddr : Nat)

/-- The address a call is made with. -/
def EptCall.paddr : EptCall → Nat
  | EptCall.split paddr => paddr
  | EptCall.replace paddr => paddr

/-- The state after one call on the table with root `ept_root`, or `none` when
the `BUG_ON` of `find_pt_entry` fires. -/
def ept_call (ept_root : Nat) (s : Kernel) : EptCall → Option Kernel
  | EptCall.split paddr => some (split_2M_mapping s ept_root paddr).2
  | EptCall.replace paddr => (replace_ept_page s ept_root paddr).map Prod.snd

/-- The state after a sequence of calls, or `none` when the `BUG_ON` of
`find_pt_entry` fires in one of them. -/
def ept_run (ept_root : Nat) : List EptCall → Kernel → Option Kernel
  | [], s => some s
  | c :: cs, s =>
    match ept_call ept_root s c with
    | none => none
    | some s1 => ept_run ept_root cs s1


/-- The state at the dispatch of a pass whose hardware entry, made with current
VMCS `v`, ended in an exit other than a hypercall or `cpuid` exit: the stack
pointer and the exit data are in the VMCS, the guest registers are in the
snapshot, the core is released, and the log has grown by the entry and the
release. `irq` tells whether
interrupts are still disabled. -/
def after_exit (m : Machine) (vcpu : Nat) (e : VmExit) (v : Nat) (irq : Bool) : Machine :=
  { m with
      vmcs_field := upd m.vmcs_field v
        (upd (upd (upd
          (upd (host_rsp_fields m vcpu e.host_rsp v)
            GUEST_PHYSICAL_ADDRESS e.guest_physical_address)
          VM_EXIT_REASON e.reason)
          VM_EXIT_INSTRUCTION_LEN e.instruction_len) GUEST_RIP e.guest_rip)
      irqs_disabled := irq
      preempt_count := m.preempt_count - 1
      log := m.log ++ [Event.vmentry m.cpu m.preempt_count, Event.put_cpu]
      vcpus := upd m.vcpus vcpu (entered_vcpu (m.vcpus vcpu) e) }

/-- The state of a pass after `dequeue_signal` has returned, when a signal was
pending: interrupts are enabled, the core is released and the signal `signr` is
dequeued. -/
def after_dequeue (m : Machine) (vcpu signr : Nat) : Machine :=
  dequeue_signal (vmx_put_cpu (local_irq_enable m) vcpu) signr

/-- The state in which a pass of the loop of `vmx_launch` calls `vmx_run_vcpu`
when it does not take the reschedule path: the one after `vmx_get_cpu` and
`local_irq_disable` when no signal is pending, and the one after the signal
branch (`after_dequeue`) when a signal is pending and `dequeue_signal` returns
one that is neither 0 nor `SIGKILL`. -/
def entry_state (m : Machine) (vcpu : Nat) (x : Pass) : Machine :=
  if x.signal_pending = true then
    after_dequeue (local_irq_disable (vmx_get_cpu m vcpu)) vcpu x.signr
  else local_irq_disable (vmx_get_cpu m vcpu)

/-- A pass whose hardware entry ends in an EPT violation at the guest-physical
address `gpa`, with interrupts enabled in the restricted context and neither a
signal nor a wish to reschedule pending. -/
def fault_pass (gpa : Nat) : Pass :=
  { plain_pass 48 0 with vmexit := { sample_exit 48 0 with guest_physical_address := gpa } }

/-- A pass in which no reschedule is wished, no signal is pending, interrupts
are enabled in the restricted context and the hardware entry succeeds. -/
def Pass.quiet (x : Pass) : Prop :=
  x.need_resched = false ∧ x.signal_pending = false ∧ x.hardirqs_enabled_nr = 1 ∧
    x.vmexit.fail = 0

/-- The sample script: an external interrupt, a `cpuid` exit with leaf 7, a
hypercall with `VMCALL_SCHED` and a hypercall with `VMCALL_DOEXIT`. -/
def sample_script : List Pass :=
  [plain_pass 1 0, plain_pass 10 7, plain_pass 18 VMCALL_SCHED, plain_pass 18 VMCALL_DOEXIT]
/-! ## Bit arithmetic -/

theorem and_high_mask (x k : Nat) (hx : x < 2 ^ 64) (hk : k ≤ 64) :
    x &&& (2 ^ 64 - 2 ^ k) = x / 2 ^ k * 2 ^ k := by
  apply Nat.eq_of_testBit_eq
  intro i
  have h1 : 2 ^ 64 - 2 ^ k = 2 ^ 64 - ((2 ^ k - 1) + 1) := by
    have : 0 < 2 ^ k := Nat.two_pow_pos k
    omega
  have h2 : 2 ^ k - 1 < 2 ^ 64 := by
    have : 2 ^ k ≤ 2 ^ 64 := Nat.pow_le_pow_right (by norm_num) hk
    have : 0 < 2 ^ k := Nat.two_pow_pos k
    omega
  rw [Nat.testBit_and, h1, Nat.testBit_two_pow_sub_succ h2, Nat.testBit_two_pow_sub_one,
    Nat.mul_comm, Nat.testBit_mul_pow_two, ← Nat.shiftRight_eq_div_pow, Nat.testBit_shiftRight]
  by_cases hik : i < k
  · have : ¬ (i ≥ k) := by omega
    simp [hik, this]
  · have hge : i ≥ k := by omega
    have hki : k + (i - k) = i := by omega
    by_cases hi : i < 64
    · simp [hik, hge, hi, hki]
    · have hlt : x < 2 ^ i := lt_of_lt_of_le hx (Nat.pow_le_pow_right (by norm_num) (by omega))
      simp [hik, hge, hi, hki, Nat.testBit_lt_two_pow hlt]

theorem or_flags (a f k : Nat) (ha : a % 2 ^ k = 0) (hf : f < 2 ^ k) : a ||| f = a + f := by
  have h : a = 2 ^ k * (a / 2 ^ k) := by
    have := Nat.div_add_mod a (2 ^ k)
    omega
  rw [h, ← Nat.mul_add_lt_is_or hf]

theorem and_bit (x j : Nat) : x &&& 2 ^ j = (x / 2 ^ j % 2) * 2 ^ j := by
  rw [Nat.and_two_pow]
  congr 1
  rw [Nat.testBit, ← Nat.shiftRight_eq_div_pow]
  rcases Nat.mod_two_eq_zero_or_one (x >>> j) with h | h
  · simp [Nat.one_and_eq_mod_two, h]
  · simp [Nat.one_and_eq_mod_two, h]

theorem and_low7 (x : Nat) : x &&& 7 = x % 8 := Nat.and_pow_two_sub_one_eq_mod x 3

theorem toInt32_small (n : Nat) (h : n < 2 ^ 31) : toInt32 n = (n : Int) := by
  unfold toInt32
  have h1 : n % 2 ^ 32 = n := Nat.mod_eq_of_lt (by omega)
  rw [h1, if_pos h]

theorem pa_va (x : Nat) (h : x < 2 ^ 64) : __pa (__va x) = x := by
  unfold __pa __va PAGE_OFFSET
  omega

theorem va_ne_zero (x : Nat) (h : x < 2 ^ 46) : __va x ≠ 0 := by
  unfold __va PAGE_OFFSET
  omega

theorem elem_ptr_va (p n : Nat) : elem_ptr (__va p) (n : Int) = __va (p + 8 * n) := by
  unfold elem_ptr __va PAGE_OFFSET
  omega

/-! ## Memory and loops -/

theorem forLoop_succ {σ : Type} (n : Nat) (body : Nat → σ → σ) (s : σ) :
    forLoop (n + 1) body s = body n (forLoop n body s) := rfl

theorem forLoop_congr {σ : Type} (n : Nat) (b1 b2 : Nat → σ → σ) (s : σ)
    (h : ∀ i, i < n → b1 i = b2 i) : forLoop n b1 s = forLoop n b2 s := by
  induction n with
  | zero => rfl
  | succ n ih =>
    simp only [forLoop]
    rw [ih (fun i hi => h i (by omega)), h n (by omega)]

theorem fill_eq (P n : Nat) (f : Nat → Nat) (s : Kernel) (hP : P + 8 * n ≤ 2 ^ 64) :
    forLoop n (fun i t => store t (elem_ptr (__va P) (i : Int)) (f i)) s
      = { s with mem := fillMem P n f s.mem } := by
  induction n with
  | zero =>
    simp only [forLoop]
    cases s
    congr 1
    funext x
    show _ = if _ then _ else _
    rw [if_neg (by omega)]
  | succ n ih =>
    simp only [forLoop]
    rw [ih (by omega), elem_ptr_va]
    simp only [store, pa_va (P + 8 * n) (by omega)]
    congr 1
    funext x
    simp only [fillMem]
    by_cases hx : x = P + 8 * n
    · subst hx
      rw [if_pos rfl, if_pos (by omega)]
      congr 2
      omega
    · rw [if_neg hx]
      by_cases hc : P ≤ x ∧ x < P + 8 * n ∧ (x - P) % 8 = 0
      · rw [if_pos hc, if_pos (by omega)]
      · rw [if_neg hc, if_neg (by omega)]

theorem memset0_eq (P : Nat) (s : Kernel) (hP : P < 2 ^ 64) :
    memset0 s (__va P) PAGESIZE = { s with mem := zeroMem P s.mem } := by
  simp only [memset0, pa_va P hP, PAGESIZE]
  rfl

theorem zeroPages_out (pg : Nat → Nat) (n : Nat) (m : Nat → Nat) (x : Nat)
    (h : ∀ j, j < n → ¬ (pg j ≤ x ∧ x < pg j + 4096)) : zeroPages pg n m x = m x := by
  induction n with
  | zero => rfl
  | succ n ih =>
    simp only [zeroPages, zeroMem]
    rw [if_neg (h n (by omega)), ih (fun j hj => h j (by omega))]

theorem zeroPages_in (pg : Nat → Nat) (n : Nat) (m : Nat → Nat) (x j : Nat)
    (hj : j < n) (h : pg j ≤ x ∧ x < pg j + 4096) : zeroPages pg n m x = 0 := by
  induction n with
  | zero => omega
  | succ n ih =>
    simp only [zeroPages, zeroMem]
    by_cases hc : pg n ≤ x ∧ x < pg n + 4096
    · rw [if_pos hc]
    · rw [if_neg hc]
      have hjn : j ≠ n := by
        intro e
        subst e
        exact hc h
      exact ih (by omega)

theorem fillPages_out (pg : Nat → Nat) (f : Nat → Nat → Nat) (n : Nat) (m : Nat → Nat) (x : Nat)
    (h : ∀ j, j < n → ¬ (pg j ≤ x ∧ x < pg j + 4096)) : fillPages pg f n m x = m x := by
  induction n with
  | zero => rfl
  | succ n ih =>
    simp only [fillPages, fillMem]
    have := h n (by omega)
    rw [if_neg (by omega), ih (fun j hj => h j (by omega))]

theorem fillPages_at (pg : Nat → Nat) (f : Nat → Nat → Nat) (n : Nat) (m : Nat → Nat) (k i : Nat)
    (hk : k < n) (hi : i < 512)
    (hd : ∀ a b, a < n → b < n → a ≠ b → pg a + 4096 ≤ pg b ∨ pg b + 4096 ≤ pg a) :
    fillPages pg f n m (pg k + 8 * i) = f k i % 2 ^ 64 := by
  induction n with
  | zero => omega
  | succ n ih =>
    show (if _ then _ else _) = _
    by_cases hkn : k = n
    · subst hkn
      rw [if_pos (by omega)]
      congr 2
      omega
    · have := hd k n (by omega) (by omega) hkn
      rw [if_neg (by omega)]
      exact ih (by omega) (fun a b ha hb hab => hd a b (by omega) (by omega) hab)

theorem fill_pages_eq (pg : Nat → Nat) (tab : Nat → pt_page) (f : Nat → Nat → Nat) (n : Nat)
    (s : Kernel) (ht : ∀ k, k < n → (tab k).virt = __va (pg k))
    (hb : ∀ k, k < n → pg k + 4096 ≤ 2 ^ 64) :
    forLoop n (fun k t => forLoop 512
        (fun i u => store u (elem_ptr (tab k).virt (i : Int)) (f k i)) t) s
      = { s with mem := fillPages pg f n s.mem } := by
  induction n with
  | zero => rfl
  | succ n ih =>
    rw [forLoop_succ, ih (fun k hk => ht k (by omega)) (fun k hk => hb k (by omega)),
      ht n (by omega),
      fill_eq (pg n) 512 (f n) _ (by have := hb n (by omega); omega)]
    rfl

/-! ## The allocation loops -/

theorem vt_alloc_page_some (s : Kernel) (p : Nat) (hp : PoolOK s.pages)
    (h : s.pages s.npages = some p) :
    vt_alloc_page s = (some ⟨__va p, p⟩, { s with npages := s.npages + 1 }) := by
  have hb := hp.bound _ _ h
  simp only [vt_alloc_page, h]
  rw [if_neg (va_ne_zero p (by omega))]

theorem vt_alloc_page_none (s : Kernel) (h : s.pages s.npages = none) :
    vt_alloc_page s = (none, { s with npages := s.npages + 1 }) := by
  simp only [vt_alloc_page, h]

theorem vt_alloc_page_inv (s : Kernel) (pg : pt_page) (t : Kernel)
    (h : vt_alloc_page s = (some pg, t)) : s.pages s.npages = some (nthPage s 0) := by
  cases hq : s.pages s.npages with
  | none =>
    rw [vt_alloc_page_none s hq] at h
    cases h
  | some p => simp [nthPage, hq]

theorem nthPage_spec (s : Kernel) (j p : Nat) (h : s.pages (s.npages + j) = some p) :
    nthPage s j = p := by
  simp [nthPage, h]

theorem alloc_tables_succ (ok : Bool) (n : Nat) (tab : Nat → pt_page) (s : Kernel) :
    alloc_tables ok (n + 1) tab s =
      match alloc_tables ok n tab s with
      | Except.ok st =>
        (match vt_alloc_page st.2 with
        | (none, s1) => Except.error (some s1)
        | (some pg, s1) =>
          if ok then
            Except.ok (fun j => if j = n then pg else st.1 j, memset0 s1 pg.virt PAGESIZE)
          else Except.error none)
      | Except.error e => Except.error e := by
  unfold alloc_tables
  rw [forLoopE]
  cases forLoopE n _ (tab, s) <;> rfl

theorem alloc_tables_ok (n : Nat) (tab : Nat → pt_page) (s : Kernel) (hp : PoolOK s.pages)
    (h : ∀ j, j < n → ∃ p, s.pages (s.npages + j) = some p) :
    alloc_tables true n tab s = Except.ok
      (fun j => if j < n then ⟨__va (nthPage s j), nthPage s j⟩ else tab j,
       { s with npages := s.npages + n, mem := zeroPages (nthPage s) n s.mem }) := by
  induction n with
  | zero =>
    show Except.ok (tab, s) = _
    congr 1
  | succ n ih =>
    rw [alloc_tables_succ, ih (fun j hj => h j (by omega))]
    obtain ⟨p, hpn⟩ := h n (by omega)
    have hb := hp.bound _ _ hpn
    have e := nthPage_spec s n p hpn
    simp only []
    rw [vt_alloc_page_some
      { s with npages := s.npages + n, mem := zeroPages (nthPage s) n s.mem } p hp hpn]
    simp only []
    rw [if_pos trivial, memset0_eq p _ (by omega)]
    congr 2
    · funext j
      by_cases hj : j = n
      · subst hj
        rw [if_pos rfl, if_pos (by omega), e]
      · rw [if_neg hj]
        by_cases hj2 : j < n
        · rw [if_pos hj2, if_pos (by omega)]
        · rw [if_neg hj2, if_neg (by omega)]
    · simp only [zeroPages, e]
      rfl

theorem alloc_tables_pages (n : Nat) (tab : Nat → pt_page) (s : Kernel) (hp : PoolOK s.pages)
    (r : (Nat → pt_page) × Kernel) (h : alloc_tables true n tab s = Except.ok r) :
    ∀ j, j < n → ∃ p, s.pages (s.npages + j) = some p := by
  induction n generalizing r with
  | zero => intro j hj; omega
  | succ n ih =>
    rw [alloc_tables_succ] at h
    cases hq : alloc_tables true n tab s with
    | error e =>
      rw [hq] at h
      cases h
    | ok st =>
      have hprev := ih st hq
      rw [alloc_tables_ok n tab s hp hprev] at hq
      cases hq
      rw [alloc_tables_ok n tab s hp hprev] at h
      simp only [] at h
      intro j hj
      by_cases hjn : j < n
      · exact hprev j hjn
      · have hje : j = n := by omega
        subst hje
        cases hq2 : s.pages (s.npages + j) with
        | some p => exact ⟨p, rfl⟩
        | none =>
          rw [vt_alloc_page_none
            { s with npages := s.npages + j, mem := zeroPages (nthPage s) j s.mem } hq2] at h
          cases h

theorem alloc_tables_null (n : Nat) (tab : Nat → pt_page) (s : Kernel)
    (r : (Nat → pt_page) × Kernel) : alloc_tables false (n + 1) tab s ≠ Except.ok r := by
  rw [alloc_tables_succ]
  cases alloc_tables false n tab s with
  | error e =>
    intro h
    cases h
  | ok st =>
    dsimp only
    cases hv : vt_alloc_page st.2 with
    | mk o s1 =>
      cases o with
      | none =>
        intro h
        cases h
      | some pg =>
        intro h
        dsimp only at h
        rw [if_neg Bool.false_ne_true] at h
        cases h

theorem alloc_tables_inv (ok : Bool) (n : Nat) (tab : Nat → pt_page) (s : Kernel)
    (hp : PoolOK s.pages) (r : (Nat → pt_page) × Kernel)
    (h : alloc_tables ok n tab s = Except.ok r) :
    (∀ j, j < n → ∃ p, s.pages (s.npages + j) = some p) ∧ (0 < n → ok = true) := by
  cases ok with
  | true => exact ⟨alloc_tables_pages n tab s hp r h, fun _ => rfl⟩
  | false =>
    cases n with
    | zero => exact ⟨fun j hj => absurd hj (Nat.not_lt_zero j), fun h0 => absurd h0 (by omega)⟩
    | succ m => exact absurd h (alloc_tables_null m tab s r)

theorem alloc_failed_root (e : Option Kernel) (root : Nat) (s' : Kernel)
    (h : alloc_failed e = some (root, s')) : root = 0 := by
  cases e with
  | none => cases h
  | some s1 =>
    simp only [alloc_failed, Option.some.injEq, Prod.mk.injEq] at h
    exact h.1.symm

/-! ## The stages of `vt_ept_2M_init` -/

theorem forLoop_zero {σ : Type} (body : Nat → σ → σ) (s : σ) : forLoop 0 body s = s := rfl

theorem elem_ptr_zero (p : Nat) : elem_ptr (__va p) 0 = __va p := by
  unfold elem_ptr __va PAGE_OFFSET
  omega

theorem store_eq (P v : Nat) (s : Kernel) (hP : P < 2 ^ 64) :
    store s (__va P) v = { s with mem := storeMem P v s.mem } := by
  simp only [store, pa_va P hP]
  rfl

theorem fillMem_congr (P n : Nat) (f g : Nat → Nat) (m : Nat → Nat)
    (h : ∀ i, i < n → f i = g i) : fillMem P n f m = fillMem P n g m := by
  funext x
  simp only [fillMem]
  by_cases hc : P ≤ x ∧ x < P + 8 * n ∧ (x - P) % 8 = 0
  · rw [if_pos hc, if_pos hc, h _ (by omega)]
  · rw [if_neg hc, if_neg hc]

theorem nthPage_shift (s t : Kernel) (a j : Nat) (h1 : t.pages = s.pages)
    (h2 : t.npages = s.npages + a) : nthPage t j = nthPage s (a + j) := by
  simp only [nthPage, h1, h2, Nat.add_assoc]

theorem round_eq (E : Nat) (hE : E ≤ MAXMEM) :
    rounded_mappingsize E >>> GIGABYTE_SHIFT = (E + (2 ^ 30 - 1)) / 2 ^ 30 := by
  have h1 : lnot64 (GIGABYTE - 1) = 2 ^ 64 - 2 ^ 30 := by
    simp only [lnot64, GIGABYTE]
    norm_num
  have h2 : (E + (GIGABYTE - 1)) % 2 ^ 64 = E + (2 ^ 30 - 1) := by
    simp only [GIGABYTE, MAXMEM] at *
    omega
  rw [rounded_mappingsize, h1, h2,
    and_high_mask _ 30 (by simp only [MAXMEM] at hE; omega) (by norm_num),
    Nat.shiftRight_eq_div_pow, GIGABYTE_SHIFT]
  omega

theorem init_pml4_inv (pdpt : Nat → pt_page) (s : Kernel) (hp : PoolOK s.pages)
    (root : Nat) (s' : Kernel) (h : init_pml4 1 pdpt s = some (root, s')) (hr : root ≠ 0) :
    s.pages s.npages = some (nthPage s 0) ∧ root = nthPage s 0 ∧
    s' = { s with npages := s.npages + 1,
                  mem := fillMem (nthPage s 0) 1 (fun i => (pdpt i).phys + EPT_R + EPT_W + EPT_X)
                          (zeroMem (nthPage s 0) s.mem) } := by
  rw [init_pml4] at h
  cases hq : s.pages s.npages with
  | none =>
    rw [vt_alloc_page_none s hq] at h
    dsimp only at h
    cases h
    exact absurd rfl hr
  | some p =>
    have hb := hp.bound _ _ hq
    have e : nthPage s 0 = p := nthPage_spec s 0 p hq
    rw [vt_alloc_page_some s p hp hq] at h
    dsimp only at h
    rw [memset0_eq p _ (by omega), fill_eq p 1 _ _ (by omega)] at h
    cases h
    rw [e]
    exact ⟨rfl, rfl, rfl⟩

theorem init_pdpt_inv (n : Nat) (ok : Bool) (pd : Nat → pt_page) (pdp : Nat → Nat)
    (s : Kernel)
    (hp : PoolOK s.pages) (hn : n ≤ 512) (hpd : ∀ i, i < n → (pd i).phys = pdp i)
    (root : Nat) (s' : Kernel) (h : init_pdpt 1 n ok pd s = some (root, s')) (hr : root ≠ 0) :
    ok = true ∧
    (∀ j, j < 2 → s.pages (s.npages + j) = some (nthPage s j)) ∧ root = nthPage s 1 ∧
    s' = { s with npages := s.npages + 2,
                  mem := top_mem (nthPage s 1) (nthPage s 0) pdp n s.mem } := by
  rw [init_pdpt] at h
  have hinv : (∀ j, j < 1 → ∃ p, s.pages (s.npages + j) = some p) ∧ (0 < 1 → ok = true) := by
    cases hq : alloc_tables ok 1 (fun _ => ⟨0, 0⟩) s with
    | error e =>
      rw [hq] at h
      dsimp only at h
      exact absurd (alloc_failed_root e root s' h) hr
    | ok r => exact alloc_tables_inv ok 1 _ _ hp r hq
  have hok : ok = true := hinv.2 Nat.zero_lt_one
  subst hok
  refine ⟨rfl, ?_⟩
  have hex := hinv.1
  obtain ⟨p, hp0⟩ := hex 0 (by omega)
  have e0 : nthPage s 0 = p := nthPage_spec s 0 p hp0
  have hb := hp.bound _ _ hp0
  rw [alloc_tables_ok 1 _ s hp hex] at h
  dsimp only at h
  rw [forLoop_succ, forLoop_zero, if_pos Nat.zero_lt_one] at h
  dsimp only at h
  rw [e0, fill_eq p n _ _ (by omega)] at h
  dsimp only at h
  obtain ⟨h1, h2, h3⟩ := init_pml4_inv _ _ (by exact hp) root s' h hr
  have e1 : ∀ m sl ns, nthPage ⟨m, s.pages, s.npages + 1, sl, ns⟩ 0 = nthPage s 1 :=
    fun _ _ _ => rfl
  dsimp only at h1 h2 h3
  rw [e1] at h1 h2 h3
  refine ⟨?_, h2, ?_⟩
  · intro j hj
    have : j = 0 ∨ j = 1 := by omega
    rcases this with rfl | rfl
    · rw [e0]
      exact hp0
    · exact h1
  · rw [h3, e0]
    simp only [top_mem]
    rw [fillMem_congr p n _ (fun i => pdp i + EPT_R + EPT_W + EPT_X) _
      (fun i hi => by rw [hpd i hi])]
    rw [fillMem_congr (nthPage s 1) 1 _ (fun _ => p + EPT_R + EPT_W + EPT_X) _
      (fun i hi => by
        have hi0 : i = 0 := by omega
        subst hi0
        rw [if_pos Nat.zero_lt_one, e0])]
    have ez : zeroPages (nthPage s) 1 s.mem = zeroMem p s.mem := by
      rw [← e0]
      rfl
    rw [ez]

theorem init_pd_inv (n : Nat) (ok3 ok : Bool) (pt : Nat → pt_page) (T : Nat) (s : Kernel)
    (hp : PoolOK s.pages) (hn : n ≤ 512) (hT : (pt 0).phys = T)
    (root : Nat) (s' : Kernel) (h : init_pd 512 1 n ok3 ok pt s = some (root, s'))
    (hr : root ≠ 0) :
    (1 ≤ n ∧ ok3 = true ∧ ok = true) ∧
    (∀ j, j < n + 2 → s.pages (s.npages + j) = some (nthPage s j)) ∧ root = nthPage s (n + 1) ∧
    s' = { s with npages := s.npages + (n + 2),
                  mem := top_mem (nthPage s (n + 1)) (nthPage s n) (nthPage s) n
                          (pd_mem (nthPage s) T 512 n s.mem) } := by
  rw [init_pd] at h
  have hn1 : 1 ≤ n := by
    by_contra hc
    have hn0 : n = 0 := by omega
    subst hn0
    rw [show alloc_tables ok 0 (fun _ => (⟨0, 0⟩ : pt_page)) s
      = Except.ok (fun _ => (⟨0, 0⟩ : pt_page), s) from rfl] at h
    dsimp only at h
    rw [if_pos rfl] at h
    cases h
  have hinv : (∀ j, j < n → ∃ p, s.pages (s.npages + j) = some p) ∧ (0 < n → ok = true) := by
    cases hq : alloc_tables ok n (fun _ => ⟨0, 0⟩) s with
    | error e =>
      rw [hq] at h
      dsimp only at h
      exact absurd (alloc_failed_root e root s' h) hr
    | ok r => exact alloc_tables_inv ok n _ _ hp r hq
  have hok : ok = true := hinv.2 (by omega)
  subst hok
  have hex := hinv.1
  have hpg : ∀ j, j < n → s.pages (s.npages + j) = some (nthPage s j) := by
    intro j hj
    obtain ⟨p, hpj⟩ := hex j hj
    rw [nthPage_spec s j p hpj]
    exact hpj
  have hb : ∀ k, k < n → nthPage s k + 4096 ≤ 2 ^ 64 := by
    intro k hk
    have := hp.bound _ _ (hpg k hk)
    omega
  rw [alloc_tables_ok n _ s hp hex] at h
  dsimp only at h
  rw [if_neg (show ¬ n = 0 by omega)] at h
  rw [fill_pages_eq (nthPage s) _ (init_pde 512) n _
    (fun k hk => by rw [if_pos hk]) hb] at h
  rw [if_pos (show 0 < n by omega)] at h
  dsimp only at h
  rw [elem_ptr_zero, store_eq _ _ _ (by have := hb 0 (by omega); omega), hT] at h
  dsimp only at h
  obtain ⟨hok3, h1, h2, h3⟩ := init_pdpt_inv n ok3 _ (nthPage s) _ (by exact hp) hn
    (fun i hi => by rw [if_pos hi]) root s' h hr
  have e1 : ∀ m sl ns j, nthPage ⟨m, s.pages, s.npages + n, sl, ns⟩ j = nthPage s (n + j) :=
    fun _ _ _ j => nthPage_shift s _ n j rfl rfl
  dsimp only at h1 h2 h3
  simp only [e1] at h1 h2 h3
  refine ⟨⟨hn1, hok3, rfl⟩, ?_, h2, ?_⟩
  · intro j hj
    by_cases hjn : j < n
    · exact hpg j hjn
    · have hj2 : j - n < 2 := by omega
      have := h1 (j - n) hj2
      rw [show n + (j - n) = j by omega, Nat.add_assoc,
        show n + (j - n) = j by omega] at this
      exact this
  · rw [h3]
    simp only [pd_mem, Nat.add_zero, Nat.add_assoc]

theorem init_pt_inv (n : Nat) (ok3 ok2 ok : Bool) (s : Kernel)
    (hp : PoolOK s.pages) (hn : n ≤ 512)
    (root : Nat) (s' : Kernel) (h : init_pt 512 1 n 1 ok3 ok2 ok s = some (root, s'))
    (hr : root ≠ 0) :
    (1 ≤ n ∧ ok3 = true ∧ ok2 = true ∧ ok = true) ∧
    (∀ j, j < n + 3 → s.pages (s.npages + j) = some (nthPage s j)) ∧ root = nthPage s (n + 2) ∧
    s' = { s with npages := s.npages + (n + 3), mem := init_mem (nthPage s) n s.mem } := by
  rw [init_pt] at h
  have hinv : (∀ j, j < 1 → ∃ p, s.pages (s.npages + j) = some p) ∧ (0 < 1 → ok = true) := by
    cases hq : alloc_tables ok 1 (fun _ => ⟨0, 0⟩) s with
    | error e =>
      rw [hq] at h
      dsimp only at h
      exact absurd (alloc_failed_root e root s' h) hr
    | ok r => exact alloc_tables_inv ok 1 _ _ hp r hq
  have hok : ok = true := hinv.2 Nat.zero_lt_one
  subst hok
  have hex := hinv.1
  obtain ⟨p, hp0⟩ := hex 0 (by omega)
  have e0 : nthPage s 0 = p := nthPage_spec s 0 p hp0
  have hb := hp.bound _ _ hp0
  rw [alloc_tables_ok 1 _ s hp hex] at h
  dsimp only at h
  rw [if_pos Nat.zero_lt_one] at h
  dsimp only at h
  rw [e0, fill_eq p 512 _ _ (by omega)] at h
  dsimp only at h
  obtain ⟨⟨hn1, hok3, hok2⟩, h1, h2, h3⟩ := init_pd_inv n ok3 ok2 _ p _ (by exact hp) hn
    (by rw [if_pos Nat.zero_lt_one]; exact e0) root s' h hr
  have e1 : ∀ m sl ns j, nthPage ⟨m, s.pages, s.npages + 1, sl, ns⟩ j = nthPage s (1 + j) :=
    fun _ _ _ j => nthPage_shift s _ 1 j rfl rfl
  have e2 : ∀ m sl ns, nthPage ⟨m, s.pages, s.npages + 1, sl, ns⟩ = fun j => nthPage s (1 + j) :=
    fun m sl ns => funext (e1 m sl ns)
  dsimp only at h1 h2 h3
  simp only [e1, e2] at h1 h2 h3
  have ez : zeroPages (nthPage s) 1 s.mem = zeroMem p s.mem := by
    rw [← e0]
    rfl
  refine ⟨⟨hn1, hok3, hok2, rfl⟩, ?_, ?_, ?_⟩
  · intro j hj
    by_cases hj0 : j = 0
    · subst hj0
      rw [e0]
      exact hp0
    · have := h1 (j - 1) (by omega)
      rw [Nat.add_assoc, show 1 + (j - 1) = j by omega] at this
      exact this
  · rw [h2]
    congr 1
    omega
  · rw [h3, ez]
    simp only [init_mem, e0]
    rw [show 1 + (n + 1) = n + 2 by omega, show 1 + n = n + 1 by omega,
      show s.npages + 1 + (n + 2) = s.npages + (n + 3) by omega]

theorem init_eq (E : Nat) (s : Kernel) (hE : E ≤ MAXMEM) (hp : PoolOK s.pages)
    (root : Nat) (s' : Kernel) (h : vt_ept_2M_init E s = some (root, s')) (hr : root ≠ 0) :
    1 ≤ (E + (2 ^ 30 - 1)) / 2 ^ 30 ∧ (E + (2 ^ 30 - 1)) / 2 ^ 30 ≤ 512 ∧
    (∀ j, j < (E + (2 ^ 30 - 1)) / 2 ^ 30 + 3 → s.pages (s.npages + j) = some (nthPage s j)) ∧
    root = nthPage s ((E + (2 ^ 30 - 1)) / 2 ^ 30 + 2) ∧
    s' = { s with npages := s.npages + ((E + (2 ^ 30 - 1)) / 2 ^ 30 + 3),
                  nslab := s.nslab + 3,
                  mem := init_mem (nthPage s) ((E + (2 ^ 30 - 1)) / 2 ^ 30) s.mem } := by
  rw [vt_ept_2M_init, round_eq E hE] at h
  generalize (E + (2 ^ 30 - 1)) / 2 ^ 30 = n at h ⊢
  by_cases hlim : n > PML4E_MAP_LIMIT
  · rw [if_pos hlim] at h
    cases h
    exact absurd rfl hr
  rw [if_neg hlim] at h
  have hn512 : n ≤ 512 := by
    simp only [PML4E_MAP_LIMIT] at hlim
    omega
  rw [Nat.mod_eq_of_lt (show n < 2 ^ 32 by omega)] at h
  rw [show PAGESIZE / 8 = 512 by simp only [PAGESIZE]] at h
  obtain ⟨hf, h1, h2, h3⟩ := init_pt_inv n _ _ _ _ (by exact hp) hn512 root s' h hr
  exact ⟨hf.1, hn512, h1, h2, h3⟩

/-! ## Reading the memory `vt_ept_2M_init` leaves -/

theorem flags3 : EPT_R + EPT_W + EPT_X = 7 := rfl

theorem add_flags (p : Nat) : p + EPT_R + EPT_W + EPT_X = p + 7 := by
  simp only [EPT_R, EPT_W, EPT_X]

theorem top_mem_root (P4 P3 : Nat) (pd : Nat → Nat) (n : Nat) (m : Nat → Nat) :
    top_mem P4 P3 pd n m P4 = (P3 + 7) % 2 ^ 64 := by
  simp only [top_mem, fillMem, add_flags]
  rw [if_pos (by omega)]

theorem top_mem_root_rest (P4 P3 : Nat) (pd : Nat → Nat) (n : Nat) (m : Nat → Nat) (i : Nat)
    (h0 : 0 < i) (hi : i < 512) : top_mem P4 P3 pd n m (P4 + 8 * i) = 0 := by
  simp only [top_mem, fillMem, zeroMem]
  rw [if_neg (by omega), if_pos (by omega)]

theorem top_mem_pdpt_lo (P4 P3 : Nat) (pd : Nat → Nat) (n : Nat) (m : Nat → Nat) (k : Nat)
    (hn : n ≤ 512) (hd : P4 + 4096 ≤ P3 ∨ P3 + 4096 ≤ P4) (hk : k < n) :
    top_mem P4 P3 pd n m (P3 + 8 * k) = (pd k + 7) % 2 ^ 64 := by
  simp only [top_mem, fillMem, zeroMem, add_flags]
  rw [if_neg (by omega), if_neg (by omega), if_pos (by omega)]
  congr 3
  omega

theorem top_mem_pdpt_hi (P4 P3 : Nat) (pd : Nat → Nat) (n : Nat) (m : Nat → Nat) (k : Nat)
    (hd : P4 + 4096 ≤ P3 ∨ P3 + 4096 ≤ P4) (hk : n ≤ k) (hk2 : k < 512) :
    top_mem P4 P3 pd n m (P3 + 8 * k) = 0 := by
  simp only [top_mem, fillMem, zeroMem]
  rw [if_neg (by omega), if_neg (by omega), if_neg (by omega), if_pos (by omega)]

theorem top_mem_out (P4 P3 : Nat) (pd : Nat → Nat) (n : Nat) (m : Nat → Nat) (x : Nat)
    (hn : n ≤ 512) (h4 : ¬ (P4 ≤ x ∧ x < P4 + 4096)) (h3 : ¬ (P3 ≤ x ∧ x < P3 + 4096)) :
    top_mem P4 P3 pd n m x = m x := by
  simp only [top_mem, fillMem, zeroMem]
  rw [if_neg (by omega), if_neg (by omega), if_neg (by omega), if_neg (by omega)]

theorem pd_mem_00 (pg : Nat → Nat) (T ne n : Nat) (m : Nat → Nat) :
    pd_mem pg T ne n m (pg 0) = (T + 7) % 2 ^ 64 := by
  simp only [pd_mem, storeMem, add_flags]
  rw [if_pos trivial]

theorem pd_mem_at (pg : Nat → Nat) (T n : Nat) (m : Nat → Nat) (k i : Nat)
    (hk : k < n) (hi : i < 512) (hki : ¬ (k = 0 ∧ i = 0))
    (hd : ∀ a b, a < n → b < n → a ≠ b → pg a + 4096 ≤ pg b ∨ pg b + 4096 ≤ pg a) :
    pd_mem pg T 512 n m (pg k + 8 * i) = init_pde 512 k i % 2 ^ 64 := by
  simp only [pd_mem, storeMem]
  have hne : pg k + 8 * i ≠ pg 0 := by
    by_cases hk0 : k = 0
    · subst hk0
      omega
    · have := hd k 0 hk (by omega) hk0
      omega
  rw [if_neg hne]
  exact fillPages_at pg (init_pde 512) n _ k i hk hi hd

theorem pd_mem_out (pg : Nat → Nat) (T ne n : Nat) (m : Nat → Nat) (x : Nat)
    (h : ∀ j, j < n → ¬ (pg j ≤ x ∧ x < pg j + 4096)) (hn : 1 ≤ n) :
    pd_mem pg T ne n m x = m x := by
  simp only [pd_mem, storeMem]
  have := h 0 (by omega)
  rw [if_neg (by omega), fillPages_out pg _ n _ x h, zeroPages_out pg n m x h]

theorem pages_disjoint (s : Kernel) (hp : PoolOK s.pages) (N : Nat)
    (h : ∀ j, j < N → s.pages (s.npages + j) = some (nthPage s j)) (a b : Nat)
    (ha : a < N) (hb : b < N) (hab : a ≠ b) :
    nthPage s a + 4096 ≤ nthPage s b ∨ nthPage s b + 4096 ≤ nthPage s a := by
  have h1 := hp.aligned _ _ (h a ha)
  have h2 := hp.aligned _ _ (h b hb)
  have h3 : nthPage s a ≠ nthPage s b := by
    intro e
    have := hp.inj _ _ _ (h a ha) (e ▸ h b hb)
    omega
  omega

theorem init_post (E : Nat) (s : Kernel) (hE : E ≤ MAXMEM) (hp : PoolOK s.pages)
    (root : Nat) (s' : Kernel) (h : vt_ept_2M_init E s = some (root, s')) (hr : root ≠ 0) :
    InitPost s s' root ((E + (2 ^ 30 - 1)) / 2 ^ 30) := by
  obtain ⟨hn1, hn, hal, hroot, hs⟩ := init_eq E s hE hp root s' h hr
  generalize (E + (2 ^ 30 - 1)) / 2 ^ 30 = n at hn1 hn hal hroot hs
  have hd := pages_disjoint s hp (n + 3) hal
  have hbd : ∀ j, j < n + 3 → nthPage s j + 4096 ≤ 2 ^ 46 := fun j hj => hp.bound _ _ (hal j hj)
  have hmem : s'.mem = init_mem (nthPage s) n s.mem := by rw [hs]
  have d43 := hd (n + 2) (n + 1) (by omega) (by omega) (by omega)
  have hdpd : ∀ a b, a < n → b < n → a ≠ b →
      nthPage s (1 + a) + 4096 ≤ nthPage s (1 + b) ∨ nthPage s (1 + b) + 4096 ≤ nthPage s (1 + a) :=
    fun a b ha hb hab => hd (1 + a) (1 + b) (by omega) (by omega) (by omega)
  refine ⟨hn1, hn, by rw [hs], by rw [hs], by rw [hs], by rw [hs], hal, hroot, ?_, ?_, ?_, ?_,
    ?_, ?_, ?_, ?_⟩
  · rw [hmem, hroot, init_mem, top_mem_root]
    have := hbd (n + 1) (by omega)
    omega
  · intro i h0 hi
    rw [hmem, hroot, init_mem, top_mem_root_rest _ _ _ _ _ i h0 hi]
  · intro k hk
    rw [hmem, init_mem, top_mem_pdpt_lo _ _ _ _ _ k hn d43 hk]
    have := hbd (1 + k) (by omega)
    omega
  · intro k hk hk2
    rw [hmem, init_mem, top_mem_pdpt_hi _ _ _ _ _ k d43 hk hk2]
  · have d1 := hd (n + 2) 1 (by omega) (by omega) (by omega)
    have d2 := hd (n + 1) 1 (by omega) (by omega) (by omega)
    rw [hmem, init_mem, top_mem_out _ _ _ _ _ _ hn (by omega) (by omega)]
    have e := pd_mem_00 (fun k => nthPage s (1 + k)) (nthPage s 0) 512 n
      (fillMem (nthPage s 0) 512 init_pte (zeroMem (nthPage s 0) s.mem))
    simp only [Nat.add_zero] at e
    rw [e]
    have := hbd 0 (by omega)
    omega
  · intro k i hk hi hki
    have d1 := hd (n + 2) (1 + k) (by omega) (by omega) (by omega)
    have d2 := hd (n + 1) (1 + k) (by omega) (by omega) (by omega)
    rw [hmem, init_mem, top_mem_out _ _ _ _ _ _ hn (by omega) (by omega)]
    exact pd_mem_at (fun k => nthPage s (1 + k)) _ n _ k i hk hi hki hdpd
  · intro i hi
    have d1 := hd (n + 2) 0 (by omega) (by omega) (by omega)
    have d2 := hd (n + 1) 0 (by omega) (by omega) (by omega)
    rw [hmem, init_mem, top_mem_out _ _ _ _ _ _ hn (by omega) (by omega),
      pd_mem_out _ _ _ _ _ _ (fun j hj => by
        have := hd (1 + j) 0 (by omega) (by omega) (by omega)
        omega) hn1]
    simp only [fillMem]
    rw [if_pos (by omega)]
    congr 2
    omega
  · intro x hx
    have d1 := hx (n + 2) (by omega)
    have d2 := hx (n + 1) (by omega)
    have d3 := hx 0 (by omega)
    rw [hmem, init_mem, top_mem_out _ _ _ _ _ _ hn (by omega) (by omega),
      pd_mem_out _ _ _ _ _ _ (fun j hj => hx (1 + j) (by omega)) hn1]
    simp only [fillMem, zeroMem]
    rw [if_neg (by omega), if_neg (by omega)]

/-! ## Entries written by `vt_ept_2M_init` -/

theorem or_rwx (a : Nat) (ha : a % 4096 = 0) : a ||| EPT_R ||| EPT_W ||| EPT_X = a + 7 := by
  rw [Nat.or_assoc, Nat.or_assoc]
  exact or_flags a 7 12 ha (by norm_num)

theorem or_rwx_wb (a : Nat) (ha : a % 4096 = 0) :
    a ||| EPT_R ||| EPT_W ||| EPT_X ||| EPT_CACHE_2 ||| EPT_CACHE_3 = a + 0x37 := by
  rw [Nat.or_assoc, Nat.or_assoc, Nat.or_assoc, Nat.or_assoc]
  exact or_flags a 0x37 12 ha (by norm_num)

theorem or_rwx_2m (a : Nat) (ha : a % 4096 = 0) :
    a ||| EPT_R ||| EPT_W ||| EPT_X ||| EPT_2M_PAGE = a + 0x87 := by
  rw [Nat.or_assoc, Nat.or_assoc, Nat.or_assoc]
  exact or_flags a 0x87 12 ha (by norm_num)

theorem or_rwx_2m_wb (a : Nat) (ha : a % 4096 = 0) :
    a ||| EPT_R ||| EPT_W ||| EPT_X ||| EPT_2M_PAGE ||| EPT_CACHE_2 ||| EPT_CACHE_3
      = a + 0xB7 := by
  rw [Nat.or_assoc, Nat.or_assoc, Nat.or_assoc, Nat.or_assoc, Nat.or_assoc]
  exact or_flags a 0xB7 12 ha (by norm_num)

theorem init_pte_eq (i : Nat) :
    init_pte i = i * 4096 + (if no_cache_region (i * 4096) PAGESIZE ≠ 0 then 7 else 0x37) := by
  have hs : i <<< 12 = i * 4096 := by rw [Nat.shiftLeft_eq]
  have ha : (i * 4096) % 4096 = 0 := by omega
  simp only [init_pte, hs]
  split
  · exact or_rwx _ ha
  · exact or_rwx_wb _ ha

theorem init_pde_eq (k i : Nat) :
    init_pde 512 k i = (i + k * 512) % 2 ^ 32 * 2 ^ 21 % 2 ^ 32
      + (if no_cache_region ((i + k * 512) % 2 ^ 32 * 2 ^ 21 % 2 ^ 32) PAGESIZE2M ≠ 0
          then 0x87 else 0xB7) := by
  have ha : ((i + k * 512) % 2 ^ 32 * 2 ^ 21 % 2 ^ 32) % 4096 = 0 := by omega
  simp only [init_pde, Nat.shiftLeft_eq]
  split
  · exact or_rwx_2m _ ha
  · exact or_rwx_2m_wb _ ha

theorem epte_addr_eq (e : Nat) (he : e < 2 ^ 64) : epte_addr e = e / 4096 * 4096 := by
  have h1 : lnot64 (PAGESIZE - 1) = 2 ^ 64 - 2 ^ 12 := by
    simp only [lnot64, PAGESIZE]
    norm_num
  rw [epte_addr, h1, and_high_mask e 12 he (by norm_num)]
  norm_num

theorem and_2m_flag (e : Nat) : e &&& EPT_2M_PAGE = e / 128 % 2 * 128 :=
  and_bit e 7

theorem epte_addr_ptr (P : Nat) (hP : P % 4096 = 0) (hb : P + 4096 ≤ 2 ^ 64) :
    epte_addr (P + 7) = P := by
  rw [epte_addr_eq _ (by omega)]
  omega

theorem ptr_present (P : Nat) (hP : P % 4096 = 0) : (P + 7) &&& 7 ≠ 0 := by
  rw [and_low7]
  omega

theorem ptr_not_large (P : Nat) (hP : P % 4096 = 0) : (P + 7) &&& EPT_2M_PAGE = 0 := by
  rw [and_2m_flag]
  omega

theorem init_pte_lt (i : Nat) (hi : i < 512) : init_pte i < 2 ^ 22 := by
  rw [init_pte_eq]
  split <;> omega

theorem init_pde_lt (k i : Nat) : init_pde 512 k i < 2 ^ 33 := by
  rw [init_pde_eq]
  split <;> omega

theorem init_pte_present (i : Nat) : init_pte i &&& 7 ≠ 0 := by
  rw [and_low7, init_pte_eq]
  split <;> omega

theorem init_pde_present (k i : Nat) : init_pde 512 k i &&& 7 ≠ 0 := by
  rw [and_low7, init_pde_eq]
  split <;> omega

theorem init_pde_large (k i : Nat) : init_pde 512 k i &&& EPT_2M_PAGE ≠ 0 := by
  rw [and_2m_flag, init_pde_eq]
  split <;> omega

theorem walk_init (s s' : Kernel) (root n : Nat) (hp : PoolOK s.pages)
    (P : InitPost s s' root n) (a : Nat) (ha : a < 2 ^ 48) :
    ept_walk s' root a =
      if a < n * 2 ^ 30 then
        if a < 2 ^ 21 then some ⟨nthPage s 0 + 8 * (a / 2 ^ 12), PAGESIZE, init_pte (a / 2 ^ 12)⟩
        else some ⟨nthPage s (1 + a / 2 ^ 30) + 8 * (a % 2 ^ 30 / 2 ^ 21), PAGESIZE2M,
          init_pde 512 (a / 2 ^ 30) (a % 2 ^ 30 / 2 ^ 21)⟩
      else none := by
  have hn := P.n_le
  have hal := fun j hj => hp.aligned _ _ (P.alloc j hj)
  have hbd := fun j hj => hp.bound _ _ (P.alloc j hj)
  simp only [ept_walk]
  by_cases h4 : a / 2 ^ 39 % 512 = 0
  · have ha39 : a < 2 ^ 39 := by omega
    have a3 := hal (n + 1) (by omega)
    have b3 := hbd (n + 1) (by omega)
    rw [h4, Nat.mul_zero, Nat.add_zero, P.pml4_0, if_neg (ptr_present _ a3),
      epte_addr_ptr _ a3 (by omega), show a / 2 ^ 30 % 512 = a / 2 ^ 30 by omega]
    by_cases hk : a / 2 ^ 30 < n
    · have a2 := hal (1 + a / 2 ^ 30) (by omega)
      have b2 := hbd (1 + a / 2 ^ 30) (by omega)
      rw [P.pdpt_lo _ hk, if_neg (ptr_present _ a2), epte_addr_ptr _ a2 (by omega),
        if_pos (show a < n * 2 ^ 30 by omega),
        show a / 2 ^ 21 % 512 = a % 2 ^ 30 / 2 ^ 21 by omega]
      by_cases h0 : a < 2 ^ 21
      · have a1 := hal 0 (by omega)
        have b1 := hbd 0 (by omega)
        rw [if_pos h0, show a / 2 ^ 30 = 0 by omega, show a % 2 ^ 30 / 2 ^ 21 = 0 by omega,
          Nat.mul_zero, Nat.add_zero, Nat.add_zero, P.pd_00, if_neg (ptr_present _ a1),
          if_neg (by rw [ptr_not_large _ a1]; simp), epte_addr_ptr _ a1 (by omega),
          show a / 2 ^ 12 % 512 = a / 2 ^ 12 by omega, P.pt_at _ (by omega),
          Nat.mod_eq_of_lt (by have := init_pte_lt (a / 2 ^ 12) (by omega); omega),
          if_neg (init_pte_present _)]
      · rw [if_neg h0, P.pd_at _ _ hk (by omega) (by omega),
          Nat.mod_eq_of_lt (by have := init_pde_lt (a / 2 ^ 30) (a % 2 ^ 30 / 2 ^ 21); omega),
          if_neg (init_pde_present _ _), if_pos (init_pde_large _ _)]
    · rw [P.pdpt_hi _ (by omega) (by omega), if_pos (by simp), if_neg (by omega)]
  · rw [P.pml4_rest _ (by omega) (by omega), if_pos (by simp), if_neg (by omega)]

/-! ## The software walk -/

theorem gb_index (a : Nat) (ha : a < 2 ^ 61) :
    toInt32 ((a &&& lnot64 (GIGABYTE - 1)) >>> GIGABYTE_SHIFT) = ((a / 2 ^ 30 : Nat) : Int) := by
  have h1 : lnot64 (GIGABYTE - 1) = 2 ^ 64 - 2 ^ 30 := by
    simp only [lnot64, GIGABYTE]
    norm_num
  rw [h1, and_high_mask a 30 (by omega) (by norm_num), Nat.shiftRight_eq_div_pow, GIGABYTE_SHIFT,
    Nat.mul_div_cancel _ (by norm_num)]
  exact toInt32_small _ (by omega)

theorem pd_index (a : Nat) :
    toInt32 ((a &&& (GIGABYTE - 1)) >>> PAGESIZE2M_SHIFT) = ((a % 2 ^ 30 / 2 ^ 21 : Nat) : Int) := by
  have h1 : GIGABYTE - 1 = 2 ^ 30 - 1 := by norm_num [GIGABYTE]
  rw [h1, Nat.and_pow_two_sub_one_eq_mod, Nat.shiftRight_eq_div_pow, PAGESIZE2M_SHIFT]
  exact toInt32_small _ (by omega)

theorem pt_index (a : Nat) :
    toInt32 ((a &&& (PAGESIZE2M - 1)) >>> PAGESIZE_SHIFT) = ((a % 2 ^ 21 / 2 ^ 12 : Nat) : Int) := by
  have h1 : PAGESIZE2M - 1 = 2 ^ 21 - 1 := by norm_num [PAGESIZE2M]
  rw [h1, Nat.and_pow_two_sub_one_eq_mod, Nat.shiftRight_eq_div_pow, PAGESIZE_SHIFT]
  exact toInt32_small _ (by omega)

theorem load_va (s : Kernel) (p : Nat) (hp : p < 2 ^ 64) : load s (__va p) = s.mem p := by
  rw [load, pa_va p hp]

theorem find_pd_entry_eq (s : Kernel) (root pdpt pdk a : Nat) (ha : a < 2 ^ 39)
    (hroot : root < 2 ^ 64) (h4 : s.mem root = pdpt + 7)
    (a3 : pdpt % 4096 = 0) (b3 : pdpt + 4096 ≤ 2 ^ 64)
    (h3 : s.mem (pdpt + 8 * (a / 2 ^ 30)) = pdk + 7)
    (a2 : pdk % 4096 = 0) (b2 : pdk + 4096 ≤ 2 ^ 64) :
    find_pd_entry s root a = __va (pdk + 8 * (a % 2 ^ 30 / 2 ^ 21)) := by
  simp only [find_pd_entry, epte_page_vaddr]
  rw [load_va s root hroot, h4, epte_addr_ptr _ a3 b3, gb_index a (by omega), elem_ptr_va,
    load_va s _ (by omega), h3, epte_addr_ptr _ a2 b2, pd_index, elem_ptr_va]

theorem find_pd_entry_init (s s' : Kernel) (root n : Nat) (hp : PoolOK s.pages)
    (P : InitPost s s' root n) (a : Nat) (ha : a < n * 2 ^ 30) :
    find_pd_entry s' root a = __va (nthPage s (1 + a / 2 ^ 30) + 8 * (a % 2 ^ 30 / 2 ^ 21)) := by
  have hn := P.n_le
  have hal := fun j hj => hp.aligned _ _ (P.alloc j hj)
  have hbd := fun j hj => hp.bound _ _ (P.alloc j hj)
  have hk : a / 2 ^ 30 < n := by omega
  have b4 := hbd (n + 2) (by omega)
  have b3 := hbd (n + 1) (by omega)
  have b2 := hbd (1 + a / 2 ^ 30) (by omega)
  exact find_pd_entry_eq s' root _ _ a (by omega) (by rw [P.root_eq]; omega) P.pml4_0
    (hal _ (by omega)) (by omega) (P.pdpt_lo _ hk) (hal _ (by omega)) (by omega)

theorem sample_pool : PoolOK sample_kernel.pages := by
  refine ⟨?_, ?_, ?_, ?_⟩
  · intro n p h
    simp only [sample_kernel] at h
    split at h
    · cases h
      omega
    · cases h
  · intro n p h
    simp only [sample_kernel] at h
    split at h
    · cases h
      omega
    · cases h
  · intro n p h
    simp only [sample_kernel] at h
    split at h
    · cases h
      omega
    · cases h
  · intro i j p h1 h2
    simp only [sample_kernel] at h1 h2
    split at h1
    · split at h2
      · have := Option.some.inj (h1.trans h2.symm)
        omega
      · cases h2
    · cases h1

theorem sample_built_eq (E : Nat) (h : (vt_ept_2M_init E sample_kernel).isSome = true) :
    vt_ept_2M_init E sample_kernel = some ((sample_built E).1, (sample_built E).2) := by
  unfold sample_built
  cases hq : vt_ept_2M_init E sample_kernel with
  | none =>
    rw [hq] at h
    cases h
  | some r => rfl

/-! ## Well-formed tables -/

theorem table_disjoint (s : Kernel) (root n : Nat) (L : EptLayout) (I : EptInv s root n L)
    (p q : Nat) (r r' : Role) (hp : L.role p = some r) (hq : L.role q = some r') (hne : p ≠ q) :
    p + 4096 ≤ q ∨ q + 4096 ≤ p := by
  have h1 := I.table_ok p r hp
  have h2 := I.table_ok q r' hq
  omega

theorem free_disjoint (s : Kernel) (root n : Nat) (L : EptLayout) (I : EptInv s root n L)
    (j N : Nat) (hj : s.npages ≤ j) (hN : s.pages j = some N)
    (p : Nat) (r : Role) (hp : L.role p = some r) :
    p + 4096 ≤ N ∨ N + 4096 ≤ p := by
  have h1 := I.table_ok p r hp
  have h2 := I.pool.aligned _ _ hN
  have h3 : p ≠ N := by
    intro e
    rw [e, I.fresh j N hj hN] at hp
    cases hp
  omega

theorem role_ne (L : EptLayout) (p q : Nat) (r r' : Role) (hp : L.role p = some r)
    (hq : L.role q = some r') (hne : r ≠ r') : p ≠ q := by
  intro e
  rw [e, hq] at hp
  exact hne (Option.some.inj hp).symm

theorem find_pd_entry_inv (s : Kernel) (root n : Nat) (L : EptLayout) (I : EptInv s root n L)
    (a : Nat) (ha : a < n * 2 ^ 30) : find_pd_entry s root a = __va (pd_slot L a) := by
  have hn := I.n_le
  have hk : a / 2 ^ 30 < n := by omega
  have t4 := I.table_ok _ _ I.role_root
  have t3 := I.table_ok _ _ I.role_pdpt
  have t2 := I.table_ok _ _ (I.role_pd _ hk)
  exact find_pd_entry_eq s root _ _ a (by omega) (by omega) I.root_entry t3.1 (by omega)
    (I.pdpt_entry _ hk) t2.1 (by omega)

theorem pd_slot_bound (s : Kernel) (root n : Nat) (L : EptLayout) (I : EptInv s root n L)
    (a : Nat) (ha : a < n * 2 ^ 30) :
    L.pd (a / 2 ^ 30) ≤ pd_slot L a ∧ pd_slot L a < L.pd (a / 2 ^ 30) + 4096
      ∧ pd_slot L a < 2 ^ 46 := by
  have hn := I.n_le
  have hk : a / 2 ^ 30 < n := by omega
  have t2 := I.table_ok _ _ (I.role_pd _ hk)
  simp only [pd_slot]
  omega

theorem align_2m (p : Nat) : p &&& (PAGESIZE2M - 1) = p % 2 ^ 21 := by
  have h1 : PAGESIZE2M - 1 = 2 ^ 21 - 1 := by norm_num [PAGESIZE2M]
  rw [h1, Nat.and_pow_two_sub_one_eq_mod]

theorem mask_2m (e : Nat) (he : e < 2 ^ 64) : e &&& lnot64 (PAGESIZE2M - 1) = e / 2 ^ 21 * 2 ^ 21 := by
  have h1 : lnot64 (PAGESIZE2M - 1) = 2 ^ 64 - 2 ^ 21 := by
    simp only [lnot64, PAGESIZE2M]
    norm_num
  rw [h1, and_high_mask e 21 he (by norm_num)]

theorem mask_4k (e : Nat) (he : e < 2 ^ 64) : e &&& lnot64 (PAGESIZE - 1) = e / 2 ^ 12 * 2 ^ 12 := by
  have h1 : lnot64 (PAGESIZE - 1) = 2 ^ 64 - 2 ^ 12 := by
    simp only [lnot64, PAGESIZE]
    norm_num
  rw [h1, and_high_mask e 12 he (by norm_num)]

theorem large_flag (e : Nat) (h : IsLargeLeaf e) : e &&& EPT_2M_PAGE ≠ 0 := by
  obtain ⟨base, h1, h2, h3⟩ := h
  rw [and_2m_flag]
  rcases h3 with h3 | h3 <;> omega

theorem small_flag (e : Nat) (h : IsSmallLeaf e) : e &&& EPT_2M_PAGE = 0 := by
  obtain ⟨a, h1, h2, h3⟩ := h
  rw [and_2m_flag]
  rcases h3 with h3 | h3 <;> omega

/-- The function `split_2M_mapping` on a region that is already split. -/
theorem split_noop (s : Kernel) (root n : Nat) (L : EptLayout) (I : EptInv s root n L)
    (p : Nat) (hp : p < n * 2 ^ 30) (hal : p % 2 ^ 21 = 0)
    (h : s.mem (pd_slot L p) &&& EPT_2M_PAGE = 0) :
    split_2M_mapping s root p = (1, s) := by
  have hb := pd_slot_bound s root n L I p hp
  unfold split_2M_mapping
  dsimp only
  rw [align_2m, if_neg (by omega), find_pd_entry_inv s root n L I p hp,
    if_neg (va_ne_zero _ hb.2.2), load_va _ _ (by omega), if_pos h]

/-- The function `split_2M_mapping` on a large region when both allocations
succeed. -/
theorem split_large (s : Kernel) (root n : Nat) (L : EptLayout) (I : EptInv s root n L)
    (p : Nat) (hp : p < n * 2 ^ 30) (hal : p % 2 ^ 21 = 0)
    (h : s.mem (pd_slot L p) &&& EPT_2M_PAGE ≠ 0)
    (hslab : s.slab s.nslab = true) (N : Nat) (hN : s.pages s.npages = some N) :
    split_2M_mapping s root p
      = (1, split_state s (pd_slot L p) (s.mem (pd_slot L p) / 2 ^ 21 * 2 ^ 21) N) := by
  have hb := pd_slot_bound s root n L I p hp
  have hn := I.n_le
  have hlt : s.mem (pd_slot L p) < 2 ^ 64 := by
    rcases I.pd_entry (p / 2 ^ 30) (p % 2 ^ 30 / 2 ^ 21) (by omega) (by omega) with hl | hs
    · obtain ⟨base, h1, h2, h3⟩ := hl
      simp only [pd_slot]
      rcases h3 with h3 | h3 <;> omega
    · obtain ⟨T, h1, h2, _⟩ := hs
      have := I.table_ok _ _ h2
      simp only [pd_slot]
      omega
  have bN := I.pool.bound _ _ hN
  unfold split_2M_mapping
  dsimp only
  rw [align_2m, if_neg (by omega), find_pd_entry_inv s root n L I p hp,
    if_neg (va_ne_zero _ hb.2.2), load_va _ _ (by omega), if_neg h, mask_2m _ hlt]
  simp only [kmalloc, hslab]
  rw [vt_alloc_page_some { s with nslab := s.nslab + 1 } N I.pool hN]
  dsimp only
  rw [memset0_eq N _ (by omega), show PAGESIZE / 8 = 512 by norm_num [PAGESIZE],
    fill_eq N 512 _ _ (by omega), store_eq _ _ _ (by omega), add_flags]
  rfl

theorem split_pte_eq (a : Nat) (ha : a % 4096 = 0) :
    split_pte a = a + (if no_cache_region a PAGESIZE ≠ 0 then 7 else 0x37) := by
  simp only [split_pte]
  split
  · exact or_rwx _ ha
  · exact or_rwx_wb _ ha

theorem split_pte_small (base j : Nat) (h1 : base % 2 ^ 21 = 0) (h2 : base + 2 ^ 21 ≤ 2 ^ 64)
    (hj : j < 512) :
    IsSmallLeaf (split_pte ((base + j * PAGESIZE) % 2 ^ 64) % 2 ^ 64) := by
  have e : (base + j * PAGESIZE) % 2 ^ 64 = base + j * 4096 := by
    simp only [PAGESIZE]
    omega
  rw [e, split_pte_eq _ (by omega)]
  refine ⟨base + j * 4096, by omega, by omega, ?_⟩
  split
  · left
    omega
  · right
    omega

theorem split_mem_other (s : Kernel) (slot base N x : Nat) (h1 : x ≠ slot)
    (h2 : ¬ (N ≤ x ∧ x < N + 4096)) : (split_state s slot base N).mem x = s.mem x := by
  simp only [split_state, storeMem, fillMem, zeroMem]
  rw [if_neg h1, if_neg (by omega), if_neg h2]

theorem split_mem_slot (s : Kernel) (slot base N : Nat) (hN : N + 4096 ≤ 2 ^ 46) :
    (split_state s slot base N).mem slot = N + 7 := by
  simp only [split_state, storeMem]
  rw [if_pos trivial]
  omega

theorem split_mem_pt (s : Kernel) (slot base N j : Nat) (hj : j < 512)
    (h : ¬ (N ≤ slot ∧ slot < N + 4096)) :
    (split_state s slot base N).mem (N + 8 * j)
      = split_pte ((base + j * PAGESIZE) % 2 ^ 64) % 2 ^ 64 := by
  simp only [split_state, storeMem, fillMem]
  rw [if_neg (by omega), if_pos (by omega), show (N + 8 * j - N) / 8 = j by omega]

theorem large_base (e : Nat) (h : IsLargeLeaf e) :
    (e / 2 ^ 21 * 2 ^ 21) % 2 ^ 21 = 0 ∧ e / 2 ^ 21 * 2 ^ 21 + 2 ^ 21 ≤ 2 ^ 64
      ∧ (e = e / 2 ^ 21 * 2 ^ 21 + 0x87 ∨ e = e / 2 ^ 21 * 2 ^ 21 + 0xB7) := by
  obtain ⟨base, h1, h2, h3⟩ := h
  rcases h3 with h3 | h3 <;> omega

theorem pd_entry_large (s : Kernel) (root n : Nat) (L : EptLayout) (I : EptInv s root n L)
    (p : Nat) (hp : p < n * 2 ^ 30) (h : s.mem (pd_slot L p) &&& EPT_2M_PAGE ≠ 0) :
    IsLargeLeaf (s.mem (pd_slot L p)) := by
  have hn := I.n_le
  rcases I.pd_entry (p / 2 ^ 30) (p % 2 ^ 30 / 2 ^ 21) (by omega) (by omega) with hl | hs
  · exact hl
  · obtain ⟨T, h1, h2, _⟩ := hs
    have := I.table_ok _ _ h2
    exfalso
    apply h
    simp only [pd_slot]
    rw [h1]
    exact ptr_not_large _ this.1

theorem pd_entry_split (s : Kernel) (root n : Nat) (L : EptLayout) (I : EptInv s root n L)
    (p : Nat) (hp : p < n * 2 ^ 30) (h : s.mem (pd_slot L p) &&& EPT_2M_PAGE = 0) :
    ∃ T, s.mem (pd_slot L p) = T + 7 ∧ L.role T = some (Role.pt (p / 2 ^ 30) (p % 2 ^ 30 / 2 ^ 21))
      ∧ ∀ j, j < 512 → IsSmallLeaf (s.mem (T + 8 * j)) := by
  have hn := I.n_le
  rcases I.pd_entry (p / 2 ^ 30) (p % 2 ^ 30 / 2 ^ 21) (by omega) (by omega) with hl | hs
  · exact absurd h (large_flag _ hl)
  · exact hs

theorem pd_slot_inj (s : Kernel) (root n : Nat) (L : EptLayout) (I : EptInv s root n L)
    (k i k' i' : Nat) (hk : k < n) (hi : i < 512) (hk' : k' < n) (hi' : i' < 512)
    (h : L.pd k + 8 * i = L.pd k' + 8 * i') : k = k' ∧ i = i' := by
  by_cases e : k = k'
  · subst e
    omega
  · have hne : L.pd k ≠ L.pd k' :=
      role_ne L _ _ _ _ (I.role_pd k hk) (I.role_pd k' hk') (by
        intro c
        cases c
        exact e rfl)
    have := table_disjoint s root n L I _ _ _ _ (I.role_pd k hk) (I.role_pd k' hk') hne
    omega

/-- A successful split keeps the hierarchy well formed, with the new PT page
added to the layout. -/
theorem split_inv (s : Kernel) (root n : Nat) (L : EptLayout) (I : EptInv s root n L)
    (p : Nat) (hp : p < n * 2 ^ 30)
    (h : s.mem (pd_slot L p) &&& EPT_2M_PAGE ≠ 0) (N : Nat) (hN : s.pages s.npages = some N) :
    EptInv (split_state s (pd_slot L p) (s.mem (pd_slot L p) / 2 ^ 21 * 2 ^ 21) N) root n
      (split_layout L N (p / 2 ^ 30) (p % 2 ^ 30 / 2 ^ 21)) := by
  have hn := I.n_le
  have hk : p / 2 ^ 30 < n := by omega
  have hi : p % 2 ^ 30 / 2 ^ 21 < 512 := by omega
  have hb := pd_slot_bound s root n L I p hp
  have aN := I.pool.aligned _ _ hN
  have bN := I.pool.bound _ _ hN
  have hfree : L.role N = none := I.fresh _ _ (Nat.le_refl _) hN
  have hdis : ∀ q r, L.role q = some r → q + 4096 ≤ N ∨ N + 4096 ≤ q :=
    fun q r hq => free_disjoint s root n L I _ N (Nat.le_refl _) hN q r hq
  have hlarge := large_base _ (pd_entry_large s root n L I p hp h)
  have hrole : ∀ q r, L.role q = some r →
      (split_layout L N (p / 2 ^ 30) (p % 2 ^ 30 / 2 ^ 21)).role q = some r := by
    intro q r hq
    simp only [split_layout]
    rw [if_neg (by
      intro e
      rw [e, hfree] at hq
      cases hq)]
    exact hq
  have hslotN : ¬ (N ≤ pd_slot L p ∧ pd_slot L p < N + 4096) := by
    have := hdis _ _ (I.role_pd _ hk)
    omega
  -- reads inside table pages other than the rewritten slot are unchanged
  have hread : ∀ q r x, L.role q = some r → q ≤ x → x < q + 4096 → x ≠ pd_slot L p →
      (split_state s (pd_slot L p) (s.mem (pd_slot L p) / 2 ^ 21 * 2 ^ 21) N).mem x = s.mem x := by
    intro q r x hq h1 h2 h3
    have := hdis q r hq
    exact split_mem_other s _ _ N x h3 (by omega)
  have hslot_pd : ∀ q r, L.role q = some r → r ≠ Role.pd (p / 2 ^ 30) →
      ∀ x, q ≤ x → x < q + 4096 → x ≠ pd_slot L p := by
    intro q r hq hr x h1 h2 e
    have hne : q ≠ L.pd (p / 2 ^ 30) := role_ne L _ _ _ _ hq (I.role_pd _ hk) hr
    have := table_disjoint s root n L I _ _ _ _ hq (I.role_pd _ hk) hne
    omega
  refine ⟨hn, I.pool, ?_, ?_, hrole _ _ I.role_root, hrole _ _ I.role_pdpt,
    fun k hk' => hrole _ _ (I.role_pd k hk'), ?_, ?_, ?_⟩
  · intro j q hj hq
    simp only [split_layout]
    have hj' : s.npages + 1 ≤ j := hj
    rw [if_neg (by
      intro e
      rw [e] at hq
      have := I.pool.inj _ _ _ hq hN
      omega)]
    exact I.fresh j q (by omega) hq
  · intro q r hq
    simp only [split_layout] at hq
    by_cases e : q = N
    · rw [e]
      exact ⟨aN, bN⟩
    · rw [if_neg e] at hq
      exact I.table_ok q r hq
  · have t := I.table_ok _ _ I.role_root
    show _ = L.pdpt + 7
    rw [hread root _ root I.role_root (by omega) (by omega)
      (hslot_pd _ _ I.role_root (by intro c; cases c) root (by omega) (by omega))]
    exact I.root_entry
  · intro k hk'
    have t := I.table_ok _ _ I.role_pdpt
    show (split_state s (pd_slot L p) (s.mem (pd_slot L p) / 2 ^ 21 * 2 ^ 21) N).mem
      (L.pdpt + 8 * k) = L.pd k + 7
    rw [hread L.pdpt _ _ I.role_pdpt (by omega) (by omega)
      (hslot_pd _ _ I.role_pdpt (by intro c; cases c) _ (by omega) (by omega))]
    exact I.pdpt_entry k hk'
  · intro k i hk' hi'
    show IsLargeLeaf ((split_state s (pd_slot L p) (s.mem (pd_slot L p) / 2 ^ 21 * 2 ^ 21) N).mem
        (L.pd k + 8 * i)) ∨
      ∃ T, (split_state s (pd_slot L p) (s.mem (pd_slot L p) / 2 ^ 21 * 2 ^ 21) N).mem
          (L.pd k + 8 * i) = T + 7 ∧
        (split_layout L N (p / 2 ^ 30) (p % 2 ^ 30 / 2 ^ 21)).role T = some (Role.pt k i) ∧
        ∀ j, j < 512 → IsSmallLeaf
          ((split_state s (pd_slot L p) (s.mem (pd_slot L p) / 2 ^ 21 * 2 ^ 21) N).mem (T + 8 * j))
    by_cases e : L.pd k + 8 * i = pd_slot L p
    · obtain ⟨e1, e2⟩ := pd_slot_inj s root n L I k i _ _ hk' hi' hk hi e
      right
      refine ⟨N, ?_, ?_, ?_⟩
      · rw [e]
        exact split_mem_slot s _ _ N bN
      · simp only [split_layout]
        rw [if_pos trivial, e1, e2]
      · intro j hj
        rw [split_mem_pt s _ _ N j hj hslotN]
        exact split_pte_small _ j hlarge.1 hlarge.2.1 hj
    · have t := I.table_ok _ _ (I.role_pd k hk')
      rw [hread _ _ _ (I.role_pd k hk') (by omega) (by omega) e]
      rcases I.pd_entry k i hk' hi' with hl | ⟨T, h1, h2, h3⟩
      · left
        exact hl
      · right
        refine ⟨T, h1, hrole _ _ h2, ?_⟩
        intro j hj
        have tT := I.table_ok _ _ h2
        rw [hread T _ _ h2 (by omega) (by omega)
          (hslot_pd _ _ h2 (by intro c; cases c) _ (by omega) (by omega))]
        exact h3 j hj

/-! ## Replacing a page -/

theorem find_pt_entry_inv (s : Kernel) (root n : Nat) (L : EptLayout) (I : EptInv s root n L)
    (a : Nat) (ha : a < n * 2 ^ 30) (T : Nat) (hT : s.mem (pd_slot L a) = T + 7)
    (hr : L.role T = some (Role.pt (a / 2 ^ 30) (a % 2 ^ 30 / 2 ^ 21)))
    (h0 : IsSmallLeaf (s.mem T)) :
    find_pt_entry s root a = some (__va (pt_slot T a)) := by
  have hn := I.n_le
  have hk : a / 2 ^ 30 < n := by omega
  have t4 := I.table_ok _ _ I.role_root
  have t3 := I.table_ok _ _ I.role_pdpt
  have t2 := I.table_ok _ _ (I.role_pd _ hk)
  have t1 := I.table_ok _ _ hr
  simp only [pd_slot] at hT
  simp only [find_pt_entry, epte_page_vaddr]
  rw [load_va s root (by omega), I.root_entry, epte_addr_ptr _ t3.1 (by omega),
    gb_index a (by omega), elem_ptr_va, load_va s (L.pdpt + 8 * (a / 2 ^ 30)) (by omega),
    I.pdpt_entry _ hk, epte_addr_ptr _ t2.1 (by omega), pd_index, elem_ptr_va,
    load_va s (L.pd (a / 2 ^ 30) + 8 * (a % 2 ^ 30 / 2 ^ 21)) (by omega), hT,
    epte_addr_ptr _ t1.1 (by omega), load_va s T (by omega),
    if_neg (by rw [small_flag _ h0]; simp), pt_index, elem_ptr_va]
  rfl

theorem replace_split_fail (s : Kernel) (root p : Nat) (s1 : Kernel)
    (h : split_2M_mapping s root (p &&& lnot64 (PAGESIZE2M - 1)) = (0, s1)) :
    replace_ept_page s root p = some (0, s1) := by
  rw [replace_ept_page, h]

theorem replace_split_ok (s : Kernel) (root p : Nat) (s1 : Kernel)
    (h : split_2M_mapping s root (p &&& lnot64 (PAGESIZE2M - 1)) = (1, s1)) :
    replace_ept_page s root p = replace_ept_page_tail s1 root p := by
  rw [replace_ept_page, h]

theorem tail_no_slab (s1 : Kernel) (root p leaf : Nat) (hl : leaf < 2 ^ 46)
    (hf : find_pt_entry s1 root p = some (__va leaf)) (hs : s1.slab s1.nslab = false) :
    replace_ept_page_tail s1 root p = some (0, { s1 with nslab := s1.nslab + 1 }) := by
  rw [replace_ept_page_tail, hf]
  dsimp only
  rw [if_neg (va_ne_zero _ hl)]
  simp only [kmalloc, hs]

theorem tail_no_page (s1 : Kernel) (root p leaf : Nat) (hl : leaf < 2 ^ 46)
    (hf : find_pt_entry s1 root p = some (__va leaf)) (hs : s1.slab s1.nslab = true)
    (hN : s1.pages s1.npages = none) :
    replace_ept_page_tail s1 root p
      = some (0, { s1 with nslab := s1.nslab + 1, npages := s1.npages + 1 }) := by
  rw [replace_ept_page_tail, hf]
  dsimp only
  rw [if_neg (va_ne_zero _ hl)]
  simp only [kmalloc, hs]
  rw [vt_alloc_page_none { s1 with nslab := s1.nslab + 1 } hN]

theorem tail_mismatch (s1 : Kernel) (root p leaf N : Nat) (hl : leaf < 2 ^ 46)
    (hp : PoolOK s1.pages)
    (hf : find_pt_entry s1 root p = some (__va leaf)) (hs : s1.slab s1.nslab = true)
    (hN : s1.pages s1.npages = some N) (hlN : ¬ (N ≤ leaf ∧ leaf < N + 4096))
    (he : s1.mem leaf < 2 ^ 64) (hm : s1.mem leaf / 2 ^ 12 * 2 ^ 12 ≠ p) :
    replace_ept_page_tail s1 root p
      = some (0, { s1 with nslab := s1.nslab + 1, npages := s1.npages + 1,
                           mem := zeroMem N s1.mem }) := by
  have bN := hp.bound _ _ hN
  rw [replace_ept_page_tail, hf]
  dsimp only
  rw [if_neg (va_ne_zero _ hl)]
  simp only [kmalloc, hs]
  rw [vt_alloc_page_some { s1 with nslab := s1.nslab + 1 } N hp hN]
  dsimp only
  rw [memset0_eq N _ (by omega), load_va _ _ (by omega)]
  dsimp only
  have e : zeroMem N s1.mem leaf = s1.mem leaf := by
    simp only [zeroMem]
    rw [if_neg hlN]
  rw [e, mask_4k _ he, if_pos hm]

theorem memcpy_eq (dst src : Nat) (s : Kernel) (hd : dst < 2 ^ 64) (hs : src < 2 ^ 64) :
    memcpy s (__va dst) (__va src) PAGESIZE = { s with mem := copyMem dst src s.mem } := by
  simp only [memcpy, pa_va dst hd, pa_va src hs, PAGESIZE]
  rfl

theorem tail_ok (s1 : Kernel) (root p leaf N : Nat) (hl : leaf < 2 ^ 46)
    (hp : PoolOK s1.pages)
    (hf : find_pt_entry s1 root p = some (__va leaf)) (hs : s1.slab s1.nslab = true)
    (hN : s1.pages s1.npages = some N) (hlN : ¬ (N ≤ leaf ∧ leaf < N + 4096))
    (he : s1.mem leaf < 2 ^ 64) (hm : s1.mem leaf / 2 ^ 12 * 2 ^ 12 = p) :
    replace_ept_page_tail s1 root p = some (__va N, replace_state s1 leaf N p) := by
  have bN := hp.bound _ _ hN
  have aN := hp.aligned _ _ hN
  rw [replace_ept_page_tail, hf]
  dsimp only
  rw [if_neg (va_ne_zero _ hl)]
  simp only [kmalloc, hs]
  rw [vt_alloc_page_some { s1 with nslab := s1.nslab + 1 } N hp hN]
  dsimp only
  rw [memset0_eq N _ (by omega), load_va _ _ (by omega)]
  dsimp only
  have e : zeroMem N s1.mem leaf = s1.mem leaf := by
    simp only [zeroMem]
    rw [if_neg hlN]
  rw [e, mask_4k _ he, if_neg (by rw [hm]; simp), hm, store_eq _ _ _ (by omega),
    memcpy_eq N p _ (by omega) (by omega), or_rwx_wb N aN]
  rfl

theorem replace_mem_other (s1 : Kernel) (leaf N p x : Nat) (h1 : x ≠ leaf)
    (h2 : ¬ (N ≤ x ∧ x < N + 4096)) : (replace_state s1 leaf N p).mem x = s1.mem x := by
  simp only [replace_state, copyMem, storeMem, zeroMem]
  rw [if_neg h2, if_neg h1, if_neg h2]

theorem replace_mem_leaf (s1 : Kernel) (leaf N p : Nat) (hN : N + 4096 ≤ 2 ^ 46)
    (h2 : ¬ (N ≤ leaf ∧ leaf < N + 4096)) : (replace_state s1 leaf N p).mem leaf = N + 0x37 := by
  simp only [replace_state, copyMem, storeMem]
  rw [if_neg h2, if_pos trivial]
  omega

/-- A successful replacement keeps the hierarchy well formed. -/
theorem replace_inv (s1 : Kernel) (root n : Nat) (L : EptLayout) (I : EptInv s1 root n L)
    (p : Nat) (T : Nat)
    (hr : L.role T = some (Role.pt (p / 2 ^ 30) (p % 2 ^ 30 / 2 ^ 21)))
    (N : Nat) (hN : s1.pages s1.npages = some N) :
    EptInv (replace_state s1 (pt_slot T p) N p) root n L := by
  have hn := I.n_le
  have aN := I.pool.aligned _ _ hN
  have bN := I.pool.bound _ _ hN
  have tT := I.table_ok _ _ hr
  have hdis : ∀ q r, L.role q = some r → q + 4096 ≤ N ∨ N + 4096 ≤ q :=
    fun q r hq => free_disjoint s1 root n L I _ N (Nat.le_refl _) hN q r hq
  have hleaf : T ≤ pt_slot T p ∧ pt_slot T p < T + 4096 := by
    simp only [pt_slot]
    omega
  have hread : ∀ q r x, L.role q = some r → q ≤ x → x < q + 4096 → x ≠ pt_slot T p →
      (replace_state s1 (pt_slot T p) N p).mem x = s1.mem x := by
    intro q r x hq h1 h2 h3
    have := hdis q r hq
    exact replace_mem_other s1 _ N p x h3 (by omega)
  have hother : ∀ q r, L.role q = some r →
      r ≠ Role.pt (p / 2 ^ 30) (p % 2 ^ 30 / 2 ^ 21) →
      ∀ x, q ≤ x → x < q + 4096 → x ≠ pt_slot T p := by
    intro q r hq hne x h1 h2 e
    have hqT : q ≠ T := role_ne L _ _ _ _ hq hr hne
    have := table_disjoint s1 root n L I _ _ _ _ hq hr hqT
    omega
  refine ⟨hn, I.pool, ?_, I.table_ok, I.role_root, I.role_pdpt, I.role_pd, ?_, ?_, ?_⟩
  · intro j q hj hq
    have hj' : s1.npages + 1 ≤ j := hj
    exact I.fresh j q (by omega) hq
  · have t := I.table_ok _ _ I.role_root
    rw [hread root _ root I.role_root (by omega) (by omega)
      (hother _ _ I.role_root (by intro c; cases c) root (by omega) (by omega))]
    exact I.root_entry
  · intro k hk
    have t := I.table_ok _ _ I.role_pdpt
    rw [hread L.pdpt _ _ I.role_pdpt (by omega) (by omega)
      (hother _ _ I.role_pdpt (by intro c; cases c) _ (by omega) (by omega))]
    exact I.pdpt_entry k hk
  · intro k i hk hi
    have t := I.table_ok _ _ (I.role_pd k hk)
    rw [hread _ _ _ (I.role_pd k hk) (by omega) (by omega)
      (hother _ _ (I.role_pd k hk) (by intro c; cases c) _ (by omega) (by omega))]
    rcases I.pd_entry k i hk hi with hl | ⟨T', h1, h2, h3⟩
    · left
      exact hl
    · right
      refine ⟨T', h1, h2, ?_⟩
      intro j hj
      have tT' := I.table_ok _ _ h2
      by_cases e : T' + 8 * j = pt_slot T p
      · rw [e, replace_mem_leaf s1 _ N p bN (by have := hdis _ _ hr; omega)]
        exact ⟨N, aN, by omega, Or.inr rfl⟩
      · rw [hread T' _ _ h2 (by omega) (by omega) e]
        exact h3 j hj

theorem init_role_pd (s : Kernel) (n k : Nat) (hk : k < n)
    (hinj : ∀ a b, a < n + 3 → b < n + 3 → nthPage s a = nthPage s b → a = b) :
    (init_layout s n).role (nthPage s (1 + k)) = some (Role.pd k) := by
  simp only [init_layout]
  rw [if_neg (fun e => by have := hinj _ _ (by omega) (by omega) e; omega),
    if_neg (fun e => by have := hinj _ _ (by omega) (by omega) e; omega),
    if_neg (fun e => by have := hinj _ _ (by omega) (by omega) e; omega)]
  cases hf : (List.range n).find? (fun k' => decide (nthPage s (1 + k) = nthPage s (1 + k'))) with
  | none =>
    rw [List.find?_eq_none] at hf
    have := hf k (List.mem_range.mpr hk)
    simp at this
  | some k' =>
    have h1 := List.find?_some hf
    have h2 := List.mem_range.mp (List.mem_of_find?_eq_some hf)
    have h3 : nthPage s (1 + k) = nthPage s (1 + k') := by simpa using h1
    have := hinj _ _ (by omega) (by omega) h3
    have e : k' = k := by omega
    rw [e]

theorem init_role_some (s : Kernel) (n x : Nat) (r : Role)
    (h : (init_layout s n).role x = some r) : ∃ j, j < n + 3 ∧ x = nthPage s j := by
  simp only [init_layout] at h
  by_cases h1 : x = nthPage s (n + 2)
  · exact ⟨n + 2, by omega, h1⟩
  · by_cases h2 : x = nthPage s (n + 1)
    · exact ⟨n + 1, by omega, h2⟩
    · by_cases h3 : x = nthPage s 0
      · exact ⟨0, by omega, h3⟩
      · rw [if_neg h1, if_neg h2, if_neg h3] at h
        cases hf : (List.range n).find? (fun k => decide (x = nthPage s (1 + k))) with
        | none =>
          rw [hf] at h
          cases h
        | some k =>
          have h4 := List.find?_some hf
          have h5 := List.mem_range.mp (List.mem_of_find?_eq_some hf)
          exact ⟨1 + k, by omega, by simpa using h4⟩

/-- The table `vt_ept_2M_init` builds is well formed. -/
theorem init_inv (s s' : Kernel) (root n : Nat) (hp : PoolOK s.pages)
    (P : InitPost s s' root n) : EptInv s' root n (init_layout s n) := by
  have hn := P.n_le
  have hn1 := P.n_pos
  have hal := fun j hj => hp.aligned _ _ (P.alloc j hj)
  have hbd := fun j hj => hp.bound _ _ (P.alloc j hj)
  have hinj : ∀ a b, a < n + 3 → b < n + 3 → nthPage s a = nthPage s b → a = b := by
    intro a b ha hb e
    have := hp.inj _ _ _ (P.alloc a ha) (e ▸ P.alloc b hb)
    omega
  have r4 : (init_layout s n).role root = some Role.pml4 := by
    simp only [init_layout]
    rw [if_pos P.root_eq]
  have r3 : (init_layout s n).role (nthPage s (n + 1)) = some Role.pdpt := by
    simp only [init_layout]
    rw [if_neg (fun e => by have := hinj _ _ (by omega) (by omega) e; omega), if_pos trivial]
  have r1 : (init_layout s n).role (nthPage s 0) = some (Role.pt 0 0) := by
    simp only [init_layout]
    rw [if_neg (fun e => by have := hinj _ _ (by omega) (by omega) e; omega),
      if_neg (fun e => by have := hinj _ _ (by omega) (by omega) e; omega), if_pos trivial]
  refine ⟨hn, by rw [P.pages_eq]; exact hp, ?_, ?_, r4, r3,
    fun k hk => init_role_pd s n k hk hinj, P.pml4_0, P.pdpt_lo, ?_⟩
  · intro j q hj hq
    rw [P.pages_eq] at hq
    rw [P.npages_eq] at hj
    cases hr : (init_layout s n).role q with
    | none => rfl
    | some r =>
      obtain ⟨i, hi, e⟩ := init_role_some s n q r hr
      have := hp.inj _ _ _ hq (e ▸ P.alloc i hi)
      omega
  · intro q r hq
    obtain ⟨i, hi, e⟩ := init_role_some s n q r hq
    rw [e]
    exact ⟨hal i hi, hbd i hi⟩
  · intro k i hk hi
    show IsLargeLeaf (s'.mem (nthPage s (1 + k) + 8 * i)) ∨
      ∃ T, s'.mem (nthPage s (1 + k) + 8 * i) = T + 7 ∧
        (init_layout s n).role T = some (Role.pt k i) ∧
        ∀ j, j < 512 → IsSmallLeaf (s'.mem (T + 8 * j))
    by_cases h0 : k = 0 ∧ i = 0
    · obtain ⟨e1, e2⟩ := h0
      subst e1
      subst e2
      right
      refine ⟨nthPage s 0, P.pd_00, r1, ?_⟩
      intro j hj
      rw [P.pt_at j hj, init_pte_eq]
      refine ⟨j * 4096, by omega, by omega, ?_⟩
      split
      · left
        omega
      · right
        omega
    · left
      rw [P.pd_at k i hk hi h0, init_pde_eq]
      refine ⟨(i + k * 512) % 2 ^ 32 * 2 ^ 21 % 2 ^ 32, by omega, by omega, ?_⟩
      split
      · left
        omega
      · right
        omega

/-! ## The hardware walk on a well-formed table -/

theorem large_present (e : Nat) (h : IsLargeLeaf e) : e &&& 7 ≠ 0 := by
  obtain ⟨base, h1, h2, h3⟩ := h
  rw [and_low7]
  rcases h3 with h3 | h3 <;> omega

theorem small_present (e : Nat) (h : IsSmallLeaf e) : e &&& 7 ≠ 0 := by
  obtain ⟨a, h1, h2, h3⟩ := h
  rw [and_low7]
  rcases h3 with h3 | h3 <;> omega

theorem walk_large (s : Kernel) (root n : Nat) (L : EptLayout) (I : EptInv s root n L)
    (a : Nat) (ha : a < n * 2 ^ 30) (hl : IsLargeLeaf (s.mem (pd_slot L a))) :
    ept_walk s root a = some ⟨pd_slot L a, PAGESIZE2M, s.mem (pd_slot L a)⟩ := by
  have hn := I.n_le
  have hk : a / 2 ^ 30 < n := by omega
  have t3 := I.table_ok _ _ I.role_pdpt
  have t2 := I.table_ok _ _ (I.role_pd _ hk)
  simp only [pd_slot] at hl ⊢
  simp only [ept_walk]
  rw [show a / 2 ^ 39 % 512 = 0 by omega, Nat.mul_zero, Nat.add_zero, I.root_entry,
    if_neg (ptr_present _ t3.1), epte_addr_ptr _ t3.1 (by omega),
    show a / 2 ^ 30 % 512 = a / 2 ^ 30 by omega, I.pdpt_entry _ hk,
    if_neg (ptr_present _ t2.1), epte_addr_ptr _ t2.1 (by omega),
    show a / 2 ^ 21 % 512 = a % 2 ^ 30 / 2 ^ 21 by omega,
    if_neg (large_present _ hl), if_pos (large_flag _ hl)]

theorem walk_small (s : Kernel) (root n : Nat) (L : EptLayout) (I : EptInv s root n L)
    (a : Nat) (ha : a < n * 2 ^ 30) (T : Nat) (hT : s.mem (pd_slot L a) = T + 7)
    (hr : L.role T = some (Role.pt (a / 2 ^ 30) (a % 2 ^ 30 / 2 ^ 21)))
    (hs : IsSmallLeaf (s.mem (pt_slot T a))) :
    ept_walk s root a = some ⟨pt_slot T a, PAGESIZE, s.mem (pt_slot T a)⟩ := by
  have hn := I.n_le
  have hk : a / 2 ^ 30 < n := by omega
  have t3 := I.table_ok _ _ I.role_pdpt
  have t2 := I.table_ok _ _ (I.role_pd _ hk)
  have t1 := I.table_ok _ _ hr
  simp only [pd_slot] at hT
  simp only [pt_slot] at hs ⊢
  simp only [ept_walk]
  rw [show a / 2 ^ 39 % 512 = 0 by omega, Nat.mul_zero, Nat.add_zero, I.root_entry,
    if_neg (ptr_present _ t3.1), epte_addr_ptr _ t3.1 (by omega),
    show a / 2 ^ 30 % 512 = a / 2 ^ 30 by omega, I.pdpt_entry _ hk,
    if_neg (ptr_present _ t2.1), epte_addr_ptr _ t2.1 (by omega),
    show a / 2 ^ 21 % 512 = a % 2 ^ 30 / 2 ^ 21 by omega, hT,
    if_neg (ptr_present _ t1.1), if_neg (by rw [ptr_not_large _ t1.1]; simp),
    epte_addr_ptr _ t1.1 (by omega), show a / 2 ^ 12 % 512 = a % 2 ^ 21 / 2 ^ 12 by omega,
    if_neg (small_present _ hs)]

/-! ## Failure of the allocations in `split_2M_mapping` -/

theorem split_no_slab (s : Kernel) (root n : Nat) (L : EptLayout) (I : EptInv s root n L)
    (p : Nat) (hp : p < n * 2 ^ 30) (hal : p % 2 ^ 21 = 0)
    (h : s.mem (pd_slot L p) &&& EPT_2M_PAGE ≠ 0) (hslab : s.slab s.nslab = false) :
    split_2M_mapping s root p = (0, { s with nslab := s.nslab + 1 }) := by
  have hb := pd_slot_bound s root n L I p hp
  unfold split_2M_mapping
  dsimp only
  rw [align_2m, if_neg (by omega), find_pd_entry_inv s root n L I p hp,
    if_neg (va_ne_zero _ hb.2.2), load_va _ _ (by omega), if_neg h]
  simp only [kmalloc, hslab]

theorem split_no_page (s : Kernel) (root n : Nat) (L : EptLayout) (I : EptInv s root n L)
    (p : Nat) (hp : p < n * 2 ^ 30) (hal : p % 2 ^ 21 = 0)
    (h : s.mem (pd_slot L p) &&& EPT_2M_PAGE ≠ 0) (hslab : s.slab s.nslab = true)
    (hN : s.pages s.npages = none) :
    split_2M_mapping s root p
      = (0, { s with nslab := s.nslab + 1, npages := s.npages + 1 }) := by
  have hb := pd_slot_bound s root n L I p hp
  unfold split_2M_mapping
  dsimp only
  rw [align_2m, if_neg (by omega), find_pd_entry_inv s root n L I p hp,
    if_neg (va_ne_zero _ hb.2.2), load_va _ _ (by omega), if_neg h]
  simp only [kmalloc, hslab]
  rw [vt_alloc_page_none { s with nslab := s.nslab + 1 } hN]

/-- Every outcome of `split_2M_mapping` on an aligned address of a well-formed
table: either it returns 0, or it returns 1 and leaves a well-formed table in
which the region is split, the state being unchanged when the region was split
before, and the state `split_state` otherwise. -/
theorem split_cases (s : Kernel) (root n : Nat) (L : EptLayout) (I : EptInv s root n L)
    (p : Nat) (hp : p < n * 2 ^ 30) (hal : p % 2 ^ 21 = 0) :
    (∃ s1, split_2M_mapping s root p = (0, s1)) ∨
    (s.mem (pd_slot L p) &&& EPT_2M_PAGE = 0 ∧ split_2M_mapping s root p = (1, s)) ∨
    (s.mem (pd_slot L p) &&& EPT_2M_PAGE ≠ 0 ∧ s.slab s.nslab = true ∧
      ∃ N, s.pages s.npages = some N ∧
        split_2M_mapping s root p
          = (1, split_state s (pd_slot L p) (s.mem (pd_slot L p) / 2 ^ 21 * 2 ^ 21) N)) := by
  by_cases h : s.mem (pd_slot L p) &&& EPT_2M_PAGE = 0
  · exact Or.inr (Or.inl ⟨h, split_noop s root n L I p hp hal h⟩)
  · cases hslab : s.slab s.nslab with
    | false => exact Or.inl ⟨_, split_no_slab s root n L I p hp hal h hslab⟩
    | true =>
      cases hN : s.pages s.npages with
      | none => exact Or.inl ⟨_, split_no_page s root n L I p hp hal h hslab hN⟩
      | some N => exact Or.inr (Or.inr ⟨h, rfl, N, rfl, split_large s root n L I p hp hal h hslab N hN⟩)

theorem load_pd_entry (s : Kernel) (root n : Nat) (L : EptLayout) (I : EptInv s root n L)
    (p : Nat) (hp : p < n * 2 ^ 30) :
    load s (find_pd_entry s root p) = s.mem (pd_slot L p) := by
  have hb := pd_slot_bound s root n L I p hp
  rw [find_pd_entry_inv s root n L I p hp, load_va _ _ (by omega)]

theorem split_state_slot (s : Kernel) (root n : Nat) (L : EptLayout) (I : EptInv s root n L)
    (p : Nat) (N : Nat) (hN : s.pages s.npages = some N) (base : Nat) :
    (split_state s (pd_slot L p) base N).mem (pd_slot L p) &&& EPT_2M_PAGE = 0 := by
  have aN := I.pool.aligned _ _ hN
  have bN := I.pool.bound _ _ hN
  rw [split_mem_slot s _ _ N bN]
  exact ptr_not_large _ aN

/-! ## The outcomes of `replace_ept_page` -/

theorem split_addr_eq (p : Nat) (hp : p < 2 ^ 64) :
    p &&& lnot64 (PAGESIZE2M - 1) = p / 2 ^ 21 * 2 ^ 21 := mask_2m p hp

theorem pd_slot_region (L : EptLayout) (p : Nat) :
    pd_slot L (p / 2 ^ 21 * 2 ^ 21) = pd_slot L p := by
  simp only [pd_slot]
  rw [show p / 2 ^ 21 * 2 ^ 21 / 2 ^ 30 = p / 2 ^ 30 by omega,
    show p / 2 ^ 21 * 2 ^ 21 % 2 ^ 30 / 2 ^ 21 = p % 2 ^ 30 / 2 ^ 21 by omega]

theorem split_post (s : Kernel) (root n : Nat) (L : EptLayout) (I : EptInv s root n L)
    (p : Nat) (hp : p < n * 2 ^ 30) (s1 : Kernel)
    (h : split_2M_mapping s root (p / 2 ^ 21 * 2 ^ 21) = (1, s1)) :
    ∃ L1 T, SplitPost s s1 root n L L1 p T := by
  have hq : p / 2 ^ 21 * 2 ^ 21 < n * 2 ^ 30 := by omega
  have hqa : (p / 2 ^ 21 * 2 ^ 21) % 2 ^ 21 = 0 := by omega
  have e1 : p / 2 ^ 21 * 2 ^ 21 / 2 ^ 30 = p / 2 ^ 30 := by omega
  have e2 : p / 2 ^ 21 * 2 ^ 21 % 2 ^ 30 / 2 ^ 21 = p % 2 ^ 30 / 2 ^ 21 := by omega
  rcases split_cases s root n L I _ hq hqa with ⟨s', h0⟩ | ⟨h2, h3⟩ | ⟨h2, _, N, hN, h3⟩
  · rw [h0] at h
    cases h
  · rw [h3] at h
    cases h
    rw [pd_slot_region] at h2
    obtain ⟨T, t1, t2, t3⟩ := pd_entry_split s root n L I p hp h2
    exact ⟨L, T, ⟨I, rfl, fun _ _ hx => hx, t1, t2, t3, rfl, Or.inl ⟨rfl, rfl, h2⟩⟩⟩
  · rw [h3] at h
    cases h
    have I1 := split_inv s root n L I _ hq h2 N hN
    rw [pd_slot_region, e1, e2] at I1
    rw [pd_slot_region] at h2 ⊢
    have aN := I.pool.aligned _ _ hN
    have bN := I.pool.bound _ _ hN
    have hfree : L.role N = none := I.fresh _ _ (Nat.le_refl _) hN
    have hs : (split_state s (pd_slot L p) (s.mem (pd_slot L p) / 2 ^ 21 * 2 ^ 21) N).mem
        (pd_slot L p) &&& EPT_2M_PAGE = 0 := split_state_slot s root n L I p N hN _
    obtain ⟨T, t1, t2, t3⟩ := pd_entry_split _ root n _ I1 p hp hs
    have t1' : (split_state s (pd_slot L p) (s.mem (pd_slot L p) / 2 ^ 21 * 2 ^ 21) N).mem
        (pd_slot L p) = T + 7 := t1
    have eT : T = N := by
      rw [split_mem_slot s _ _ N bN] at t1'
      omega
    rw [eT] at t1' t2 t3
    refine ⟨split_layout L N (p / 2 ^ 30) (p % 2 ^ 30 / 2 ^ 21), N,
      ⟨I1, rfl, ?_, t1', t2, t3, rfl, Or.inr ⟨h2, hN, rfl, rfl⟩⟩⟩
    intro x r hx
    simp only [split_layout]
    rw [if_neg (by
      intro e
      rw [e, hfree] at hx
      cases hx)]
    exact hx

/-- The leaf of `p` after the split lies in the PT page `T`, below `2^46`, and
outside every page the allocator can still hand out. -/
theorem leaf_facts (s1 : Kernel) (root n : Nat) (L1 : EptLayout) (I1 : EptInv s1 root n L1)
    (p T : Nat) (r : Role) (hr : L1.role T = some r) :
    T ≤ pt_slot T p ∧ pt_slot T p < T + 4096 ∧ pt_slot T p < 2 ^ 46 ∧
    ∀ N j, s1.npages ≤ j → s1.pages j = some N → ¬ (N ≤ pt_slot T p ∧ pt_slot T p < N + 4096) := by
  have tT := I1.table_ok _ _ hr
  have h1 : T ≤ pt_slot T p ∧ pt_slot T p < T + 4096 := by
    simp only [pt_slot]
    omega
  refine ⟨h1.1, h1.2, by omega, ?_⟩
  intro N j hj hN
  have := free_disjoint s1 root n L1 I1 j N hj hN T r hr
  omega

theorem small_lt (e : Nat) (h : IsSmallLeaf e) : e < 2 ^ 64 ∧ (e / 2 ^ 12 * 2 ^ 12) % 4096 = 0 := by
  obtain ⟨a, h1, h2, h3⟩ := h
  rcases h3 with h3 | h3 <;> omega

/-- Every outcome of the part of `replace_ept_page` after a successful split, on
a well-formed table in which the region of `p` is split with PT `T`: the leaf
is found at `pt_slot T p`; the function returns `NULL` when an allocation fails
or the address recorded in the leaf differs from `p`, leaving the memory outside
the allocated page unchanged, and otherwise returns the new page `N` in the
state `replace_state`. -/
theorem tail_cases (s1 : Kernel) (root n : Nat) (L1 : EptLayout) (I1 : EptInv s1 root n L1)
    (p : Nat) (hp : p < n * 2 ^ 30) (T : Nat) (hT : s1.mem (pd_slot L1 p) = T + 7)
    (hr : L1.role T = some (Role.pt (p / 2 ^ 30) (p % 2 ^ 30 / 2 ^ 21)))
    (hl : ∀ j, j < 512 → IsSmallLeaf (s1.mem (T + 8 * j))) :
    find_pt_entry s1 root p = some (__va (pt_slot T p)) ∧
    ((∃ s', replace_ept_page_tail s1 root p = some (0, s') ∧
        s'.mem (pt_slot T p) = s1.mem (pt_slot T p) ∧
        (s1.slab s1.nslab = false ∨ s1.pages s1.npages = none ∨
          s1.mem (pt_slot T p) / 2 ^ 12 * 2 ^ 12 ≠ p)) ∨
     (∃ N, s1.pages s1.npages = some N ∧ s1.mem (pt_slot T p) / 2 ^ 12 * 2 ^ 12 = p ∧
        replace_ept_page_tail s1 root p = some (__va N, replace_state s1 (pt_slot T p) N p))) := by
  have h0 : IsSmallLeaf (s1.mem T) := by
    have := hl 0 (by omega)
    simpa using this
  have hf := find_pt_entry_inv s1 root n L1 I1 p hp T hT hr h0
  have lf := leaf_facts s1 root n L1 I1 p T _ hr
  have hsm : IsSmallLeaf (s1.mem (pt_slot T p)) := by
    simp only [pt_slot]
    exact hl _ (by omega)
  have hlt := small_lt _ hsm
  refine ⟨hf, ?_⟩
  cases hslab : s1.slab s1.nslab with
  | false =>
    exact Or.inl ⟨_, tail_no_slab s1 root p _ lf.2.2.1 hf hslab, rfl, Or.inl rfl⟩
  | true =>
    cases hN : s1.pages s1.npages with
    | none =>
      exact Or.inl ⟨_, tail_no_page s1 root p _ lf.2.2.1 hf hslab hN, rfl, Or.inr (Or.inl rfl)⟩
    | some N =>
      have hlN := lf.2.2.2 N _ (Nat.le_refl _) hN
      by_cases hm : s1.mem (pt_slot T p) / 2 ^ 12 * 2 ^ 12 = p
      · exact Or.inr ⟨N, rfl, hm,
          tail_ok s1 root p _ N lf.2.2.1 I1.pool hf hslab hN hlN hlt.1 hm⟩
      · refine Or.inl ⟨_, tail_mismatch s1 root p _ N lf.2.2.1 I1.pool hf hslab hN hlN hlt.1 hm,
          ?_, Or.inr (Or.inr hm)⟩
        show zeroMem N s1.mem (pt_slot T p) = s1.mem (pt_slot T p)
        simp only [zeroMem]
        rw [if_neg hlN]

/-- Every outcome of `replace_ept_page` on a well-formed table for an address of
the mapped range: the split returns 0 and so does the function; or the split
returns 1 and the rest behaves as `tail_cases` says. -/
theorem replace_cases (s : Kernel) (root n : Nat) (L : EptLayout) (I : EptInv s root n L)
    (p : Nat) (hp : p < n * 2 ^ 30) :
    (∃ s1, split_2M_mapping s root (p &&& lnot64 (PAGESIZE2M - 1)) = (0, s1) ∧
        replace_ept_page s root p = some (0, s1)) ∨
    (∃ s1 L1 T, split_2M_mapping s root (p &&& lnot64 (PAGESIZE2M - 1)) = (1, s1) ∧
        SplitPost s s1 root n L L1 p T ∧
        replace_ept_page s root p = replace_ept_page_tail s1 root p) := by
  have hn := I.n_le
  rw [split_addr_eq p (by omega)]
  have hq : p / 2 ^ 21 * 2 ^ 21 < n * 2 ^ 30 := by omega
  have hqa : (p / 2 ^ 21 * 2 ^ 21) % 2 ^ 21 = 0 := by omega
  rcases split_cases s root n L I _ hq hqa with ⟨s', h0⟩ | ⟨h2, h3⟩ | ⟨h2, _, N, hN, h3⟩
  · left
    refine ⟨s', h0, ?_⟩
    apply replace_split_fail
    rw [split_addr_eq p (by omega)]
    exact h0
  · right
    obtain ⟨L1, T, SP⟩ := split_post s root n L I p hp s h3
    refine ⟨s, L1, T, h3, SP, ?_⟩
    apply replace_split_ok
    rw [split_addr_eq p (by omega)]
    exact h3
  · right
    obtain ⟨L1, T, SP⟩ := split_post s root n L I p hp _ h3
    refine ⟨_, L1, T, h3, SP, ?_⟩
    apply replace_split_ok
    rw [split_addr_eq p (by omega)]
    exact h3

theorem split_post_pd_val (s s1 : Kernel) (root n : Nat) (L L1 : EptLayout) (p T : Nat)
    (SP : SplitPost s s1 root n L L1 p T) : s1.mem (pd_slot L1 p) = T + 7 := by
  have e : pd_slot L1 p = pd_slot L p := by
    simp only [pd_slot, SP.pd_eq]
  rw [e]
  exact SP.pd_val

/-! ## Permission and cache bits -/

theorem rwx_or : EPT_R ||| EPT_W ||| EPT_X = 7 := rfl

theorem perm_bits (e : Nat) : e &&& (EPT_R ||| EPT_W ||| EPT_X) = e % 8 := and_low7 e

theorem and_or_left (e b c : Nat) : e &&& (b ||| c) = (e &&& b) ||| (e &&& c) := by
  apply Nat.eq_of_testBit_eq
  intro i
  simp only [Nat.testBit_and, Nat.testBit_or, Bool.and_or_distrib_left]

theorem cache_bits_eq (e : Nat) :
    e &&& (EPT_CACHE_2 ||| EPT_CACHE_3) = (e / 2 ^ 4 % 2 * 2 ^ 4) ||| (e / 2 ^ 5 % 2 * 2 ^ 5) := by
  have h1 : EPT_CACHE_2 = 2 ^ 4 := rfl
  have h2 : EPT_CACHE_3 = 2 ^ 5 := rfl
  rw [h1, h2, and_or_left, and_bit, and_bit]

theorem cache_bits_wb (x : Nat) (hx : x % 4096 = 0) :
    (x + 0x37) &&& (EPT_CACHE_2 ||| EPT_CACHE_3) = EPT_CACHE_2 ||| EPT_CACHE_3 := by
  rw [cache_bits_eq, show (x + 0x37) / 2 ^ 4 % 2 = 1 by omega,
    show (x + 0x37) / 2 ^ 5 % 2 = 1 by omega]
  rfl

theorem cache_bits_none (x : Nat) (hx : x % 4096 = 0) :
    (x + 7) &&& (EPT_CACHE_2 ||| EPT_CACHE_3) = 0 := by
  rw [cache_bits_eq, show (x + 7) / 2 ^ 4 % 2 = 0 by omega,
    show (x + 7) / 2 ^ 5 % 2 = 0 by omega]
  rfl

/-- The leaf a split writes for the page of `a`, compared with the large entry
`e0` it replaces. -/
theorem split_leaf_compare (e0 a : Nat)
    (hb : (e0 / 2 ^ 21 * 2 ^ 21) % 2 ^ 21 = 0 ∧ e0 / 2 ^ 21 * 2 ^ 21 + 2 ^ 21 ≤ 2 ^ 64
      ∧ (e0 = e0 / 2 ^ 21 * 2 ^ 21 + 0x87 ∨ e0 = e0 / 2 ^ 21 * 2 ^ 21 + 0xB7))
    (e1 : Nat)
    (he1 : e1 = split_pte ((e0 / 2 ^ 21 * 2 ^ 21 + a % 2 ^ 21 / 2 ^ 12 * PAGESIZE) % 2 ^ 64)
      % 2 ^ 64) :
    (e1 &&& lnot64 (PAGESIZE - 1)) + a % PAGESIZE
        = (e0 &&& lnot64 (PAGESIZE2M - 1)) + a % PAGESIZE2M ∧
    e1 &&& (EPT_R ||| EPT_W ||| EPT_X) = e0 &&& (EPT_R ||| EPT_W ||| EPT_X) ∧
    e0 &&& (EPT_R ||| EPT_W ||| EPT_X) = EPT_R ||| EPT_W ||| EPT_X ∧
    e1 &&& (EPT_CACHE_2 ||| EPT_CACHE_3) =
      (if no_cache_region (((e1 &&& lnot64 (PAGESIZE - 1)) + a % PAGESIZE) / PAGESIZE * PAGESIZE)
          PAGESIZE ≠ 0 then 0
        else EPT_CACHE_2 ||| EPT_CACHE_3) := by
  have eaddr : (e0 / 2 ^ 21 * 2 ^ 21 + a % 2 ^ 21 / 2 ^ 12 * PAGESIZE) % 2 ^ 64
      = e0 / 2 ^ 21 * 2 ^ 21 + a % 2 ^ 21 / 2 ^ 12 * 4096 := by
    simp only [PAGESIZE]
    omega
  rw [eaddr, split_pte_eq _ (by omega)] at he1
  have hlt0 : e0 < 2 ^ 64 := by
    rcases hb.2.2 with h5 | h5 <;> omega
  have hp0 : e0 % 8 = 7 := by
    rcases hb.2.2 with h5 | h5 <;> omega
  generalize haddr : e0 / 2 ^ 21 * 2 ^ 21 + a % 2 ^ 21 / 2 ^ 12 * 4096 = addr at he1
  have hal : addr % 4096 = 0 := by omega
  have hbd : addr + 4096 ≤ 2 ^ 64 := by omega
  rw [mask_2m _ hlt0, perm_bits, perm_bits, rwx_or]
  by_cases hc : no_cache_region addr PAGESIZE ≠ 0
  · rw [if_pos hc, Nat.mod_eq_of_lt (by omega)] at he1
    subst he1
    rw [mask_4k _ (by omega), cache_bits_none _ hal]
    have et : ((addr + 7) / 2 ^ 12 * 2 ^ 12 + a % PAGESIZE) / PAGESIZE * PAGESIZE = addr := by
      simp only [PAGESIZE]
      omega
    rw [et, if_pos hc]
    simp only [PAGESIZE, PAGESIZE2M]
    exact ⟨by omega, by omega, hp0, trivial⟩
  · rw [if_neg hc, Nat.mod_eq_of_lt (by omega)] at he1
    subst he1
    rw [mask_4k _ (by omega), cache_bits_wb _ hal]
    have et : ((addr + 0x37) / 2 ^ 12 * 2 ^ 12 + a % PAGESIZE) / PAGESIZE * PAGESIZE = addr := by
      simp only [PAGESIZE]
      omega
    rw [et, if_neg hc]
    simp only [PAGESIZE, PAGESIZE2M]
    exact ⟨by omega, by omega, hp0, trivial⟩

/-! ## The sample table -/

theorem sample_post :
    InitPost sample_kernel (sample_built GIGABYTE).2 (sample_built GIGABYTE).1 1 := by
  have P := init_post GIGABYTE sample_kernel (by norm_num [GIGABYTE, MAXMEM]) sample_pool _ _
    (sample_built_eq _ (by decide!)) (by decide!)
  have e : (GIGABYTE + (2 ^ 30 - 1)) / 2 ^ 30 = 1 := by norm_num [GIGABYTE]
  rw [e] at P
  exact P

theorem sample_inv :
    EptInv (sample_built GIGABYTE).2 (sample_built GIGABYTE).1 1 (init_layout sample_kernel 1) :=
  init_inv _ _ _ _ sample_pool sample_post

theorem sample_replaced_eq :
    replace_ept_page (sample_built GIGABYTE).2 (sample_built GIGABYTE).1 0x305000
      = some (sample_replaced.1, sample_replaced.2) := by
  unfold sample_replaced
  cases hq : replace_ept_page (sample_built GIGABYTE).2 (sample_built GIGABYTE).1 0x305000 with
  | none =>
    have h : (replace_ept_page (sample_built GIGABYTE).2 (sample_built GIGABYTE).1
        0x305000).isSome = true := by decide!
    rw [hq] at h
    cases h
  | some r => rfl

theorem sample_split_eq :
    split_2M_mapping (sample_built GIGABYTE).2 (sample_built GIGABYTE).1 0x200000
      = (1, (split_2M_mapping (sample_built GIGABYTE).2 (sample_built GIGABYTE).1 0x200000).2) := by
  have h : (split_2M_mapping (sample_built GIGABYTE).2 (sample_built GIGABYTE).1 0x200000).1 = 1 := by
    decide!
  revert h
  generalize split_2M_mapping (sample_built GIGABYTE).2 (sample_built GIGABYTE).1 0x200000 = r
  intro h
  cases r with
  | mk a b =>
    dsimp only at h
    subst h
    rfl

theorem no_cache_region_iff (addr size : Nat) :
    no_cache_region addr size = 1 ↔ (0x9F00 ≤ addr ∧ addr < BIOS_END) ∨ END_PHYSICAL ≤ addr := by
  simp only [no_cache_region, BIOS_END, END_PHYSICAL]
  by_cases h : (addr ≥ 0 ∧ addr < 0x9F00) ∨ (addr ≥ 0x100000 ∧ addr < 0x3FFEFFFFF)
  · rw [if_pos h]
    constructor
    · intro h0
      cases h0
    · intro h1
      omega
  · rw [if_neg h]
    constructor
    · intro _
      omega
    · intro _
      rfl

theorem no_cache_region_01 (addr size : Nat) :
    no_cache_region addr size = 0 ∨ no_cache_region addr size = 1 := by
  simp only [no_cache_region]
  split
  · exact Or.inl rfl
  · exact Or.inr rfl

theorem flags_plain (x : Nat) (hx : x % 4096 = 0) (hb : x + 4096 ≤ 2 ^ 64) :
    (x + 7) &&& (EPT_R ||| EPT_W ||| EPT_X) = EPT_R ||| EPT_W ||| EPT_X
    ∧ (x + 7) &&& (EPT_CACHE_2 ||| EPT_CACHE_3) = 0
    ∧ (x + 7) &&& lnot64 (PAGESIZE - 1) = x := by
  refine ⟨?_, cache_bits_none x hx, ?_⟩
  · rw [perm_bits, rwx_or]
    omega
  · rw [mask_4k _ (by omega)]
    omega

theorem flags_wb (x : Nat) (hx : x % 4096 = 0) (hb : x + 4096 ≤ 2 ^ 64) :
    (x + 0x37) &&& (EPT_R ||| EPT_W ||| EPT_X) = EPT_R ||| EPT_W ||| EPT_X
    ∧ (x + 0x37) &&& (EPT_CACHE_2 ||| EPT_CACHE_3) = EPT_CACHE_2 ||| EPT_CACHE_3
    ∧ (x + 0x37) &&& lnot64 (PAGESIZE - 1) = x := by
  refine ⟨?_, cache_bits_wb x hx, ?_⟩
  · rw [perm_bits, rwx_or]
    omega
  · rw [mask_4k _ (by omega)]
    omega

theorem flags_large (x : Nat) (hx : x % 2 ^ 21 = 0) (hb : x + 2 ^ 21 ≤ 2 ^ 64) :
    (x + 0x87) &&& (EPT_R ||| EPT_W ||| EPT_X) = EPT_R ||| EPT_W ||| EPT_X
    ∧ (x + 0x87) &&& (EPT_CACHE_2 ||| EPT_CACHE_3) = 0
    ∧ (x + 0x87) &&& lnot64 (PAGESIZE2M - 1) = x := by
  refine ⟨?_, ?_, ?_⟩
  · rw [perm_bits, rwx_or]
    omega
  · rw [cache_bits_eq]
    have h1 : (x + 0x87) / 2 ^ 4 % 2 = 0 := by omega
    have h2 : (x + 0x87) / 2 ^ 5 % 2 = 0 := by omega
    rw [h1, h2]
    rfl
  · rw [mask_2m _ (by omega)]
    omega

theorem flags_large_wb (x : Nat) (hx : x % 2 ^ 21 = 0) (hb : x + 2 ^ 21 ≤ 2 ^ 64) :
    (x + 0xB7) &&& (EPT_R ||| EPT_W ||| EPT_X) = EPT_R ||| EPT_W ||| EPT_X
    ∧ (x + 0xB7) &&& (EPT_CACHE_2 ||| EPT_CACHE_3) = EPT_CACHE_2 ||| EPT_CACHE_3
    ∧ (x + 0xB7) &&& lnot64 (PAGESIZE2M - 1) = x := by
  refine ⟨?_, ?_, ?_⟩
  · rw [perm_bits, rwx_or]
    omega
  · rw [cache_bits_eq]
    have h1 : (x + 0xB7) / 2 ^ 4 % 2 = 1 := by omega
    have h2 : (x + 0xB7) / 2 ^ 5 % 2 = 1 := by omega
    rw [h1, h2]
    rfl
  · rw [mask_2m _ (by omega)]
    omega

/-- The flags of a 4K leaf entry `x + 7` or `x + 0x37`, chosen by
`no_cache_region` on `x`. -/
theorem small_leaf_flags (x size : Nat) (hx : x % 4096 = 0) (hb : x + 4096 ≤ 2 ^ 64) (e : Nat)
    (he : e = x + (if no_cache_region x size ≠ 0 then 7 else 0x37)) :
    e &&& (EPT_R ||| EPT_W ||| EPT_X) = EPT_R ||| EPT_W ||| EPT_X ∧
    (e &&& (EPT_CACHE_2 ||| EPT_CACHE_3) = EPT_CACHE_2 ||| EPT_CACHE_3
      ↔ no_cache_region (e &&& lnot64 (PAGESIZE - 1)) PAGESIZE = 0) ∧
    (e &&& (EPT_CACHE_2 ||| EPT_CACHE_3) = 0
      ↔ no_cache_region (e &&& lnot64 (PAGESIZE - 1)) PAGESIZE = 1) := by
  have hsz : ∀ y, no_cache_region y PAGESIZE = no_cache_region y size := fun _ => rfl
  have hwb : EPT_CACHE_2 ||| EPT_CACHE_3 ≠ 0 := by decide
  by_cases hc : no_cache_region x size ≠ 0
  · rw [if_pos hc] at he
    obtain ⟨h1, h2, h3⟩ := flags_plain x hx hb
    rw [he, h1, h2, h3, hsz]
    have h01 := no_cache_region_01 x size
    refine ⟨rfl, ?_, ?_⟩
    · constructor
      · intro h
        exact absurd h.symm hwb
      · intro h
        exact absurd h hc
    · constructor
      · intro _
        rcases h01 with h | h
        · exact absurd h hc
        · exact h
      · intro _
        rfl
  · rw [if_neg hc] at he
    have hc0 : no_cache_region x size = 0 := by
      by_contra h
      exact hc h
    obtain ⟨h1, h2, h3⟩ := flags_wb x hx hb
    rw [he, h1, h2, h3, hsz, hc0]
    refine ⟨rfl, ?_, ?_⟩
    · constructor
      · intro _
        rfl
      · intro _
        rfl
    · constructor
      · intro h
        exact absurd h hwb
      · intro h
        cases h

/-- The flags of a large page entry `x + 0x87` or `x + 0xB7`, chosen by
`no_cache_region` on `x`. -/
theorem large_leaf_flags (x size : Nat) (hx : x % 2 ^ 21 = 0) (hb : x + 2 ^ 21 ≤ 2 ^ 64) (e : Nat)
    (he : e = x + (if no_cache_region x size ≠ 0 then 0x87 else 0xB7)) :
    e &&& (EPT_R ||| EPT_W ||| EPT_X) = EPT_R ||| EPT_W ||| EPT_X ∧
    (e &&& (EPT_CACHE_2 ||| EPT_CACHE_3) = EPT_CACHE_2 ||| EPT_CACHE_3
      ↔ no_cache_region (e &&& lnot64 (PAGESIZE2M - 1)) PAGESIZE2M = 0) ∧
    (e &&& (EPT_CACHE_2 ||| EPT_CACHE_3) = 0
      ↔ no_cache_region (e &&& lnot64 (PAGESIZE2M - 1)) PAGESIZE2M = 1) := by
  have hsz : ∀ y, no_cache_region y PAGESIZE2M = no_cache_region y size := fun _ => rfl
  have hwb : EPT_CACHE_2 ||| EPT_CACHE_3 ≠ 0 := by decide
  by_cases hc : no_cache_region x size ≠ 0
  · rw [if_pos hc] at he
    obtain ⟨h1, h2, h3⟩ := flags_large x hx hb
    rw [he, h1, h2, h3, hsz]
    have h01 := no_cache_region_01 x size
    refine ⟨rfl, ?_, ?_⟩
    · constructor
      · intro h
        exact absurd h.symm hwb
      · intro h
        exact absurd h hc
    · constructor
      · intro _
        rcases h01 with h | h
        · exact absurd h hc
        · exact h
      · intro _
        rfl
  · rw [if_neg hc] at he
    have hc0 : no_cache_region x size = 0 := by
      by_contra h
      exact hc h
    obtain ⟨h1, h2, h3⟩ := flags_large_wb x hx hb
    rw [he, h1, h2, h3, hsz, hc0]
    refine ⟨rfl, ?_, ?_⟩
    · constructor
      · intro _
        rfl
      · intro _
        rfl
    · constructor
      · intro h
        exact absurd h hwb
      · intro h
        cases h

/-- The leaf the walk reaches after `split_2M_mapping` has split a large
region: entry `j` of the new PT, written as `split_pte` of the 4K page `j` of
the region's recorded target. -/
theorem split_walk (s : Kernel) (root n : Nat) (L : EptLayout)
    (I : EptInv s root n L) (p : Nat) (hp : p < n * 2 ^ 30) (hal : p % 2 ^ 21 = 0)
    (hlarge : s.mem (pd_slot L p) &&& EPT_2M_PAGE ≠ 0)
    (s1 : Kernel) (h : split_2M_mapping s root p = (1, s1))
    (a : Nat) (ha1 : p ≤ a) (ha2 : a < p + 2 ^ 21) :
    ∃ N base, base % 2 ^ 21 = 0 ∧ base + 2 ^ 21 ≤ 2 ^ 64 ∧
      ept_walk s1 root a = some ⟨pt_slot N a, PAGESIZE,
        split_pte ((base + a % 2 ^ 21 / 2 ^ 12 * PAGESIZE) % 2 ^ 64) % 2 ^ 64⟩ := by
  have hn := I.n_le
  have haN : a < n * 2 ^ 30 := by omega
  have e1 : a / 2 ^ 30 = p / 2 ^ 30 := by omega
  have e2 : a % 2 ^ 30 / 2 ^ 21 = p % 2 ^ 30 / 2 ^ 21 := by omega
  have es : pd_slot L a = pd_slot L p := by
    simp only [pd_slot, e1, e2]
  rcases split_cases s root n L I p hp hal with ⟨s', h0⟩ | ⟨h2, _⟩ | ⟨_, _, N, hN, h3⟩
  · rw [h0] at h
    cases h
  · exact absurd h2 hlarge
  · rw [h3] at h
    simp only [Prod.mk.injEq, true_and] at h
    subst h
    have hl := pd_entry_large s root n L I p hp hlarge
    have hb := large_base _ hl
    have I1 := split_inv s root n L I p hp hlarge N hN
    have bN := I.pool.bound _ _ hN
    have hslotN : ¬ (N ≤ pd_slot L p ∧ pd_slot L p < N + 4096) := by
      have hk : p / 2 ^ 30 < n := by omega
      have := free_disjoint s root n L I _ N (Nat.le_refl _) hN _ _ (I.role_pd _ hk)
      have := pd_slot_bound s root n L I p hp
      omega
    have hj : a % 2 ^ 21 / 2 ^ 12 < 512 := by omega
    have hentry := split_mem_pt s (pd_slot L p) (s.mem (pd_slot L p) / 2 ^ 21 * 2 ^ 21) N
      (a % 2 ^ 21 / 2 ^ 12) hj hslotN
    have hrole : (split_layout L N (p / 2 ^ 30) (p % 2 ^ 30 / 2 ^ 21)).role N
        = some (Role.pt (a / 2 ^ 30) (a % 2 ^ 30 / 2 ^ 21)) := by
      simp only [split_layout]
      rw [if_pos trivial, e1, e2]
    have hslot1 : (split_state s (pd_slot L p) (s.mem (pd_slot L p) / 2 ^ 21 * 2 ^ 21) N).mem
        (pd_slot (split_layout L N (p / 2 ^ 30) (p % 2 ^ 30 / 2 ^ 21)) a) = N + 7 := by
      have e : pd_slot (split_layout L N (p / 2 ^ 30) (p % 2 ^ 30 / 2 ^ 21)) a = pd_slot L p := es
      rw [e]
      exact split_mem_slot s _ _ N bN
    have hsmall : IsSmallLeaf ((split_state s (pd_slot L p)
        (s.mem (pd_slot L p) / 2 ^ 21 * 2 ^ 21) N).mem (pt_slot N a)) := by
      simp only [pt_slot]
      rw [split_mem_pt s _ _ N _ hj hslotN]
      exact split_pte_small _ _ hb.1 hb.2.1 hj
    have hw1 := walk_small _ root n _ I1 a haN N hslot1 hrole hsmall
    refine ⟨N, s.mem (pd_slot L p) / 2 ^ 21 * 2 ^ 21, hb.1, hb.2.1, ?_⟩
    rw [hw1]
    have e : (split_state s (pd_slot L p) (s.mem (pd_slot L p) / 2 ^ 21 * 2 ^ 21) N).mem
        (pt_slot N a) = split_pte ((s.mem (pd_slot L p) / 2 ^ 21 * 2 ^ 21
          + a % 2 ^ 21 / 2 ^ 12 * PAGESIZE) % 2 ^ 64) % 2 ^ 64 := hentry
    rw [e]

/-- The value of a PT entry written by `split_2M_mapping`. -/
theorem split_pte_val (base j : Nat) (h1 : base % 2 ^ 21 = 0) (h2 : base + 2 ^ 21 ≤ 2 ^ 64)
    (hj : j < 512) :
    (base + j * PAGESIZE) % 4096 = 0 ∧ base + j * PAGESIZE + 4096 ≤ 2 ^ 64 ∧
    split_pte ((base + j * PAGESIZE) % 2 ^ 64) % 2 ^ 64
      = base + j * PAGESIZE
        + (if no_cache_region (base + j * PAGESIZE) PAGESIZE ≠ 0 then 7 else 0x37) := by
  have h4K : PAGESIZE = 4096 := rfl
  rw [h4K]
  have ha : (base + j * 4096) % 4096 = 0 := by omega
  have hb : base + j * 4096 + 4096 ≤ 2 ^ 64 := by omega
  refine ⟨ha, hb, ?_⟩
  rw [Nat.mod_eq_of_lt (show base + j * 4096 < 2 ^ 64 by omega), split_pte_eq _ ha]
  apply Nat.mod_eq_of_lt
  split <;> omega


/-! ## Allocator calls of `vt_ept_2M_init` -/

theorem forLoop_npages (n : Nat) (body : Nat → Kernel → Kernel) (s : Kernel)
    (h : ∀ i t, (body i t).npages = t.npages) : (forLoop n body s).npages = s.npages := by
  induction n with
  | zero => rfl
  | succ n ih =>
    rw [forLoop_succ, h, ih]

theorem forLoop_pages (n : Nat) (body : Nat → Kernel → Kernel) (s : Kernel)
    (h : ∀ i t, (body i t).pages = t.pages) : (forLoop n body s).pages = s.pages := by
  induction n with
  | zero => rfl
  | succ n ih =>
    rw [forLoop_succ, h, ih]

theorem memset0_npages (t : Kernel) (v k : Nat) : (memset0 t v k).npages = t.npages := by
  unfold memset0
  rfl

theorem fill_npages (n : Nat) (q : Nat → Nat) (f : Nat → Nat) (s : Kernel) :
    (forLoop n (fun i t => store t (q i) (f i)) s).npages = s.npages :=
  forLoop_npages n _ s (fun _ _ => rfl)

theorem fill_pages (n : Nat) (q : Nat → Nat) (f : Nat → Nat) (s : Kernel) :
    (forLoop n (fun i t => store t (q i) (f i)) s).pages = s.pages :=
  forLoop_pages n _ s (fun _ _ => rfl)

theorem fill2_npages (n m : Nat) (q : Nat → Nat → Nat) (f : Nat → Nat → Nat) (s : Kernel) :
    (forLoop n (fun k t => forLoop m (fun i u => store u (q k i) (f k i)) t) s).npages
      = s.npages :=
  forLoop_npages n _ s (fun k t => fill_npages m (q k) (f k) t)

theorem fill2_pages (n m : Nat) (q : Nat → Nat → Nat) (f : Nat → Nat → Nat) (s : Kernel) :
    (forLoop n (fun k t => forLoop m (fun i u => store u (q k i) (f k i)) t) s).pages
      = s.pages :=
  forLoop_pages n _ s (fun k t => fill_pages m (q k) (f k) t)

theorem vt_alloc_page_npages (s : Kernel) : (vt_alloc_page s).2.npages = s.npages + 1 := by
  unfold vt_alloc_page
  dsimp only
  split
  · rfl
  · split <;> rfl

theorem alloc_tables_npages (ok : Bool) (n : Nat) (tab : Nat → pt_page) (s : Kernel) :
    (∀ r, alloc_tables ok n tab s = Except.ok r → r.2.npages = s.npages + n) ∧
    (∀ s1, alloc_tables ok n tab s = Except.error (some s1) → s.npages + 1 ≤ s1.npages) := by
  induction n with
  | zero =>
    constructor
    · intro r h
      have e : alloc_tables ok 0 tab s = Except.ok (tab, s) := rfl
      rw [e] at h
      cases h
      rfl
    · intro s1 h
      have e : alloc_tables ok 0 tab s = Except.ok (tab, s) := rfl
      rw [e] at h
      cases h
  | succ n ih =>
    rw [alloc_tables_succ]
    cases hq : alloc_tables ok n tab s with
    | error e =>
      dsimp only
      constructor
      · intro r h
        cases h
      · intro s1 h
        cases h
        exact ih.2 s1 hq
    | ok st =>
      dsimp only
      have hst := ih.1 st hq
      have hv := vt_alloc_page_npages st.2
      cases hw : vt_alloc_page st.2 with
      | mk o s2 =>
        rw [hw] at hv
        dsimp only at hv
        cases o with
        | none =>
          dsimp only
          constructor
          · intro r h
            cases h
          · intro s1 h
            cases h
            omega
        | some pg =>
          dsimp only
          cases ok with
          | true =>
            rw [if_pos rfl]
            constructor
            · intro r h
              simp only [Except.ok.injEq] at h
              rw [← h]
              have e := memset0_npages
              dsimp only
              rw [e]
              omega
            · intro s1 h
              cases h
          | false =>
            rw [if_neg Bool.false_ne_true]
            constructor
            · intro r h
              cases h
            · intro s1 h
              cases h

theorem alloc_failed_npages (e : Option Kernel) (root : Nat) (s' : Kernel) (k : Nat)
    (he : ∀ s1, e = some s1 → k ≤ s1.npages)
    (h : alloc_failed e = some (root, s')) : k ≤ s'.npages := by
  cases e with
  | none => cases h
  | some s1 =>
    simp only [alloc_failed, Option.some.injEq, Prod.mk.injEq] at h
    rw [← h.2]
    exact he s1 rfl

theorem init_pml4_npages (n : Nat) (pdpt : Nat → pt_page) (s : Kernel) (root : Nat)
    (s' : Kernel) (h : init_pml4 n pdpt s = some (root, s')) : s.npages ≤ s'.npages := by
  rw [init_pml4] at h
  have hv := vt_alloc_page_npages s
  cases hw : vt_alloc_page s with
  | mk o s1 =>
    rw [hw] at h hv
    dsimp only at hv
    cases o with
    | none =>
      simp only [Option.some.injEq, Prod.mk.injEq] at h
      rw [← h.2]
      omega
    | some pg =>
      simp only [Option.some.injEq, Prod.mk.injEq] at h
      rw [← h.2, fill_npages n (fun i => elem_ptr pg.virt (i : Int))
        (fun i => (pdpt i).phys + EPT_R + EPT_W + EPT_X)]
      have e := memset0_npages
      rw [e]
      omega

theorem init_pdpt_npages (n_pdpt n_pd : Nat) (ok : Bool) (pd : Nat → pt_page) (s : Kernel)
    (root : Nat) (s' : Kernel) (h : init_pdpt n_pdpt n_pd ok pd s = some (root, s')) :
    s.npages ≤ s'.npages := by
  rw [init_pdpt] at h
  have ha := alloc_tables_npages ok n_pdpt (fun _ => ⟨0, 0⟩) s
  cases hq : alloc_tables ok n_pdpt (fun _ => ⟨0, 0⟩) s with
  | error e =>
    rw [hq] at h
    dsimp only at h
    refine alloc_failed_npages e root s' _ (fun s1 he => ?_) h
    have := ha.2 s1 (by rw [hq, he])
    omega
  | ok r =>
    rw [hq] at h
    dsimp only at h
    have h1 := init_pml4_npages _ _ _ _ _ h
    rw [fill2_npages n_pdpt n_pd (fun k i => elem_ptr (r.1 k).virt (i : Int))
      (fun _ i => (pd i).phys + EPT_R + EPT_W + EPT_X)] at h1
    have := ha.1 r hq
    omega

theorem init_pd_npages (n_entries n_pdpt n_pd : Nat) (ok3 ok : Bool) (pt : Nat → pt_page)
    (s : Kernel) (root : Nat) (s' : Kernel)
    (h : init_pd n_entries n_pdpt n_pd ok3 ok pt s = some (root, s')) :
    s.npages ≤ s'.npages := by
  rw [init_pd] at h
  have ha := alloc_tables_npages ok n_pd (fun _ => ⟨0, 0⟩) s
  cases hq : alloc_tables ok n_pd (fun _ => ⟨0, 0⟩) s with
  | error e =>
    rw [hq] at h
    dsimp only at h
    refine alloc_failed_npages e root s' _ (fun s1 he => ?_) h
    have := ha.2 s1 (by rw [hq, he])
    omega
  | ok r =>
    rw [hq] at h
    dsimp only at h
    by_cases h0 : n_pd = 0
    · rw [if_pos h0] at h
      cases h
    · rw [if_neg h0] at h
      have h1 := init_pdpt_npages _ _ _ _ _ _ _ h
      have e : ∀ (t : Kernel) (p v : Nat), (store t p v).npages = t.npages := fun _ _ _ => rfl
      rw [e, fill2_npages n_pd n_entries (fun k i => elem_ptr (r.1 k).virt (i : Int))
        (fun k i => init_pde n_entries k i)] at h1
      have := ha.1 r hq
      omega

theorem init_pt_npages (n_entries n_pdpt n_pd : Nat) (ok3 ok2 ok : Bool)
    (s : Kernel) (root : Nat) (s' : Kernel)
    (h : init_pt n_entries n_pdpt n_pd 1 ok3 ok2 ok s = some (root, s')) :
    s.npages + 1 ≤ s'.npages := by
  rw [init_pt] at h
  have ha := alloc_tables_npages ok 1 (fun _ => ⟨0, 0⟩) s
  cases hq : alloc_tables ok 1 (fun _ => ⟨0, 0⟩) s with
  | error e =>
    rw [hq] at h
    dsimp only at h
    exact alloc_failed_npages e root s' _ (fun s1 he => ha.2 s1 (by rw [hq, he])) h
  | ok r =>
    rw [hq] at h
    dsimp only at h
    have h1 := init_pd_npages _ _ _ _ _ _ _ _ _ h
    rw [fill_npages n_entries (fun i => elem_ptr (r.1 0).virt (i : Int)) init_pte] at h1
    have := ha.1 r hq
    omega

/-- Within the limit, every return of `vt_ept_2M_init` comes after a call of
the page allocator. -/
theorem init_npages (E : Nat) (s : Kernel)
    (hlim : ¬ rounded_mappingsize E >>> GIGABYTE_SHIFT > PML4E_MAP_LIMIT)
    (root : Nat) (s' : Kernel) (h : vt_ept_2M_init E s = some (root, s')) :
    s.npages + 1 ≤ s'.npages := by
  rw [vt_ept_2M_init, if_neg hlim] at h
  have e : ∀ (t : Kernel), (kmalloc t).2.npages = t.npages := fun _ => rfl
  have := init_pt_npages _ _ _ _ _ _ _ _ _ h
  rw [e, e, e] at this
  exact this

/-! ## Success of `vt_ept_2M_init` -/

theorem init_pml4_ok (n : Nat) (pdpt : Nat → pt_page) (s : Kernel) (hp : PoolOK s.pages)
    (p : Nat) (h : s.pages s.npages = some p) :
    ∃ s', init_pml4 n pdpt s = some (p, s') := by
  rw [init_pml4, vt_alloc_page_some s p hp h]
  exact ⟨_, rfl⟩

theorem init_pdpt_ok (n_pd : Nat) (pd : Nat → pt_page) (s : Kernel) (hp : PoolOK s.pages)
    (h : ∀ j, j < 2 → ∃ p, s.pages (s.npages + j) = some p) :
    ∃ root s', init_pdpt 1 n_pd true pd s = some (root, s') ∧ root ≠ 0 := by
  rw [init_pdpt, alloc_tables_ok 1 _ s hp (fun j hj => h j (by omega))]
  dsimp only
  obtain ⟨p, hp1⟩ := h 1 (by omega)
  obtain ⟨s', hs'⟩ := init_pml4_ok 1
    (fun j => if j < 1 then (⟨__va (nthPage s j), nthPage s j⟩ : pt_page) else ⟨0, 0⟩)
    (forLoop 1 (fun k t =>
      forLoop n_pd (fun i u =>
        store u (elem_ptr
          (if k < 1 then (⟨__va (nthPage s k), nthPage s k⟩ : pt_page) else ⟨0, 0⟩).virt i)
          ((pd i).phys + EPT_R + EPT_W + EPT_X)) t)
      { s with npages := s.npages + 1, mem := zeroPages (nthPage s) 1 s.mem })
    (by rw [fill2_pages 1 n_pd
          (fun k i => elem_ptr
            (if k < 1 then (⟨__va (nthPage s k), nthPage s k⟩ : pt_page) else ⟨0, 0⟩).virt
            (i : Int))
          (fun _ i => (pd i).phys + EPT_R + EPT_W + EPT_X)]
        exact hp)
    p
    (by rw [fill2_pages 1 n_pd
          (fun k i => elem_ptr
            (if k < 1 then (⟨__va (nthPage s k), nthPage s k⟩ : pt_page) else ⟨0, 0⟩).virt
            (i : Int))
          (fun _ i => (pd i).phys + EPT_R + EPT_W + EPT_X),
          fill2_npages 1 n_pd
          (fun k i => elem_ptr
            (if k < 1 then (⟨__va (nthPage s k), nthPage s k⟩ : pt_page) else ⟨0, 0⟩).virt
            (i : Int))
          (fun _ i => (pd i).phys + EPT_R + EPT_W + EPT_X)]
        exact hp1)
  exact ⟨p, s', hs', hp.nonzero _ _ hp1⟩

theorem init_pd_ok (n_entries n_pd : Nat) (pt : Nat → pt_page) (s : Kernel)
    (hp : PoolOK s.pages) (hn : 1 ≤ n_pd)
    (h : ∀ j, j < n_pd + 2 → ∃ p, s.pages (s.npages + j) = some p) :
    ∃ root s', init_pd n_entries 1 n_pd true true pt s = some (root, s') ∧ root ≠ 0 := by
  rw [init_pd, alloc_tables_ok n_pd _ s hp (fun j hj => h j (by omega))]
  dsimp only
  rw [if_neg (show ¬ n_pd = 0 by omega)]
  have e : ∀ (t : Kernel) (p v : Nat), (store t p v).pages = t.pages := fun _ _ _ => rfl
  have e2 : ∀ (t : Kernel) (p v : Nat), (store t p v).npages = t.npages := fun _ _ _ => rfl
  have f1 := fun (tab : Nat → pt_page) (t : Kernel) =>
    fill2_pages n_pd n_entries (fun k i => elem_ptr (tab k).virt (i : Int))
      (fun k i => init_pde n_entries k i) t
  have f2 := fun (tab : Nat → pt_page) (t : Kernel) =>
    fill2_npages n_pd n_entries (fun k i => elem_ptr (tab k).virt (i : Int))
      (fun k i => init_pde n_entries k i) t
  apply init_pdpt_ok
  · rw [e, f1]
    exact hp
  · intro j hj
    rw [e, e2, f1, f2]
    obtain ⟨p, hpj⟩ := h (n_pd + j) (by omega)
    exact ⟨p, by rw [← hpj, Nat.add_assoc]⟩

theorem init_pt_ok (n_entries n_pd : Nat) (s : Kernel)
    (hp : PoolOK s.pages) (hn : 1 ≤ n_pd)
    (h : ∀ j, j < n_pd + 3 → ∃ p, s.pages (s.npages + j) = some p) :
    ∃ root s', init_pt n_entries 1 n_pd 1 true true true s = some (root, s') ∧ root ≠ 0 := by
  rw [init_pt, alloc_tables_ok 1 _ s hp (fun j hj => h j (by omega))]
  dsimp only
  have f1 := fun (v : Nat) (t : Kernel) =>
    fill_pages n_entries (fun i => elem_ptr v (i : Int)) init_pte t
  have f2 := fun (v : Nat) (t : Kernel) =>
    fill_npages n_entries (fun i => elem_ptr v (i : Int)) init_pte t
  apply init_pd_ok _ _ _ _ _ hn
  · intro j hj
    rw [f1, f2]
    obtain ⟨p, hpj⟩ := h (1 + j) (by omega)
    exact ⟨p, by rw [← hpj, Nat.add_assoc]⟩
  · rw [f1]
    exact hp

/-- With a sound allocator that has a page for each of the `n + 3` tables and a
slab that serves the three descriptor arrays, `vt_ept_2M_init` returns a
non-null root for every extent of `1 ≤ n ≤ 512` gigabytes. -/
theorem init_ok (E : Nat) (s : Kernel) (hE : E ≤ MAXMEM) (hp : PoolOK s.pages)
    (hn1 : 1 ≤ (E + (2 ^ 30 - 1)) / 2 ^ 30) (hn : (E + (2 ^ 30 - 1)) / 2 ^ 30 ≤ 512)
    (h : ∀ j, j < (E + (2 ^ 30 - 1)) / 2 ^ 30 + 3 → ∃ p, s.pages (s.npages + j) = some p)
    (hs : ∀ j, j < 3 → s.slab (s.nslab + j) = true) :
    ∃ root s', vt_ept_2M_init E s = some (root, s') ∧ root ≠ 0 := by
  rw [vt_ept_2M_init, round_eq E hE]
  generalize (E + (2 ^ 30 - 1)) / 2 ^ 30 = n at hn1 hn h
  rw [if_neg (show ¬ n > PML4E_MAP_LIMIT by simp only [PML4E_MAP_LIMIT]; omega),
    Nat.mod_eq_of_lt (show n < 2 ^ 32 by omega)]
  have k0 : (kmalloc s).1 = true := hs 0 (by omega)
  have k1 : (kmalloc (kmalloc s).2).1 = true := hs 1 (by omega)
  have k2 : (kmalloc (kmalloc (kmalloc s).2).2).1 = true := hs 2 (by omega)
  rw [k0, k1, k2]
  exact init_pt_ok _ n _ hp hn1 h

theorem sample_pages (j : Nat) (hj : j < 4096) :
    ∃ p, sample_kernel.pages (sample_kernel.npages + j) = some p := by
  refine ⟨0x10000000 + 4096 * (0 + j), ?_⟩
  show (if 0 + j < 4096 then some (0x10000000 + 4096 * (0 + j)) else none) = _
  rw [if_pos (by omega)]


/-! ## The identity-tag pool -/

theorem upd_same {α : Type} (f : Nat → α) (k : Nat) (v : α) : upd f k v k = v := by
  show (if k = k then v else f k) = v
  rw [if_pos rfl]

theorem upd_other {α : Type} (f : Nat → α) (k : Nat) (v : α) (x : Nat) (h : x ≠ k) :
    upd f k v x = f x := by
  show (if x = k then v else f x) = f x
  rw [if_neg h]

theorem upd_upd {α : Type} (f : Nat → α) (k : Nat) (a b : α) :
    upd (upd f k a) k b = upd f k b := by
  funext x
  by_cases hx : x = k
  · rw [hx, upd_same, upd_same]
  · rw [upd_other _ _ _ _ hx, upd_other _ _ _ _ hx, upd_other _ _ _ _ hx]

theorem find_zero_from_spec (bm : Nat → Bool) (size fuel i : Nat) (h : size ≤ i + fuel) :
    (find_zero_from bm size fuel i = size ∧ ∀ j, i ≤ j → j < size → bm j = true) ∨
    (i ≤ find_zero_from bm size fuel i ∧ find_zero_from bm size fuel i < size ∧
      bm (find_zero_from bm size fuel i) = false ∧
      ∀ j, i ≤ j → j < find_zero_from bm size fuel i → bm j = true) := by
  induction fuel generalizing i with
  | zero =>
    left
    exact ⟨rfl, fun j h1 h2 => by omega⟩
  | succ fuel ih =>
    rw [find_zero_from]
    by_cases h1 : size ≤ i
    · rw [if_pos h1]
      left
      exact ⟨rfl, fun j h2 h3 => by omega⟩
    · rw [if_neg h1]
      by_cases h2 : bm i = false
      · rw [if_pos h2]
        right
        exact ⟨Nat.le_refl _, by omega, h2, fun j h3 h4 => by omega⟩
      · rw [if_neg h2]
        have hi : bm i = true := by
          cases hb : bm i with
          | true => rfl
          | false => exact absurd hb h2
        rcases ih (i + 1) (by omega) with ⟨e, ha⟩ | ⟨e1, e2, e3, e4⟩
        · left
          refine ⟨e, fun j h3 h4 => ?_⟩
          by_cases hj : j = i
          · rw [hj]
            exact hi
          · exact ha j (by omega) h4
        · right
          refine ⟨by omega, e2, e3, fun j h3 h4 => ?_⟩
          by_cases hj : j = i
          · rw [hj]
            exact hi
          · exact e4 j (by omega) h4

/-- The result of `find_first_zero_bit`: the least clear bit below `size`, or
`size` when there is none. -/
theorem find_first_zero_bit_spec (bm : Nat → Bool) (size : Nat) :
    (find_first_zero_bit bm size = size ∧ ∀ j, j < size → bm j = true) ∨
    (find_first_zero_bit bm size < size ∧ bm (find_first_zero_bit bm size) = false ∧
      ∀ j, j < find_first_zero_bit bm size → bm j = true) := by
  unfold find_first_zero_bit
  rcases find_zero_from_spec bm size size 0 (by omega) with ⟨e, ha⟩ | ⟨_, e2, e3, e4⟩
  · left
    exact ⟨e, fun j hj => ha j (Nat.zero_le _) hj⟩
  · right
    exact ⟨e2, e3, fun j hj => e4 j (Nat.zero_le _) hj⟩

theorem allocate_fail (m : Machine) (vmx : Nat)
    (h : ¬ find_first_zero_bit m.vmx_vpid_bitmap VMX_NR_VPIDS < VMX_NR_VPIDS) :
    vmx_allocate_vpid m vmx = (1, set_vcpu m vmx { m.vcpus vmx with vpid := 0 }) := by
  unfold vmx_allocate_vpid
  dsimp only
  have e : (set_vcpu m vmx { m.vcpus vmx with vpid := 0 }).vmx_vpid_bitmap
      = m.vmx_vpid_bitmap := rfl
  rw [e, if_neg h]

theorem allocate_ok (m : Machine) (vmx : Nat)
    (h : find_first_zero_bit m.vmx_vpid_bitmap VMX_NR_VPIDS < VMX_NR_VPIDS) :
    vmx_allocate_vpid m vmx =
      (0, { m with
              vcpus := upd m.vcpus vmx
                { m.vcpus vmx with
                    vpid := find_first_zero_bit m.vmx_vpid_bitmap VMX_NR_VPIDS }
              vmx_vpid_bitmap := upd m.vmx_vpid_bitmap
                (find_first_zero_bit m.vmx_vpid_bitmap VMX_NR_VPIDS) true }) := by
  unfold vmx_allocate_vpid
  dsimp only
  have e : (set_vcpu m vmx { m.vcpus vmx with vpid := 0 }).vmx_vpid_bitmap
      = m.vmx_vpid_bitmap := rfl
  rw [e, if_pos h]
  have e2 : (set_vcpu m vmx { m.vcpus vmx with vpid := 0 }).vcpus
      = upd m.vcpus vmx { m.vcpus vmx with vpid := 0 } := rfl
  simp only [set_vcpu]
  rw [upd_upd, upd_same]

theorem mem_filter_ne (live : List Nat) (vmx w : Nat) :
    w ∈ live.filter (fun x => x ≠ vmx) ↔ w ∈ live ∧ w ≠ vmx := by
  rw [List.mem_filter]
  simp only [ne_eq, decide_not, Bool.not_eq_eq_eq_not, Bool.not_true, decide_eq_false_iff_not]

theorem bool_true_ne_false (b : Bool) (h1 : b = true) (h2 : b = false) : False := by
  rw [h1] at h2
  cases h2

/-- The pool invariant is kept by `vmx_allocate_vpid`, on any VCPU. -/
theorem allocate_inv (m : Machine) (live : List Nat) (I : VpidInv m live) (vmx : Nat) :
    VpidInv (vmx_allocate_vpid m vmx).2
      (live_after live (VpidCall.allocate vmx) (vmx_allocate_vpid m vmx).1) := by
  by_cases h : find_first_zero_bit m.vmx_vpid_bitmap VMX_NR_VPIDS < VMX_NR_VPIDS
  · rw [allocate_ok m vmx h]
    rcases find_first_zero_bit_spec m.vmx_vpid_bitmap VMX_NR_VPIDS with ⟨e, _⟩ | ⟨_, h2, _⟩
    · omega
    generalize find_first_zero_bit m.vmx_vpid_bitmap VMX_NR_VPIDS = t at h h2
    have ht0 : t ≠ 0 := by
      intro e
      rw [e] at h2
      exact bool_true_ne_false _ I.zero h2
    have hold : ∀ w, w ∈ live → (m.vcpus w).vpid ≠ t := by
      intro w hw e
      have := I.taken w hw
      rw [e] at this
      exact bool_true_ne_false _ this h2
    show VpidInv _ (if (0 : Nat) = 0 then vmx :: live.filter (fun w => w ≠ vmx)
      else live.filter (fun w => w ≠ vmx))
    rw [if_pos rfl]
    have hv : ∀ w, w ≠ vmx →
        (upd m.vcpus vmx { m.vcpus vmx with vpid := t } w).vpid = (m.vcpus w).vpid := by
      intro w hw
      rw [upd_other _ _ _ _ hw]
    have hs : (upd m.vcpus vmx { m.vcpus vmx with vpid := t } vmx).vpid = t := by
      rw [upd_same]
    refine ⟨?_, ?_, ?_, ?_, ?_, ?_⟩
    · show upd m.vmx_vpid_bitmap t true 0 = true
      rw [upd_other _ _ _ _ (Ne.symm ht0)]
      exact I.zero
    · rw [List.nodup_cons]
      refine ⟨?_, I.nodup.filter _⟩
      rw [mem_filter_ne]
      exact fun hc => hc.2 rfl
    · intro v hv1
      show upd m.vmx_vpid_bitmap t true (upd m.vcpus vmx _ v).vpid = true
      rw [List.mem_cons, mem_filter_ne] at hv1
      rcases hv1 with e | ⟨h1, h3⟩
      · rw [e, hs, upd_same]
      · rw [hv v h3, upd_other _ _ _ _ (hold v h1)]
        exact I.taken v h1
    · intro v hv1
      show (upd m.vcpus vmx _ v).vpid ≠ 0
      rw [List.mem_cons, mem_filter_ne] at hv1
      rcases hv1 with e | ⟨h1, h3⟩
      · rw [e, hs]
        exact ht0
      · rw [hv v h3]
        exact I.nonzero v h1
    · intro v hv1
      show (upd m.vcpus vmx _ v).vpid < VMX_NR_VPIDS
      rw [List.mem_cons, mem_filter_ne] at hv1
      rcases hv1 with e | ⟨h1, h3⟩
      · rw [e, hs]
        exact h
      · rw [hv v h3]
        exact I.bound v h1
    · intro v w hv1 hw1 hne
      show (upd m.vcpus vmx _ v).vpid ≠ (upd m.vcpus vmx _ w).vpid
      rw [List.mem_cons, mem_filter_ne] at hv1 hw1
      rcases hv1 with e | ⟨h1, h3⟩
      · rcases hw1 with e' | ⟨h1', h3'⟩
        · exact absurd (e.trans e'.symm) hne
        · rw [e, hs, hv w h3']
          exact Ne.symm (hold w h1')
      · rcases hw1 with e' | ⟨h1', h3'⟩
        · rw [e', hs, hv v h3]
          exact hold v h1
        · rw [hv v h3, hv w h3']
          exact I.unique v w h1 h1' hne
  · rw [allocate_fail m vmx h]
    show VpidInv _ (if (1 : Nat) = 0 then vmx :: live.filter (fun w => w ≠ vmx)
      else live.filter (fun w => w ≠ vmx))
    rw [if_neg (by decide)]
    have hv : ∀ w, w ≠ vmx →
        ((set_vcpu m vmx { m.vcpus vmx with vpid := 0 }).vcpus w).vpid = (m.vcpus w).vpid := by
      intro w hw
      show (upd m.vcpus vmx _ w).vpid = _
      rw [upd_other _ _ _ _ hw]
    refine ⟨I.zero, I.nodup.filter _, ?_, ?_, ?_, ?_⟩
    · intro v hv1
      rw [mem_filter_ne] at hv1
      rw [hv v hv1.2]
      exact I.taken v hv1.1
    · intro v hv1
      rw [mem_filter_ne] at hv1
      rw [hv v hv1.2]
      exact I.nonzero v hv1.1
    · intro v hv1
      rw [mem_filter_ne] at hv1
      rw [hv v hv1.2]
      exact I.bound v hv1.1
    · intro v w hv1 hw1 hne
      rw [mem_filter_ne] at hv1 hw1
      rw [hv v hv1.2, hv w hw1.2]
      exact I.unique v w hv1.1 hw1.1 hne

/-- The pool invariant is kept by `vmx_free_vpid` on a live VCPU or on one
whose tag is 0. -/
theorem free_inv (m : Machine) (live : List Nat) (I : VpidInv m live) (vmx : Nat)
    (hd : vmx ∈ live ∨ (m.vcpus vmx).vpid = 0) :
    VpidInv (vmx_free_vpid m vmx) (live.filter (fun w => w ≠ vmx)) := by
  unfold vmx_free_vpid
  by_cases h : (m.vcpus vmx).vpid ≠ 0
  · rw [if_pos h]
    have hl : vmx ∈ live := by
      rcases hd with h1 | h1
      · exact h1
      · exact absurd h1 h
    refine ⟨?_, I.nodup.filter _, ?_, ?_, ?_, ?_⟩
    · show upd m.vmx_vpid_bitmap _ false 0 = true
      rw [upd_other _ _ _ _ (Ne.symm h)]
      exact I.zero
    · intro v hv1
      rw [mem_filter_ne] at hv1
      show upd m.vmx_vpid_bitmap _ false (m.vcpus v).vpid = true
      rw [upd_other _ _ _ _ (I.unique v vmx hv1.1 hl hv1.2)]
      exact I.taken v hv1.1
    · intro v hv1
      rw [mem_filter_ne] at hv1
      exact I.nonzero v hv1.1
    · intro v hv1
      rw [mem_filter_ne] at hv1
      exact I.bound v hv1.1
    · intro v w hv1 hw1 hne
      rw [mem_filter_ne] at hv1 hw1
      exact I.unique v w hv1.1 hw1.1 hne
  · rw [if_neg h]
    refine ⟨I.zero, I.nodup.filter _, ?_, ?_, ?_, ?_⟩
    · intro v hv1
      rw [mem_filter_ne] at hv1
      exact I.taken v hv1.1
    · intro v hv1
      rw [mem_filter_ne] at hv1
      exact I.nonzero v hv1.1
    · intro v hv1
      rw [mem_filter_ne] at hv1
      exact I.bound v hv1.1
    · intro v w hv1 hw1 hne
      rw [mem_filter_ne] at hv1 hw1
      exact I.unique v w hv1.1 hw1.1 hne

/-- The pool invariant holds after every disciplined sequence of calls. -/
theorem vpid_run_inv (cs : List VpidCall) (st : Machine × List Nat) (I : VpidInv st.1 st.2)
    (hd : vpid_disciplined cs st = true) : VpidInv (vpid_run cs st).1 (vpid_run cs st).2 := by
  induction cs generalizing st with
  | nil => exact I
  | cons c cs ih =>
    rw [vpid_run]
    change (_ && _) = true at hd
    rw [Bool.and_eq_true] at hd
    apply ih _ _ hd.2
    cases c with
    | allocate vmx => exact allocate_inv st.1 st.2 I vmx
    | free vmx =>
      have h1 := hd.1
      simp only [Bool.or_eq_true, decide_eq_true_eq] at h1
      exact free_inv st.1 st.2 I vmx h1

/-- The tag a successful `vmx_allocate_vpid` issues is held by no live VCPU. -/
theorem allocate_fresh (m : Machine) (live : List Nat) (I : VpidInv m live) (vmx : Nat)
    (h : (vmx_allocate_vpid m vmx).1 = 0) (w : Nat) (hw : w ∈ live) :
    ((vmx_allocate_vpid m vmx).2.vcpus vmx).vpid ≠ (m.vcpus w).vpid := by
  by_cases hf : find_first_zero_bit m.vmx_vpid_bitmap VMX_NR_VPIDS < VMX_NR_VPIDS
  · rw [allocate_ok m vmx hf]
    show (upd m.vcpus vmx _ vmx).vpid ≠ _
    rw [upd_same]
    rcases find_first_zero_bit_spec m.vmx_vpid_bitmap VMX_NR_VPIDS with ⟨e, _⟩ | ⟨_, h2, _⟩
    · omega
    intro e
    have := I.taken w hw
    rw [← e] at this
    exact bool_true_ne_false _ this h2
  · rw [allocate_fail m vmx hf] at h
    cases h

theorem init_bitmap_zero : vmx_init_bitmap 0 = true := rfl

theorem vpid_inv_init (m0 : Machine) (h0 : m0.vmx_vpid_bitmap = vmx_init_bitmap) :
    VpidInv m0 [] := by
  refine ⟨by rw [h0]; rfl, List.nodup_nil, ?_, ?_, ?_, ?_⟩
  · intro v hv
    cases hv
  · intro v hv
    cases hv
  · intro v hv
    cases hv
  · intro v w hv
    cases hv

theorem free_tag0 (m : Machine) (vmx : Nat) (h : (m.vcpus vmx).vpid = 0) :
    vmx_free_vpid m vmx = m := by
  unfold vmx_free_vpid
  rw [if_neg (fun hc => hc h)]

theorem free_bit0 (m : Machine) (vmx : Nat) (h : m.vmx_vpid_bitmap 0 = true) :
    (vmx_free_vpid m vmx).vmx_vpid_bitmap 0 = true := by
  unfold vmx_free_vpid
  by_cases hv : (m.vcpus vmx).vpid ≠ 0
  · rw [if_pos hv]
    show upd m.vmx_vpid_bitmap _ false 0 = true
    rw [upd_other _ _ _ _ (Ne.symm hv)]
    exact h
  · rw [if_neg hv]
    exact h

theorem allocate_bit0 (m : Machine) (vmx : Nat) (h : m.vmx_vpid_bitmap 0 = true) :
    (vmx_allocate_vpid m vmx).2.vmx_vpid_bitmap 0 = true := by
  by_cases hf : find_first_zero_bit m.vmx_vpid_bitmap VMX_NR_VPIDS < VMX_NR_VPIDS
  · rw [allocate_ok m vmx hf]
    show upd m.vmx_vpid_bitmap _ true 0 = true
    by_cases h0 : 0 = find_first_zero_bit m.vmx_vpid_bitmap VMX_NR_VPIDS
    · rw [← h0, upd_same]
    · rw [upd_other _ _ _ _ h0]
      exact h
  · rw [allocate_fail m vmx hf]
    exact h

theorem run_bit0 (cs : List VpidCall) (st : Machine × List Nat)
    (h : st.1.vmx_vpid_bitmap 0 = true) : (vpid_run cs st).1.vmx_vpid_bitmap 0 = true := by
  induction cs generalizing st with
  | nil => exact h
  | cons c cs ih =>
    rw [vpid_run]
    apply ih
    cases c with
    | allocate vmx => exact allocate_bit0 st.1 vmx h
    | free vmx => exact free_bit0 st.1 vmx h

/-- The two outcomes of `vmx_allocate_vpid`. -/
theorem allocate_cases (m : Machine) (vmx : Nat) :
    ((vmx_allocate_vpid m vmx).1 ≠ 0 → ((vmx_allocate_vpid m vmx).2.vcpus vmx).vpid = 0) ∧
    ((vmx_allocate_vpid m vmx).1 = 0 →
      ∃ t, t < VMX_NR_VPIDS ∧ m.vmx_vpid_bitmap t = false ∧
        (∀ j, j < t → m.vmx_vpid_bitmap j = true) ∧
        ((vmx_allocate_vpid m vmx).2.vcpus vmx).vpid = t ∧
        (vmx_allocate_vpid m vmx).2.vmx_vpid_bitmap = upd m.vmx_vpid_bitmap t true) := by
  rcases find_first_zero_bit_spec m.vmx_vpid_bitmap VMX_NR_VPIDS with ⟨e, hall⟩ | ⟨h1, h2, h3⟩
  · have hf : ¬ find_first_zero_bit m.vmx_vpid_bitmap VMX_NR_VPIDS < VMX_NR_VPIDS := by omega
    rw [allocate_fail m vmx hf]
    refine ⟨fun _ => ?_, fun h => by cases h⟩
    show (upd m.vcpus vmx _ vmx).vpid = 0
    rw [upd_same]
  · rw [allocate_ok m vmx h1]
    refine ⟨fun h => absurd rfl h, fun _ => ⟨_, h1, h2, h3, ?_, rfl⟩⟩
    show (upd m.vcpus vmx _ vmx).vpid = _
    rw [upd_same]


/-! ## The hypercall exit -/

theorem vm_exit_some (m : Machine) (e : VmExit) (v : Nat) (hf : e.fail = 0)
    (hv : m.current_vmcs m.cpu = some v) :
    vm_exit m e =
      { m with
          vmcs_field := upd m.vmcs_field v
            (upd (upd (upd
              (upd (m.vmcs_field v) GUEST_PHYSICAL_ADDRESS e.guest_physical_address)
              VM_EXIT_REASON e.reason)
              VM_EXIT_INSTRUCTION_LEN e.instruction_len) GUEST_RIP e.guest_rip)
          irqs_disabled := true } := by
  unfold vm_exit
  rw [if_neg (fun h => h hf), hv]

theorem vmcs_readl_some (m : Machine) (f v : Nat) (hv : m.current_vmcs m.cpu = some v) :
    vmcs_readl m f = m.vmcs_field v f := by
  unfold vmcs_readl
  rw [hv]

theorem vmcs_writel_some (m : Machine) (f val v : Nat) (hv : m.current_vmcs m.cpu = some v) :
    vmcs_writel m f val =
      emit { m with vmcs_field := upd m.vmcs_field v (upd (m.vmcs_field v) f (val % 2 ^ 64)) }
        (Event.vmwrite m.cpu f m.preempt_count) := by
  unfold vmcs_writel
  rw [hv]

theorem upd_self {α : Type} (f : Nat → α) (k : Nat) : upd f k (f k) = f := by
  funext x
  unfold upd
  split
  · rename_i h
    rw [h]
  · rfl

/-- The head of the assembly of `vmx_run_vcpu` in a state whose executing core
has the current VMCS `v`. -/
theorem load_host_rsp_some (m : Machine) (vcpu rsp v : Nat)
    (hv : m.current_vmcs m.cpu = some v) :
    load_host_rsp m vcpu rsp =
      { m with
          vmcs_field := upd m.vmcs_field v (host_rsp_fields m vcpu rsp v)
          vcpus := upd m.vcpus vcpu { m.vcpus vcpu with host_rsp := rsp } } := by
  unfold load_host_rsp host_rsp_fields
  by_cases h : (m.vcpus vcpu).host_rsp = rsp
  · rw [if_pos h, if_pos h, upd_self]
    have e : ({ m.vcpus vcpu with host_rsp := rsp } : vmx_vcpu) = m.vcpus vcpu := by
      rw [← h]
    rw [e, upd_self]
  · rw [if_neg h, if_neg h, hv]

/-- What a successful entry leaves in the VCPU structure: the fifteen stored
registers and `cr2` of the exit, the slot of the stack pointer and everything
else as before. -/
theorem entered_ok (c : vmx_vcpu) (e : VmExit) (hf : e.fail = 0) :
    entered_vcpu c e =
      { c with
          host_rsp := e.host_rsp
          regs := fun i => if i < NR_VCPU_REGS ∧ i ≠ VCPU_REGS_RSP then e.regs i else c.regs i
          cr2 := e.cr2
          fail := 0
          launched := 1 } := by
  unfold entered_vcpu save_guest
  simp only [hf, true_and, if_true, if_pos]

/-- The registers of the snapshot after a successful entry that the dispatch
and `vmx_handle_cpuid` read are those of the exit. -/
theorem entered_regs (c : vmx_vcpu) (e : VmExit) (hf : e.fail = 0) (i : Nat)
    (hi : i < NR_VCPU_REGS) (hs : i ≠ VCPU_REGS_RSP) :
    (entered_vcpu c e).regs i = e.regs i := by
  rw [entered_ok c e hf]
  show (if i < NR_VCPU_REGS ∧ i ≠ VCPU_REGS_RSP then e.regs i else c.regs i) = _
  rw [if_pos ⟨hi, hs⟩]

/-- The slot of the stack pointer, and what lies beyond the snapshot, is not
written by an entry, failed or not. -/
theorem entered_regs_kept (c : vmx_vcpu) (e : VmExit) (i : Nat)
    (hi : i = VCPU_REGS_RSP ∨ NR_VCPU_REGS ≤ i) :
    (entered_vcpu c e).regs i = c.regs i := by
  show (if e.fail = 0 ∧ i < NR_VCPU_REGS ∧ i ≠ VCPU_REGS_RSP then e.regs i else c.regs i) = _
  rw [if_neg]
  intro h
  rcases hi with hi | hi
  · exact h.2.2 hi
  · exact absurd h.2.1 (Nat.not_lt.mpr hi)

/-- A failed entry leaves the register snapshot and `cr2` as they were. -/
theorem entered_failed (c : vmx_vcpu) (e : VmExit) (hf : e.fail ≠ 0) :
    entered_vcpu c e = { c with host_rsp := e.host_rsp, fail := 1, launched := 1 } := by
  unfold entered_vcpu save_guest
  simp only [hf, false_and, if_false]

/-- What an entry leaves untouched in the VCPU structure. -/
theorem entered_kept (c : vmx_vcpu) (e : VmExit) :
    (entered_vcpu c e).launched = 1 ∧ (entered_vcpu c e).vmcs = c.vmcs ∧
    (entered_vcpu c e).ret_code = c.ret_code ∧ (entered_vcpu c e).vpid = c.vpid ∧
    (entered_vcpu c e).cpu = c.cpu ∧ (entered_vcpu c e).host_rsp = e.host_rsp :=
  ⟨rfl, rfl, rfl, rfl, rfl, rfl⟩

/-- The state after the assembly of `vmx_run_vcpu` from a state whose executing
core has the current VMCS `v`, when the entry succeeds. -/
theorem run_vcpu_state_ok (m : Machine) (vcpu : Nat) (e : VmExit) (v : Nat) (hf : e.fail = 0)
    (hv : m.current_vmcs m.cpu = some v) :
    run_vcpu_state m vcpu e =
      { m with
          vmcs_field := upd m.vmcs_field v
            (upd (upd (upd
              (upd (host_rsp_fields m vcpu e.host_rsp v)
                GUEST_PHYSICAL_ADDRESS e.guest_physical_address)
              VM_EXIT_REASON e.reason)
              VM_EXIT_INSTRUCTION_LEN e.instruction_len) GUEST_RIP e.guest_rip)
          irqs_disabled := true
          log := m.log ++ [Event.vmentry m.cpu m.preempt_count]
          vcpus := upd m.vcpus vcpu (entered_vcpu (m.vcpus vcpu) e) } := by
  unfold run_vcpu_state
  have hv2 : (emit m (Event.vmentry m.cpu m.preempt_count)).current_vmcs
      (emit m (Event.vmentry m.cpu m.preempt_count)).cpu = some v := hv
  rw [load_host_rsp_some _ vcpu e.host_rsp v hv2]
  have hv3 : ({ emit m (Event.vmentry m.cpu m.preempt_count) with
      vmcs_field := upd (emit m (Event.vmentry m.cpu m.preempt_count)).vmcs_field v
        (host_rsp_fields (emit m (Event.vmentry m.cpu m.preempt_count)) vcpu e.host_rsp v)
      vcpus := upd (emit m (Event.vmentry m.cpu m.preempt_count)).vcpus vcpu
        { (emit m (Event.vmentry m.cpu m.preempt_count)).vcpus vcpu with
            host_rsp := e.host_rsp } } : Machine).current_vmcs
      (emit m (Event.vmentry m.cpu m.preempt_count)).cpu = some v := hv
  rw [vm_exit_some _ e v hf hv3]
  simp only [emit, set_vcpu, upd_same, upd_upd, entered_vcpu, host_rsp_fields]

/-- The state after a successful hardware entry from a state whose executing
core has the current VMCS `v`. -/
theorem run_vcpu_ok (m : Machine) (vcpu : Nat) (e : VmExit) (v : Nat) (hf : e.fail = 0)
    (hv : m.current_vmcs m.cpu = some v) :
    vmx_run_vcpu m vcpu e =
      (toInt32 (e.reason % 2 ^ 32),
        { m with
            vmcs_field := upd m.vmcs_field v
              (upd (upd (upd
                (upd (host_rsp_fields m vcpu e.host_rsp v)
                  GUEST_PHYSICAL_ADDRESS e.guest_physical_address)
                VM_EXIT_REASON e.reason)
                VM_EXIT_INSTRUCTION_LEN e.instruction_len) GUEST_RIP e.guest_rip)
            irqs_disabled := true
            log := m.log ++ [Event.vmentry m.cpu m.preempt_count]
            vcpus := upd m.vcpus vcpu (entered_vcpu (m.vcpus vcpu) e) }) := by
  unfold vmx_run_vcpu
  rw [if_neg (fun h => h hf), run_vcpu_state_ok m vcpu e v hf hv]
  congr 1
  unfold vmcs_read32 vmcs_readl
  simp only [hv]
  rw [upd_same, upd_other _ _ _ _ (by decide), upd_other _ _ _ _ (by decide), upd_same]

theorem load_host_rsp_vcpu (m : Machine) (vcpu rsp : Nat) :
    (load_host_rsp m vcpu rsp).vcpus vcpu = { m.vcpus vcpu with host_rsp := rsp } := by
  unfold load_host_rsp
  by_cases h : (m.vcpus vcpu).host_rsp = rsp
  · rw [if_pos h, ← h]
  · rw [if_neg h]
    cases m.current_vmcs m.cpu with
    | none =>
      show upd m.vcpus vcpu _ vcpu = _
      rw [upd_same]
    | some v =>
      show upd m.vcpus vcpu _ vcpu = _
      rw [upd_same]

/-- The VCPU structure after the assembly of `vmx_run_vcpu`, whatever the
outcome of the entry. -/
theorem run_vcpu_state_vcpu (m : Machine) (vcpu : Nat) (e : VmExit) :
    (run_vcpu_state m vcpu e).vcpus vcpu = entered_vcpu (m.vcpus vcpu) e := by
  unfold run_vcpu_state
  show upd _ vcpu _ vcpu = _
  rw [upd_same, load_host_rsp_vcpu]
  rfl

/-- A failed entry: `vmx_run_vcpu` returns `VMX_EXIT_REASONS_FAILED_VMENTRY`,
and the VCPU structure has its register snapshot and `cr2` as before. -/
theorem run_vcpu_failed (m : Machine) (vcpu : Nat) (e : VmExit) (hf : e.fail ≠ 0) :
    (vmx_run_vcpu m vcpu e).1 = VMX_EXIT_REASONS_FAILED_VMENTRY ∧
    ((vmx_run_vcpu m vcpu e).2.vcpus vcpu).regs = (m.vcpus vcpu).regs ∧
    ((vmx_run_vcpu m vcpu e).2.vcpus vcpu).cr2 = (m.vcpus vcpu).cr2 := by
  unfold vmx_run_vcpu
  rw [if_pos hf]
  show _ ∧ ((run_vcpu_state m vcpu e).vcpus vcpu).regs = _ ∧
    ((run_vcpu_state m vcpu e).vcpus vcpu).cr2 = _
  rw [run_vcpu_state_vcpu, entered_failed _ e hf]
  exact ⟨rfl, rfl, rfl⟩

/-- A pass whose hardware entry succeeds with a hypercall or `cpuid` exit
arrives at the dispatch in the state `after_step`. -/
theorem enter_step (vcpu : Nat) (x : Pass) (m : Machine) (v : Nat)
    (hf : x.vmexit.fail = 0) (hv : m.current_vmcs m.cpu = some v)
    (hret : toInt32 (x.vmexit.reason % 2 ^ 32) = EXIT_REASON_VMCALL
      ∨ toInt32 (x.vmexit.reason % 2 ^ 32) = EXIT_REASON_CPUID) :
    launch_enter vcpu x m =
      launch_dispatch vcpu x (decide (x.hardirqs_enabled_nr = 1 ∧ x.rcu_scheduler_active = 0))
        (toInt32 (x.vmexit.reason % 2 ^ 32))
        (after_step m vcpu x.vmexit v (decide (x.hardirqs_enabled_nr ≠ 1))) := by
  unfold launch_enter
  rw [run_vcpu_ok m vcpu x.vmexit v hf hv]
  dsimp only
  rw [if_pos hret]
  congr 1
  by_cases hi : x.hardirqs_enabled_nr = 1
  · rw [if_pos hi]
    unfold vmx_step_instruction vmcs_read32 vmcs_readl vmcs_writel vmx_put_cpu local_irq_enable
    simp only [emit, hv, upd_same, upd_upd, after_step, List.append_assoc, List.singleton_append,
      List.cons_append, List.nil_append, hi, ne_eq, not_true_eq_false, decide_False,
      upd_other _ _ _ _ (show VM_EXIT_INSTRUCTION_LEN ≠ GUEST_RIP by decide)]
  · rw [if_neg hi]
    unfold vmx_step_instruction vmcs_read32 vmcs_readl vmcs_writel vmx_put_cpu
    simp only [emit, hv, upd_same, upd_upd, after_step, List.append_assoc, List.singleton_append,
      List.cons_append, List.nil_append, hi, ne_eq, not_false_eq_true, decide_True,
      upd_other _ _ _ _ (show VM_EXIT_INSTRUCTION_LEN ≠ GUEST_RIP by decide)]


/-! ## The pool during `vmx_create_vcpu` -/

theorem same_pool_refl (m : Machine) : SamePool m m := ⟨rfl, fun _ => rfl, rfl⟩

theorem same_pool_trans (a b c : Machine) (h1 : SamePool a b) (h2 : SamePool b c) :
    SamePool a c :=
  ⟨h2.1.trans h1.1, fun p => (h2.2.1 p).trans (h1.2.1 p), h2.2.2.trans h1.2.2⟩

theorem same_pool_emit (m : Machine) (e : Event) : SamePool m (emit m e) :=
  ⟨rfl, fun _ => rfl, rfl⟩

theorem same_pool_set (m : Machine) (p : Nat) (v : vmx_vcpu) (h : v.vpid = (m.vcpus p).vpid) :
    SamePool m (set_vcpu m p v) := by
  refine ⟨rfl, fun q => ?_, rfl⟩
  show (upd m.vcpus p v q).vpid = _
  by_cases hq : q = p
  · rw [hq, upd_same, h]
  · rw [upd_other _ _ _ _ hq]

theorem same_pool_load (m : Machine) (vmcs : Nat) : SamePool m (vmcs_load m vmcs) :=
  ⟨rfl, fun _ => rfl, rfl⟩

theorem same_pool_clear (m : Machine) (vmcs : Nat) : SamePool m (vmcs_clear m vmcs) :=
  ⟨rfl, fun _ => rfl, rfl⟩

theorem same_pool_writel (m : Machine) (f val : Nat) : SamePool m (vmcs_writel m f val) := by
  unfold vmcs_writel
  cases m.current_vmcs m.cpu with
  | none => exact ⟨rfl, fun _ => rfl, rfl⟩
  | some v => exact ⟨rfl, fun _ => rfl, rfl⟩

theorem same_pool_ept_sync (m : Machine) (eptp : Nat) : SamePool m (ept_sync_context m eptp) := by
  unfold ept_sync_context ept_sync_global __invept
  split
  · exact same_pool_emit _ _
  · split
    · exact same_pool_emit _ _
    · exact same_pool_refl _

theorem same_pool_vpid_sync (m : Machine) (vpid : Nat) :
    SamePool m (vpid_sync_context m vpid) := by
  unfold vpid_sync_context vpid_sync_vcpu_single vpid_sync_vcpu_global __invvpid
  by_cases h1 : cpu_has_vmx_invvpid_single m = true
  · rw [if_pos h1]
    by_cases h2 : vpid = 0
    · rw [if_pos h2]
      exact same_pool_refl _
    · rw [if_neg h2, if_pos h1]
      exact same_pool_emit _ _
  · rw [if_neg h1]
    by_cases h2 : cpu_has_vmx_invvpid_global m = true
    · rw [if_pos h2]
      exact same_pool_emit _ _
    · rw [if_neg h2]
      exact same_pool_refl _

theorem same_pool_setup_cpu (m : Machine) : SamePool m (__vmx_setup_cpu m) := by
  unfold __vmx_setup_cpu
  dsimp only
  exact same_pool_trans _ _ _ (same_pool_trans _ _ _ (same_pool_trans _ _ _
    (same_pool_trans _ _ _ (same_pool_writel _ _ _) (same_pool_writel _ _ _))
    (same_pool_writel _ _ _)) (same_pool_writel _ _ _)) (same_pool_writel _ _ _)

theorem same_pool_helper (m : Machine) (vcpu : Nat) :
    SamePool m (__vmx_get_cpu_helper m vcpu) := by
  have h0 : SamePool m
      (if (m.cpu : Int) ≠ (m.vcpus vcpu).cpu then emit m Event.bug_on else m) := by
    by_cases h : (m.cpu : Int) ≠ (m.vcpus vcpu).cpu
    · rw [if_pos h]
      exact same_pool_emit _ _
    · rw [if_neg h]
      exact same_pool_refl _
  unfold __vmx_get_cpu_helper
  dsimp only
  generalize (if (m.cpu : Int) ≠ (m.vcpus vcpu).cpu then emit m Event.bug_on else m) = m0
    at h0 ⊢
  have h1 := same_pool_trans _ _ _ h0 (same_pool_clear m0 (m0.vcpus vcpu).vmcs)
  generalize vmcs_clear m0 (m0.vcpus vcpu).vmcs = m1 at h1 ⊢
  by_cases h : m1.local_vcpu m1.cpu = vcpu
  · rw [if_pos h]
    exact same_pool_trans _ _ _ h1 ⟨rfl, fun _ => rfl, rfl⟩
  · rw [if_neg h]
    exact h1

theorem same_pool_smp_call (m : Machine) (cpu vcpu : Nat) :
    SamePool m (smp_call_function_single m cpu (fun t => __vmx_get_cpu_helper t vcpu)) := by
  have h := same_pool_helper { m with cpu := cpu } vcpu
  exact ⟨h.1, h.2.1, h.2.2⟩

theorem same_pool_migrate (m : Machine) (vcpu cur : Nat) :
    SamePool m (vmx_get_cpu_migrate m vcpu cur) := by
  unfold vmx_get_cpu_migrate
  dsimp only
  have h1 : SamePool m
      (if (m.vcpus vcpu).cpu ≥ 0 then
        smp_call_function_single m (m.vcpus vcpu).cpu.toNat
          (fun t => __vmx_get_cpu_helper t vcpu)
      else vmcs_clear m (m.vcpus vcpu).vmcs) := by
    split
    · exact same_pool_smp_call _ _ _
    · exact same_pool_clear _ _
  generalize (if (m.vcpus vcpu).cpu ≥ 0 then
        smp_call_function_single m (m.vcpus vcpu).cpu.toNat
          (fun t => __vmx_get_cpu_helper t vcpu)
      else vmcs_clear m (m.vcpus vcpu).vmcs) = m1 at h1
  refine same_pool_trans _ _ _ ?_ (same_pool_set _ vcpu _ rfl)
  refine same_pool_trans _ _ _ ?_ (same_pool_setup_cpu _)
  refine same_pool_trans _ _ _ ?_ (same_pool_load _ _)
  refine same_pool_trans _ _ _ ?_ (same_pool_set _ vcpu _ rfl)
  refine same_pool_trans _ _ _ ?_ (same_pool_ept_sync _ _)
  exact same_pool_trans _ _ _ h1 (same_pool_vpid_sync _ _)

theorem same_pool_get_cpu (m : Machine) (vcpu : Nat) : SamePool m (vmx_get_cpu m vcpu) := by
  unfold vmx_get_cpu
  dsimp only
  have h0 : SamePool m (get_cpu m) := ⟨rfl, fun _ => rfl, rfl⟩
  split
  · exact same_pool_trans _ _ _ h0 (same_pool_load _ _)
  · split
    · split
      · refine same_pool_trans _ _ _ ?_ (same_pool_migrate _ _ _)
        exact ⟨rfl, fun _ => rfl, rfl⟩
      · refine same_pool_trans _ _ _ ?_ (same_pool_load _ _)
        exact ⟨rfl, fun _ => rfl, rfl⟩
    · exact h0

theorem same_pool_put_cpu (m : Machine) (vcpu : Nat) : SamePool m (vmx_put_cpu m vcpu) :=
  ⟨rfl, fun _ => rfl, rfl⟩

theorem same_pool_setup_vmcs (m : Machine) (vcpu : Nat) :
    SamePool m (vmx_setup_vmcs m vcpu) := by
  unfold vmx_setup_vmcs
  exact same_pool_trans _ _ _ (same_pool_writel _ _ _) (same_pool_writel _ _ _)

theorem same_pool_guest_state (m : Machine) (vcpu : Nat) :
    SamePool m (vmx_setup_initial_guest_state m vcpu) := by
  unfold vmx_setup_initial_guest_state
  refine same_pool_trans _ _ _ ?_ (same_pool_writel _ _ _)
  refine same_pool_trans _ _ _ ?_ (same_pool_writel _ _ _)
  refine same_pool_trans _ _ _ ?_ (same_pool_writel _ _ _)
  exact same_pool_set m vcpu _ rfl

theorem load_store32 (s : Kernel) (p v : Nat) :
    load (store32 s p v) p = load s p / 2 ^ 32 * 2 ^ 32 + v % 2 ^ 32 := by
  unfold load store32
  generalize __pa p = a
  show (if a = a then _ else _) = _
  rw [if_pos rfl]

theorem load_memset0_bytes (s : Kernel) (p n : Nat) :
    (8 ≤ n → load (memset0_bytes s p n) p = 0) ∧
    (0 < n → n < 8 →
      load (memset0_bytes s p n) p = load s p / 2 ^ (8 * n) * 2 ^ (8 * n)) := by
  unfold load memset0_bytes
  generalize __pa p = a
  constructor
  · intro h
    show (if a ≤ a ∧ a + 8 ≤ a + n then 0 else _) = _
    rw [if_pos ⟨Nat.le_refl _, by omega⟩]
  · intro h1 h2
    show (if a ≤ a ∧ a + 8 ≤ a + n then 0
      else if a ≤ a ∧ a < a + n then
        s.mem a / 2 ^ (8 * (a + n - a)) * 2 ^ (8 * (a + n - a))
      else s.mem a) = _
    rw [if_neg (by omega), if_pos ⟨Nat.le_refl _, by omega⟩, Nat.add_sub_cancel_left]

/-- The first word of the VMCS region that `vmx_alloc_vmcs` returns: the
revision identifier in its low 32 bits; its high 32 bits are 0 when the zeroed
size covers the word, and what the page held when the size is 4. -/
theorem alloc_vmcs_revision (m : Machine) (pg : Nat)
    (h : m.kern.pages m.kern.npages = some pg) :
    (vmx_alloc_vmcs m).1 = __va pg ∧
    (8 ≤ m.vmcs_config.size →
      load (vmx_alloc_vmcs m).2.kern (__va pg) = m.vmcs_config.revision_id % 2 ^ 32) ∧
    (m.vmcs_config.size = 4 →
      load (vmx_alloc_vmcs m).2.kern (__va pg)
        = load m.kern (__va pg) / 2 ^ 32 * 2 ^ 32 + m.vmcs_config.revision_id % 2 ^ 32) := by
  unfold vmx_alloc_vmcs
  rw [h]
  dsimp only
  generalize __va pg = p
  refine ⟨rfl, ?_, ?_⟩
  · intro hs
    rw [load_store32, (load_memset0_bytes _ p _).1 hs, Nat.zero_div, Nat.zero_mul,
      Nat.zero_add]
  · intro hs
    rw [load_store32, (load_memset0_bytes _ p _).2 (by omega) (by omega), hs,
      Nat.mul_div_cancel _ (Nat.pow_pos (by decide))]
    rfl

theorem same_pool_alloc_vmcs (m : Machine) : SamePool m (vmx_alloc_vmcs m).2 := by
  unfold vmx_alloc_vmcs
  cases m.kern.pages m.kern.npages with
  | none => exact ⟨rfl, fun _ => rfl, rfl⟩
  | some pg => exact ⟨rfl, fun _ => rfl, rfl⟩

theorem fail_vpid_bitmap (m : Machine) (vcpu : Nat) :
    (fail_vpid m vcpu).vmx_vpid_bitmap = m.vmx_vpid_bitmap := rfl

theorem fail_ept_bitmap (m : Machine) (vcpu : Nat) :
    (fail_ept m vcpu).vmx_vpid_bitmap = (vmx_free_vpid m vcpu).vmx_vpid_bitmap := rfl

/-- Releasing the tag `t` that was taken from a pool in which it was clear
gives the pool back. -/
theorem free_restores (bm : Nat → Bool) (t : Nat) (h : bm t = false) :
    upd (upd bm t true) t false = bm := by
  rw [upd_upd]
  funext x
  by_cases hx : x = t
  · rw [hx, upd_same, h]
  · rw [upd_other _ _ _ _ hx]

/-- In a state whose pool is `upd bm t true` and whose VCPU holds the tag `t`,
other than 0, `vmx_free_vpid` gives the pool `bm` back when bit `t` was clear in
it. -/
theorem free_after (m : Machine) (vcpu : Nat) (bm : Nat → Bool) (t : Nat) (ht : t ≠ 0)
    (hb : bm t = false) (h1 : m.vmx_vpid_bitmap = upd bm t true)
    (h2 : (m.vcpus vcpu).vpid = t) : (vmx_free_vpid m vcpu).vmx_vpid_bitmap = bm := by
  unfold vmx_free_vpid
  rw [if_pos (by rw [h2]; exact ht)]
  show upd m.vmx_vpid_bitmap (m.vcpus vcpu).vpid false = bm
  rw [h1, h2]
  exact free_restores bm t hb

theorem same_pool_bind (m : Machine) (vcpu : Nat) : SamePool m (create_vcpu_bind m vcpu) := by
  have hs : SamePool m
      (vmx_put_cpu
        (vmx_setup_initial_guest_state
          (vmx_setup_vmcs
            (vmx_get_cpu
              (set_vcpu m vcpu
                { m.vcpus vcpu with eptp := construct_eptp m (m.vcpus vcpu).ept_root }) vcpu)
            vcpu) vcpu) vcpu) := by
    refine same_pool_trans _ _ _ ?_ (same_pool_put_cpu _ vcpu)
    refine same_pool_trans _ _ _ ?_ (same_pool_guest_state _ vcpu)
    refine same_pool_trans _ _ _ ?_ (same_pool_setup_vmcs _ vcpu)
    refine same_pool_trans _ _ _ ?_ (same_pool_get_cpu _ vcpu)
    exact same_pool_set m vcpu _ rfl
  unfold create_vcpu_bind
  dsimp only
  generalize (vmx_put_cpu
        (vmx_setup_initial_guest_state
          (vmx_setup_vmcs
            (vmx_get_cpu
              (set_vcpu m vcpu
                { m.vcpus vcpu with eptp := construct_eptp m (m.vcpus vcpu).ept_root }) vcpu)
            vcpu) vcpu) vcpu) = m2 at hs ⊢
  by_cases h : cpu_has_vmx_ept_ad_bits m2 = true
  · rw [if_pos h]
    exact same_pool_trans _ _ _ hs (same_pool_set m2 vcpu _ rfl)
  · rw [if_neg h]
    exact hs

theorem allocate_ept_result (m : Machine) (vmx : Nat) :
    (vmx_allocate_vpid m vmx).2.create_ept_result = m.create_ept_result ∧
    (vmx_allocate_vpid m vmx).2.kern = m.kern := by
  by_cases h : find_first_zero_bit m.vmx_vpid_bitmap VMX_NR_VPIDS < VMX_NR_VPIDS
  · rw [allocate_ok m vmx h]
    exact ⟨rfl, rfl⟩
  · rw [allocate_fail m vmx h]
    exact ⟨rfl, rfl⟩

/-- The five ways `create_vcpu_vpid` can go, when tag 0 is reserved. -/
theorem vpid_stage_cases (E : Nat) (M : Machine) (vcpu : Nat)
    (h0 : M.vmx_vpid_bitmap 0 = true) :
    ((vmx_allocate_vpid M vcpu).1 ≠ 0 ∧
      ∃ m1, create_vcpu_vpid E M vcpu = some (0, m1) ∧
        m1.vmx_vpid_bitmap = M.vmx_vpid_bitmap) ∨
    ((vmx_allocate_vpid M vcpu).1 = 0 ∧
      vt_ept_2M_init E (vmx_allocate_vpid M vcpu).2.kern = none ∧
      create_vcpu_vpid E M vcpu = none) ∨
    ((vmx_allocate_vpid M vcpu).1 = 0 ∧
      (∃ k, vt_ept_2M_init E (vmx_allocate_vpid M vcpu).2.kern = some (0, k)) ∧
      ∃ m1, create_vcpu_vpid E M vcpu = some (0, m1) ∧
        m1.vmx_vpid_bitmap = M.vmx_vpid_bitmap) ∨
    ((vmx_allocate_vpid M vcpu).1 = 0 ∧
      (∃ root k, vt_ept_2M_init E (vmx_allocate_vpid M vcpu).2.kern = some (root, k) ∧
        root ≠ 0) ∧
      M.create_ept_result ≠ 0 ∧
      ∃ m1, create_vcpu_vpid E M vcpu = some (0, m1) ∧
        m1.vmx_vpid_bitmap = M.vmx_vpid_bitmap) ∨
    ((vmx_allocate_vpid M vcpu).1 = 0 ∧
      (∃ root k, vt_ept_2M_init E (vmx_allocate_vpid M vcpu).2.kern = some (root, k) ∧
        root ≠ 0) ∧
      M.create_ept_result = 0 ∧
      ∃ m1, create_vcpu_vpid E M vcpu = some (vcpu, m1) ∧
        m1.vmx_vpid_bitmap = upd M.vmx_vpid_bitmap (m1.vcpus vcpu).vpid true ∧
        (m1.vcpus vcpu).vpid ≠ 0 ∧ M.vmx_vpid_bitmap (m1.vcpus vcpu).vpid = false) := by
  by_cases hA : (vmx_allocate_vpid M vcpu).1 ≠ 0
  · left
    refine ⟨hA, fail_vpid (vmx_allocate_vpid M vcpu).2 vcpu, ?_, ?_⟩
    · unfold create_vcpu_vpid
      rw [if_pos hA]
    · have hf : ¬ find_first_zero_bit M.vmx_vpid_bitmap VMX_NR_VPIDS < VMX_NR_VPIDS := by
        intro hlt
        rw [allocate_ok M vcpu hlt] at hA
        exact hA rfl
      rw [allocate_fail M vcpu hf]
      rfl
  · right
    have hA0 : (vmx_allocate_vpid M vcpu).1 = 0 := not_not.mp hA
    obtain ⟨t, _, hb, _, hvp, hbm⟩ := (allocate_cases M vcpu).2 hA0
    have ht : t ≠ 0 := by
      intro e
      rw [e] at hb
      exact bool_true_ne_false _ h0 hb
    have hce := (allocate_ept_result M vcpu).1
    have hroot : ∀ root k,
        (create_vcpu_root (vmx_allocate_vpid M vcpu).2 vcpu root k).vmx_vpid_bitmap
          = upd M.vmx_vpid_bitmap t true ∧
        ((create_vcpu_root (vmx_allocate_vpid M vcpu).2 vcpu root k).vcpus vcpu).vpid = t ∧
        (create_vcpu_root (vmx_allocate_vpid M vcpu).2 vcpu root k).create_ept_result
          = M.create_ept_result := by
      intro root k
      refine ⟨hbm, ?_, hce⟩
      show (upd (vmx_allocate_vpid M vcpu).2.vcpus vcpu _ vcpu).vpid = t
      rw [upd_same]
      exact hvp
    unfold create_vcpu_vpid
    rw [if_neg hA]
    cases hvt : vt_ept_2M_init E (vmx_allocate_vpid M vcpu).2.kern with
    | none => exact Or.inl ⟨hA0, rfl, rfl⟩
    | some rk =>
      right
      obtain ⟨root, k⟩ := rk
      obtain ⟨r1, r2, r3⟩ := hroot root k
      show _ ∨ _ ∨ _
      by_cases hr : root = 0
      · left
        refine ⟨hA0, ⟨k, by rw [hr]⟩,
          fail_ept (create_vcpu_root (vmx_allocate_vpid M vcpu).2 vcpu root k) vcpu, ?_, ?_⟩
        · show (if root = 0 then _ else _) = _
          rw [if_pos hr]
        · rw [fail_ept_bitmap]
          exact free_after _ vcpu M.vmx_vpid_bitmap t ht hb r1 r2
      · right
        have hs := same_pool_bind (create_vcpu_root (vmx_allocate_vpid M vcpu).2 vcpu root k) vcpu
        have e1 : (create_vcpu_bind (create_vcpu_root (vmx_allocate_vpid M vcpu).2 vcpu root k)
            vcpu).vmx_vpid_bitmap = upd M.vmx_vpid_bitmap t true := hs.1.trans r1
        have e2 : ((create_vcpu_bind (create_vcpu_root (vmx_allocate_vpid M vcpu).2 vcpu root k)
            vcpu).vcpus vcpu).vpid = t := (hs.2.1 vcpu).trans r2
        have e3 : (create_vcpu_bind (create_vcpu_root (vmx_allocate_vpid M vcpu).2 vcpu root k)
            vcpu).create_ept_result = M.create_ept_result := hs.2.2.trans r3
        by_cases hc : M.create_ept_result ≠ 0
        · left
          refine ⟨hA0, ⟨root, k, rfl, hr⟩, hc,
            fail_ept (create_vcpu_bind
              (create_vcpu_root (vmx_allocate_vpid M vcpu).2 vcpu root k) vcpu) vcpu, ?_, ?_⟩
          · show (if root = 0 then _ else _) = _
            rw [if_neg hr]
            unfold create_vcpu_setup
            rw [if_pos (by rw [e3]; exact hc)]
          · rw [fail_ept_bitmap]
            exact free_after _ vcpu M.vmx_vpid_bitmap t ht hb e1 e2
        · right
          have hc0 : M.create_ept_result = 0 := not_not.mp hc
          refine ⟨hA0, ⟨root, k, rfl, hr⟩, hc0,
            create_vcpu_bind (create_vcpu_root (vmx_allocate_vpid M vcpu).2 vcpu root k) vcpu,
            ?_, ?_, ?_, ?_⟩
          · show (if root = 0 then _ else _) = _
            rw [if_neg hr]
            unfold create_vcpu_setup
            rw [if_neg (by rw [e3]; exact hc)]
          · rw [e2]
            exact e1
          · rw [e2]
            exact ht
          · rw [e2]
            exact hb

theorem vmcs_stage_pool (m : Machine) (vcpu : Nat) :
    (create_vcpu_vmcs m vcpu).2.vmx_vpid_bitmap = m.vmx_vpid_bitmap ∧
    (create_vcpu_vmcs m vcpu).2.create_ept_result = m.create_ept_result := by
  have h := same_pool_alloc_vmcs (set_vcpu { m with kern := (kmalloc m.kern).2 } vcpu zero_vcpu)
  exact ⟨h.1, h.2.2⟩

theorem allocate_exhausted (m : Machine) (vmx : Nat)
    (h : ∀ i, i < VMX_NR_VPIDS → m.vmx_vpid_bitmap i = true) :
    (vmx_allocate_vpid m vmx).1 ≠ 0 := by
  have hf : ¬ find_first_zero_bit m.vmx_vpid_bitmap VMX_NR_VPIDS < VMX_NR_VPIDS := by
    intro hlt
    rcases find_first_zero_bit_spec m.vmx_vpid_bitmap VMX_NR_VPIDS with ⟨e, _⟩ | ⟨h1, h2, _⟩
    · omega
    · exact bool_true_ne_false _ (h _ h1) h2
  rw [allocate_fail m vmx hf]
  exact Nat.one_ne_zero

theorem create_vcpu_kmalloc (E vcpu : Nat) (m : Machine) (hk : (kmalloc m.kern).1 = false) :
    vmx_create_vcpu E vcpu m = some (0, { m with kern := (kmalloc m.kern).2 }) := by
  unfold vmx_create_vcpu
  rw [if_pos hk]

theorem create_vcpu_no_vmcs (E vcpu : Nat) (m : Machine) (hk : (kmalloc m.kern).1 = true)
    (hv : (create_vcpu_vmcs m vcpu).1 = 0) :
    vmx_create_vcpu E vcpu m = some (0, fail_vmcs (create_vcpu_vmcs m vcpu).2 vcpu) := by
  unfold vmx_create_vcpu
  rw [if_neg (by rw [hk]; exact Bool.noConfusion), if_pos hv]

theorem create_vcpu_rest (E vcpu : Nat) (m : Machine) (hk : (kmalloc m.kern).1 = true)
    (hv : (create_vcpu_vmcs m vcpu).1 ≠ 0) :
    vmx_create_vcpu E vcpu m = create_vcpu_vpid E (create_vcpu_vmcs m vcpu).2 vcpu := by
  unfold vmx_create_vcpu
  rw [if_neg (by rw [hk]; exact Bool.noConfusion), if_neg hv]

theorem over_limit (E : Nat) (s : Kernel)
    (h : rounded_mappingsize E >>> GIGABYTE_SHIFT > PML4E_MAP_LIMIT) :
    vt_ept_2M_init E s = some (0, s) := by
  rw [vt_ept_2M_init, if_pos h]


/-- The outcomes of `vmx_create_vcpu`: let tag 0 be reserved in the pool (as `vmx_init` leaves it and every
call of the pool interface keeps it) and let `vcpu`, not `NULL`, be the address
`kmalloc` gives the VCPU structure. Whenever `vmx_create_vcpu` returns `NULL`
the bitmap of the pool is the one before the call. It returns `NULL` when
`kmalloc` fails, when `vmx_alloc_vmcs` returns `NULL`, when `vmx_allocate_vpid`
fails (as it does when all `VMX_NR_VPIDS` bits are set), when `vt_ept_2M_init`
returns 0, and when `vmx_create_ept` fails; otherwise, unless `vt_ept_2M_init`
faults, it returns `vcpu`, whose tag is not 0, was free before the call and is
the one bit added to the pool. No other pointer is ever returned. -/
theorem create_vcpu_outcomes (E vcpu : Nat) (m : Machine)
    (h0 : m.vmx_vpid_bitmap 0 = true) (hv : vcpu ≠ 0) :
    (∀ m1, vmx_create_vcpu E vcpu m = some (0, m1) →
      m1.vmx_vpid_bitmap = m.vmx_vpid_bitmap) ∧
    ((kmalloc m.kern).1 = false → ∃ m1, vmx_create_vcpu E vcpu m = some (0, m1)) ∧
    ((kmalloc m.kern).1 = true →
      ((create_vcpu_vmcs m vcpu).1 = 0 → ∃ m1, vmx_create_vcpu E vcpu m = some (0, m1)) ∧
      ((create_vcpu_vmcs m vcpu).1 ≠ 0 →
        ((vmx_allocate_vpid (create_vcpu_vmcs m vcpu).2 vcpu).1 ≠ 0 →
          ∃ m1, vmx_create_vcpu E vcpu m = some (0, m1)) ∧
        ((∀ i, i < VMX_NR_VPIDS → m.vmx_vpid_bitmap i = true) →
          (vmx_allocate_vpid (create_vcpu_vmcs m vcpu).2 vcpu).1 ≠ 0) ∧
        ((vmx_allocate_vpid (create_vcpu_vmcs m vcpu).2 vcpu).1 = 0 →
          (∀ k, vt_ept_2M_init E (vmx_allocate_vpid (create_vcpu_vmcs m vcpu).2 vcpu).2.kern
              = some (0, k) →
            ∃ m1, vmx_create_vcpu E vcpu m = some (0, m1)) ∧
          (∀ root k,
            vt_ept_2M_init E (vmx_allocate_vpid (create_vcpu_vmcs m vcpu).2 vcpu).2.kern
              = some (root, k) →
            root ≠ 0 →
            (m.create_ept_result ≠ 0 → ∃ m1, vmx_create_vcpu E vcpu m = some (0, m1)) ∧
            (m.create_ept_result = 0 →
              ∃ m1, vmx_create_vcpu E vcpu m = some (vcpu, m1) ∧
                (m1.vcpus vcpu).vpid ≠ 0 ∧
                m.vmx_vpid_bitmap (m1.vcpus vcpu).vpid = false ∧
                m1.vmx_vpid_bitmap
                  = upd m.vmx_vpid_bitmap (m1.vcpus vcpu).vpid true))))) ∧
    (∀ r m1, vmx_create_vcpu E vcpu m = some (r, m1) → r = 0 ∨ r = vcpu) := by
  have hM := vmcs_stage_pool m vcpu
  have h0M : (create_vcpu_vmcs m vcpu).2.vmx_vpid_bitmap 0 = true := by
    rw [hM.1]
    exact h0
  have C := vpid_stage_cases E (create_vcpu_vmcs m vcpu).2 vcpu h0M
  rw [hM.1, hM.2] at C
  refine ⟨?_, ?_, ?_, ?_⟩
  · intro m1 h
    by_cases hk : (kmalloc m.kern).1 = false
    · rw [create_vcpu_kmalloc E vcpu m hk] at h
      simp only [Option.some.injEq, Prod.mk.injEq, true_and] at h
      rw [← h]
    · have hk1 : (kmalloc m.kern).1 = true := by
        cases hb : (kmalloc m.kern).1
        · exact absurd hb hk
        · rfl
      by_cases hz : (create_vcpu_vmcs m vcpu).1 = 0
      · rw [create_vcpu_no_vmcs E vcpu m hk1 hz] at h
        simp only [Option.some.injEq, Prod.mk.injEq, true_and] at h
        rw [← h]
        exact hM.1
      · rw [create_vcpu_rest E vcpu m hk1 hz] at h
        rcases C with ⟨_, m2, e, b⟩ | ⟨_, _, e⟩ | ⟨_, _, m2, e, b⟩ | ⟨_, _, _, m2, e, b⟩ |
          ⟨_, _, _, m2, e, _⟩
        · rw [e] at h
          simp only [Option.some.injEq, Prod.mk.injEq, true_and] at h
          rw [← h]
          exact b
        · rw [e] at h
          cases h
        · rw [e] at h
          simp only [Option.some.injEq, Prod.mk.injEq, true_and] at h
          rw [← h]
          exact b
        · rw [e] at h
          simp only [Option.some.injEq, Prod.mk.injEq, true_and] at h
          rw [← h]
          exact b
        · rw [e] at h
          simp only [Option.some.injEq, Prod.mk.injEq] at h
          exact absurd h.1 hv
  · intro hk
    exact ⟨_, create_vcpu_kmalloc E vcpu m hk⟩
  · intro hk
    refine ⟨fun hz => ⟨_, create_vcpu_no_vmcs E vcpu m hk hz⟩, fun hz => ?_⟩
    rw [create_vcpu_rest E vcpu m hk hz]
    refine ⟨?_, ?_, ?_⟩
    · intro hA
      rcases C with ⟨_, m2, e, _⟩ | ⟨a, _⟩ | ⟨a, _⟩ | ⟨a, _⟩ | ⟨a, _⟩
      · exact ⟨m2, e⟩
      · exact absurd a hA
      · exact absurd a hA
      · exact absurd a hA
      · exact absurd a hA
    · intro hall
      exact allocate_exhausted _ vcpu (by rw [hM.1]; exact hall)
    · intro hA
      refine ⟨?_, ?_⟩
      · intro k hk0
        rcases C with ⟨a, _⟩ | ⟨_, a, _⟩ | ⟨_, _, m2, e, _⟩ | ⟨_, ⟨r, k1, a, hr⟩, _⟩ |
          ⟨_, ⟨r, k1, a, hr⟩, _⟩
        · exact absurd hA a
        · rw [hk0] at a
          cases a
        · exact ⟨m2, e⟩
        · rw [hk0] at a
          simp only [Option.some.injEq, Prod.mk.injEq] at a
          exact absurd a.1.symm hr
        · rw [hk0] at a
          simp only [Option.some.injEq, Prod.mk.injEq] at a
          exact absurd a.1.symm hr
      · intro root k hrk hr
        refine ⟨?_, ?_⟩
        · intro hc
          rcases C with ⟨a, _⟩ | ⟨_, a, _⟩ | ⟨_, ⟨k1, a⟩, _⟩ | ⟨_, _, _, m2, e, _⟩ |
            ⟨_, _, c0, _⟩
          · exact absurd hA a
          · rw [hrk] at a
            cases a
          · rw [hrk] at a
            simp only [Option.some.injEq, Prod.mk.injEq] at a
            exact absurd a.1 hr
          · exact ⟨m2, e⟩
          · exact absurd c0 hc
        · intro hc
          rcases C with ⟨a, _⟩ | ⟨_, a, _⟩ | ⟨_, ⟨k1, a⟩, _⟩ | ⟨_, _, c0, _⟩ |
            ⟨_, _, _, m2, e, b1, b2, b3⟩
          · exact absurd hA a
          · rw [hrk] at a
            cases a
          · rw [hrk] at a
            simp only [Option.some.injEq, Prod.mk.injEq] at a
            exact absurd a.1 hr
          · exact absurd hc c0
          · exact ⟨m2, e, b2, b3, b1⟩
  · intro r m1 h
    by_cases hk : (kmalloc m.kern).1 = false
    · rw [create_vcpu_kmalloc E vcpu m hk] at h
      simp only [Option.some.injEq, Prod.mk.injEq] at h
      exact Or.inl h.1.symm
    · have hk1 : (kmalloc m.kern).1 = true := by
        cases hb : (kmalloc m.kern).1
        · exact absurd hb hk
        · rfl
      by_cases hz : (create_vcpu_vmcs m vcpu).1 = 0
      · rw [create_vcpu_no_vmcs E vcpu m hk1 hz] at h
        simp only [Option.some.injEq, Prod.mk.injEq] at h
        exact Or.inl h.1.symm
      · rw [create_vcpu_rest E vcpu m hk1 hz] at h
        rcases C with ⟨_, m2, e, _⟩ | ⟨_, _, e⟩ | ⟨_, _, m2, e, _⟩ | ⟨_, _, _, m2, e, _⟩ |
          ⟨_, _, _, m2, e, _⟩
        · rw [e] at h
          simp only [Option.some.injEq, Prod.mk.injEq] at h
          exact Or.inl h.1.symm
        · rw [e] at h
          cases h
        · rw [e] at h
          simp only [Option.some.injEq, Prod.mk.injEq] at h
          exact Or.inl h.1.symm
        · rw [e] at h
          simp only [Option.some.injEq, Prod.mk.injEq] at h
          exact Or.inl h.1.symm
        · rw [e] at h
          simp only [Option.some.injEq, Prod.mk.injEq] at h
          exact Or.inr h.1.symm


/-! ## Invalidation scopes -/

/-- A capability test `word & (1 << k)`, converted to `bool`, tells bit `k` of
the word. -/
theorem cap_bit (x k : Nat) : (decide (x &&& 1 <<< k ≠ 0) = true) ↔ x.testBit k = true := by
  rw [Nat.one_shiftLeft, Nat.and_two_pow, decide_eq_true_iff]
  cases x.testBit k
  · simp
  · simp

theorem invept_individual_iff (m : Machine) :
    cpu_has_vmx_invept_individual_addr m = true ↔ m.vmx_capability.ept.testBit 24 = true :=
  cap_bit m.vmx_capability.ept 24

theorem invept_context_iff (m : Machine) :
    cpu_has_vmx_invept_context m = true ↔ m.vmx_capability.ept.testBit 25 = true :=
  cap_bit m.vmx_capability.ept 25

theorem invept_global_iff (m : Machine) :
    cpu_has_vmx_invept_global m = true ↔ m.vmx_capability.ept.testBit 26 = true :=
  cap_bit m.vmx_capability.ept 26

/-- The function `ept_sync_context` by cases on the capabilities. -/
theorem ept_sync_context_eq (m : Machine) (eptp : Nat) :
    ept_sync_context m eptp =
      if m.vmx_capability.ept.testBit 25 = true then
        emit m (Event.invept m.cpu VMX_EPT_EXTENT_CONTEXT eptp 0)
      else if m.vmx_capability.ept.testBit 26 = true then
        emit m (Event.invept m.cpu VMX_EPT_EXTENT_GLOBAL 0 0)
      else m := by
  unfold ept_sync_context ept_sync_global __invept
  by_cases h1 : cpu_has_vmx_invept_context m = true
  · rw [if_pos h1, if_pos ((invept_context_iff m).mp h1)]
  · rw [if_neg h1, if_neg (fun h => h1 ((invept_context_iff m).mpr h))]
    by_cases h2 : cpu_has_vmx_invept_global m = true
    · rw [if_pos h2, if_pos ((invept_global_iff m).mp h2)]
    · rw [if_neg h2, if_neg (fun h => h2 ((invept_global_iff m).mpr h))]

/-- The function `ept_sync_individual_addr` by cases on the capabilities. -/
theorem ept_sync_individual_eq (m : Machine) (eptp gpa : Nat) :
    ept_sync_individual_addr m eptp gpa =
      if m.vmx_capability.ept.testBit 24 = true then
        emit m (Event.invept m.cpu VMX_EPT_EXTENT_INDIVIDUAL_ADDR eptp gpa)
      else ept_sync_context m eptp := by
  unfold ept_sync_individual_addr __invept
  by_cases h1 : cpu_has_vmx_invept_individual_addr m = true
  · rw [if_pos h1, if_pos ((invept_individual_iff m).mp h1)]
  · rw [if_neg h1, if_neg (fun h => h1 ((invept_individual_iff m).mpr h))]


/-! ## Capability words -/

theorem testBit_lnot32 (c i : Nat) (hc : c < 2 ^ 32) :
    (lnot32 c).testBit i = (decide (i < 32) && !c.testBit i) := by
  have e : lnot32 c = 2 ^ 32 - (c + 1) := by
    unfold lnot32
    omega
  rw [e]
  exact Nat.testBit_two_pow_sub_succ hc i

theorem testBit_u32 (a i : Nat) (ha : a < 2 ^ 32) (h : a.testBit i = true) : i < 32 := by
  by_contra hc
  have hle : 2 ^ 32 ≤ 2 ^ i := Nat.pow_le_pow_right (by decide) (by omega)
  have := Nat.testBit_lt_two_pow (Nat.lt_of_lt_of_le ha hle)
  rw [this] at h
  cases h

/-- The test `a & ~c` of two `u32`: it is non-zero exactly when some bit of `a`
is clear in `c`. -/
theorem and_lnot32_ne_zero (a c : Nat) (ha : a < 2 ^ 32) (hc : c < 2 ^ 32) :
    a &&& lnot32 c ≠ 0 ↔ ∃ i, a.testBit i = true ∧ c.testBit i = false := by
  constructor
  · intro h
    obtain ⟨i, hi⟩ := Nat.ne_zero_implies_bit_true h
    rw [Nat.testBit_and, testBit_lnot32 c i hc] at hi
    refine ⟨i, ?_, ?_⟩
    · cases hb : a.testBit i
      · rw [hb] at hi
        cases hi
      · rfl
    · cases hb : c.testBit i
      · rfl
      · rw [hb] at hi
        simp at hi
  · rintro ⟨i, h1, h2⟩ h0
    have : (a &&& lnot32 c).testBit i = true := by
      rw [Nat.testBit_and, testBit_lnot32 c i hc, h1, h2]
      simp [testBit_u32 a i ha h1]
    rw [h0, Nat.zero_testBit] at this
    cases this

theorem and_eq_left_of_bits (a c : Nat) (h : ∀ i, a.testBit i = true → c.testBit i = true) :
    a &&& c = a := by
  apply Nat.eq_of_testBit_eq
  intro i
  rw [Nat.testBit_and]
  cases hb : a.testBit i
  · rfl
  · rw [h i hb]
    rfl


/-! ## The end of physical memory -/

theorem last_end_pfn_ge (L : Nat) (map : List e820entry) (e : e820entry) (he : e ∈ map)
    (hs : e.addr / 4096 < L) : (e.addr + e.size) / 4096 ≤ last_end_pfn L map := by
  induction map with
  | nil => cases he
  | cons a rest ih =>
    unfold last_end_pfn
    rcases List.mem_cons.mp he with h | h
    · rw [← h, if_pos hs]
      exact Nat.le_max_left _ _
    · have := ih h
      split
      · exact Nat.le_trans this (Nat.le_max_right _ _)
      · exact this

theorem last_end_pfn_mem (L : Nat) (map : List e820entry)
    (h : ∃ e, e ∈ map ∧ e.addr / 4096 < L) :
    ∃ e, e ∈ map ∧ e.addr / 4096 < L ∧ (e.addr + e.size) / 4096 = last_end_pfn L map := by
  induction map with
  | nil =>
    obtain ⟨e, he, _⟩ := h
    cases he
  | cons a rest ih =>
    unfold last_end_pfn
    by_cases ha : a.addr / 4096 < L
    · rw [if_pos ha]
      by_cases hr : ∃ e, e ∈ rest ∧ e.addr / 4096 < L
      · obtain ⟨e, he, hs, hm⟩ := ih hr
        by_cases hc : last_end_pfn L rest ≤ (a.addr + a.size) / 4096
        · exact ⟨a, List.mem_cons_self _ _, ha, (Nat.max_eq_left hc).symm⟩
        · exact ⟨e, List.mem_cons_of_mem _ he, hs,
            by rw [hm]; exact (Nat.max_eq_right (by omega)).symm⟩
      · have h0 : last_end_pfn L rest = 0 := by
          clear ih h
          induction rest with
          | nil => rfl
          | cons b r ihr =>
            unfold last_end_pfn
            have hb : ¬ b.addr / 4096 < L :=
              fun hb => hr ⟨b, List.mem_cons_self _ _, hb⟩
            rw [if_neg hb]
            exact ihr (fun ⟨e, he, hs⟩ => hr ⟨e, List.mem_cons_of_mem _ he, hs⟩)
        exact ⟨a, List.mem_cons_self _ _, ha, by rw [h0, Nat.max_zero]⟩
    · rw [if_neg ha]
      obtain ⟨e, he, hs⟩ := h
      rcases List.mem_cons.mp he with h1 | h1
      · rw [h1] at hs
        exact absurd hs ha
      · obtain ⟨e1, he1, hs1, hm1⟩ := ih ⟨e, h1, hs⟩
        exact ⟨e1, List.mem_cons_of_mem _ he1, hs1, hm1⟩

theorem last_end_pfn_none (L : Nat) (map : List e820entry)
    (h : ¬ ∃ e, e ∈ map ∧ e.addr / 4096 < L) : last_end_pfn L map = 0 := by
  induction map with
  | nil => rfl
  | cons b r ih =>
    unfold last_end_pfn
    have hb : ¬ b.addr / 4096 < L := fun hb => h ⟨b, List.mem_cons_self _ _, hb⟩
    rw [if_neg hb]
    exact ih (fun ⟨e, he, hs⟩ => h ⟨e, List.mem_cons_of_mem _ he, hs⟩)

theorem last_end_pfn_perm (L : Nat) (l1 l2 : List e820entry) (p : l1.Perm l2) :
    last_end_pfn L l1 = last_end_pfn L l2 := by
  induction p with
  | nil => rfl
  | cons a _ ih =>
    unfold last_end_pfn
    rw [ih]
  | swap a b l =>
    simp only [last_end_pfn]
    split <;> split <;> first | rfl | omega
  | trans _ _ ih1 ih2 => exact ih1.trans ih2

/-- The loop of `e820_end_paddr`, started with a `last_pfn` that is not above
the limit, on ranges whose end does not overflow. -/
theorem e820_scan_eq (L : Nat) (map : List e820entry) (last : Nat) (hl : last ≤ L)
    (hov : ∀ e, e ∈ map → e.addr + e.size < 2 ^ 64) :
    e820_scan L map last = min L (max last (last_end_pfn L map)) := by
  induction map generalizing last with
  | nil =>
    unfold e820_scan last_end_pfn
    omega
  | cons a rest ih =>
    have hov1 : ∀ e, e ∈ rest → e.addr + e.size < 2 ^ 64 :=
      fun e he => hov e (List.mem_cons_of_mem _ he)
    have ha := hov a (List.mem_cons_self _ _)
    have e1 : a.addr >>> PAGE_SHIFT = a.addr / 4096 := Nat.shiftRight_eq_div_pow _ _
    have e2 : ((a.addr + a.size) % 2 ^ 64) >>> PAGE_SHIFT = (a.addr + a.size) / 4096 := by
      rw [Nat.mod_eq_of_lt ha]
      exact Nat.shiftRight_eq_div_pow _ _
    unfold e820_scan last_end_pfn
    rw [e1, e2]
    by_cases h1 : a.addr / 4096 ≥ L
    · rw [if_pos h1, if_neg (show ¬ a.addr / 4096 < L by omega)]
      exact ih last hl hov1
    · rw [if_neg h1, if_pos (show a.addr / 4096 < L by omega)]
      by_cases h2 : (a.addr + a.size) / 4096 > L
      · rw [if_pos h2]
        omega
      · rw [if_neg h2]
        by_cases h3 : (a.addr + a.size) / 4096 > last
        · rw [if_pos h3, ih _ (by omega) hov1]
          omega
        · rw [if_neg h3, ih last hl hov1]
          omega

theorem e820_end_paddr_eq (map : List e820entry) (L : Nat)
    (hov : ∀ e, e ∈ map → e.addr + e.size < 2 ^ 64) :
    e820_end_paddr map L = min L (min (MAXMEM / 4096) (last_end_pfn L map)) * 4096 := by
  unfold e820_end_paddr
  rw [e820_scan_eq L map 0 (Nat.zero_le _) hov]
  have e1 : MAXMEM >>> PAGE_SHIFT = 2 ^ 34 := by decide
  have e2 : MAXMEM / 4096 = 2 ^ 34 := by decide
  rw [e1, e2, Nat.shiftLeft_eq]
  have e3 : (2 : Nat) ^ PAGE_SHIFT = 4096 := by decide
  rw [e3]
  split <;> omega


/-! ## Enabling and disabling VMX operation on a core -/

theorem or_and_self_bits (x k : Nat) : (x ||| k) &&& k = k := by
  apply Nat.eq_of_testBit_eq
  intro i
  rw [Nat.testBit_and, Nat.testBit_or]
  cases x.testBit i <;> cases k.testBit i <;> rfl

theorem sync_global_cpu (m : Machine) :
    (ept_sync_global (vpid_sync_vcpu_global m)).cpu = m.cpu := by
  unfold ept_sync_global vpid_sync_vcpu_global __invept __invvpid
  split <;> split <;> rfl

/-- On a core whose `CR4.VMXE` is set, `__vmx_enable` returns `-EBUSY` and
`vmx_enable` only counts the failure. -/
theorem vmx_enable_busy (h : Host) (hb : h.cr4 h.m.cpu &&& X86_CR4_VMXE ≠ 0) :
    __vmx_enable h (h.vmxarea h.m.cpu) = (-EBUSY, h) ∧
    vmx_enable h = { h with vmx_enable_failed := h.vmx_enable_failed + 1 } := by
  have e : __vmx_enable h (h.vmxarea h.m.cpu) = (-EBUSY, h) := by
    unfold __vmx_enable
    rw [if_pos hb]
  refine ⟨e, ?_⟩
  unfold vmx_enable
  rw [e]
  rfl

/-- On a core whose `CR4.VMXE` is clear, `__vmx_enable` returns 0 and sets the
bit, and `vmx_enable` sets the flag `vmx_enabled` and leaves the failure
counter alone. -/
theorem vmx_enable_fresh (h : Host) (hb : ¬ h.cr4 h.m.cpu &&& X86_CR4_VMXE ≠ 0) :
    (__vmx_enable h (h.vmxarea h.m.cpu)).1 = 0 ∧
    (vmx_enable h).m.cpu = h.m.cpu ∧
    (vmx_enable h).cr4 = upd h.cr4 h.m.cpu (h.cr4 h.m.cpu ||| X86_CR4_VMXE) ∧
    (vmx_enable h).vmx_enabled = upd h.vmx_enabled h.m.cpu 1 ∧
    (vmx_enable h).vmx_operation = upd h.vmx_operation h.m.cpu true ∧
    (vmx_enable h).vmx_enable_failed = h.vmx_enable_failed := by
  have e1 : (__vmx_enable h (h.vmxarea h.m.cpu)).1 = 0 := by
    unfold __vmx_enable
    rw [if_neg hb]
  have e2 : (__vmx_enable h (h.vmxarea h.m.cpu)).2.m.cpu = h.m.cpu ∧
      (__vmx_enable h (h.vmxarea h.m.cpu)).2.cr4
        = upd h.cr4 h.m.cpu (h.cr4 h.m.cpu ||| X86_CR4_VMXE) ∧
      (__vmx_enable h (h.vmxarea h.m.cpu)).2.vmx_enabled = h.vmx_enabled ∧
      (__vmx_enable h (h.vmxarea h.m.cpu)).2.vmx_operation
        = upd h.vmx_operation h.m.cpu true ∧
      (__vmx_enable h (h.vmxarea h.m.cpu)).2.vmx_enable_failed = h.vmx_enable_failed := by
    unfold __vmx_enable
    rw [if_neg hb]
    dsimp only
    split
    · exact ⟨sync_global_cpu _, rfl, rfl, rfl, rfl⟩
    · exact ⟨sync_global_cpu _, rfl, rfl, rfl, rfl⟩
  obtain ⟨c1, c2, c3, c4, c5⟩ := e2
  unfold vmx_enable
  rw [if_neg (fun hne => hne e1)]
  refine ⟨e1, c1, c2, ?_, c4, c5⟩
  show upd _ _ 1 = _
  rw [c3, c1]

/-- After `vmx_enable`, whatever it reported, `CR4.VMXE` is set on the core. -/
theorem vmx_enable_sets (h : Host) :
    (vmx_enable h).cr4 (vmx_enable h).m.cpu &&& X86_CR4_VMXE ≠ 0 := by
  by_cases hb : h.cr4 h.m.cpu &&& X86_CR4_VMXE ≠ 0
  · rw [(vmx_enable_busy h hb).2]
    exact hb
  · obtain ⟨_, c1, c2, _⟩ := vmx_enable_fresh h hb
    rw [c1, c2, upd_same, or_and_self_bits]
    decide


/-! ## Sequences of table modifications -/

/-- A state with the same allocator, no fewer pages handed out and the same
content in all table pages holds the same well-formed table. -/
theorem inv_frame (s s1 : Kernel) (root n : Nat) (L : EptLayout) (I : EptInv s root n L)
    (hp : s1.pages = s.pages) (hn : s.npages ≤ s1.npages)
    (hm : ∀ q r x, L.role q = some r → q ≤ x → x < q + 4096 → s1.mem x = s.mem x) :
    EptInv s1 root n L := by
  have hle := I.n_le
  refine ⟨I.n_le, by rw [hp]; exact I.pool, ?_, I.table_ok, I.role_root, I.role_pdpt, I.role_pd,
    ?_, ?_, ?_⟩
  · intro j p hj hpj
    rw [hp] at hpj
    exact I.fresh j p (by omega) hpj
  · rw [hm root _ root I.role_root (Nat.le_refl _) (by omega)]
    exact I.root_entry
  · intro k hk
    rw [hm L.pdpt _ _ I.role_pdpt (by omega) (by omega)]
    exact I.pdpt_entry k hk
  · intro k i hk hi
    rw [hm (L.pd k) _ _ (I.role_pd k hk) (by omega) (by omega)]
    rcases I.pd_entry k i hk hi with hl | ⟨T, h1, h2, h3⟩
    · exact Or.inl hl
    · refine Or.inr ⟨T, h1, h2, fun j hj => ?_⟩
      rw [hm T _ _ h2 (by omega) (by omega)]
      exact h3 j hj

theorem split_unaligned_eq (s : Kernel) (root p : Nat) (h : p % 2 ^ 21 ≠ 0) :
    split_2M_mapping s root p = (0, s) := by
  unfold split_2M_mapping
  dsimp only
  rw [align_2m, if_pos h]

/-- Every outcome of `split_2M_mapping` for an address of the mapped range of a
well-formed table leaves a well-formed table. -/
theorem split_step (s : Kernel) (root n : Nat) (L : EptLayout) (I : EptInv s root n L)
    (p : Nat) (hp : p < n * 2 ^ 30) :
    ∃ L1, EptInv (split_2M_mapping s root p).2 root n L1 := by
  by_cases hal : p % 2 ^ 21 = 0
  · by_cases h : s.mem (pd_slot L p) &&& EPT_2M_PAGE = 0
    · rw [split_noop s root n L I p hp hal h]
      exact ⟨L, I⟩
    · cases hslab : s.slab s.nslab with
      | false =>
        rw [split_no_slab s root n L I p hp hal h hslab]
        exact ⟨L, inv_frame s _ root n L I rfl (Nat.le_refl _) (fun _ _ _ _ _ _ => rfl)⟩
      | true =>
        cases hN : s.pages s.npages with
        | none =>
          rw [split_no_page s root n L I p hp hal h hslab hN]
          exact ⟨L, inv_frame s _ root n L I rfl (Nat.le_succ _) (fun _ _ _ _ _ _ => rfl)⟩
        | some N =>
          rw [split_large s root n L I p hp hal h hslab N hN]
          exact ⟨_, split_inv s root n L I p hp h N hN⟩
  · rw [split_unaligned_eq s root p hal]
    exact ⟨L, I⟩

/-- Every call of `replace_ept_page` for an address of the mapped range of a
well-formed table returns, and leaves a well-formed table. -/
theorem replace_step (s : Kernel) (root n : Nat) (L : EptLayout) (I : EptInv s root n L)
    (p : Nat) (hp : p < n * 2 ^ 30) :
    ∃ r s2 L2, replace_ept_page s root p = some (r, s2) ∧ EptInv s2 root n L2 := by
  rcases replace_cases s root n L I p hp with ⟨s1, h1, h2⟩ | ⟨s1, L1, T, h1, SP, h2⟩
  · have hn := I.n_le
    obtain ⟨L1, I1⟩ := split_step s root n L I (p &&& lnot64 (PAGESIZE2M - 1))
      (by rw [split_addr_eq p (by omega)]; omega)
    rw [h1] at I1
    exact ⟨0, s1, L1, h2, I1⟩
  · have I1 := SP.inv
    have hT := split_post_pd_val s s1 root n L L1 p T SP
    have hr := SP.role_T
    have h0 : IsSmallLeaf (s1.mem T) := by
      have := SP.leaves 0 (by omega)
      simpa using this
    have hf := find_pt_entry_inv s1 root n L1 I1 p hp T hT hr h0
    have lf := leaf_facts s1 root n L1 I1 p T _ hr
    have hsm : IsSmallLeaf (s1.mem (pt_slot T p)) := by
      simp only [pt_slot]
      exact SP.leaves _ (by omega)
    have hlt := small_lt _ hsm
    rw [h2]
    cases hslab : s1.slab s1.nslab with
    | false =>
      exact ⟨0, _, L1, tail_no_slab s1 root p _ lf.2.2.1 hf hslab,
        inv_frame s1 _ root n L1 I1 rfl (Nat.le_refl _) (fun _ _ _ _ _ _ => rfl)⟩
    | true =>
      cases hN : s1.pages s1.npages with
      | none =>
        exact ⟨0, _, L1, tail_no_page s1 root p _ lf.2.2.1 hf hslab hN,
          inv_frame s1 _ root n L1 I1 rfl (Nat.le_succ _) (fun _ _ _ _ _ _ => rfl)⟩
      | some N =>
        have hlN := lf.2.2.2 N _ (Nat.le_refl _) hN
        by_cases hm : s1.mem (pt_slot T p) / 2 ^ 12 * 2 ^ 12 = p
        · exact ⟨__va N, _, L1,
            tail_ok s1 root p _ N lf.2.2.1 I1.pool hf hslab hN hlN hlt.1 hm,
            replace_inv s1 root n L1 I1 p T hr N hN⟩
        · refine ⟨0, _, L1,
            tail_mismatch s1 root p _ N lf.2.2.1 I1.pool hf hslab hN hlN hlt.1 hm,
            inv_frame s1 _ root n L1 I1 rfl (Nat.le_succ _) ?_⟩
          intro q r x hq h3 h4
          have := free_disjoint s1 root n L1 I1 _ N (Nat.le_refl _) hN q r hq
          show zeroMem N s1.mem x = s1.mem x
          simp only [zeroMem]
          rw [if_neg (by omega)]

/-- A sequence of calls with addresses of the mapped range, run on a well-formed
table, never meets the `BUG_ON` and leaves a well-formed table. -/
theorem run_inv (root n : Nat) (cs : List EptCall) (s : Kernel) (L : EptLayout)
    (I : EptInv s root n L) (hcs : ∀ c, c ∈ cs → c.paddr < n * 2 ^ 30) :
    ∃ s1 L1, ept_run root cs s = some s1 ∧ EptInv s1 root n L1 := by
  induction cs generalizing s L with
  | nil => exact ⟨s, L, rfl, I⟩
  | cons c cs ih =>
    have hc := hcs c (List.mem_cons_self _ _)
    have hrest : ∀ c1, c1 ∈ cs → c1.paddr < n * 2 ^ 30 :=
      fun c1 h1 => hcs c1 (List.mem_cons_of_mem _ h1)
    cases c with
    | split p =>
      obtain ⟨L1, I1⟩ := split_step s root n L I p hc
      exact ih _ L1 I1 hrest
    | replace p =>
      obtain ⟨r, s2, L2, h2, I2⟩ := replace_step s root n L I p hc
      have e : ept_run root (EptCall.replace p :: cs) s = ept_run root cs s2 := by
        simp only [ept_run, ept_call, h2, Option.map_some']
      rw [e]
      exact ih s2 L2 I2 hrest

/-- On a well-formed table, for an address of the mapped range: `find_pt_entry`
called after a successful split finds the leaf, and the three indices are below
512. -/
theorem find_pt_entry_safe (s : Kernel) (root n : Nat) (L : EptLayout) (I : EptInv s root n L)
    (p : Nat) (hp : p < n * 2 ^ 30) :
    (∀ r s2, split_2M_mapping s root (p &&& lnot64 (PAGESIZE2M - 1)) = (r, s2) → r ≠ 0 →
      ∃ leaf, find_pt_entry s2 root p = some leaf) ∧
    toInt32 ((p &&& lnot64 (GIGABYTE - 1)) >>> GIGABYTE_SHIFT) = ((p / 2 ^ 30 : Nat) : Int) ∧
    p / 2 ^ 30 < 512 ∧
    toInt32 ((p &&& (GIGABYTE - 1)) >>> PAGESIZE2M_SHIFT)
      = ((p % 2 ^ 30 / 2 ^ 21 : Nat) : Int) ∧
    p % 2 ^ 30 / 2 ^ 21 < 512 ∧
    toInt32 ((p &&& (PAGESIZE2M - 1)) >>> PAGESIZE_SHIFT)
      = ((p % 2 ^ 21 / 2 ^ 12 : Nat) : Int) ∧
    p % 2 ^ 21 / 2 ^ 12 < 512 := by
  have hn := I.n_le
  refine ⟨?_, gb_index p (by omega), by omega, pd_index p, by omega, pt_index p, by omega⟩
  intro r s2 hs hr
  rcases replace_cases s root n L I p hp with ⟨s1, h1, _⟩ | ⟨s1, L1, T, h1, SP, _⟩
  · rw [h1] at hs
    cases hs
    exact absurd rfl hr
  · rw [h1] at hs
    have e2 : s1 = s2 := (Prod.mk.inj hs).2
    subst e2
    have h0 : IsSmallLeaf (s1.mem T) := by
      have := SP.leaves 0 (by omega)
      simpa using this
    exact ⟨_, find_pt_entry_inv s1 root n L1 SP.inv p hp T
      (split_post_pd_val s s1 root n L L1 p T SP) SP.role_T h0⟩


/-! ## The dispatch on the exit reason -/

/-- A pass whose hardware entry succeeds with an exit other than a hypercall or
`cpuid` exit arrives at the dispatch in the state `after_exit`. -/
theorem enter_exit (vcpu : Nat) (x : Pass) (m : Machine) (v : Nat)
    (hf : x.vmexit.fail = 0) (hv : m.current_vmcs m.cpu = some v)
    (hret : ¬ (toInt32 (x.vmexit.reason % 2 ^ 32) = EXIT_REASON_VMCALL
      ∨ toInt32 (x.vmexit.reason % 2 ^ 32) = EXIT_REASON_CPUID)) :
    launch_enter vcpu x m =
      launch_dispatch vcpu x (decide (x.hardirqs_enabled_nr = 1 ∧ x.rcu_scheduler_active = 0))
        (toInt32 (x.vmexit.reason % 2 ^ 32))
        (after_exit m vcpu x.vmexit v (decide (x.hardirqs_enabled_nr ≠ 1))) := by
  unfold launch_enter
  rw [run_vcpu_ok m vcpu x.vmexit v hf hv]
  dsimp only
  rw [if_neg hret]
  congr 1
  by_cases hi : x.hardirqs_enabled_nr = 1
  · rw [if_pos hi]
    unfold vmx_put_cpu local_irq_enable
    simp only [emit, after_exit, List.append_assoc, List.singleton_append,
      hi, ne_eq, not_true_eq_false, decide_False]
  · rw [if_neg hi]
    unfold vmx_put_cpu
    simp only [emit, after_exit, List.append_assoc, List.singleton_append,
      hi, ne_eq, not_false_eq_true, decide_True]

theorem step_vcpus (m : Machine) :
    (vmx_step_instruction m).vcpus = m.vcpus ∧
    (vmx_step_instruction m).irqs_disabled = m.irqs_disabled := by
  unfold vmx_step_instruction vmcs_writel
  cases m.current_vmcs m.cpu <;> exact ⟨rfl, rfl⟩

/-- The state in which a pass arrives at the dispatch has the VCPU structures of
the state after `vmx_run_vcpu`. -/
theorem enter_vcpus (vcpu : Nat) (x : Pass) (m : Machine) :
    ∃ md, launch_enter vcpu x m =
        launch_dispatch vcpu x (decide (x.hardirqs_enabled_nr = 1 ∧ x.rcu_scheduler_active = 0))
          (vmx_run_vcpu m vcpu x.vmexit).1 md ∧
      md.vcpus = (vmx_run_vcpu m vcpu x.vmexit).2.vcpus ∧
      (¬ ((vmx_run_vcpu m vcpu x.vmexit).1 = EXIT_REASON_VMCALL
          ∨ (vmx_run_vcpu m vcpu x.vmexit).1 = EXIT_REASON_CPUID) →
        md.vmcs_field = (vmx_run_vcpu m vcpu x.vmexit).2.vmcs_field) := by
  refine ⟨_, rfl, ?_, ?_⟩
  · show (vmx_put_cpu _ vcpu).vcpus = _
    split
    · split
      · exact (step_vcpus _).1
      · exact (step_vcpus _).1
    · split
      · rfl
      · rfl
  · intro h
    rw [if_neg h]
    split
    · rfl
    · rfl

/-- The dispatch goes on to the next pass exactly for a hypercall with the
command `VMCALL_SCHED` taken with interrupts enabled, a `cpuid` exit and an
external interrupt. -/
theorem dispatch_next_iff (vcpu : Nat) (x : Pass) (ok : Bool) (ret : Int) (md : Machine) :
    (∃ ok1 ret1 m1, launch_dispatch vcpu x ok ret md = PassResult.next ok1 ret1 m1) ↔
      ((ret = EXIT_REASON_VMCALL ∧ md.irqs_disabled = false ∧
          (md.vcpus vcpu).regs VCPU_REGS_RAX = VMCALL_SCHED)
        ∨ ret = EXIT_REASON_CPUID ∨ ret = EXIT_REASON_EXTERNAL_INTERRUPT) := by
  unfold launch_dispatch tmp_finish
  by_cases h1 : ret = EXIT_REASON_VMCALL
  · rw [if_pos h1]
    cases hi : md.irqs_disabled
    · rw [if_neg Bool.false_ne_true]
      by_cases h2 : (md.vcpus vcpu).regs VCPU_REGS_RAX = VMCALL_SCHED
      · rw [if_pos h2]
        exact ⟨fun _ => Or.inl ⟨h1, rfl, h2⟩, fun _ => ⟨_, _, _, rfl⟩⟩
      · rw [if_neg h2]
        constructor
        · rintro ⟨a, b, c, e⟩
          split at e <;> cases e
        · rintro (⟨_, _, e⟩ | e | e)
          · exact absurd e h2
          · rw [h1] at e
            exact absurd e (by decide)
          · rw [h1] at e
            exact absurd e (by decide)
    · rw [if_pos rfl]
      constructor
      · rintro ⟨a, b, c, e⟩
        cases e
      · rintro (⟨_, e, _⟩ | e | e)
        · cases e
        · rw [h1] at e
          exact absurd e (by decide)
        · rw [h1] at e
          exact absurd e (by decide)
  · rw [if_neg h1]
    by_cases h2 : ret = EXIT_REASON_CPUID
    · rw [if_pos h2]
      exact ⟨fun _ => Or.inr (Or.inl h2), fun _ => ⟨_, _, _, rfl⟩⟩
    · rw [if_neg h2]
      by_cases h3 : ret = EXIT_REASON_EPT_VIOLATION
      · rw [if_pos h3]
        constructor
        · rintro ⟨a, b, c, e⟩
          cases e
        · rintro (⟨e, _⟩ | e | e)
          · exact absurd e h1
          · exact absurd e h2
          · rw [h3] at e
            exact absurd e (by decide)
      · rw [if_neg h3]
        by_cases h4 : ret = EXIT_REASON_EXCEPTION_NMI
        · rw [if_pos h4]
          constructor
          · rintro ⟨a, b, c, e⟩
            cases e
          · rintro (⟨e, _⟩ | e | e)
            · exact absurd e h1
            · exact absurd e h2
            · rw [h4] at e
              exact absurd e (by decide)
        · rw [if_neg h4]
          by_cases h5 : ret = EXIT_REASON_EXTERNAL_INTERRUPT
          · rw [if_neg (fun hne => hne h5)]
            exact ⟨fun _ => Or.inr (Or.inr h5), fun _ => ⟨_, _, _, rfl⟩⟩
          · rw [if_pos h5]
            constructor
            · rintro ⟨a, b, c, e⟩
              cases e
            · rintro (⟨e, _⟩ | e | e)
              · exact absurd e h1
              · exact absurd e h2
              · exact absurd e h5

/-- An exit reason other than the three that let the loop go on, and a
hypercall that does not, lead to one of the endings. -/
theorem dispatch_stop (vcpu : Nat) (x : Pass) (ok : Bool) (ret : Int) (md : Machine)
    (h : ¬ ((ret = EXIT_REASON_VMCALL ∧ md.irqs_disabled = false ∧
          (md.vcpus vcpu).regs VCPU_REGS_RAX = VMCALL_SCHED)
        ∨ ret = EXIT_REASON_CPUID ∨ ret = EXIT_REASON_EXTERNAL_INTERRUPT)) :
    ∃ e m1, launch_dispatch vcpu x ok ret md = PassResult.stop e m1 ∧ e ≠ Ending.running := by
  have hn := (dispatch_next_iff vcpu x ok ret md).not.mpr h
  cases hd : launch_dispatch vcpu x ok ret md with
  | next a b c => exact absurd ⟨a, b, c, hd⟩ hn
  | stop e m1 =>
    refine ⟨e, m1, rfl, ?_⟩
    intro he
    rw [he] at hd
    unfold launch_dispatch tmp_finish at hd
    repeat' split at hd
    all_goals cases hd

theorem dispatch_next_ret (vcpu : Nat) (x : Pass) (ok : Bool) (ret : Int) (md : Machine)
    (ok1 : Bool) (ret1 : Int) (m1 : Machine)
    (h : launch_dispatch vcpu x ok ret md = PassResult.next ok1 ret1 m1) : ret1 = ret := by
  unfold launch_dispatch tmp_finish at h
  repeat' split at h
  all_goals first
    | (cases h; rfl)
    | cases h

theorem dispatch_finish (vcpu : Nat) (x : Pass) (ok : Bool) (ret : Int) (md : Machine)
    (h1 : ret ≠ EXIT_REASON_VMCALL) (h2 : ret ≠ EXIT_REASON_CPUID)
    (h3 : ret ≠ EXIT_REASON_EXTERNAL_INTERRUPT) :
    launch_dispatch vcpu x ok ret md
      = PassResult.stop (Ending.bug_finish ret) (local_irq_enable md) := by
  unfold launch_dispatch tmp_finish
  rw [if_neg h1, if_neg h2]
  split
  · rfl
  · split
    · rfl
    · rfl

theorem run_vcpu_fail (m : Machine) (vcpu : Nat) (e : VmExit) (hf : e.fail ≠ 0) :
    (vmx_run_vcpu m vcpu e).1 = VMX_EXIT_REASONS_FAILED_VMENTRY := by
  unfold vmx_run_vcpu
  rw [if_pos hf]


/-! ## The `cpuid` exit -/

theorem handle_cpuid_regs (m : Machine) (vcpu : Nat) :
    ((vmx_handle_cpuid m vcpu).vcpus vcpu).regs =
      upd (upd (upd (upd (m.vcpus vcpu).regs
        VCPU_REGS_RAX
          ((m.cpuid ((m.vcpus vcpu).regs VCPU_REGS_RAX % 2 ^ 32)
            ((m.vcpus vcpu).regs VCPU_REGS_RCX % 2 ^ 32)).1 % 2 ^ 32))
        VCPU_REGS_RBX
          ((m.cpuid ((m.vcpus vcpu).regs VCPU_REGS_RAX % 2 ^ 32)
            ((m.vcpus vcpu).regs VCPU_REGS_RCX % 2 ^ 32)).2.1 % 2 ^ 32))
        VCPU_REGS_RCX
          ((m.cpuid ((m.vcpus vcpu).regs VCPU_REGS_RAX % 2 ^ 32)
            ((m.vcpus vcpu).regs VCPU_REGS_RCX % 2 ^ 32)).2.2.1 % 2 ^ 32))
        VCPU_REGS_RDX
          ((m.cpuid ((m.vcpus vcpu).regs VCPU_REGS_RAX % 2 ^ 32)
            ((m.vcpus vcpu).regs VCPU_REGS_RCX % 2 ^ 32)).2.2.2 % 2 ^ 32) := by
  show (upd m.vcpus vcpu _ vcpu).regs = _
  rw [upd_same]

theorem after_step_vcpu (m : Machine) (vcpu : Nat) (e : VmExit) (v : Nat) (irq : Bool) :
    (after_step m vcpu e v irq).vcpus vcpu = entered_vcpu (m.vcpus vcpu) e := by
  show upd m.vcpus vcpu _ vcpu = _
  rw [upd_same]

theorem after_exit_vcpu (m : Machine) (vcpu : Nat) (e : VmExit) (v : Nat) (irq : Bool) :
    (after_exit m vcpu e v irq).vcpus vcpu = entered_vcpu (m.vcpus vcpu) e := by
  show upd m.vcpus vcpu _ vcpu = _
  rw [upd_same]


/-! ## Passes of the loop -/

/-- A pass that does not take the reschedule path and finds no signal pending
goes to the hardware entry right after `vmx_get_cpu` and `local_irq_disable`. -/
theorem pass_plain (vcpu : Nat) (x : Pass) (ok : Bool) (ret : Int) (m : Machine)
    (h1 : ¬ (ok = true ∧ x.need_resched = true)) (h2 : x.signal_pending = false) :
    launch_pass vcpu x ok ret m
      = launch_enter vcpu x (local_irq_disable (vmx_get_cpu m vcpu)) := by
  unfold launch_pass
  rw [if_neg h1, if_neg (by rw [h2]; exact Bool.false_ne_true)]

/-- A pass that does not take the reschedule path and finds a signal pending
goes to the signal branch. -/
theorem pass_signal (vcpu : Nat) (x : Pass) (ok : Bool) (ret : Int) (m : Machine)
    (h1 : ¬ (ok = true ∧ x.need_resched = true)) (h2 : x.signal_pending = true) :
    launch_pass vcpu x ok ret m
      = launch_signal vcpu x ret (local_irq_disable (vmx_get_cpu m vcpu)) := by
  unfold launch_pass
  rw [if_neg h1, if_pos h2]

/-- A pass that does not take the reschedule path and in which either no
signal is pending or the signal dequeued is neither 0 nor `SIGKILL` goes to the
hardware entry in the state `entry_state`. -/
theorem pass_enter (vcpu : Nat) (x : Pass) (ok : Bool) (ret : Int) (m : Machine)
    (h1 : ¬ (ok = true ∧ x.need_resched = true))
    (h2 : x.signal_pending = true → x.signr ≠ 0 ∧ x.signr ≠ SIGKILL) :
    launch_pass vcpu x ok ret m = launch_enter vcpu x (entry_state m vcpu x) := by
  unfold entry_state
  by_cases hs : x.signal_pending = true
  · rw [pass_signal vcpu x ok ret m h1 hs, if_pos hs]
    unfold launch_signal
    rw [if_neg (h2 hs).1, if_neg (h2 hs).2]
    rfl
  · rw [if_neg hs]
    exact pass_plain vcpu x ok ret m h1 (by
      cases h : x.signal_pending
      · rfl
      · exact absurd h hs)

/-- The signal branch changes neither the executing core nor its current VMCS
nor any VCPU structure or VMCS field. -/
theorem entry_state_facts (m : Machine) (vcpu : Nat) (x : Pass) :
    (entry_state m vcpu x).cpu = (vmx_get_cpu m vcpu).cpu ∧
    (entry_state m vcpu x).current_vmcs = (vmx_get_cpu m vcpu).current_vmcs ∧
    (entry_state m vcpu x).vcpus = (vmx_get_cpu m vcpu).vcpus ∧
    (entry_state m vcpu x).vmcs_field = (vmx_get_cpu m vcpu).vmcs_field := by
  unfold entry_state
  generalize vmx_get_cpu m vcpu = M
  split
  · exact ⟨rfl, rfl, rfl, rfl⟩
  · exact ⟨rfl, rfl, rfl, rfl⟩

theorem loop_stop (vcpu : Nat) (x : Pass) (rest : List Pass) (ok : Bool) (ret : Int)
    (m : Machine) (e : Ending) (m1 : Machine)
    (h : launch_pass vcpu x ok ret m = PassResult.stop e m1) :
    vmx_launch_loop vcpu (x :: rest) ok ret m = (e, m1) := by
  rw [vmx_launch_loop, h]

theorem loop_next (vcpu : Nat) (x : Pass) (rest : List Pass) (ok : Bool) (ret : Int)
    (m : Machine) (ok1 : Bool) (ret1 : Int) (m1 : Machine)
    (h : launch_pass vcpu x ok ret m = PassResult.next ok1 ret1 m1) :
    vmx_launch_loop vcpu (x :: rest) ok ret m = vmx_launch_loop vcpu rest ok1 ret1 m1 := by
  rw [vmx_launch_loop, h]


/-! ## A run of the loop -/

/-- The function `vmx_get_cpu` on a VCPU that has been launched. -/
theorem get_cpu_launched (m : Machine) (vcpu : Nat) (hl : (m.vcpus vcpu).launched ≠ 0) :
    vmx_get_cpu m vcpu = vmcs_load (get_cpu m) (m.vcpus vcpu).vmcs := by
  unfold vmx_get_cpu
  dsimp only
  have e1 : (get_cpu m).vcpus = m.vcpus := rfl
  rw [e1, if_pos hl]

/-- The state in which a pass reaches the hardware entry when its VCPU has been
launched: the VMCS of the VCPU is current on the executing core. -/
theorem bind_launched (m : Machine) (vcpu : Nat) (hl : (m.vcpus vcpu).launched ≠ 0) :
    (local_irq_disable (vmx_get_cpu m vcpu)).current_vmcs
        (local_irq_disable (vmx_get_cpu m vcpu)).cpu = some (m.vcpus vcpu).vmcs ∧
    (local_irq_disable (vmx_get_cpu m vcpu)).cpu = m.cpu ∧
    (local_irq_disable (vmx_get_cpu m vcpu)).preempt_count = m.preempt_count + 1 ∧
    (local_irq_disable (vmx_get_cpu m vcpu)).vcpus = m.vcpus ∧
    (local_irq_disable (vmx_get_cpu m vcpu)).cpuid = m.cpuid ∧
    (local_irq_disable (vmx_get_cpu m vcpu)).log
      = m.log ++ [Event.get_cpu, Event.vmptrld m.cpu (m.vcpus vcpu).vmcs] := by
  rw [get_cpu_launched m vcpu hl]
  refine ⟨?_, rfl, rfl, rfl, rfl, ?_⟩
  · show upd m.current_vmcs m.cpu (some (m.vcpus vcpu).vmcs) m.cpu = _
    rw [upd_same]
  · show (m.log ++ [Event.get_cpu]) ++ [Event.vmptrld m.cpu (m.vcpus vcpu).vmcs] = _
    rw [List.append_assoc]
    rfl

/-- A quiet pass arrives at the dispatch in the state `after_step` when its
exit is a hypercall or `cpuid` exit. -/
theorem quiet_step (vcpu : Nat) (x : Pass) (ok : Bool) (ret : Int) (m : Machine) (v : Nat)
    (hq : x.quiet)
    (hv : (local_irq_disable (vmx_get_cpu m vcpu)).current_vmcs
      (local_irq_disable (vmx_get_cpu m vcpu)).cpu = some v)
    (hret : toInt32 (x.vmexit.reason % 2 ^ 32) = EXIT_REASON_VMCALL
      ∨ toInt32 (x.vmexit.reason % 2 ^ 32) = EXIT_REASON_CPUID) :
    launch_pass vcpu x ok ret m =
      launch_dispatch vcpu x (decide (x.hardirqs_enabled_nr = 1 ∧ x.rcu_scheduler_active = 0))
        (toInt32 (x.vmexit.reason % 2 ^ 32))
        (after_step (local_irq_disable (vmx_get_cpu m vcpu)) vcpu x.vmexit v false) := by
  obtain ⟨q1, q2, q3, q4⟩ := hq
  rw [pass_plain vcpu x ok ret m (by rw [q1]; exact fun h => Bool.false_ne_true h.2) q2,
    enter_step vcpu x _ v q4 hv hret]
  have hd : decide (x.hardirqs_enabled_nr ≠ 1) = false := by
    rw [q3]
    rfl
  rw [hd]

/-- A quiet pass arrives at the dispatch in the state `after_exit` when its
exit is neither a hypercall nor a `cpuid` exit. -/
theorem quiet_exit (vcpu : Nat) (x : Pass) (ok : Bool) (ret : Int) (m : Machine) (v : Nat)
    (hq : x.quiet)
    (hv : (local_irq_disable (vmx_get_cpu m vcpu)).current_vmcs
      (local_irq_disable (vmx_get_cpu m vcpu)).cpu = some v)
    (hret : ¬ (toInt32 (x.vmexit.reason % 2 ^ 32) = EXIT_REASON_VMCALL
      ∨ toInt32 (x.vmexit.reason % 2 ^ 32) = EXIT_REASON_CPUID)) :
    launch_pass vcpu x ok ret m =
      launch_dispatch vcpu x (decide (x.hardirqs_enabled_nr = 1 ∧ x.rcu_scheduler_active = 0))
        (toInt32 (x.vmexit.reason % 2 ^ 32))
        (after_exit (local_irq_disable (vmx_get_cpu m vcpu)) vcpu x.vmexit v false) := by
  obtain ⟨q1, q2, q3, q4⟩ := hq
  rw [pass_plain vcpu x ok ret m (by rw [q1]; exact fun h => Bool.false_ne_true h.2) q2,
    enter_exit vcpu x _ v q4 hv hret]
  have hd : decide (x.hardirqs_enabled_nr ≠ 1) = false := by
    rw [q3]
    rfl
  rw [hd]

/-- What the state `after_step` holds, in terms of the state at the entry. -/
theorem after_step_facts (b : Machine) (vcpu : Nat) (e : VmExit) (v : Nat) :
    (after_step b vcpu e v false).cpu = b.cpu ∧
    (after_step b vcpu e v false).preempt_count = b.preempt_count - 1 ∧
    (after_step b vcpu e v false).irqs_disabled = false ∧
    (after_step b vcpu e v false).cpuid = b.cpuid ∧
    (after_step b vcpu e v false).vcpus vcpu = entered_vcpu (b.vcpus vcpu) e ∧
    (after_step b vcpu e v false).log
      = b.log ++ [Event.vmentry b.cpu b.preempt_count,
          Event.vmwrite b.cpu GUEST_RIP b.preempt_count, Event.put_cpu] := by
  refine ⟨rfl, rfl, rfl, rfl, ?_, rfl⟩
  show upd b.vcpus vcpu _ vcpu = _
  rw [upd_same]

/-- What the state `after_exit` holds, in terms of the state at the entry. -/
theorem after_exit_facts (b : Machine) (vcpu : Nat) (e : VmExit) (v : Nat) :
    (after_exit b vcpu e v false).cpu = b.cpu ∧
    (after_exit b vcpu e v false).preempt_count = b.preempt_count - 1 ∧
    (after_exit b vcpu e v false).irqs_disabled = false ∧
    (after_exit b vcpu e v false).cpuid = b.cpuid ∧
    (after_exit b vcpu e v false).vcpus vcpu = entered_vcpu (b.vcpus vcpu) e ∧
    (after_exit b vcpu e v false).log
      = b.log ++ [Event.vmentry b.cpu b.preempt_count, Event.put_cpu] := by
  refine ⟨rfl, rfl, rfl, rfl, ?_, rfl⟩
  show upd b.vcpus vcpu _ vcpu = _
  rw [upd_same]

/-- What `vmx_handle_cpuid` leaves of a state. -/
theorem handle_cpuid_facts (s : Machine) (vcpu : Nat) :
    (vmx_handle_cpuid s vcpu).cpu = s.cpu ∧
    (vmx_handle_cpuid s vcpu).preempt_count = s.preempt_count ∧
    ((vmx_handle_cpuid s vcpu).vcpus vcpu).launched = (s.vcpus vcpu).launched ∧
    ((vmx_handle_cpuid s vcpu).vcpus vcpu).vmcs = (s.vcpus vcpu).vmcs ∧
    ((vmx_handle_cpuid s vcpu).vcpus vcpu).ret_code = (s.vcpus vcpu).ret_code ∧
    (vmx_handle_cpuid s vcpu).log
      = s.log ++ [Event.cpuid ((s.vcpus vcpu).regs VCPU_REGS_RAX % 2 ^ 32)
          ((s.vcpus vcpu).regs VCPU_REGS_RCX % 2 ^ 32)] := by
  refine ⟨rfl, rfl, ?_, ?_, ?_, rfl⟩
  · show (upd s.vcpus vcpu _ vcpu).launched = _
    rw [upd_same]
  · show (upd s.vcpus vcpu _ vcpu).vmcs = _
    rw [upd_same]
  · show (upd s.vcpus vcpu _ vcpu).ret_code = _
    rw [upd_same]

theorem dispatch_extint (vcpu : Nat) (x : Pass) (ok : Bool) (d : Machine) :
    launch_dispatch vcpu x ok EXIT_REASON_EXTERNAL_INTERRUPT d
      = PassResult.next ok EXIT_REASON_EXTERNAL_INTERRUPT d := by
  unfold launch_dispatch
  rw [if_neg (by decide), if_neg (by decide), if_neg (by decide), if_neg (by decide),
    if_neg (fun hne => hne rfl)]

theorem dispatch_cpuid (vcpu : Nat) (x : Pass) (ok : Bool) (d : Machine) :
    launch_dispatch vcpu x ok EXIT_REASON_CPUID d
      = PassResult.next ok EXIT_REASON_CPUID (vmx_handle_cpuid d vcpu) := by
  unfold launch_dispatch
  rw [if_neg (by decide), if_pos rfl]

theorem dispatch_sched (vcpu : Nat) (x : Pass) (ok : Bool) (d : Machine)
    (hi : d.irqs_disabled = false) (hc : (d.vcpus vcpu).regs VCPU_REGS_RAX = VMCALL_SCHED) :
    launch_dispatch vcpu x ok EXIT_REASON_VMCALL d
      = PassResult.next false EXIT_REASON_VMCALL (schedule d x.resched_cpu) := by
  unfold launch_dispatch
  rw [if_pos rfl, hi, if_neg Bool.false_ne_true, if_pos hc]

theorem dispatch_doexit (vcpu : Nat) (x : Pass) (ok : Bool) (d : Machine)
    (hi : d.irqs_disabled = false) (hc : (d.vcpus vcpu).regs VCPU_REGS_RAX = VMCALL_DOEXIT) :
    launch_dispatch vcpu x ok EXIT_REASON_VMCALL d = PassResult.stop (Ending.do_exit 0) d := by
  unfold launch_dispatch
  rw [if_pos rfl, hi, if_neg Bool.false_ne_true, if_neg (by rw [hc]; decide), if_pos hc]

/-- A quiet pass whose exit is neither a hypercall nor a `cpuid` exit, from a
state in which `vmx_get_cpu` makes the VMCS `v` current: the state at the
dispatch, in terms of the state `vmx_get_cpu` leaves. -/
theorem quiet_pass_exit (vcpu : Nat) (x : Pass) (ok : Bool) (ret : Int) (m : Machine) (v : Nat)
    (hq : x.quiet)
    (hv : (vmx_get_cpu m vcpu).current_vmcs (vmx_get_cpu m vcpu).cpu = some v)
    (hret : ¬ (toInt32 (x.vmexit.reason % 2 ^ 32) = EXIT_REASON_VMCALL
      ∨ toInt32 (x.vmexit.reason % 2 ^ 32) = EXIT_REASON_CPUID)) :
    ∃ d, launch_pass vcpu x ok ret m =
        launch_dispatch vcpu x
          (decide (x.hardirqs_enabled_nr = 1 ∧ x.rcu_scheduler_active = 0))
          (toInt32 (x.vmexit.reason % 2 ^ 32)) d ∧
      d.cpu = (vmx_get_cpu m vcpu).cpu ∧
      d.preempt_count = (vmx_get_cpu m vcpu).preempt_count - 1 ∧
      d.irqs_disabled = false ∧
      d.cpuid = (vmx_get_cpu m vcpu).cpuid ∧
      d.vcpus vcpu = entered_vcpu ((vmx_get_cpu m vcpu).vcpus vcpu) x.vmexit ∧
      d.log = (vmx_get_cpu m vcpu).log ++
        [Event.vmentry (vmx_get_cpu m vcpu).cpu (vmx_get_cpu m vcpu).preempt_count,
          Event.put_cpu] := by
  have hp := quiet_exit vcpu x ok ret m v hq hv hret
  generalize vmx_get_cpu m vcpu = M at hp
  exact ⟨_, hp, after_exit_facts (local_irq_disable M) vcpu x.vmexit v⟩

/-- A quiet pass whose exit is a hypercall or `cpuid` exit, from a state in
which `vmx_get_cpu` makes the VMCS `v` current: the state at the dispatch, in
terms of the state `vmx_get_cpu` leaves. -/
theorem quiet_pass_step (vcpu : Nat) (x : Pass) (ok : Bool) (ret : Int) (m : Machine) (v : Nat)
    (hq : x.quiet)
    (hv : (vmx_get_cpu m vcpu).current_vmcs (vmx_get_cpu m vcpu).cpu = some v)
    (hret : toInt32 (x.vmexit.reason % 2 ^ 32) = EXIT_REASON_VMCALL
      ∨ toInt32 (x.vmexit.reason % 2 ^ 32) = EXIT_REASON_CPUID) :
    ∃ d, launch_pass vcpu x ok ret m =
        launch_dispatch vcpu x
          (decide (x.hardirqs_enabled_nr = 1 ∧ x.rcu_scheduler_active = 0))
          (toInt32 (x.vmexit.reason % 2 ^ 32)) d ∧
      d.cpu = (vmx_get_cpu m vcpu).cpu ∧
      d.preempt_count = (vmx_get_cpu m vcpu).preempt_count - 1 ∧
      d.irqs_disabled = false ∧
      d.cpuid = (vmx_get_cpu m vcpu).cpuid ∧
      d.vcpus vcpu = entered_vcpu ((vmx_get_cpu m vcpu).vcpus vcpu) x.vmexit ∧
      d.log = (vmx_get_cpu m vcpu).log ++
        [Event.vmentry (vmx_get_cpu m vcpu).cpu (vmx_get_cpu m vcpu).preempt_count,
          Event.vmwrite (vmx_get_cpu m vcpu).cpu GUEST_RIP (vmx_get_cpu m vcpu).preempt_count,
          Event.put_cpu] := by
  have hp := quiet_step vcpu x ok ret m v hq hv hret
  generalize vmx_get_cpu m vcpu = M at hp
  exact ⟨_, hp, after_step_facts (local_irq_disable M) vcpu x.vmexit v⟩

/-- What `vmx_get_cpu` leaves of a state whose VCPU has been launched. -/
theorem get_cpu_launched_facts (m : Machine) (vcpu : Nat)
    (hl : (m.vcpus vcpu).launched ≠ 0) :
    (vmx_get_cpu m vcpu).current_vmcs (vmx_get_cpu m vcpu).cpu = some (m.vcpus vcpu).vmcs ∧
    (vmx_get_cpu m vcpu).cpu = m.cpu ∧
    (vmx_get_cpu m vcpu).preempt_count = m.preempt_count + 1 ∧
    (vmx_get_cpu m vcpu).vcpus = m.vcpus ∧
    (vmx_get_cpu m vcpu).cpuid = m.cpuid ∧
    (vmx_get_cpu m vcpu).log
      = m.log ++ [Event.get_cpu, Event.vmptrld m.cpu (m.vcpus vcpu).vmcs] :=
  bind_launched m vcpu hl

/-! ## Properties of the specification -/

/-- C1 (the code departs from the claim): for a 5GB extent `vt_ept_2M_init`
succeeds, and entry 0 of PD table 4, which maps the 2MB region at guest-physical
`0x100000000`, is the large page entry `0xB7` whose target is host-physical 0:
`(i + k*n_entries) << 21` is evaluated in 32 bits and wraps at 4GB. -/
theorem C1_pd_target_wraps_at_4GB :
    (vt_ept_2M_init (5 * GIGABYTE) sample_kernel).map
        (fun r => (r.1, r.2.mem 0x10007000, r.2.mem (0x10006000 + 8 * 4), r.2.mem 0x10005000,
          r.2.mem 0x10005000 &&& EPT_2M_PAGE, epte_addr (r.2.mem 0x10005000)))
      = some (0x10007000, 0x10006007, 0x10005007, 0xB7, 0x80, 0)
    ∧ 4 * GIGABYTE + 0 * PAGESIZE2M = 0x100000000 := by
  decide!

/-- C2: when `vt_ept_2M_init` returns a root for the extent `E`, a
guest-physical address (below `2^48`) resolves to a present leaf exactly when it
lies below `E` rounded up to a gigabyte, and the addresses resolved by one leaf
are exactly one aligned block of the size the leaf maps: the leaves tile
`[0, round_up(E, 1GB))` without gap or overlap. -/
theorem C2_leaf_coverage (E : Nat) (s : Kernel) (root : Nat) (s' : Kernel)
    (hE : E ≤ MAXMEM) (hp : PoolOK s.pages)
    (h : vt_ept_2M_init E s = some (root, s')) (hr : root ≠ 0) :
    (∀ a, a < 2 ^ 48 →
      ((ept_walk s' root a).isSome ↔ a < (E + (GIGABYTE - 1)) / GIGABYTE * GIGABYTE)) ∧
    (∀ a b l, a < 2 ^ 48 → b < 2 ^ 48 → ept_walk s' root a = some l →
      (ept_walk s' root b = some l ↔ b / l.span = a / l.span)) := by
  have P := init_post E s hE hp root s' h hr
  have hG : GIGABYTE = 2 ^ 30 := rfl
  rw [hG]
  generalize (E + (2 ^ 30 - 1)) / 2 ^ 30 = n at P
  have hn := P.n_le
  have hd := pages_disjoint s hp (n + 3) P.alloc
  constructor
  · intro a ha
    rw [walk_init s s' root n hp P a ha]
    by_cases h1 : a < n * 2 ^ 30
    · rw [if_pos h1]
      constructor
      · intro _
        exact h1
      · intro _
        split <;> rfl
    · rw [if_neg h1]
      constructor
      · intro hc
        cases hc
      · intro hc
        exact absurd hc h1
  · intro a b l ha hb hl
    rw [walk_init s s' root n hp P a ha] at hl
    rw [walk_init s s' root n hp P b hb]
    by_cases h1 : a < n * 2 ^ 30
    · rw [if_pos h1] at hl
      by_cases h2 : a < 2 ^ 21
      · rw [if_pos h2] at hl
        cases hl
        simp only [PAGESIZE]
        constructor
        · intro hb1
          by_cases h3 : b < n * 2 ^ 30
          · rw [if_pos h3] at hb1
            by_cases h4 : b < 2 ^ 21
            · rw [if_pos h4] at hb1
              simp only [Option.some.injEq, Leaf.mk.injEq] at hb1
              omega
            · rw [if_neg h4] at hb1
              simp only [Option.some.injEq, Leaf.mk.injEq, PAGESIZE, PAGESIZE2M] at hb1
              omega
          · rw [if_neg h3] at hb1
            cases hb1
        · intro hb1
          have e : b / 2 ^ 12 = a / 2 ^ 12 := by omega
          rw [if_pos (by omega), if_pos (by omega), e]
      · rw [if_neg h2] at hl
        cases hl
        simp only [PAGESIZE2M]
        constructor
        · intro hb1
          by_cases h3 : b < n * 2 ^ 30
          · rw [if_pos h3] at hb1
            by_cases h4 : b < 2 ^ 21
            · rw [if_pos h4] at hb1
              simp only [Option.some.injEq, Leaf.mk.injEq, PAGESIZE, PAGESIZE2M] at hb1
              omega
            · rw [if_neg h4] at hb1
              simp only [Option.some.injEq, Leaf.mk.injEq] at hb1
              have hs := hb1.1
              by_cases hk : b / 2 ^ 30 = a / 2 ^ 30
              · rw [hk] at hs
                omega
              · have := hd (1 + b / 2 ^ 30) (1 + a / 2 ^ 30) (by omega) (by omega) (by omega)
                omega
          · rw [if_neg h3] at hb1
            cases hb1
        · intro hb1
          have e1 : b / 2 ^ 30 = a / 2 ^ 30 := by omega
          have e2 : b % 2 ^ 30 / 2 ^ 21 = a % 2 ^ 30 / 2 ^ 21 := by omega
          rw [if_pos (by omega), if_neg (by omega), e1, e2]
    · rw [if_neg h1] at hl
      cases hl

/-- A 4GB extent on the sample state satisfies the hypotheses of C2; there the
address `0x12345678` resolves to a leaf and the first address past 4GB does not. -/
theorem C2_leaf_coverage_witness :
    4 * GIGABYTE ≤ MAXMEM ∧ PoolOK sample_kernel.pages ∧
    vt_ept_2M_init (4 * GIGABYTE) sample_kernel
      = some ((sample_built (4 * GIGABYTE)).1, (sample_built (4 * GIGABYTE)).2) ∧
    (sample_built (4 * GIGABYTE)).1 ≠ 0 ∧
    (((ept_walk (sample_built (4 * GIGABYTE)).2 (sample_built (4 * GIGABYTE)).1 0x12345678).isSome
        ↔ 0x12345678 < (4 * GIGABYTE + (GIGABYTE - 1)) / GIGABYTE * GIGABYTE) ∧
     ((ept_walk (sample_built (4 * GIGABYTE)).2 (sample_built (4 * GIGABYTE)).1 0x100000000).isSome
        ↔ 0x100000000 < (4 * GIGABYTE + (GIGABYTE - 1)) / GIGABYTE * GIGABYTE)) :=
  ⟨by norm_num [GIGABYTE, MAXMEM], sample_pool, sample_built_eq _ (by decide!), by decide!,
    (C2_leaf_coverage (4 * GIGABYTE) sample_kernel
      (sample_built (4 * GIGABYTE)).1 (sample_built (4 * GIGABYTE)).2 (by norm_num [GIGABYTE, MAXMEM]) sample_pool
      (sample_built_eq _ (by decide!)) (by decide!)).1 0x12345678 (by norm_num),
    (C2_leaf_coverage (4 * GIGABYTE) sample_kernel
      (sample_built (4 * GIGABYTE)).1 (sample_built (4 * GIGABYTE)).2 (by norm_num [GIGABYTE, MAXMEM]) sample_pool
      (sample_built_eq _ (by decide!)) (by decide!)).1 0x100000000 (by norm_num)⟩

/-- C10: when `vt_ept_2M_init` returns a root for the extent `E`, with
`n = round_up(E, 1GB) / 1GB`: entry 0 of the PML4 is the only non-zero PML4 entry
and points, with read, write and execute set, to the PDPT; entries `0 .. n-1` of
the PDPT are the only non-zero PDPT entries, entry `k` pointing to a PD table of
its own, the one in which `find_pd_entry` finds the entry of every address of
`[k GB, (k+1) GB)`; all these tables are distinct 4K-aligned pages. For a 4GB
extent `n` is 4. -/
theorem C10_top_level_tables (E : Nat) (s : Kernel) (root : Nat) (s' : Kernel)
    (hE : E ≤ MAXMEM) (hp : PoolOK s.pages)
    (h : vt_ept_2M_init E s = some (root, s')) (hr : root ≠ 0) :
    ∃ (pdpt : Nat) (pd : Nat → Nat),
      s'.mem root = pdpt + EPT_R + EPT_W + EPT_X ∧
      (∀ i, 0 < i → i < 512 → s'.mem (root + 8 * i) = 0) ∧
      (∀ k, k < (E + (GIGABYTE - 1)) / GIGABYTE →
        s'.mem (pdpt + 8 * k) = pd k + EPT_R + EPT_W + EPT_X) ∧
      (∀ k, (E + (GIGABYTE - 1)) / GIGABYTE ≤ k → k < 512 → s'.mem (pdpt + 8 * k) = 0) ∧
      (∀ k a, k < (E + (GIGABYTE - 1)) / GIGABYTE → k * GIGABYTE ≤ a → a < (k + 1) * GIGABYTE →
        find_pd_entry s' root a = __va (pd k + 8 * (a % GIGABYTE / PAGESIZE2M))) ∧
      (root % PAGESIZE = 0 ∧ pdpt % PAGESIZE = 0 ∧ pdpt ≠ root) ∧
      (∀ k, k < (E + (GIGABYTE - 1)) / GIGABYTE →
        pd k % PAGESIZE = 0 ∧ pd k ≠ pdpt ∧ pd k ≠ root) ∧
      (∀ k k', k < (E + (GIGABYTE - 1)) / GIGABYTE → k' < (E + (GIGABYTE - 1)) / GIGABYTE →
        pd k = pd k' → k = k') ∧
      (E = 4 * GIGABYTE → (E + (GIGABYTE - 1)) / GIGABYTE = 4) := by
  have P := init_post E s hE hp root s' h hr
  have hG : GIGABYTE = 2 ^ 30 := rfl
  have h2M : PAGESIZE2M = 2 ^ 21 := rfl
  have h4K : PAGESIZE = 4096 := rfl
  rw [hG, h2M, h4K]
  have h4 : E = 4 * 2 ^ 30 → (E + (2 ^ 30 - 1)) / 2 ^ 30 = 4 := by
    intro e
    omega
  generalize (E + (2 ^ 30 - 1)) / 2 ^ 30 = n at P h4
  have hn := P.n_le
  have hd := pages_disjoint s hp (n + 3) P.alloc
  have hal := fun j hj => hp.aligned _ _ (P.alloc j hj)
  refine ⟨nthPage s (n + 1), fun k => nthPage s (1 + k), ?_, P.pml4_rest, ?_, P.pdpt_hi, ?_, ?_,
    ?_, ?_, h4⟩
  · rw [add_flags]
    exact P.pml4_0
  · intro k hk
    rw [add_flags]
    exact P.pdpt_lo k hk
  · intro k a hk h1 h2
    rw [find_pd_entry_init s s' root n hp P a
      (by have : (k + 1) * 2 ^ 30 ≤ n * 2 ^ 30 := Nat.mul_le_mul_right _ (by omega)
          omega)]
    have e : a / 2 ^ 30 = k := by omega
    rw [e]
  · have := hd (n + 1) (n + 2) (by omega) (by omega) (by omega)
    rw [P.root_eq]
    exact ⟨hal _ (by omega), hal _ (by omega), by omega⟩
  · intro k hk
    have d1 := hd (1 + k) (n + 1) (by omega) (by omega) (by omega)
    have d2 := hd (1 + k) (n + 2) (by omega) (by omega) (by omega)
    show nthPage s (1 + k) % 4096 = 0 ∧ nthPage s (1 + k) ≠ nthPage s (n + 1)
      ∧ nthPage s (1 + k) ≠ root
    rw [P.root_eq]
    exact ⟨hal _ (by omega), by omega, by omega⟩
  · intro k k' hk hk' e
    by_contra hne
    have := hd (1 + k) (1 + k') (by omega) (by omega) (by omega)
    simp only at e
    omega

/-- A 4GB extent on the sample state satisfies the hypotheses of C10, and its
conclusion holds there. -/
theorem C10_top_level_tables_witness :
    4 * GIGABYTE ≤ MAXMEM ∧ PoolOK sample_kernel.pages ∧
    vt_ept_2M_init (4 * GIGABYTE) sample_kernel
      = some ((sample_built (4 * GIGABYTE)).1, (sample_built (4 * GIGABYTE)).2) ∧
    (sample_built (4 * GIGABYTE)).1 ≠ 0 ∧
    ∃ (pdpt : Nat) (pd : Nat → Nat),
      (sample_built (4 * GIGABYTE)).2.mem (sample_built (4 * GIGABYTE)).1
        = pdpt + EPT_R + EPT_W + EPT_X ∧
      (∀ k, k < 4 → (sample_built (4 * GIGABYTE)).2.mem (pdpt + 8 * k)
        = pd k + EPT_R + EPT_W + EPT_X) ∧
      (∀ k, 4 ≤ k → k < 512 → (sample_built (4 * GIGABYTE)).2.mem (pdpt + 8 * k) = 0) := by
  refine ⟨by norm_num [GIGABYTE, MAXMEM], sample_pool, sample_built_eq _ (by decide!),
    by decide!, ?_⟩
  obtain ⟨pdpt, pd, h1, _, h3, h4, _, _, _, _, h9⟩ :=
    C10_top_level_tables (4 * GIGABYTE) sample_kernel
      (sample_built (4 * GIGABYTE)).1 (sample_built (4 * GIGABYTE)).2
      (by norm_num [GIGABYTE, MAXMEM]) sample_pool (sample_built_eq _ (by decide!)) (by decide!)
  rw [h9 rfl] at h3 h4
  exact ⟨pdpt, pd, h1, h3, h4⟩

/-- C5: for every state and every address that is not a multiple of 2MB,
`split_2M_mapping` returns 0 and leaves the state unchanged, whatever the table
holds for the containing region. -/
theorem C5_split_unaligned (s : Kernel) (root p : Nat) (h : p % PAGESIZE2M ≠ 0) :
    split_2M_mapping s root p = (0, s) := by
  have h2 : p &&& (PAGESIZE2M - 1) ≠ 0 := by
    rw [align_2m]
    simpa [PAGESIZE2M] using h
  unfold split_2M_mapping
  dsimp only
  rw [if_pos h2]

/-- The address `0x201000` on the sample state satisfies the hypothesis of C5. -/
theorem C5_split_unaligned_witness :
    0x201000 % PAGESIZE2M ≠ 0 ∧
    split_2M_mapping sample_kernel 0x10003000 0x201000 = (0, sample_kernel) :=
  ⟨by decide, C5_split_unaligned sample_kernel 0x10003000 0x201000 (by decide)⟩

/-- C4: on a well-formed table, for a 2MB-aligned address `p` of the mapped
range: a call of `split_2M_mapping` on a region that is already split (its PD
entry has the large page flag clear) returns 1 and leaves the state unchanged;
after a call that returned 1 the PD entry of the region has the large page flag
clear, so that a second call returns 1 and changes nothing; and in a table just
built by `vt_ept_2M_init` a call on the first 2MB returns 1 and changes nothing. -/
theorem C4_split_idempotent (s : Kernel) (root n : Nat) (L : EptLayout)
    (I : EptInv s root n L) (p : Nat) (hp : p < n * GIGABYTE) (hal : p % PAGESIZE2M = 0) :
    (load s (find_pd_entry s root p) &&& EPT_2M_PAGE = 0 →
      split_2M_mapping s root p = (1, s)) ∧
    (∀ s1, split_2M_mapping s root p = (1, s1) →
      load s1 (find_pd_entry s1 root p) &&& EPT_2M_PAGE = 0 ∧
      split_2M_mapping s1 root p = (1, s1)) ∧
    (∀ E s0, E ≤ MAXMEM → PoolOK s0.pages → vt_ept_2M_init E s0 = some (root, s) → root ≠ 0 →
      split_2M_mapping s root 0 = (1, s)) := by
  have hG : GIGABYTE = 2 ^ 30 := rfl
  have h2M : PAGESIZE2M = 2 ^ 21 := rfl
  rw [hG] at hp
  rw [h2M] at hal
  refine ⟨?_, ?_, ?_⟩
  · intro h
    rw [load_pd_entry s root n L I p hp] at h
    exact split_noop s root n L I p hp hal h
  · intro s1 h1
    rcases split_cases s root n L I p hp hal with ⟨s', h0⟩ | ⟨h2, h3⟩ | ⟨h2, _, N, hN, h3⟩
    · rw [h0] at h1
      cases h1
    · rw [h3] at h1
      cases h1
      rw [load_pd_entry s root n L I p hp]
      exact ⟨h2, h3⟩
    · rw [h3] at h1
      cases h1
      have I1 := split_inv s root n L I p hp h2 N hN
      have hs := split_state_slot s root n L I p N hN (s.mem (pd_slot L p) / 2 ^ 21 * 2 ^ 21)
      rw [load_pd_entry _ root n _ I1 p hp]
      exact ⟨hs, split_noop _ root n _ I1 p hp hal hs⟩
  · intro E s0 hE hpool hinit hr
    have P := init_post E s0 hE hpool root s hinit hr
    have I0 := init_inv s0 s root _ hpool P
    have h0 : s.mem (pd_slot (init_layout s0 ((E + (2 ^ 30 - 1)) / 2 ^ 30)) 0) &&& EPT_2M_PAGE = 0 := by
      have e : pd_slot (init_layout s0 ((E + (2 ^ 30 - 1)) / 2 ^ 30)) 0 = nthPage s0 1 := by
        simp only [pd_slot, init_layout]
        norm_num
      rw [e, P.pd_00]
      exact ptr_not_large _ (hpool.aligned _ _ (P.alloc 0 (by omega)))
    exact split_noop s root _ _ I0 0 (by have := P.n_pos; omega) (by omega) h0

/-- C7: when `replace_ept_page` succeeds for an address `p` of the mapped range
of a well-formed table, with `s1` the state after its call of
`split_2M_mapping`: the leaf entry of `p` is the same entry before and after
the rewrite and afterwards holds the physical address of the returned page with
read, write, execute and the write-back cache bits; all memory outside that
entry and the new page is as after the split, in particular every other entry
of the PT that contains the leaf; and the PD entry of every other 2MB region is
as before the call. -/
theorem C7_replace_frame (s : Kernel) (root n : Nat) (L : EptLayout) (I : EptInv s root n L)
    (p : Nat) (hp : p < n * GIGABYTE) (v : Nat) (s2 : Kernel)
    (h : replace_ept_page s root p = some (v, s2)) (hv : v ≠ 0) :
    ∃ s1 leaf N,
      split_2M_mapping s root (p &&& lnot64 (PAGESIZE2M - 1)) = (1, s1) ∧
      find_pt_entry s1 root p = some (__va leaf) ∧
      find_pt_entry s2 root p = some (__va leaf) ∧
      v = __va N ∧ N % PAGESIZE = 0 ∧
      s2.mem leaf = N ||| EPT_R ||| EPT_W ||| EPT_X ||| EPT_CACHE_2 ||| EPT_CACHE_3 ∧
      (∀ x, x ≠ leaf → ¬ (N ≤ x ∧ x < N + PAGESIZE) → s2.mem x = s1.mem x) ∧
      (∀ p', p' / PAGESIZE2M = p / PAGESIZE2M → p' / PAGESIZE ≠ p / PAGESIZE →
        ∃ leaf', find_pt_entry s1 root p' = some (__va leaf') ∧
          find_pt_entry s2 root p' = some (__va leaf') ∧ leaf' ≠ leaf ∧
          s2.mem leaf' = s1.mem leaf') ∧
      (∀ q, q < n * GIGABYTE → q / PAGESIZE2M ≠ p / PAGESIZE2M →
        find_pd_entry s2 root q = find_pd_entry s root q ∧
        load s2 (find_pd_entry s2 root q) = load s (find_pd_entry s root q)) := by
  have hG : GIGABYTE = 2 ^ 30 := rfl
  have h2M : PAGESIZE2M = 2 ^ 21 := rfl
  have h4K : PAGESIZE = 4096 := rfl
  rw [hG] at hp
  rw [hG]
  have hn := I.n_le
  rcases replace_cases s root n L I p hp with ⟨s1, _, h1⟩ | ⟨s1, L1, T, hsplit, SP, h1⟩
  · rw [h1] at h
    cases h
    exact absurd rfl hv
  · have hT := split_post_pd_val s s1 root n L L1 p T SP
    obtain ⟨hf, ht⟩ := tail_cases s1 root n L1 SP.inv p hp T hT SP.role_T SP.leaves
    rw [h1] at h
    rcases ht with ⟨s', h2, _, _⟩ | ⟨N, hN, hm, h2⟩
    · rw [h2] at h
      cases h
      exact absurd rfl hv
    · rw [h2] at h
      simp only [Option.some.injEq, Prod.mk.injEq] at h
      obtain ⟨hv', hs'⟩ := h
      subst hv'
      subst hs'
      have I1 := SP.inv
      have I2 := replace_inv s1 root n L1 I1 p T SP.role_T N hN
      have aN := I1.pool.aligned _ _ hN
      have bN := I1.pool.bound _ _ hN
      have tT := I1.table_ok _ _ SP.role_T
      have lf := leaf_facts s1 root n L1 I1 p T _ SP.role_T
      have hlN := lf.2.2.2 N _ (Nat.le_refl _) hN
      have hdis : ∀ q r, L1.role q = some r → q + 4096 ≤ N ∨ N + 4096 ≤ q :=
        fun q r hq => free_disjoint s1 root n L1 I1 _ N (Nat.le_refl _) hN q r hq
      have hpd2 : (replace_state s1 (pt_slot T p) N p).mem (pd_slot L1 p) = T + 7 := by
        have hb := pd_slot_bound s1 root n L1 I1 p hp
        have hk : p / 2 ^ 30 < n := by omega
        have hne : L1.pd (p / 2 ^ 30) ≠ T :=
          role_ne L1 _ _ _ _ (I1.role_pd _ hk) SP.role_T (by intro c; cases c)
        have d1 := table_disjoint s1 root n L1 I1 _ _ _ _ (I1.role_pd _ hk) SP.role_T hne
        have d2 := hdis _ _ (I1.role_pd _ hk)
        rw [replace_mem_other s1 _ N p _ (by omega) (by omega)]
        exact hT
      have hleaves2 : ∀ j, j < 512 →
          IsSmallLeaf ((replace_state s1 (pt_slot T p) N p).mem (T + 8 * j)) := by
        have hk : p / 2 ^ 30 < n := by omega
        rcases I2.pd_entry (p / 2 ^ 30) (p % 2 ^ 30 / 2 ^ 21) hk (by omega) with hl | ⟨T', t1, t2, t3⟩
        · have := large_flag _ hl
          have e : L1.pd (p / 2 ^ 30) + 8 * (p % 2 ^ 30 / 2 ^ 21) = pd_slot L1 p := rfl
          rw [e, hpd2, ptr_not_large _ tT.1] at this
          exact absurd rfl this
        · have e : L1.pd (p / 2 ^ 30) + 8 * (p % 2 ^ 30 / 2 ^ 21) = pd_slot L1 p := rfl
          rw [e, hpd2] at t1
          have eT : T' = T := by omega
          rw [eT] at t3
          exact t3
      refine ⟨s1, pt_slot T p, N, hsplit, hf, ?_, rfl, aN, ?_, ?_, ?_, ?_⟩
      · exact find_pt_entry_inv _ root n L1 I2 p hp T hpd2 SP.role_T (by
          have := hleaves2 0 (by omega)
          simpa using this)
      · rw [replace_mem_leaf s1 _ N p bN hlN, or_rwx_wb N aN]
      · intro x hx1 hx2
        exact replace_mem_other s1 _ N p x hx1 hx2
      · intro p' hp1 hp2
        rw [h2M] at hp1
        rw [h4K] at hp2
        have hp' : p' < n * 2 ^ 30 := by omega
        have e1 : p' / 2 ^ 30 = p / 2 ^ 30 := by omega
        have e2 : p' % 2 ^ 30 / 2 ^ 21 = p % 2 ^ 30 / 2 ^ 21 := by omega
        have es : pd_slot L1 p' = pd_slot L1 p := by
          simp only [pd_slot, e1, e2]
        have hne : pt_slot T p' ≠ pt_slot T p := by
          simp only [pt_slot]
          omega
        have lf' := leaf_facts s1 root n L1 I1 p' T _ SP.role_T
        refine ⟨pt_slot T p', ?_, ?_, hne, ?_⟩
        · exact find_pt_entry_inv s1 root n L1 I1 p' hp' T (by rw [es]; exact hT)
            (by rw [e1, e2]; exact SP.role_T) (by
              have := SP.leaves 0 (by omega)
              simpa using this)
        · exact find_pt_entry_inv _ root n L1 I2 p' hp' T (by rw [es]; exact hpd2)
            (by rw [e1, e2]; exact SP.role_T) (by
              have := hleaves2 0 (by omega)
              simpa using this)
        · exact replace_mem_other s1 _ N p _ hne (lf'.2.2.2 N _ (Nat.le_refl _) hN)
      · intro q hq hqp
        rw [h2M] at hqp
        have hkq : q / 2 ^ 30 < n := by omega
        have hkp : p / 2 ^ 30 < n := by omega
        have hbq := pd_slot_bound s root n L I q hq
        have eL : pd_slot L1 q = pd_slot L q := by
          simp only [pd_slot, SP.pd_eq]
        have hslots : pd_slot L q ≠ pd_slot L p := by
          intro e
          have := pd_slot_inj s root n L I _ _ _ _ hkq (by omega) hkp (by omega) e
          omega
        have hrq : L1.role (L.pd (q / 2 ^ 30)) = some (Role.pd (q / 2 ^ 30)) :=
          SP.role_mono _ _ (I.role_pd _ hkq)
        have hneT : L.pd (q / 2 ^ 30) ≠ T :=
          role_ne L1 _ _ _ _ hrq SP.role_T (by intro c; cases c)
        have d1 := table_disjoint s1 root n L1 I1 _ _ _ _ hrq SP.role_T hneT
        have d2 := hdis _ _ hrq
        have hm2 : (replace_state s1 (pt_slot T p) N p).mem (pd_slot L q) = s.mem (pd_slot L q) := by
          rw [replace_mem_other s1 _ N p _ (by omega) (by omega)]
          rcases SP.how with ⟨e, _, _⟩ | ⟨_, hN0, e, _⟩
          · rw [e]
          · rw [e]
            exact split_mem_other s _ _ T _ hslots (by omega)
        rw [find_pd_entry_inv _ root n L1 I2 q hq, find_pd_entry_inv s root n L I q hq, eL,
          load_va _ _ (by omega), load_va _ _ (by omega)]
        exact ⟨rfl, hm2⟩

/-- C8: on a well-formed table, for an address `p` of the mapped range. After a
successful split the leaf of `p` is found, and whenever the address recorded in
it (the entry with its low 12 bits cleared) differs from `p`, `replace_ept_page`
returns `NULL` and the leaf entry is as it was after the split. In particular
the function returns `NULL` for every address that is not 4K-aligned, and, when
`p` is not a page the allocator hands out, for a second replacement of a page
that was replaced. -/
theorem C8_replace_mismatch (s : Kernel) (root n : Nat) (L : EptLayout) (I : EptInv s root n L)
    (p : Nat) (hp : p < n * GIGABYTE) :
    (∀ s1, split_2M_mapping s root (p &&& lnot64 (PAGESIZE2M - 1)) = (1, s1) →
      ∃ leaf, find_pt_entry s1 root p = some (__va leaf) ∧
        (load s1 (__va leaf) &&& lnot64 (PAGESIZE - 1) ≠ p →
          ∃ s', replace_ept_page s root p = some (0, s') ∧
            load s' (__va leaf) = load s1 (__va leaf))) ∧
    (p % PAGESIZE ≠ 0 → ∃ s', replace_ept_page s root p = some (0, s')) ∧
    ((∀ j, s.npages ≤ j → s.pages j ≠ some p) →
      ∀ v s2, replace_ept_page s root p = some (v, s2) → v ≠ 0 →
        ∃ s3, replace_ept_page s2 root p = some (0, s3)) := by
  have hG : GIGABYTE = 2 ^ 30 := rfl
  have h4K : PAGESIZE = 4096 := rfl
  rw [hG] at hp
  have hn := I.n_le
  refine ⟨?_, ?_, ?_⟩
  · intro s1 hs1
    rcases replace_cases s root n L I p hp with ⟨s0, h0, _⟩ | ⟨s1', L1, T, hsplit, SP, h1⟩
    · rw [h0] at hs1
      cases hs1
    · rw [hsplit] at hs1
      simp only [Prod.mk.injEq, true_and] at hs1
      subst hs1
      have hT := split_post_pd_val s s1' root n L L1 p T SP
      obtain ⟨hf, ht⟩ := tail_cases s1' root n L1 SP.inv p hp T hT SP.role_T SP.leaves
      have lf := leaf_facts s1' root n L1 SP.inv p T _ SP.role_T
      have hsm : IsSmallLeaf (s1'.mem (pt_slot T p)) := by
        simp only [pt_slot]
        exact SP.leaves _ (by omega)
      refine ⟨pt_slot T p, hf, ?_⟩
      intro hne
      rw [load_va _ _ (by omega), mask_4k _ (small_lt _ hsm).1] at hne
      rcases ht with ⟨s', h2, h3, _⟩ | ⟨N, hN, hm, h2⟩
      · refine ⟨s', by rw [h1, h2], ?_⟩
        rw [load_va _ _ (by omega), load_va _ _ (by omega)]
        exact h3
      · exact absurd hm hne
  · intro hal
    rw [h4K] at hal
    rcases replace_cases s root n L I p hp with ⟨s0, _, h0⟩ | ⟨s1, L1, T, hsplit, SP, h1⟩
    · exact ⟨s0, h0⟩
    · have hT := split_post_pd_val s s1 root n L L1 p T SP
      obtain ⟨hf, ht⟩ := tail_cases s1 root n L1 SP.inv p hp T hT SP.role_T SP.leaves
      rcases ht with ⟨s', h2, _, _⟩ | ⟨N, hN, hm, h2⟩
      · exact ⟨s', by rw [h1, h2]⟩
      · exfalso
        omega
  · intro hfree v s2 h hv
    rcases replace_cases s root n L I p hp with ⟨s0, _, h0⟩ | ⟨s1, L1, T, hsplit, SP, h1⟩
    · rw [h0] at h
      simp only [Option.some.injEq, Prod.mk.injEq] at h
      exact absurd h.1.symm hv
    · have hT := split_post_pd_val s s1 root n L L1 p T SP
      obtain ⟨hf, ht⟩ := tail_cases s1 root n L1 SP.inv p hp T hT SP.role_T SP.leaves
      rw [h1] at h
      rcases ht with ⟨s', h2, _, _⟩ | ⟨N, hN, hm, h2⟩
      · rw [h2] at h
        simp only [Option.some.injEq, Prod.mk.injEq] at h
        exact absurd h.1.symm hv
      · rw [h2] at h
        simp only [Option.some.injEq, Prod.mk.injEq] at h
        obtain ⟨_, hs'⟩ := h
        subst hs'
        have I1 := SP.inv
        have I2 := replace_inv s1 root n L1 I1 p T SP.role_T N hN
        have aN := I1.pool.aligned _ _ hN
        have bN := I1.pool.bound _ _ hN
        have tT := I1.table_ok _ _ SP.role_T
        have lf := leaf_facts s1 root n L1 I1 p T _ SP.role_T
        have hlN := lf.2.2.2 N _ (Nat.le_refl _) hN
        have hpd2 : (replace_state s1 (pt_slot T p) N p).mem (pd_slot L1 p) = T + 7 := by
          have hb := pd_slot_bound s1 root n L1 I1 p hp
          have hk : p / 2 ^ 30 < n := by omega
          have hne : L1.pd (p / 2 ^ 30) ≠ T :=
            role_ne L1 _ _ _ _ (I1.role_pd _ hk) SP.role_T (by intro c; cases c)
          have d1 := table_disjoint s1 root n L1 I1 _ _ _ _ (I1.role_pd _ hk) SP.role_T hne
          have d2 := free_disjoint s1 root n L1 I1 _ N (Nat.le_refl _) hN _ _ (I1.role_pd _ hk)
          rw [replace_mem_other s1 _ N p _ (by omega) (by omega)]
          exact hT
        have hnl : (replace_state s1 (pt_slot T p) N p).mem (pd_slot L1 p) &&& EPT_2M_PAGE = 0 := by
          rw [hpd2]
          exact ptr_not_large _ tT.1
        obtain ⟨T', t1, t2, t3⟩ := pd_entry_split _ root n L1 I2 p hp hnl
        have eT : T' = T := by
          rw [hpd2] at t1
          omega
        rw [eT] at t1 t2 t3
        -- the second call: the split is a no-op, the leaf now records the new page
        have hsplit2 : split_2M_mapping (replace_state s1 (pt_slot T p) N p) root
            (p &&& lnot64 (PAGESIZE2M - 1)) = (1, replace_state s1 (pt_slot T p) N p) := by
          rw [split_addr_eq p (by omega)]
          exact split_noop _ root n L1 I2 _ (by omega) (by omega) (by
            rw [pd_slot_region]
            exact hnl)
        obtain ⟨_, ht2⟩ := tail_cases _ root n L1 I2 p hp T t1 t2 t3
        rw [replace_split_ok _ root p _ hsplit2]
        rcases ht2 with ⟨s', h4, _, _⟩ | ⟨N2, hN2, hm2, _⟩
        · exact ⟨s', h4⟩
        · exfalso
          rw [replace_mem_leaf s1 _ N p bN hlN] at hm2
          have hNp : N = p := by omega
          have hge : s.npages ≤ s1.npages := by
            rcases SP.how with ⟨e, _, _⟩ | ⟨_, _, e, _⟩
            · rw [e]
            · rw [e]
              simp only [split_state]
              omega
          have := hfree s1.npages hge
          rw [← SP.pages_eq, hN, hNp] at this
          exact this rfl

/-- C3 fails as stated: in the table built for 5GB from the sample state the
region at 4GB is a large page with the write-back cache bits; after
`split_2M_mapping` has split it, the address `4GB + 0xA000` is mapped to the
same host-physical address with the same permissions, but through a 4K leaf
without the cache bits. -/
theorem C3_cache_bits_change :
    load (sample_built (5 * GIGABYTE)).2
        (find_pd_entry (sample_built (5 * GIGABYTE)).2 (sample_built (5 * GIGABYTE)).1
          (4 * GIGABYTE)) &&& EPT_2M_PAGE ≠ 0
    ∧ (ept_walk (sample_built (5 * GIGABYTE)).2 (sample_built (5 * GIGABYTE)).1
        (4 * GIGABYTE + 0xA000)).map
          (fun l => (l.hpa (4 * GIGABYTE + 0xA000), l.perm, l.cache))
        = some (0xA000, 7, EPT_CACHE_2 ||| EPT_CACHE_3)
    ∧ (split_2M_mapping (sample_built (5 * GIGABYTE)).2 (sample_built (5 * GIGABYTE)).1
        (4 * GIGABYTE)).1 = 1
    ∧ (ept_walk
        (split_2M_mapping (sample_built (5 * GIGABYTE)).2 (sample_built (5 * GIGABYTE)).1
          (4 * GIGABYTE)).2
        (sample_built (5 * GIGABYTE)).1 (4 * GIGABYTE + 0xA000)).map
          (fun l => (l.hpa (4 * GIGABYTE + 0xA000), l.perm, l.cache))
        = some (0xA000, 7, 0) := by
  decide!

/-- C3 (amended): on a well-formed table, when `split_2M_mapping` splits the
still-large region at the 2MB-aligned address `p`, every address `a` of
`[p, p+2MB)` is mapped through the large page entry before and through a 4K
leaf after, to the same host-physical address and with the same read, write and
execute bits (all set); the cache bits of the 4K leaf are those
`no_cache_region` gives the leaf's own 4K target: write-back unless that target
is in the no-cache set. -/
theorem C3_split_preserves_address (s : Kernel) (root n : Nat) (L : EptLayout)
    (I : EptInv s root n L) (p : Nat) (hp : p < n * GIGABYTE) (hal : p % PAGESIZE2M = 0)
    (hlarge : load s (find_pd_entry s root p) &&& EPT_2M_PAGE ≠ 0)
    (s1 : Kernel) (h : split_2M_mapping s root p = (1, s1))
    (a : Nat) (ha1 : p ≤ a) (ha2 : a < p + PAGESIZE2M) :
    ∃ l0 l1, ept_walk s root a = some l0 ∧ ept_walk s1 root a = some l1 ∧
      l0.span = PAGESIZE2M ∧ l1.span = PAGESIZE ∧
      l1.hpa a = l0.hpa a ∧
      l1.perm = l0.perm ∧ l0.perm = EPT_R ||| EPT_W ||| EPT_X ∧
      l1.cache = (if no_cache_region (l1.hpa a / PAGESIZE * PAGESIZE) PAGESIZE ≠ 0 then 0
        else EPT_CACHE_2 ||| EPT_CACHE_3) := by
  have hG : GIGABYTE = 2 ^ 30 := rfl
  have h2M : PAGESIZE2M = 2 ^ 21 := rfl
  rw [hG] at hp
  rw [h2M] at hal ha2
  have hn := I.n_le
  have haN : a < n * 2 ^ 30 := by omega
  have e1 : a / 2 ^ 30 = p / 2 ^ 30 := by omega
  have e2 : a % 2 ^ 30 / 2 ^ 21 = p % 2 ^ 30 / 2 ^ 21 := by omega
  have es : pd_slot L a = pd_slot L p := by
    simp only [pd_slot, e1, e2]
  rw [load_pd_entry s root n L I p hp] at hlarge
  rcases split_cases s root n L I p hp hal with ⟨s', h0⟩ | ⟨h2, _⟩ | ⟨_, _, N, hN, h3⟩
  · rw [h0] at h
    cases h
  · exact absurd h2 hlarge
  · rw [h3] at h
    simp only [Prod.mk.injEq, true_and] at h
    subst h
    have hl := pd_entry_large s root n L I p hp hlarge
    have hb := large_base _ hl
    have I1 := split_inv s root n L I p hp hlarge N hN
    have aN := I.pool.aligned _ _ hN
    have bN := I.pool.bound _ _ hN
    have hslotN : ¬ (N ≤ pd_slot L p ∧ pd_slot L p < N + 4096) := by
      have hk : p / 2 ^ 30 < n := by omega
      have := free_disjoint s root n L I _ N (Nat.le_refl _) hN _ _ (I.role_pd _ hk)
      have := pd_slot_bound s root n L I p hp
      omega
    have hj : a % 2 ^ 21 / 2 ^ 12 < 512 := by omega
    have hentry := split_mem_pt s (pd_slot L p) (s.mem (pd_slot L p) / 2 ^ 21 * 2 ^ 21) N
      (a % 2 ^ 21 / 2 ^ 12) hj hslotN
    have hrole : (split_layout L N (p / 2 ^ 30) (p % 2 ^ 30 / 2 ^ 21)).role N
        = some (Role.pt (a / 2 ^ 30) (a % 2 ^ 30 / 2 ^ 21)) := by
      simp only [split_layout]
      rw [if_pos trivial, e1, e2]
    have hslot1 : (split_state s (pd_slot L p) (s.mem (pd_slot L p) / 2 ^ 21 * 2 ^ 21) N).mem
        (pd_slot (split_layout L N (p / 2 ^ 30) (p % 2 ^ 30 / 2 ^ 21)) a) = N + 7 := by
      have e : pd_slot (split_layout L N (p / 2 ^ 30) (p % 2 ^ 30 / 2 ^ 21)) a = pd_slot L p := es
      rw [e]
      exact split_mem_slot s _ _ N bN
    have hsmall : IsSmallLeaf ((split_state s (pd_slot L p)
        (s.mem (pd_slot L p) / 2 ^ 21 * 2 ^ 21) N).mem (pt_slot N a)) := by
      simp only [pt_slot]
      rw [split_mem_pt s _ _ N _ hj hslotN]
      exact split_pte_small _ _ hb.1 hb.2.1 hj
    have hw0 := walk_large s root n L I a haN (by rw [es]; exact hl)
    have hw1 := walk_small _ root n _ I1 a haN N hslot1 hrole hsmall
    rw [es] at hw0
    exact ⟨_, _, hw0, hw1, rfl, rfl,
      split_leaf_compare (s.mem (pd_slot L p)) a hb _ hentry⟩

/-- The region at `0x200000` of the table built for 1GB from the sample state
satisfies the hypotheses of C3; there the address `0x234567` keeps its
host-physical address and permissions across the split. -/
theorem C3_split_preserves_address_witness :
    EptInv (sample_built GIGABYTE).2 (sample_built GIGABYTE).1 1 (init_layout sample_kernel 1) ∧
    0x200000 < 1 * GIGABYTE ∧ 0x200000 % PAGESIZE2M = 0 ∧
    load (sample_built GIGABYTE).2
      (find_pd_entry (sample_built GIGABYTE).2 (sample_built GIGABYTE).1 0x200000)
        &&& EPT_2M_PAGE ≠ 0 ∧
    split_2M_mapping (sample_built GIGABYTE).2 (sample_built GIGABYTE).1 0x200000
      = (1, (split_2M_mapping (sample_built GIGABYTE).2 (sample_built GIGABYTE).1 0x200000).2) ∧
    0x200000 ≤ 0x234567 ∧ 0x234567 < 0x200000 + PAGESIZE2M ∧
    ∃ l0 l1, ept_walk (sample_built GIGABYTE).2 (sample_built GIGABYTE).1 0x234567 = some l0 ∧
      ept_walk (split_2M_mapping (sample_built GIGABYTE).2 (sample_built GIGABYTE).1 0x200000).2
        (sample_built GIGABYTE).1 0x234567 = some l1 ∧
      l1.hpa 0x234567 = l0.hpa 0x234567 ∧ l1.perm = l0.perm := by
  refine ⟨sample_inv, by decide, by decide, by decide!, sample_split_eq, by decide, by decide, ?_⟩
  obtain ⟨l0, l1, h0, h1, _, _, h2, h3, _, _⟩ :=
    C3_split_preserves_address _ _ 1 _ sample_inv 0x200000 (by decide) (by decide) (by decide!)
      _ sample_split_eq 0x234567 (by decide) (by decide)
  exact ⟨l0, l1, h0, h1, h2, h3⟩

/-- The region at `0x200000` of the table built for 1GB from the sample state
satisfies the hypotheses of C4: the first split returns 1, and a second call
returns 1 and changes nothing. -/
theorem C4_split_idempotent_witness :
    EptInv (sample_built GIGABYTE).2 (sample_built GIGABYTE).1 1 (init_layout sample_kernel 1) ∧
    0x200000 < 1 * GIGABYTE ∧ 0x200000 % PAGESIZE2M = 0 ∧
    split_2M_mapping (sample_built GIGABYTE).2 (sample_built GIGABYTE).1 0x200000
      = (1, (split_2M_mapping (sample_built GIGABYTE).2 (sample_built GIGABYTE).1 0x200000).2) ∧
    split_2M_mapping
        (split_2M_mapping (sample_built GIGABYTE).2 (sample_built GIGABYTE).1 0x200000).2
        (sample_built GIGABYTE).1 0x200000
      = (1, (split_2M_mapping (sample_built GIGABYTE).2 (sample_built GIGABYTE).1 0x200000).2) :=
  ⟨sample_inv, by decide, by decide, sample_split_eq,
    ((C4_split_idempotent _ _ 1 _ sample_inv 0x200000 (by decide) (by decide)).2.1 _
      sample_split_eq).2⟩

/-- The page at `0x305000` of the table built for 1GB from the sample state
satisfies the hypotheses of C7: the replacement succeeds and returns a
4K-aligned page. -/
theorem C7_replace_frame_witness :
    EptInv (sample_built GIGABYTE).2 (sample_built GIGABYTE).1 1 (init_layout sample_kernel 1) ∧
    0x305000 < 1 * GIGABYTE ∧
    replace_ept_page (sample_built GIGABYTE).2 (sample_built GIGABYTE).1 0x305000
      = some (sample_replaced.1, sample_replaced.2) ∧
    sample_replaced.1 ≠ 0 ∧
    ∃ leaf N, find_pt_entry sample_replaced.2 (sample_built GIGABYTE).1 0x305000
        = some (__va leaf) ∧
      sample_replaced.1 = __va N ∧ N % PAGESIZE = 0 ∧
      sample_replaced.2.mem leaf
        = N ||| EPT_R ||| EPT_W ||| EPT_X ||| EPT_CACHE_2 ||| EPT_CACHE_3 := by
  refine ⟨sample_inv, by decide, sample_replaced_eq, by decide!, ?_⟩
  obtain ⟨s1, leaf, N, _, _, h3, h4, h5, h6, _⟩ :=
    C7_replace_frame _ _ 1 _ sample_inv 0x305000 (by decide) _ _ sample_replaced_eq (by decide!)
  exact ⟨leaf, N, h3, h4, h5, h6⟩

/-- The address `0x305001` of the table built for 1GB from the sample state
satisfies the hypotheses of C8; it is not 4K-aligned and `replace_ept_page`
returns `NULL` for it. -/
theorem C8_replace_mismatch_witness :
    EptInv (sample_built GIGABYTE).2 (sample_built GIGABYTE).1 1 (init_layout sample_kernel 1) ∧
    0x305001 < 1 * GIGABYTE ∧ 0x305001 % PAGESIZE ≠ 0 ∧
    ∃ s', replace_ept_page (sample_built GIGABYTE).2 (sample_built GIGABYTE).1 0x305001
      = some (0, s') :=
  ⟨sample_inv, by decide, by decide,
    (C8_replace_mismatch _ _ 1 _ sample_inv 0x305001 (by decide)).2.1 (by decide)⟩

/-- C9 (the code departs from the claim): in the table built for 10GB from the
sample state, `replace_ept_page` on the page-aligned address `9GB + 0x5000` of
the 10th gigabyte returns `NULL`: the PD entry of its region is `0x400000B7`,
whose target wrapped to `0x40000000`, so after the split the address recorded in
the leaf is `0x40005000` and the consistency check fails. -/
theorem C9_replace_fails_in_10th_GB :
    (sample_built (10 * GIGABYTE)).1 ≠ 0
    ∧ 9 * GIGABYTE ≤ 9 * GIGABYTE + 0x5000 ∧ 9 * GIGABYTE + 0x5000 < 10 * GIGABYTE
    ∧ (9 * GIGABYTE + 0x5000) % PAGESIZE = 0
    ∧ load (sample_built (10 * GIGABYTE)).2
        (find_pd_entry (sample_built (10 * GIGABYTE)).2 (sample_built (10 * GIGABYTE)).1
          (9 * GIGABYTE + 0x5000)) = 0x400000B7
    ∧ (replace_ept_page (sample_built (10 * GIGABYTE)).2 (sample_built (10 * GIGABYTE)).1
        (9 * GIGABYTE + 0x5000)).map Prod.fst = some 0 := by
  decide!


/-- C11: when `vt_ept_2M_init` returns a root for the extent `E`, with `pd k`
the PD table of gigabyte `k` (the table in which `find_pd_entry` finds the entry
of every address of that gigabyte): entry 0 of `pd 0` has the large page flag
clear and is the physical address of a 4K-aligned page `pt` plus read, write and
execute; for every `i < 512` entry `i` of `pt` has read, write and execute set
and records the target address `i * 4096`; every other entry of every PD table
has the large page flag set, so none of them points to a PT. -/
theorem C11_first_region_presplit (E : Nat) (s : Kernel) (root : Nat) (s' : Kernel)
    (hE : E ≤ MAXMEM) (hp : PoolOK s.pages)
    (h : vt_ept_2M_init E s = some (root, s')) (hr : root ≠ 0) :
    ∃ (pd : Nat → Nat) (pt : Nat),
      (∀ a, a < (E + (GIGABYTE - 1)) / GIGABYTE * GIGABYTE →
        find_pd_entry s' root a
          = __va (pd (a / GIGABYTE) + 8 * (a % GIGABYTE / PAGESIZE2M))) ∧
      s'.mem (pd 0) = pt + EPT_R + EPT_W + EPT_X ∧
      s'.mem (pd 0) &&& EPT_2M_PAGE = 0 ∧
      pt % PAGESIZE = 0 ∧ epte_addr (s'.mem (pd 0)) = pt ∧
      (∀ i, i < 512 →
        s'.mem (pt + 8 * i) &&& (EPT_R ||| EPT_W ||| EPT_X) = EPT_R ||| EPT_W ||| EPT_X ∧
        s'.mem (pt + 8 * i) &&& EPT_2M_PAGE = 0 ∧
        epte_addr (s'.mem (pt + 8 * i)) = i * PAGESIZE) ∧
      (∀ k i, k < (E + (GIGABYTE - 1)) / GIGABYTE → i < 512 → ¬ (k = 0 ∧ i = 0) →
        s'.mem (pd k + 8 * i) &&& EPT_2M_PAGE ≠ 0) := by
  have P := init_post E s hE hp root s' h hr
  have hG : GIGABYTE = 2 ^ 30 := rfl
  have h2M : PAGESIZE2M = 2 ^ 21 := rfl
  have h4K : PAGESIZE = 4096 := rfl
  rw [hG, h2M, h4K]
  generalize (E + (2 ^ 30 - 1)) / 2 ^ 30 = n at P
  have hn := P.n_le
  have hal := fun j hj => hp.aligned _ _ (P.alloc j hj)
  have hbd := fun j hj => hp.bound _ _ (P.alloc j hj)
  have a0 := hal 0 (by omega)
  have b0 := hbd 0 (by omega)
  have e00 : s'.mem (nthPage s (1 + 0)) = nthPage s 0 + 7 := P.pd_00
  refine ⟨fun k => nthPage s (1 + k), nthPage s 0, ?_, ?_, ?_, a0, ?_, ?_, ?_⟩
  · intro a ha
    exact find_pd_entry_init s s' root n hp P a ha
  · show s'.mem (nthPage s (1 + 0)) = _
    rw [add_flags]
    exact e00
  · show s'.mem (nthPage s (1 + 0)) &&& EPT_2M_PAGE = 0
    rw [e00]
    exact ptr_not_large _ a0
  · show epte_addr (s'.mem (nthPage s (1 + 0))) = _
    rw [e00]
    exact epte_addr_ptr _ a0 (by omega)
  · intro i hi
    have hlt := init_pte_lt i hi
    rw [P.pt_at i hi, Nat.mod_eq_of_lt (by omega), init_pte_eq]
    have hx : (i * 4096) % 4096 = 0 := by omega
    have hb : i * 4096 + 4096 ≤ 2 ^ 64 := by omega
    have hs : IsSmallLeaf (i * 4096
        + (if no_cache_region (i * 4096) PAGESIZE ≠ 0 then 7 else 0x37)) := by
      refine ⟨i * 4096, hx, hb, ?_⟩
      split
      · exact Or.inl rfl
      · exact Or.inr rfl
    obtain ⟨f1, _, _⟩ := small_leaf_flags (i * 4096) PAGESIZE hx hb _ rfl
    refine ⟨f1, small_flag _ hs, ?_⟩
    rw [epte_addr_eq _ (by split <;> omega)]
    split <;> omega
  · intro k i hk hi hne
    show s'.mem (nthPage s (1 + k) + 8 * i) &&& EPT_2M_PAGE ≠ 0
    have hlt := init_pde_lt k i
    rw [P.pd_at k i hk hi hne, Nat.mod_eq_of_lt (by omega)]
    exact init_pde_large k i

/-- A 4GB extent on the sample state satisfies the hypotheses of C11; there the
PT is the page at `0x10000000`, and its entry 5 records the target `0x5000`. -/
theorem C11_first_region_presplit_witness :
    4 * GIGABYTE ≤ MAXMEM ∧ PoolOK sample_kernel.pages ∧
    vt_ept_2M_init (4 * GIGABYTE) sample_kernel
      = some ((sample_built (4 * GIGABYTE)).1, (sample_built (4 * GIGABYTE)).2) ∧
    (sample_built (4 * GIGABYTE)).1 ≠ 0 ∧
    (∃ (pd : Nat → Nat) (pt : Nat),
      (sample_built (4 * GIGABYTE)).2.mem (pd 0) = pt + EPT_R + EPT_W + EPT_X ∧
      (sample_built (4 * GIGABYTE)).2.mem (pd 0) &&& EPT_2M_PAGE = 0 ∧
      epte_addr ((sample_built (4 * GIGABYTE)).2.mem (pt + 8 * 5)) = 5 * PAGESIZE) ∧
    epte_addr ((sample_built (4 * GIGABYTE)).2.mem (0x10000000 + 8 * 5)) = 0x5000 := by
  refine ⟨by norm_num [GIGABYTE, MAXMEM], sample_pool, sample_built_eq _ (by decide!),
    by decide!, ?_, by decide!⟩
  obtain ⟨pd, pt, _, h2, h3, _, _, h6, _⟩ :=
    C11_first_region_presplit (4 * GIGABYTE) sample_kernel _ _ (by norm_num [GIGABYTE, MAXMEM])
      sample_pool (sample_built_eq _ (by decide!)) (by decide!)
  exact ⟨pd, pt, h2, h3, (h6 5 (by decide)).2.2⟩

/-- C12: `no_cache_region` returns 1 exactly for the addresses of the no-cache
set, `0x9F00 <= addr < BIOS_END` or `addr >= END_PHYSICAL`, and 0 otherwise,
whatever the size. Every leaf of a table just built by `vt_ept_2M_init`, and
every leaf of a region that `split_2M_mapping` has just split in a well-formed
table, has read, write and execute set, and has the write-back cache bits set
exactly when `no_cache_region` is 0 for the target address the leaf records,
and no cache bit otherwise. -/
theorem C12_leaf_flags (s : Kernel) (root n : Nat) (L : EptLayout) (I : EptInv s root n L)
    (p : Nat) (hp : p < n * GIGABYTE) (hal : p % PAGESIZE2M = 0)
    (hlarge : load s (find_pd_entry s root p) &&& EPT_2M_PAGE ≠ 0)
    (s1 : Kernel) (h : split_2M_mapping s root p = (1, s1)) :
    (∀ addr size size',
      (no_cache_region addr size = 1
        ↔ (0x9F00 ≤ addr ∧ addr < BIOS_END) ∨ END_PHYSICAL ≤ addr) ∧
      (no_cache_region addr size = 0
        ↔ ¬ ((0x9F00 ≤ addr ∧ addr < BIOS_END) ∨ END_PHYSICAL ≤ addr)) ∧
      no_cache_region addr size = no_cache_region addr size') ∧
    (∀ E s0 root0 s0', E ≤ MAXMEM → PoolOK s0.pages →
      vt_ept_2M_init E s0 = some (root0, s0') → root0 ≠ 0 →
      ∀ a l, a < 2 ^ 48 → ept_walk s0' root0 a = some l →
        l.perm = EPT_R ||| EPT_W ||| EPT_X ∧
        (l.cache = EPT_CACHE_2 ||| EPT_CACHE_3 ↔ no_cache_region l.target l.span = 0) ∧
        (l.cache = 0 ↔ no_cache_region l.target l.span = 1)) ∧
    (∀ a, p ≤ a → a < p + PAGESIZE2M →
      ∃ l, ept_walk s1 root a = some l ∧ l.span = PAGESIZE ∧
        l.perm = EPT_R ||| EPT_W ||| EPT_X ∧
        (l.cache = EPT_CACHE_2 ||| EPT_CACHE_3 ↔ no_cache_region l.target l.span = 0) ∧
        (l.cache = 0 ↔ no_cache_region l.target l.span = 1)) := by
  have hG : GIGABYTE = 2 ^ 30 := rfl
  have h2M : PAGESIZE2M = 2 ^ 21 := rfl
  refine ⟨?_, ?_, ?_⟩
  · intro addr size size'
    refine ⟨no_cache_region_iff addr size, ?_, rfl⟩
    rw [← no_cache_region_iff addr size]
    rcases no_cache_region_01 addr size with h0 | h1
    · rw [h0]
      exact ⟨fun _ => by decide, fun _ => rfl⟩
    · rw [h1]
      exact ⟨fun h => (nomatch h), fun h => absurd rfl h⟩
  · intro E s0 root0 s0' hE hpool hinit hr a l ha hw
    have P := init_post E s0 hE hpool root0 s0' hinit hr
    generalize (E + (2 ^ 30 - 1)) / 2 ^ 30 = m at P
    rw [walk_init s0 s0' root0 m hpool P a ha] at hw
    by_cases h1 : a < m * 2 ^ 30
    · rw [if_pos h1] at hw
      by_cases h2 : a < 2 ^ 21
      · rw [if_pos h2] at hw
        simp only [Option.some.injEq] at hw
        subst hw
        have hi : a / 2 ^ 12 < 512 := by omega
        simp only [Leaf.perm, Leaf.cache, Leaf.target]
        exact small_leaf_flags (a / 2 ^ 12 * 4096) PAGESIZE (by omega) (by omega)
          (init_pte (a / 2 ^ 12)) (init_pte_eq (a / 2 ^ 12))
      · rw [if_neg h2] at hw
        simp only [Option.some.injEq] at hw
        subst hw
        simp only [Leaf.perm, Leaf.cache, Leaf.target]
        exact large_leaf_flags
          ((a % 2 ^ 30 / 2 ^ 21 + a / 2 ^ 30 * 512) % 2 ^ 32 * 2 ^ 21 % 2 ^ 32) PAGESIZE2M
          (by omega) (by omega) (init_pde 512 (a / 2 ^ 30) (a % 2 ^ 30 / 2 ^ 21))
          (init_pde_eq (a / 2 ^ 30) (a % 2 ^ 30 / 2 ^ 21))
    · rw [if_neg h1] at hw
      cases hw
  · intro a ha1 ha2
    rw [hG] at hp
    rw [h2M] at hal ha2
    rw [load_pd_entry s root n L I p hp] at hlarge
    obtain ⟨N, base, hb1, hb2, hw⟩ :=
      split_walk s root n L I p hp hal hlarge s1 h a ha1 ha2
    have hj : a % 2 ^ 21 / 2 ^ 12 < 512 := by omega
    obtain ⟨v1, v2, v3⟩ := split_pte_val base (a % 2 ^ 21 / 2 ^ 12) hb1 hb2 hj
    refine ⟨_, hw, rfl, ?_⟩
    simp only [Leaf.perm, Leaf.cache, Leaf.target]
    exact small_leaf_flags (base + a % 2 ^ 21 / 2 ^ 12 * PAGESIZE) PAGESIZE v1 v2
      (split_pte ((base + a % 2 ^ 21 / 2 ^ 12 * PAGESIZE) % 2 ^ 64) % 2 ^ 64) v3

/-- The region at `0x200000` of the table built for 1GB from the sample state
satisfies the hypotheses of C12; after its split the address `0x234567` is
mapped by a 4K leaf with read, write and execute. -/
theorem C12_leaf_flags_witness :
    EptInv (sample_built GIGABYTE).2 (sample_built GIGABYTE).1 1 (init_layout sample_kernel 1) ∧
    0x200000 < 1 * GIGABYTE ∧ 0x200000 % PAGESIZE2M = 0 ∧
    load (sample_built GIGABYTE).2
      (find_pd_entry (sample_built GIGABYTE).2 (sample_built GIGABYTE).1 0x200000)
        &&& EPT_2M_PAGE ≠ 0 ∧
    split_2M_mapping (sample_built GIGABYTE).2 (sample_built GIGABYTE).1 0x200000
      = (1, (split_2M_mapping (sample_built GIGABYTE).2 (sample_built GIGABYTE).1 0x200000).2) ∧
    ∃ l, ept_walk (split_2M_mapping (sample_built GIGABYTE).2 (sample_built GIGABYTE).1
        0x200000).2 (sample_built GIGABYTE).1 0x234567 = some l ∧
      l.span = PAGESIZE ∧ l.perm = EPT_R ||| EPT_W ||| EPT_X := by
  refine ⟨sample_inv, by decide, by decide, by decide!, sample_split_eq, ?_⟩
  obtain ⟨l, h1, h2, h3, _⟩ :=
    (C12_leaf_flags _ _ 1 _ sample_inv 0x200000 (by decide) (by decide) (by decide!)
      _ sample_split_eq).2.2 0x234567 (by decide) (by decide)
  exact ⟨l, h1, h2, h3⟩


/-- C13: for an extent `E` (at most `MAXMEM`, to which `e820_end_paddr` clamps
it), `vt_ept_2M_init` returns the null root without having called the page
allocator exactly when `E` rounded up to whole gigabytes exceeds
`PML4E_MAP_LIMIT` gigabytes, and then it returns with the state untouched. An
extent of exactly `PML4E_MAP_LIMIT` gigabytes is within the limit: with a sound
allocator holding 515 pages and a slab serving the three descriptor arrays the
function returns a non-null root whose PDPT has its 512 entries present, and
the PDPT index of every address below the extent is below 512. -/
theorem C13_extent_limit (E : Nat) (s : Kernel) (hE : E ≤ MAXMEM) :
    ((∃ s', vt_ept_2M_init E s = some (0, s') ∧ s'.npages = s.npages)
        ↔ (E + (GIGABYTE - 1)) / GIGABYTE > PML4E_MAP_LIMIT) ∧
    ((E + (GIGABYTE - 1)) / GIGABYTE > PML4E_MAP_LIMIT → vt_ept_2M_init E s = some (0, s)) ∧
    (E = PML4E_MAP_LIMIT * GIGABYTE →
      ¬ (E + (GIGABYTE - 1)) / GIGABYTE > PML4E_MAP_LIMIT ∧
      (PoolOK s.pages → (∀ j, j < 515 → ∃ p, s.pages (s.npages + j) = some p) →
        (∀ j, j < 3 → s.slab (s.nslab + j) = true) →
        ∃ root s' pdpt, vt_ept_2M_init E s = some (root, s') ∧ root ≠ 0 ∧
          s'.mem root = pdpt + EPT_R + EPT_W + EPT_X ∧
          ∀ k, k < 512 → s'.mem (pdpt + 8 * k) &&& (EPT_R ||| EPT_W ||| EPT_X) ≠ 0) ∧
      (∀ a, a < E →
        toInt32 ((a &&& lnot64 (GIGABYTE - 1)) >>> GIGABYTE_SHIFT) = ((a / GIGABYTE : Nat) : Int)
        ∧ a / GIGABYTE < 512)) := by
  have hG : GIGABYTE = 2 ^ 30 := rfl
  have hL : PML4E_MAP_LIMIT = 512 := rfl
  have hr := round_eq E hE
  rw [hG, hL]
  have hex : (E + (2 ^ 30 - 1)) / 2 ^ 30 > 512 → vt_ept_2M_init E s = some (0, s) := by
    intro hgt
    rw [vt_ept_2M_init, hr, hL, if_pos hgt]
  refine ⟨⟨?_, ?_⟩, hex, ?_⟩
  · rintro ⟨s', h1, h2⟩
    by_contra hc
    have := init_npages E s (by rw [hr, hL]; exact hc) 0 s' h1
    omega
  · intro hgt
    exact ⟨s, hex hgt, rfl⟩
  · intro hEq
    have hn : (E + (2 ^ 30 - 1)) / 2 ^ 30 = 512 := by omega
    refine ⟨by omega, ?_, ?_⟩
    · intro hp hpg hsl
      obtain ⟨root, s', h1, h2⟩ := init_ok E s hE hp (by omega) (by omega)
        (fun j hj => hpg j (by omega)) hsl
      have P := init_post E s hE hp root s' h1 h2
      rw [hn] at P
      refine ⟨root, s', nthPage s (512 + 1), h1, h2, ?_, ?_⟩
      · rw [add_flags]
        exact P.pml4_0
      · intro k hk
        rw [P.pdpt_lo k hk, rwx_or]
        exact ptr_present _ (hp.aligned _ _ (P.alloc (1 + k) (by omega)))
    · intro a ha
      exact ⟨gb_index a (by omega), by omega⟩

/-- An extent of 512GB on the sample state satisfies the hypothesis of C13;
there `vt_ept_2M_init` returns a non-null root. -/
theorem C13_extent_limit_witness :
    512 * GIGABYTE ≤ MAXMEM ∧
    ∃ root s', vt_ept_2M_init (512 * GIGABYTE) sample_kernel = some (root, s') ∧ root ≠ 0 := by
  refine ⟨by norm_num [GIGABYTE, MAXMEM], ?_⟩
  obtain ⟨root, s', _, h1, h2, _⟩ :=
    ((C13_extent_limit (512 * GIGABYTE) sample_kernel (by norm_num [GIGABYTE, MAXMEM])).2.2
      rfl).2.1 sample_pool (fun j hj => sample_pages j (by omega)) (fun _ _ => rfl)
  exact ⟨root, s', h1, h2⟩


/-- C14: from a state in which the pool is as `vmx_init` leaves it and no VCPU
is live, after every sequence of `vmx_allocate_vpid` and `vmx_free_vpid` calls
in which `vmx_free_vpid` is only applied to a live VCPU (or to one whose tag is
0): two different live VCPUs hold different tags, the bit of every live VCPU's
tag is set in the bitmap, and the tag that a further successful
`vmx_allocate_vpid` issues is held by no VCPU that is live at that moment, so
that a tag is issued again only after its holder has been freed. -/
theorem C14_vpid_unique (m0 : Machine) (h0 : m0.vmx_vpid_bitmap = vmx_init_bitmap)
    (cs : List VpidCall) (hd : vpid_disciplined cs (m0, []) = true) :
    (∀ v w, v ∈ (vpid_run cs (m0, [])).2 → w ∈ (vpid_run cs (m0, [])).2 → v ≠ w →
      ((vpid_run cs (m0, [])).1.vcpus v).vpid ≠ ((vpid_run cs (m0, [])).1.vcpus w).vpid) ∧
    (∀ v, v ∈ (vpid_run cs (m0, [])).2 →
      (vpid_run cs (m0, [])).1.vmx_vpid_bitmap ((vpid_run cs (m0, [])).1.vcpus v).vpid = true) ∧
    (∀ vmx, (vmx_allocate_vpid (vpid_run cs (m0, [])).1 vmx).1 = 0 →
      ∀ w, w ∈ (vpid_run cs (m0, [])).2 →
        ((vmx_allocate_vpid (vpid_run cs (m0, [])).1 vmx).2.vcpus vmx).vpid
          ≠ ((vpid_run cs (m0, [])).1.vcpus w).vpid) := by
  have I := vpid_run_inv cs (m0, []) (vpid_inv_init m0 h0) hd
  exact ⟨I.unique, I.taken, fun vmx h w hw => allocate_fresh _ _ I vmx h w hw⟩

/-- The sequence allocate 100, allocate 200, free 100, allocate 300 on the
sample state satisfies the hypotheses of C14: at its end the VCPUs 300 and 200
are live, with the tags 1 (issued again after VCPU 100 was freed) and 2. -/
theorem C14_vpid_unique_witness :
    sample_machine.vmx_vpid_bitmap = vmx_init_bitmap ∧
    vpid_disciplined [VpidCall.allocate 100, VpidCall.allocate 200, VpidCall.free 100,
      VpidCall.allocate 300] (sample_machine, []) = true ∧
    (vpid_run [VpidCall.allocate 100, VpidCall.allocate 200, VpidCall.free 100,
      VpidCall.allocate 300] (sample_machine, [])).2 = [300, 200] ∧
    ((vpid_run [VpidCall.allocate 100, VpidCall.allocate 200, VpidCall.free 100,
      VpidCall.allocate 300] (sample_machine, [])).1.vcpus 300).vpid = 1 ∧
    ((vpid_run [VpidCall.allocate 100, VpidCall.allocate 200, VpidCall.free 100,
      VpidCall.allocate 300] (sample_machine, [])).1.vcpus 200).vpid = 2 ∧
    ((vpid_run [VpidCall.allocate 100, VpidCall.allocate 200, VpidCall.free 100,
      VpidCall.allocate 300] (sample_machine, [])).1.vcpus 300).vpid
      ≠ ((vpid_run [VpidCall.allocate 100, VpidCall.allocate 200, VpidCall.free 100,
        VpidCall.allocate 300] (sample_machine, [])).1.vcpus 200).vpid :=
  ⟨rfl, by decide, by decide, by decide, by decide,
    (C14_vpid_unique sample_machine rfl
      [VpidCall.allocate 100, VpidCall.allocate 200, VpidCall.free 100, VpidCall.allocate 300]
      (by decide)).1 300 200 (by decide) (by decide) (by decide)⟩

/-- C15: `vmx_allocate_vpid` returns 0 or 1; it returns non-zero exactly when
all `VMX_NR_VPIDS` bits of the pool are set, and then the bitmap is unchanged
and the tag of the VCPU is 0; when it returns 0 the VCPU has received the
lowest-numbered tag whose bit was clear and the bitmap differs from the one
before in exactly that bit, now set. No other VCPU is changed. -/
theorem C15_allocate_vpid (m : Machine) (vmx : Nat) :
    ((vmx_allocate_vpid m vmx).1 = 0 ∨ (vmx_allocate_vpid m vmx).1 = 1) ∧
    ((vmx_allocate_vpid m vmx).1 ≠ 0
      ↔ ∀ i, i < VMX_NR_VPIDS → m.vmx_vpid_bitmap i = true) ∧
    ((vmx_allocate_vpid m vmx).1 ≠ 0 →
      (vmx_allocate_vpid m vmx).2.vmx_vpid_bitmap = m.vmx_vpid_bitmap ∧
      ((vmx_allocate_vpid m vmx).2.vcpus vmx).vpid = 0) ∧
    ((vmx_allocate_vpid m vmx).1 = 0 →
      ∃ t, t < VMX_NR_VPIDS ∧ m.vmx_vpid_bitmap t = false ∧
        (∀ j, j < t → m.vmx_vpid_bitmap j = true) ∧
        ((vmx_allocate_vpid m vmx).2.vcpus vmx).vpid = t ∧
        (vmx_allocate_vpid m vmx).2.vmx_vpid_bitmap = upd m.vmx_vpid_bitmap t true) ∧
    (∀ w, w ≠ vmx → (vmx_allocate_vpid m vmx).2.vcpus w = m.vcpus w) := by
  rcases find_first_zero_bit_spec m.vmx_vpid_bitmap VMX_NR_VPIDS with ⟨e, hall⟩ | ⟨h1, h2, h3⟩
  · have hf : ¬ find_first_zero_bit m.vmx_vpid_bitmap VMX_NR_VPIDS < VMX_NR_VPIDS := by omega
    rw [allocate_fail m vmx hf]
    refine ⟨Or.inr rfl, ⟨fun _ => hall, fun _ => Nat.one_ne_zero⟩, fun _ => ⟨rfl, ?_⟩,
      fun h => (by cases h), fun w hw => ?_⟩
    · show (upd m.vcpus vmx _ vmx).vpid = 0
      rw [upd_same]
    · show upd m.vcpus vmx _ w = _
      rw [upd_other _ _ _ _ hw]
  · rw [allocate_ok m vmx h1]
    refine ⟨Or.inl rfl, ⟨fun h => absurd rfl h, fun hall => ?_⟩, fun h => absurd rfl h,
      fun _ => ⟨_, h1, h2, h3, ?_, rfl⟩, fun w hw => ?_⟩
    · exact (bool_true_ne_false _ (hall _ h1) h2).elim
    · show (upd m.vcpus vmx _ vmx).vpid = _
      rw [upd_same]
    · show upd m.vcpus vmx _ w = _
      rw [upd_other _ _ _ _ hw]

/-- C16: from a state in which bit 0 of the pool is set, as `vmx_init` leaves
it, after every sequence of `vmx_allocate_vpid` and `vmx_free_vpid` calls bit 0
is still set; a `vmx_allocate_vpid` that returns 0 then assigns a tag other than
0; and `vmx_free_vpid` on a VCPU whose tag is 0, in particular on one whose
allocation has just failed, leaves the state unchanged. -/
theorem C16_tag0_reserved (m0 : Machine) (h0 : m0.vmx_vpid_bitmap 0 = true)
    (cs : List VpidCall) (live : List Nat) :
    vmx_init_bitmap 0 = true ∧
    (vpid_run cs (m0, live)).1.vmx_vpid_bitmap 0 = true ∧
    (∀ vmx, (vmx_allocate_vpid (vpid_run cs (m0, live)).1 vmx).1 = 0 →
      ((vmx_allocate_vpid (vpid_run cs (m0, live)).1 vmx).2.vcpus vmx).vpid ≠ 0) ∧
    (∀ vmx, ((vpid_run cs (m0, live)).1.vcpus vmx).vpid = 0 →
      vmx_free_vpid (vpid_run cs (m0, live)).1 vmx = (vpid_run cs (m0, live)).1) ∧
    (∀ vmx, (vmx_allocate_vpid (vpid_run cs (m0, live)).1 vmx).1 ≠ 0 →
      vmx_free_vpid (vmx_allocate_vpid (vpid_run cs (m0, live)).1 vmx).2 vmx
        = (vmx_allocate_vpid (vpid_run cs (m0, live)).1 vmx).2) := by
  have hz := run_bit0 cs (m0, live) h0
  generalize (vpid_run cs (m0, live)).1 = m at hz
  refine ⟨rfl, hz, fun vmx h => ?_, fun vmx h => free_tag0 m vmx h, fun vmx h => ?_⟩
  · rcases (allocate_cases m vmx).2 h with ⟨t, _, h2, _, h4, _⟩
    rw [h4]
    intro e
    rw [e] at h2
    exact bool_true_ne_false _ hz h2
  · exact free_tag0 _ vmx ((allocate_cases m vmx).1 h)

/-- The sequence allocate 100, free 100, free 100 on the sample state satisfies
the hypothesis of C16; bit 0 is set at its end and the next tag issued is 1. -/
theorem C16_tag0_reserved_witness :
    sample_machine.vmx_vpid_bitmap 0 = true ∧
    (vpid_run [VpidCall.allocate 100, VpidCall.free 100, VpidCall.free 100]
      (sample_machine, [])).1.vmx_vpid_bitmap 0 = true ∧
    ((vmx_allocate_vpid (vpid_run [VpidCall.allocate 100, VpidCall.free 100, VpidCall.free 100]
      (sample_machine, [])).1 7).2.vcpus 7).vpid = 1 :=
  ⟨rfl,
    (C16_tag0_reserved sample_machine rfl
      [VpidCall.allocate 100, VpidCall.free 100, VpidCall.free 100] []).2.1,
    by decide⟩


/-- C17 (the code departs from the claim): `vt_ept_2M_init` does not check the
results of its three `kmalloc` calls. On the sample state with an extent of
1GB, when the slab allocator refuses the array `pdpt`, `pd` or `pt` (its call
1, 2 or 3) after the VCPU structure, its VMCS region and the tag 1 have been
obtained, the construction of the table fails with a kernel fault at the first
write through the missing array: `vmx_create_vcpu` does not return, the label
`fail_ept` is not reached, and bit 1 of the pool, clear before the call, is set
in the state in which the fault happens. The failures the code checks are
rolled back: when the slab allocator refuses the VCPU structure, when the page
allocator refuses the VMCS region, and when it refuses the first page of the
table, so that `vt_ept_2M_init` returns 0, `vmx_create_vcpu` returns `NULL`
with the pool as before the call. -/
theorem C17_table_kmalloc_unchecked :
    (slab_fail_machine 1).vmx_vpid_bitmap 1 = false ∧
    (kmalloc (slab_fail_machine 1).kern).1 = true ∧
    (create_vcpu_vmcs (slab_fail_machine 1) 100).1 ≠ 0 ∧
    (vmx_allocate_vpid (create_vcpu_vmcs (slab_fail_machine 1) 100).2 100).1 = 0 ∧
    ((vmx_allocate_vpid (create_vcpu_vmcs (slab_fail_machine 1) 100).2 100).2.vcpus 100).vpid
      = 1 ∧
    (vmx_allocate_vpid (create_vcpu_vmcs (slab_fail_machine 1) 100).2 100).2.vmx_vpid_bitmap 1
      = true ∧
    vt_ept_2M_init GIGABYTE
      (vmx_allocate_vpid (create_vcpu_vmcs (slab_fail_machine 1) 100).2 100).2.kern = none ∧
    vmx_create_vcpu GIGABYTE 100 (slab_fail_machine 1) = none ∧
    (vmx_allocate_vpid (create_vcpu_vmcs (slab_fail_machine 2) 100).2 100).2.vmx_vpid_bitmap 1
      = true ∧
    vmx_create_vcpu GIGABYTE 100 (slab_fail_machine 2) = none ∧
    (vmx_allocate_vpid (create_vcpu_vmcs (slab_fail_machine 3) 100).2 100).2.vmx_vpid_bitmap 1
      = true ∧
    vmx_create_vcpu GIGABYTE 100 (slab_fail_machine 3) = none ∧
    (∃ m1, vmx_create_vcpu GIGABYTE 100 (slab_fail_machine 0) = some (0, m1) ∧
      m1.vmx_vpid_bitmap = (slab_fail_machine 0).vmx_vpid_bitmap) ∧
    (∃ m1, vmx_create_vcpu GIGABYTE 100 (page_fail_machine 0) = some (0, m1) ∧
      m1.vmx_vpid_bitmap = (page_fail_machine 0).vmx_vpid_bitmap) ∧
    (∃ m1, vmx_create_vcpu GIGABYTE 100 (page_fail_machine 1) = some (0, m1) ∧
      m1.vmx_vpid_bitmap = (page_fail_machine 1).vmx_vpid_bitmap) := by
  have none_of : ∀ o : Option (Nat × Machine), o.isNone = true → o = none := by
    intro o h
    cases o with
    | none => rfl
    | some r => cases h
  have null_of : ∀ (m : Machine), m.vmx_vpid_bitmap 0 = true →
      (vmx_create_vcpu GIGABYTE 100 m).map Prod.fst = some 0 →
      ∃ m1, vmx_create_vcpu GIGABYTE 100 m = some (0, m1) ∧
        m1.vmx_vpid_bitmap = m.vmx_vpid_bitmap := by
    intro m h0 h
    cases hc : vmx_create_vcpu GIGABYTE 100 m with
    | none =>
      rw [hc] at h
      cases h
    | some r =>
      obtain ⟨a, m1⟩ := r
      rw [hc] at h
      have ha : a = 0 := by
        simpa using h
      subst ha
      exact ⟨m1, rfl, (create_vcpu_outcomes GIGABYTE 100 m h0 (by decide)).1 m1 hc⟩
  refine ⟨by decide, by decide, by decide, by decide, by decide, by decide, ?_,
    none_of _ (by set_option maxRecDepth 100000 in decide), by decide,
    none_of _ (by set_option maxRecDepth 100000 in decide), by decide,
    none_of _ (by decide),
    null_of _ rfl (by decide), null_of _ rfl (by decide), null_of _ rfl (by decide)⟩
  cases hk : vt_ept_2M_init GIGABYTE
      (vmx_allocate_vpid (create_vcpu_vmcs (slab_fail_machine 1) 100).2 100).2.kern with
  | none => rfl
  | some r =>
    have hs : (vt_ept_2M_init GIGABYTE
      (vmx_allocate_vpid (create_vcpu_vmcs (slab_fail_machine 1) 100).2 100).2.kern).isNone
        = true := by
      set_option maxRecDepth 100000 in decide
    rw [hk] at hs
    cases hs


/-- C18 (the code departs from the claim): for a VCPU that has been launched,
`vmx_get_cpu` only disables preemption and loads the VMCS on the executing
core. Whatever core the VMCS was last loaded on, it is not cleared there, no
cached translation is invalidated, no host-state field is written, and the
recorded core of the VCPU is left as it was. -/
theorem C18_launched_bind_skips_migration (m : Machine) (vcpu : Nat)
    (hl : (m.vcpus vcpu).launched ≠ 0) :
    vmx_get_cpu m vcpu = vmcs_load (get_cpu m) (m.vcpus vcpu).vmcs ∧
    (vmx_get_cpu m vcpu).log
      = m.log ++ [Event.get_cpu, Event.vmptrld m.cpu (m.vcpus vcpu).vmcs] ∧
    (vmx_get_cpu m vcpu).vcpus = m.vcpus ∧
    (vmx_get_cpu m vcpu).vmcs_field = m.vmcs_field ∧
    (vmx_get_cpu m vcpu).local_vcpu = m.local_vcpu ∧
    (∀ d, d ≠ m.cpu →
      (vmx_get_cpu m vcpu).vmcs_active d = m.vmcs_active d ∧
      (vmx_get_cpu m vcpu).current_vmcs d = m.current_vmcs d) ∧
    (vmx_get_cpu m vcpu).vmcs_active m.cpu (m.vcpus vcpu).vmcs = true := by
  have e : vmx_get_cpu m vcpu = vmcs_load (get_cpu m) (m.vcpus vcpu).vmcs := by
    unfold vmx_get_cpu
    dsimp only
    have e1 : (get_cpu m).vcpus = m.vcpus := rfl
    rw [e1, if_pos hl]
  rw [e]
  refine ⟨rfl, ?_, rfl, rfl, rfl, ?_, ?_⟩
  · show (m.log ++ [Event.get_cpu]) ++ [Event.vmptrld m.cpu (m.vcpus vcpu).vmcs] = _
    rw [List.append_assoc]
    rfl
  · intro d hd
    constructor
    · show upd m.vmcs_active m.cpu _ d = _
      rw [upd_other _ _ _ _ hd]
    · show upd m.current_vmcs m.cpu _ d = _
      rw [upd_other _ _ _ _ hd]
  · show upd m.vmcs_active m.cpu (upd (m.vmcs_active m.cpu) (m.vcpus vcpu).vmcs true) m.cpu
      (m.vcpus vcpu).vmcs = true
    rw [upd_same, upd_same]

/-- The launched VCPU of the sample state, last loaded on core 0 and now bound
on core 1, satisfies the hypothesis of C18: after `vmx_get_cpu` its recorded
core is still 0 and its VMCS is active on core 0 and on core 1. -/
theorem C18_launched_bind_skips_migration_witness :
    (migrated_machine.vcpus 100).launched ≠ 0 ∧
    (migrated_machine.vcpus 100).cpu = 0 ∧ migrated_machine.cpu = 1 ∧
    ((vmx_get_cpu migrated_machine 100).vcpus 100).cpu = 0 ∧
    (vmx_get_cpu migrated_machine 100).log = [Event.get_cpu, Event.vmptrld 1 0x5000] ∧
    (vmx_get_cpu migrated_machine 100).vmcs_active 0 0x5000 = true ∧
    (vmx_get_cpu migrated_machine 100).vmcs_active 1 0x5000 = true :=
  ⟨by decide, by decide, rfl, by decide,
    (C18_launched_bind_skips_migration migrated_machine 100 (by decide)).2.1,
    by decide, by decide⟩

/-- C19 (the code departs from the claim): in the loop of `vmx_launch`, started
with no bind outstanding, a pass in which a signal other than `SIGKILL` is
dequeued reaches the hardware entry, and the VMCS write of
`vmx_step_instruction`, with no unmatched `vmx_get_cpu`, and leaves -1 after its
`vmx_put_cpu`; and the pass that follows the reschedule path reaches the
hardware entry with 2 unmatched `vmx_get_cpu`, because `continue` leads to a
second call at the top of the loop. -/
theorem C19_binds_unbalanced :
    entry_binds (vmx_launch_loop 100
      [{ plain_pass 10 0 with signal_pending := true, signr := 10 }] false 0 loop_machine).2.log
      = [0] ∧
    (write_binds (vmx_launch_loop 100
      [{ plain_pass 10 0 with signal_pending := true, signr := 10 }] false 0
        loop_machine).2.log).getLast? = some 0 ∧
    (vmx_launch_loop 100
      [{ plain_pass 10 0 with signal_pending := true, signr := 10 }] false 0
        loop_machine).2.preempt_count = -1 ∧
    entry_binds (vmx_launch_loop 100
      [plain_pass 1 0, { plain_pass 1 0 with need_resched := true }, plain_pass 1 0] false 0
        loop_machine).2.log = [1, 2] ∧
    (vmx_launch_loop 100
      [plain_pass 1 0, { plain_pass 1 0 with need_resched := true }, plain_pass 1 0] false 0
        loop_machine).2.preempt_count = 1 ∧
    loop_machine.preempt_count = 0 := by
  decide


/-- C20 fails as stated: a hypercall exit with the command `VMCALL_SCHED` taken
while interrupts are disabled in the restricted context
(`current->hardirqs_enabled_nr` is not 1) does not reach the dispatch: the check
`BUG_ON(irqs_disabled())` stops the kernel and the scheduler is not called. With
interrupts enabled the same exit calls the scheduler once and the loop goes on. -/
theorem C20_vmcall_with_irqs_disabled :
    (vmx_launch_loop 100 [{ plain_pass 18 VMCALL_SCHED with hardirqs_enabled_nr := 0 }]
      false 0 loop_machine).1 = Ending.bug_on_irqs_disabled ∧
    (vmx_launch_loop 100 [{ plain_pass 18 VMCALL_SCHED with hardirqs_enabled_nr := 0 }]
      false 0 loop_machine).2.log.count Event.schedule = 0 ∧
    (vmx_launch_loop 100 [plain_pass 18 VMCALL_SCHED] false 0 loop_machine).1
      = Ending.running ∧
    (vmx_launch_loop 100 [plain_pass 18 VMCALL_SCHED] false 0 loop_machine).2.log.count
      Event.schedule = 1 := by
  decide

/-- C20 (amended): in a pass of the loop whose hardware entry, made with the
current VMCS `v`, ends in a hypercall exit, the guest instruction pointer in the
VMCS is the one of the exit advanced by the instruction length, and the `RAX`
of the snapshot is the one of the exit, whether interrupts are enabled in the
restricted context or not. When they are (`current->hardirqs_enabled_nr` is 1):
with `VMCALL_SCHED` in the `RAX` snapshot the scheduler is called exactly once
(the log grows by the entry, the VMCS write, the release of the core and one
`schedule`) and the loop starts over with `schedule_ok` cleared; with
`VMCALL_DOEXIT` the context ends through `do_exit(0)`; with any other command
the kernel stops in the `default` case. When they are not, the check
`BUG_ON(irqs_disabled())` stops the kernel whatever the command, after the
entry, the VMCS write and the release of the core and without a call of the
scheduler. A pass that does not take the reschedule path is such a pass when no
signal is pending, entered right after `vmx_get_cpu` and `local_irq_disable`,
and when a signal other than `SIGKILL` is dequeued, entered after the signal
branch. -/
theorem C20_vmcall_dispatch (vcpu : Nat) (x : Pass) (m : Machine) (v : Nat)
    (hf : x.vmexit.fail = 0) (hr : x.vmexit.reason % 2 ^ 32 = 18)
    (hv : m.current_vmcs m.cpu = some v) :
    (∀ irq, (after_step m vcpu x.vmexit v irq).vmcs_field v GUEST_RIP
      = (x.vmexit.guest_rip + x.vmexit.instruction_len % 2 ^ 32) % 2 ^ 64) ∧
    (∀ irq, ((after_step m vcpu x.vmexit v irq).vcpus vcpu).regs VCPU_REGS_RAX
      = x.vmexit.regs VCPU_REGS_RAX) ∧
    (x.hardirqs_enabled_nr = 1 →
      (x.vmexit.regs VCPU_REGS_RAX = VMCALL_SCHED →
        launch_enter vcpu x m
          = PassResult.next false EXIT_REASON_VMCALL
              (schedule (after_step m vcpu x.vmexit v false) x.resched_cpu) ∧
        (schedule (after_step m vcpu x.vmexit v false) x.resched_cpu).log
          = m.log ++ [Event.vmentry m.cpu m.preempt_count,
              Event.vmwrite m.cpu GUEST_RIP m.preempt_count, Event.put_cpu,
              Event.schedule]) ∧
      (x.vmexit.regs VCPU_REGS_RAX = VMCALL_DOEXIT →
        launch_enter vcpu x m
          = PassResult.stop (Ending.do_exit 0) (after_step m vcpu x.vmexit v false)) ∧
      (x.vmexit.regs VCPU_REGS_RAX ≠ VMCALL_SCHED →
        x.vmexit.regs VCPU_REGS_RAX ≠ VMCALL_DOEXIT →
        launch_enter vcpu x m
          = PassResult.stop Ending.bug_vmcall (after_step m vcpu x.vmexit v false))) ∧
    (x.hardirqs_enabled_nr ≠ 1 →
      launch_enter vcpu x m
        = PassResult.stop Ending.bug_on_irqs_disabled (after_step m vcpu x.vmexit v true) ∧
      (after_step m vcpu x.vmexit v true).log
        = m.log ++ [Event.vmentry m.cpu m.preempt_count,
            Event.vmwrite m.cpu GUEST_RIP m.preempt_count, Event.put_cpu]) ∧
    (∀ ok ret m0, ¬ (ok = true ∧ x.need_resched = true) → x.signal_pending = false →
      launch_pass vcpu x ok ret m0
        = launch_enter vcpu x (local_irq_disable (vmx_get_cpu m0 vcpu))) ∧
    (∀ ok ret m0, ¬ (ok = true ∧ x.need_resched = true) → x.signal_pending = true →
      x.signr ≠ 0 → x.signr ≠ SIGKILL →
      launch_pass vcpu x ok ret m0
        = launch_enter vcpu x
            (after_dequeue (local_irq_disable (vmx_get_cpu m0 vcpu)) vcpu x.signr)) := by
  have hret : toInt32 (x.vmexit.reason % 2 ^ 32) = EXIT_REASON_VMCALL := by
    rw [hr]
    rfl
  have hstep := enter_step vcpu x m v hf hv (Or.inl hret)
  rw [hret] at hstep
  have hrax : ∀ irq, ((after_step m vcpu x.vmexit v irq).vcpus vcpu).regs VCPU_REGS_RAX
      = x.vmexit.regs VCPU_REGS_RAX := by
    intro irq
    rw [after_step_vcpu]
    exact entered_regs _ _ hf _ (by decide) (by decide)
  refine ⟨?_, hrax, ?_, ?_, ?_, ?_⟩
  · intro irq
    show upd m.vmcs_field v _ v GUEST_RIP = _
    rw [upd_same, upd_same]
  · intro hi
    have hd : decide (x.hardirqs_enabled_nr ≠ 1) = false := by
      rw [hi]
      rfl
    rw [hd] at hstep
    have hirq : (after_step m vcpu x.vmexit v false).irqs_disabled = false := rfl
    refine ⟨?_, ?_, ?_⟩
    · intro hc
      constructor
      · rw [hstep]
        unfold launch_dispatch
        rw [if_pos rfl, hirq, hrax, if_neg Bool.false_ne_true, if_pos hc]
      · show (m.log ++ [Event.vmentry m.cpu m.preempt_count,
          Event.vmwrite m.cpu GUEST_RIP m.preempt_count, Event.put_cpu]) ++ [Event.schedule]
            = _
        rw [List.append_assoc]
        rfl
    · intro hc
      rw [hstep]
      unfold launch_dispatch
      rw [if_pos rfl, hirq, hrax, if_neg Bool.false_ne_true,
        if_neg (by rw [hc]; decide), if_pos hc]
    · intro h1 h2
      rw [hstep]
      unfold launch_dispatch
      rw [if_pos rfl, hirq, hrax, if_neg Bool.false_ne_true, if_neg h1, if_neg h2]
  · intro hi
    have hd : decide (x.hardirqs_enabled_nr ≠ 1) = true := decide_eq_true hi
    rw [hd] at hstep
    have hirq : (after_step m vcpu x.vmexit v true).irqs_disabled = true := rfl
    refine ⟨?_, rfl⟩
    rw [hstep]
    unfold launch_dispatch
    rw [if_pos rfl, hirq, if_pos rfl]
  · intro ok ret m0 h1 h2
    exact pass_plain vcpu x ok ret m0 h1 h2
  · intro ok ret m0 h1 h2 h3 h4
    rw [pass_signal vcpu x ok ret m0 h1 h2]
    unfold launch_signal
    rw [if_neg h3, if_neg h4]
    rfl

/-- A hypercall exit with `VMCALL_SCHED` taken on the sample state after
`vmx_get_cpu` while interrupts are disabled in the restricted context satisfies
the hypotheses of the amended C20: the guest instruction pointer `0x4000` is
advanced by the instruction length 3, and the pass ends at
`BUG_ON(irqs_disabled())`. -/
theorem C20_vmcall_dispatch_witness :
    (plain_pass 18 VMCALL_SCHED).vmexit.fail = 0 ∧
    (plain_pass 18 VMCALL_SCHED).vmexit.reason % 2 ^ 32 = 18 ∧
    (local_irq_disable (vmx_get_cpu loop_machine 100)).current_vmcs
      (local_irq_disable (vmx_get_cpu loop_machine 100)).cpu = some 0x5000 ∧
    (after_step (local_irq_disable (vmx_get_cpu loop_machine 100)) 100
      (plain_pass 18 VMCALL_SCHED).vmexit 0x5000 false).vmcs_field 0x5000 GUEST_RIP = 0x4003 ∧
    launch_enter 100 { plain_pass 18 VMCALL_SCHED with hardirqs_enabled_nr := 0 }
        (local_irq_disable (vmx_get_cpu loop_machine 100))
      = PassResult.stop Ending.bug_on_irqs_disabled
          (after_step (local_irq_disable (vmx_get_cpu loop_machine 100)) 100
            (plain_pass 18 VMCALL_SCHED).vmexit 0x5000 true) :=
  ⟨rfl, by decide, by decide,
    (C20_vmcall_dispatch 100 (plain_pass 18 VMCALL_SCHED)
      (local_irq_disable (vmx_get_cpu loop_machine 100)) 0x5000 rfl (by decide)
      (by decide)).1 false,
    ((C20_vmcall_dispatch 100 { plain_pass 18 VMCALL_SCHED with hardirqs_enabled_nr := 0 }
      (local_irq_disable (vmx_get_cpu loop_machine 100)) 0x5000 rfl (by decide)
      (by decide)).2.2.2.1 (by decide)).1⟩


/-- C21: in a pass of the loop whose hardware entry, made with the current VMCS
`v`, ends in a `cpuid` exit: `cpuid` is executed, after the entry, the write of
the guest instruction pointer and the release of the core, with the low 32 bits
of the `RAX` and `RCX` of the snapshot, which are those of the exit; its four
32-bit results are the new `RAX`, `RBX`, `RCX` and `RDX` of the snapshot, below
`2^32` as 64-bit values, and every other register of the snapshot is as
`vmx_run_vcpu` left it: the value of the exit for the registers the assembly
stores, and the value from before the entry in the slot of the stack pointer,
which the assembly does not store; the guest instruction pointer in the VMCS
is the one of the exit advanced by the instruction length; and the loop goes on
to the next pass. -/
theorem C21_cpuid_exit (vcpu : Nat) (x : Pass) (m : Machine) (v : Nat)
    (hf : x.vmexit.fail = 0) (hr : x.vmexit.reason % 2 ^ 32 = 10)
    (hv : m.current_vmcs m.cpu = some v) :
    launch_enter vcpu x m
      = PassResult.next (decide (x.hardirqs_enabled_nr = 1 ∧ x.rcu_scheduler_active = 0))
          EXIT_REASON_CPUID
          (vmx_handle_cpuid
            (after_step m vcpu x.vmexit v (decide (x.hardirqs_enabled_nr ≠ 1))) vcpu) ∧
    (vmx_handle_cpuid
        (after_step m vcpu x.vmexit v (decide (x.hardirqs_enabled_nr ≠ 1))) vcpu).log
      = m.log ++ [Event.vmentry m.cpu m.preempt_count,
          Event.vmwrite m.cpu GUEST_RIP m.preempt_count, Event.put_cpu,
          Event.cpuid (x.vmexit.regs VCPU_REGS_RAX % 2 ^ 32)
            (x.vmexit.regs VCPU_REGS_RCX % 2 ^ 32)] ∧
    ((vmx_handle_cpuid
        (after_step m vcpu x.vmexit v (decide (x.hardirqs_enabled_nr ≠ 1))) vcpu).vcpus
          vcpu).regs VCPU_REGS_RAX
      = (m.cpuid (x.vmexit.regs VCPU_REGS_RAX % 2 ^ 32)
          (x.vmexit.regs VCPU_REGS_RCX % 2 ^ 32)).1 % 2 ^ 32 ∧
    ((vmx_handle_cpuid
        (after_step m vcpu x.vmexit v (decide (x.hardirqs_enabled_nr ≠ 1))) vcpu).vcpus
          vcpu).regs VCPU_REGS_RBX
      = (m.cpuid (x.vmexit.regs VCPU_REGS_RAX % 2 ^ 32)
          (x.vmexit.regs VCPU_REGS_RCX % 2 ^ 32)).2.1 % 2 ^ 32 ∧
    ((vmx_handle_cpuid
        (after_step m vcpu x.vmexit v (decide (x.hardirqs_enabled_nr ≠ 1))) vcpu).vcpus
          vcpu).regs VCPU_REGS_RCX
      = (m.cpuid (x.vmexit.regs VCPU_REGS_RAX % 2 ^ 32)
          (x.vmexit.regs VCPU_REGS_RCX % 2 ^ 32)).2.2.1 % 2 ^ 32 ∧
    ((vmx_handle_cpuid
        (after_step m vcpu x.vmexit v (decide (x.hardirqs_enabled_nr ≠ 1))) vcpu).vcpus
          vcpu).regs VCPU_REGS_RDX
      = (m.cpuid (x.vmexit.regs VCPU_REGS_RAX % 2 ^ 32)
          (x.vmexit.regs VCPU_REGS_RCX % 2 ^ 32)).2.2.2 % 2 ^ 32 ∧
    (∀ i, i ≠ VCPU_REGS_RAX → i ≠ VCPU_REGS_RBX → i ≠ VCPU_REGS_RCX → i ≠ VCPU_REGS_RDX →
      ((vmx_handle_cpuid
          (after_step m vcpu x.vmexit v (decide (x.hardirqs_enabled_nr ≠ 1))) vcpu).vcpus
            vcpu).regs i
        = ((vmx_run_vcpu m vcpu x.vmexit).2.vcpus vcpu).regs i) ∧
    (∀ i, i < NR_VCPU_REGS → i ≠ VCPU_REGS_RSP →
      ((vmx_run_vcpu m vcpu x.vmexit).2.vcpus vcpu).regs i = x.vmexit.regs i) ∧
    ((vmx_run_vcpu m vcpu x.vmexit).2.vcpus vcpu).regs VCPU_REGS_RSP
      = (m.vcpus vcpu).regs VCPU_REGS_RSP ∧
    (vmx_handle_cpuid
        (after_step m vcpu x.vmexit v (decide (x.hardirqs_enabled_nr ≠ 1))) vcpu).vmcs_field
          v GUEST_RIP
      = (x.vmexit.guest_rip + x.vmexit.instruction_len % 2 ^ 32) % 2 ^ 64 := by
  have hret : toInt32 (x.vmexit.reason % 2 ^ 32) = EXIT_REASON_CPUID := by
    rw [hr]
    rfl
  have hstep := enter_step vcpu x m v hf hv (Or.inr hret)
  rw [hret] at hstep
  have hvc := after_step_vcpu m vcpu x.vmexit v (decide (x.hardirqs_enabled_nr ≠ 1))
  have hrun : (vmx_run_vcpu m vcpu x.vmexit).2.vcpus vcpu
      = entered_vcpu (m.vcpus vcpu) x.vmexit := by
    rw [run_vcpu_ok m vcpu x.vmexit v hf hv]
    show upd m.vcpus vcpu _ vcpu = _
    rw [upd_same]
  have hra : (entered_vcpu (m.vcpus vcpu) x.vmexit).regs VCPU_REGS_RAX
      = x.vmexit.regs VCPU_REGS_RAX := entered_regs _ _ hf _ (by decide) (by decide)
  have hrc : (entered_vcpu (m.vcpus vcpu) x.vmexit).regs VCPU_REGS_RCX
      = x.vmexit.regs VCPU_REGS_RCX := entered_regs _ _ hf _ (by decide) (by decide)
  have hcp : (after_step m vcpu x.vmexit v (decide (x.hardirqs_enabled_nr ≠ 1))).cpuid
      = m.cpuid := rfl
  have hR := handle_cpuid_regs
    (after_step m vcpu x.vmexit v (decide (x.hardirqs_enabled_nr ≠ 1))) vcpu
  rw [hvc, hcp, hra, hrc] at hR
  rw [hR, hrun]
  refine ⟨?_, ?_, ?_, ?_, ?_, ?_, ?_, ?_, ?_, ?_⟩
  · rw [hstep]
    unfold launch_dispatch
    rw [if_neg (by decide), if_pos rfl]
  · show (m.log ++ [Event.vmentry m.cpu m.preempt_count,
        Event.vmwrite m.cpu GUEST_RIP m.preempt_count, Event.put_cpu]) ++
        [Event.cpuid
          (((after_step m vcpu x.vmexit v (decide (x.hardirqs_enabled_nr ≠ 1))).vcpus
            vcpu).regs VCPU_REGS_RAX % 2 ^ 32)
          (((after_step m vcpu x.vmexit v (decide (x.hardirqs_enabled_nr ≠ 1))).vcpus
            vcpu).regs VCPU_REGS_RCX % 2 ^ 32)] = _
    rw [hvc, hra, hrc, List.append_assoc]
    rfl
  · rw [upd_other _ _ _ _ (by decide), upd_other _ _ _ _ (by decide),
      upd_other _ _ _ _ (by decide), upd_same]
  · rw [upd_other _ _ _ _ (by decide), upd_other _ _ _ _ (by decide), upd_same]
  · rw [upd_other _ _ _ _ (by decide), upd_same]
  · rw [upd_same]
  · intro i h1 h2 h3 h4
    rw [upd_other _ _ _ _ h4, upd_other _ _ _ _ h3, upd_other _ _ _ _ h2,
      upd_other _ _ _ _ h1]
  · intro i h1 h2
    exact entered_regs _ _ hf i h1 h2
  · exact entered_regs_kept _ _ _ (Or.inl rfl)
  · show upd m.vmcs_field v _ v GUEST_RIP = _
    rw [upd_same, upd_same]

/-- The second pass of the sample script, a `cpuid` exit with leaf 7 entered on
the sample state after `vmx_get_cpu`, satisfies the hypotheses of C21: the
sample processor answers `(8, 9, 3, 4)`, the loop goes on, and the guest
instruction pointer `0x4000` is advanced by the instruction length 3. -/
theorem C21_cpuid_exit_witness :
    (plain_pass 10 7).vmexit.fail = 0 ∧ (plain_pass 10 7).vmexit.reason % 2 ^ 32 = 10 ∧
    (local_irq_disable (vmx_get_cpu loop_machine 100)).current_vmcs
      (local_irq_disable (vmx_get_cpu loop_machine 100)).cpu = some 0x5000 ∧
    ((vmx_handle_cpuid
        (after_step (local_irq_disable (vmx_get_cpu loop_machine 100)) 100
          (plain_pass 10 7).vmexit 0x5000
          (decide ((plain_pass 10 7).hardirqs_enabled_nr ≠ 1))) 100).vcpus 100).regs
        VCPU_REGS_RBX = 9 ∧
    (vmx_launch_loop 100 [plain_pass 10 7] false 0 loop_machine).1 = Ending.running :=
  ⟨rfl, by decide, by decide,
    (C21_cpuid_exit 100 (plain_pass 10 7) (local_irq_disable (vmx_get_cpu loop_machine 100))
      0x5000 rfl (by decide) (by decide)).2.2.2.1,
    by decide⟩


/-- C22: in a pass of the loop of `vmx_launch` that reaches the hardware entry,
with `ret` the value `vmx_run_vcpu` returns: the loop goes on to the next pass
only when `ret` is a hypercall exit with `VMCALL_SCHED` in the `RAX` snapshot, a
`cpuid` exit or an external interrupt; for every other value, a hypercall with
another command included, the pass ends the loop. An EPT violation, an
exception or NMI and a failed entry (flag `fail` set, reported as
`VMX_EXIT_REASONS_FAILED_VMENTRY`) end it at the label `tmp_finish`. After an
external interrupt the loop goes on with the VMCS fields and the VCPU
structures as `vmx_run_vcpu` left them. -/
theorem C22_dispatch_continues (vcpu : Nat) (x : Pass) (m : Machine) :
    (∀ ok ret m1, launch_enter vcpu x m = PassResult.next ok ret m1 →
      ret = (vmx_run_vcpu m vcpu x.vmexit).1 ∧
      ((ret = EXIT_REASON_VMCALL ∧
          ((vmx_run_vcpu m vcpu x.vmexit).2.vcpus vcpu).regs VCPU_REGS_RAX = VMCALL_SCHED)
        ∨ ret = EXIT_REASON_CPUID ∨ ret = EXIT_REASON_EXTERNAL_INTERRUPT)) ∧
    (¬ (((vmx_run_vcpu m vcpu x.vmexit).1 = EXIT_REASON_VMCALL ∧
          ((vmx_run_vcpu m vcpu x.vmexit).2.vcpus vcpu).regs VCPU_REGS_RAX = VMCALL_SCHED)
        ∨ (vmx_run_vcpu m vcpu x.vmexit).1 = EXIT_REASON_CPUID
        ∨ (vmx_run_vcpu m vcpu x.vmexit).1 = EXIT_REASON_EXTERNAL_INTERRUPT) →
      ∃ e m1, launch_enter vcpu x m = PassResult.stop e m1 ∧ e ≠ Ending.running) ∧
    ((vmx_run_vcpu m vcpu x.vmexit).1 = EXIT_REASON_EPT_VIOLATION →
      ∃ m1, launch_enter vcpu x m
        = PassResult.stop (Ending.bug_finish EXIT_REASON_EPT_VIOLATION) m1) ∧
    ((vmx_run_vcpu m vcpu x.vmexit).1 = EXIT_REASON_EXCEPTION_NMI →
      ∃ m1, launch_enter vcpu x m
        = PassResult.stop (Ending.bug_finish EXIT_REASON_EXCEPTION_NMI) m1) ∧
    (x.vmexit.fail ≠ 0 →
      (vmx_run_vcpu m vcpu x.vmexit).1 = VMX_EXIT_REASONS_FAILED_VMENTRY ∧
      ∃ m1, launch_enter vcpu x m
        = PassResult.stop (Ending.bug_finish VMX_EXIT_REASONS_FAILED_VMENTRY) m1) ∧
    ((vmx_run_vcpu m vcpu x.vmexit).1 = EXIT_REASON_EXTERNAL_INTERRUPT →
      ∃ m1, launch_enter vcpu x m
          = PassResult.next (decide (x.hardirqs_enabled_nr = 1 ∧ x.rcu_scheduler_active = 0))
              EXIT_REASON_EXTERNAL_INTERRUPT m1 ∧
        m1.vcpus = (vmx_run_vcpu m vcpu x.vmexit).2.vcpus ∧
        m1.vmcs_field = (vmx_run_vcpu m vcpu x.vmexit).2.vmcs_field) := by
  obtain ⟨md, he, hvc, hvf⟩ := enter_vcpus vcpu x m
  rw [he]
  have fin : ∀ r : Int, (vmx_run_vcpu m vcpu x.vmexit).1 = r → r ≠ EXIT_REASON_VMCALL →
      r ≠ EXIT_REASON_CPUID → r ≠ EXIT_REASON_EXTERNAL_INTERRUPT →
      ∃ m1, launch_dispatch vcpu x
        (decide (x.hardirqs_enabled_nr = 1 ∧ x.rcu_scheduler_active = 0))
        (vmx_run_vcpu m vcpu x.vmexit).1 md = PassResult.stop (Ending.bug_finish r) m1 := by
    intro r hr h1 h2 h3
    rw [hr]
    exact ⟨_, dispatch_finish vcpu x _ r md h1 h2 h3⟩
  refine ⟨?_, ?_, ?_, ?_, ?_, ?_⟩
  · intro ok ret m1 h
    have hr := dispatch_next_ret vcpu x _ _ md ok ret m1 h
    refine ⟨hr, ?_⟩
    rcases (dispatch_next_iff vcpu x _ _ md).mp ⟨ok, ret, m1, h⟩ with ⟨a, _, c⟩ | a | a
    · rw [hvc] at c
      exact Or.inl ⟨hr.trans a, c⟩
    · exact Or.inr (Or.inl (hr.trans a))
    · exact Or.inr (Or.inr (hr.trans a))
  · intro h
    apply dispatch_stop
    rintro (⟨a, _, c⟩ | a | a)
    · rw [hvc] at c
      exact h (Or.inl ⟨a, c⟩)
    · exact h (Or.inr (Or.inl a))
    · exact h (Or.inr (Or.inr a))
  · intro h
    exact fin _ h (by decide) (by decide) (by decide)
  · intro h
    exact fin _ h (by decide) (by decide) (by decide)
  · intro hf
    have hr := run_vcpu_fail m vcpu x.vmexit hf
    exact ⟨hr, fin _ hr (by decide) (by decide) (by decide)⟩
  · intro h
    refine ⟨md, ?_, hvc, hvf ?_⟩
    · rw [h]
      unfold launch_dispatch
      rw [if_neg (by decide), if_neg (by decide), if_neg (by decide), if_neg (by decide),
        if_neg (fun hne => hne rfl)]
    · rw [h]
      decide

/-- A pass whose hardware entry fails on the sample state, bound on core 0,
satisfies the hypothesis of the part of C22 on failed entries: the loop ends at
`tmp_finish` with `VMX_EXIT_REASONS_FAILED_VMENTRY`. -/
theorem C22_dispatch_continues_witness :
    ({ sample_exit 0 0 with fail := 1 } : VmExit).fail ≠ 0 ∧
    ∃ m1, launch_enter 100 { plain_pass 0 0 with vmexit := { sample_exit 0 0 with fail := 1 } }
        (local_irq_disable (vmx_get_cpu loop_machine 100))
      = PassResult.stop (Ending.bug_finish VMX_EXIT_REASONS_FAILED_VMENTRY) m1 :=
  ⟨by decide,
    ((C22_dispatch_continues 100
      { plain_pass 0 0 with vmexit := { sample_exit 0 0 with fail := 1 } }
      (local_irq_disable (vmx_get_cpu loop_machine 100))).2.2.2.2.1 (by decide)).2⟩


/-- C23 fails as stated: on the sample state, a pass whose hardware entry ends
in an EPT violation at the guest-physical address `0xABC000` ends the loop at
`tmp_finish`, but the faulting address is recorded nowhere in the VCPU: its
result code is 0 as before the loop, and every other field holds a value of its
creation, of the bind or of the exit (registers, `cr2`, `fail`, the stack
pointer of the entry, `launched`), none of which is the address. The address
is only in the VMCS field `GUEST_PHYSICAL_ADDRESS`, where the processor stored
it. -/
theorem C23_fault_address_not_recorded :
    (vmx_launch_loop 100 [fault_pass 0xABC000] false 0 loop_machine).1
      = Ending.bug_finish EXIT_REASON_EPT_VIOLATION ∧
    (loop_machine.vcpus 100).ret_code = 0 ∧
    ((vmx_launch_loop 100 [fault_pass 0xABC000] false 0 loop_machine).2.vcpus 100).ret_code
      = 0 ∧
    ((vmx_launch_loop 100 [fault_pass 0xABC000] false 0 loop_machine).2.vcpus 100).cr2 = 0 ∧
    ((vmx_launch_loop 100 [fault_pass 0xABC000] false 0 loop_machine).2.vcpus 100).fail = 0 ∧
    (∀ i, i < NR_VCPU_REGS →
      ((vmx_launch_loop 100 [fault_pass 0xABC000] false 0 loop_machine).2.vcpus 100).regs i
        = 0) ∧
    (vmx_launch_loop 100 [fault_pass 0xABC000] false 0 loop_machine).2.vmcs_field 0x5000
      GUEST_PHYSICAL_ADDRESS = 0xABC000 ∧
    ((vmx_launch_loop 100 [fault_pass 0xABC000] false 0 loop_machine).2.vcpus 100).host_rsp
      = (fault_pass 0xABC000).vmexit.host_rsp ∧
    (fault_pass 0xABC000).vmexit.host_rsp = 0xffff88000001fe00 ∧
    ((vmx_launch_loop 100 [fault_pass 0xABC000] false 0 loop_machine).2.vcpus 100).cpu = 0 ∧
    ((vmx_launch_loop 100 [fault_pass 0xABC000] false 0 loop_machine).2.vcpus 100).vpid = 1 ∧
    ((vmx_launch_loop 100 [fault_pass 0xABC000] false 0 loop_machine).2.vcpus 100).launched
      = 1 ∧
    ((vmx_launch_loop 100 [fault_pass 0xABC000] false 0 loop_machine).2.vcpus 100).ept_root
      = 0 ∧
    ((vmx_launch_loop 100 [fault_pass 0xABC000] false 0 loop_machine).2.vcpus 100).eptp
      = 0x1000701e ∧
    ((vmx_launch_loop 100 [fault_pass 0xABC000] false 0 loop_machine).2.vcpus
      100).ept_ad_enabled = false ∧
    ((vmx_launch_loop 100 [fault_pass 0xABC000] false 0 loop_machine).2.vcpus 100).vmcs
      = 0x5000 ∧
    ((vmx_launch_loop 100 [fault_pass 0xABC000] false 0 loop_machine).2.vcpus
      100).cloned_thread_info = 0 := by
  decide

/-- C23 (amended): let a pass not take the reschedule path and reach the
hardware entry, either with no signal pending or after a signal other than
`SIGKILL` has been dequeued, and let the entry, made with the current VMCS `v`,
end in an EPT violation. The loop ends at that exit, whatever passes would
follow, at the label `tmp_finish` with the exit reason as `ret`. Nothing about
the fault is recorded in the VCPU: its structure is the one `vmx_get_cpu` left
with what `vmx_run_vcpu` stores, namely `host_rsp`, the fifteen registers of
the snapshot other than the stack pointer, `cr2`, `fail` and `launched`, so the
result code is unchanged; the other VCPU structures are unchanged. The
faulting address is in the VMCS field `GUEST_PHYSICAL_ADDRESS`. -/
theorem C23_ept_violation_ends_loop (vcpu : Nat) (x : Pass) (rest : List Pass) (ok : Bool)
    (ret : Int) (m : Machine) (v : Nat)
    (hn : ¬ (ok = true ∧ x.need_resched = true))
    (hs : x.signal_pending = true → x.signr ≠ 0 ∧ x.signr ≠ SIGKILL)
    (hf : x.vmexit.fail = 0) (hr : x.vmexit.reason % 2 ^ 32 = 48)
    (hv : (vmx_get_cpu m vcpu).current_vmcs (vmx_get_cpu m vcpu).cpu = some v) :
    launch_pass vcpu x ok ret m = launch_enter vcpu x (entry_state m vcpu x) ∧
    (vmx_launch_loop vcpu (x :: rest) ok ret m).1
      = Ending.bug_finish EXIT_REASON_EPT_VIOLATION ∧
    (vmx_launch_loop vcpu (x :: rest) ok ret m).2
      = local_irq_enable
          (after_exit (entry_state m vcpu x) vcpu x.vmexit v
            (decide (x.hardirqs_enabled_nr ≠ 1))) ∧
    (vmx_launch_loop vcpu (x :: rest) ok ret m).2.vcpus vcpu
      = { (vmx_get_cpu m vcpu).vcpus vcpu with
            host_rsp := x.vmexit.host_rsp
            regs := fun i =>
              if i < NR_VCPU_REGS ∧ i ≠ VCPU_REGS_RSP then x.vmexit.regs i
              else ((vmx_get_cpu m vcpu).vcpus vcpu).regs i
            cr2 := x.vmexit.cr2
            fail := 0
            launched := 1 } ∧
    ((vmx_launch_loop vcpu (x :: rest) ok ret m).2.vcpus vcpu).ret_code
      = ((vmx_get_cpu m vcpu).vcpus vcpu).ret_code ∧
    (∀ p, p ≠ vcpu →
      (vmx_launch_loop vcpu (x :: rest) ok ret m).2.vcpus p = (vmx_get_cpu m vcpu).vcpus p) ∧
    (vmx_launch_loop vcpu (x :: rest) ok ret m).2.vmcs_field v GUEST_PHYSICAL_ADDRESS
      = x.vmexit.guest_physical_address := by
  have hret : toInt32 (x.vmexit.reason % 2 ^ 32) = EXIT_REASON_EPT_VIOLATION := by
    rw [hr]
    rfl
  have hpe := pass_enter vcpu x ok ret m hn hs
  obtain ⟨f1, f2, f3, _⟩ := entry_state_facts m vcpu x
  have hv2 : (entry_state m vcpu x).current_vmcs (entry_state m vcpu x).cpu = some v := by
    rw [f1, f2]
    exact hv
  have hp : launch_pass vcpu x ok ret m
      = PassResult.stop (Ending.bug_finish EXIT_REASON_EPT_VIOLATION)
          (local_irq_enable
            (after_exit (entry_state m vcpu x) vcpu x.vmexit v
              (decide (x.hardirqs_enabled_nr ≠ 1)))) := by
    rw [hpe, enter_exit vcpu x (entry_state m vcpu x) v hf hv2 (by rw [hret]; decide), hret]
    exact dispatch_finish vcpu x _ _ _ (by decide) (by decide) (by decide)
  rw [loop_stop vcpu x rest ok ret m _ _ hp]
  refine ⟨hpe, rfl, rfl, ?_, ?_, ?_, ?_⟩
  · show (after_exit (entry_state m vcpu x) vcpu x.vmexit v _).vcpus vcpu = _
    rw [after_exit_vcpu, f3, entered_ok _ _ hf]
  · show ((after_exit (entry_state m vcpu x) vcpu x.vmexit v _).vcpus vcpu).ret_code = _
    rw [after_exit_vcpu, f3]
    rfl
  · intro p hp1
    show upd (entry_state m vcpu x).vcpus vcpu _ p = _
    rw [upd_other _ _ _ _ hp1, f3]
  · show upd (entry_state m vcpu x).vmcs_field v _ v GUEST_PHYSICAL_ADDRESS = _
    rw [upd_same, upd_other _ _ _ _ (by decide), upd_other _ _ _ _ (by decide),
      upd_other _ _ _ _ (by decide), upd_same]

/-- The pass of the sample script whose entry faults at `0xABC000`, taken after
the signal 10 has been dequeued and followed by a pass that is never run,
satisfies the hypotheses of the amended C23 on the sample state. -/
theorem C23_ept_violation_ends_loop_witness :
    ¬ (false = true ∧
      ({ fault_pass 0xABC000 with signal_pending := true, signr := 10 } : Pass).need_resched
        = true) ∧
    (({ fault_pass 0xABC000 with signal_pending := true, signr := 10 } : Pass).signal_pending
        = true →
      ({ fault_pass 0xABC000 with signal_pending := true, signr := 10 } : Pass).signr ≠ 0 ∧
      ({ fault_pass 0xABC000 with signal_pending := true, signr := 10 } : Pass).signr
        ≠ SIGKILL) ∧
    ({ fault_pass 0xABC000 with signal_pending := true, signr := 10 } : Pass).vmexit.fail
      = 0 ∧
    ({ fault_pass 0xABC000 with signal_pending := true, signr := 10 } : Pass).vmexit.reason
      % 2 ^ 32 = 48 ∧
    (vmx_get_cpu loop_machine 100).current_vmcs (vmx_get_cpu loop_machine 100).cpu
      = some 0x5000 ∧
    (vmx_launch_loop 100
      [{ fault_pass 0xABC000 with signal_pending := true, signr := 10 }, plain_pass 1 0]
      false 0 loop_machine).1 = Ending.bug_finish EXIT_REASON_EPT_VIOLATION ∧
    (vmx_launch_loop 100 [fault_pass 0xABC000, plain_pass 1 0] false 0 loop_machine).1
      = Ending.bug_finish EXIT_REASON_EPT_VIOLATION :=
  ⟨by decide, fun _ => by decide, rfl, by decide, by decide,
    (C23_ept_violation_ends_loop 100
      { fault_pass 0xABC000 with signal_pending := true, signr := 10 } [plain_pass 1 0]
      false 0 loop_machine 0x5000 (by decide) (fun _ => by decide) rfl (by decide)
      (by decide)).2.1,
    (C23_ept_violation_ends_loop 100 (fault_pass 0xABC000) [plain_pass 1 0] false 0
      loop_machine 0x5000 (by decide) (fun h => absurd h (by decide)) rfl (by decide)
      (by decide)).2.1⟩


/-- C24: in a pass that does not take the reschedule path and finds a signal
pending, the loop enables interrupts, releases the core and dequeues the
signal, before any hardware entry of the pass; this changes no VCPU structure
(register snapshot, result code) and no VMCS field. With `SIGKILL` the result
code of the VCPU becomes `ENOSYS << 8` and the loop ends at `tmp_finish`
without a hardware entry; when `dequeue_signal` returns 0 the loop starts over;
any other signal is dropped and the pass goes on to the hardware entry. -/
theorem C24_pending_signal (vcpu : Nat) (x : Pass) (ok : Bool) (ret : Int) (m : Machine)
    (hs : x.signal_pending = true) (hn : ¬ (ok = true ∧ x.need_resched = true)) :
    (after_dequeue (local_irq_disable (vmx_get_cpu m vcpu)) vcpu x.signr).log
      = (vmx_get_cpu m vcpu).log ++ [Event.put_cpu, Event.dequeue_signal x.signr] ∧
    (after_dequeue (local_irq_disable (vmx_get_cpu m vcpu)) vcpu x.signr).vcpus
      = (vmx_get_cpu m vcpu).vcpus ∧
    (after_dequeue (local_irq_disable (vmx_get_cpu m vcpu)) vcpu x.signr).vmcs_field
      = (vmx_get_cpu m vcpu).vmcs_field ∧
    (x.signr = SIGKILL →
      ∃ m1, launch_pass vcpu x ok ret m = PassResult.stop (Ending.bug_finish ret) m1 ∧
        (m1.vcpus vcpu).ret_code = ENOSYS * 2 ^ 8 ∧
        (m1.vcpus vcpu).regs = ((vmx_get_cpu m vcpu).vcpus vcpu).regs ∧
        m1.vmcs_field = (vmx_get_cpu m vcpu).vmcs_field ∧
        m1.log = (vmx_get_cpu m vcpu).log ++ [Event.put_cpu, Event.dequeue_signal x.signr]) ∧
    (x.signr = 0 →
      launch_pass vcpu x ok ret m
        = PassResult.next false ret
            (after_dequeue (local_irq_disable (vmx_get_cpu m vcpu)) vcpu x.signr)) ∧
    (x.signr ≠ 0 → x.signr ≠ SIGKILL →
      launch_pass vcpu x ok ret m
        = launch_enter vcpu x
            (after_dequeue (local_irq_disable (vmx_get_cpu m vcpu)) vcpu x.signr)) := by
  rw [pass_signal vcpu x ok ret m hn hs]
  generalize vmx_get_cpu m vcpu = M
  refine ⟨?_, rfl, rfl, ?_, ?_, ?_⟩
  · show (M.log ++ [Event.put_cpu]) ++ [Event.dequeue_signal x.signr] = _
    rw [List.append_assoc]
    rfl
  · intro hk
    refine ⟨local_irq_enable
      (set_vcpu (after_dequeue (local_irq_disable M) vcpu x.signr) vcpu
        { (after_dequeue (local_irq_disable M) vcpu x.signr).vcpus vcpu with
            ret_code := ENOSYS * 2 ^ 8 }), ?_, ?_, ?_, ?_, ?_⟩
    · unfold launch_signal
      rw [if_neg (by rw [hk]; decide), if_pos hk]
      rfl
    · show (upd M.vcpus vcpu _ vcpu).ret_code = _
      rw [upd_same]
    · show (upd M.vcpus vcpu _ vcpu).regs = _
      rw [upd_same]
      rfl
    · rfl
    · show (M.log ++ [Event.put_cpu]) ++ [Event.dequeue_signal x.signr] = _
      rw [List.append_assoc]
      rfl
  · intro h0
    unfold launch_signal
    rw [if_pos h0]
    rfl
  · intro h0 hk
    unfold launch_signal
    rw [if_neg h0, if_neg hk]
    rfl

/-- A pass on the sample state in which `SIGKILL` is pending satisfies the
hypotheses of C24: the loop ends at `tmp_finish` with the result code
`ENOSYS << 8 = 9728` and without a hardware entry. -/
theorem C24_pending_signal_witness :
    ({ plain_pass 1 0 with signal_pending := true, signr := SIGKILL } : Pass).signal_pending
      = true ∧
    ¬ (false = true ∧
      ({ plain_pass 1 0 with signal_pending := true, signr := SIGKILL } : Pass).need_resched
        = true) ∧
    ((vmx_launch_loop 100 [{ plain_pass 1 0 with signal_pending := true, signr := SIGKILL }]
      false 0 loop_machine).2.vcpus 100).ret_code = 9728 ∧
    entry_binds (vmx_launch_loop 100
      [{ plain_pass 1 0 with signal_pending := true, signr := SIGKILL }]
      false 0 loop_machine).2.log = [] ∧
    (after_dequeue (local_irq_disable (vmx_get_cpu loop_machine 100)) 100 SIGKILL).vcpus
      = (vmx_get_cpu loop_machine 100).vcpus :=
  ⟨rfl, by decide, by decide, by decide,
    (C24_pending_signal 100 { plain_pass 1 0 with signal_pending := true, signr := SIGKILL }
      false 0 loop_machine rfl (by decide)).2.1⟩


/-- C25: let the loop of `vmx_launch` be driven, from a state in which
`vmx_get_cpu` makes a VMCS current, by four quiet passes (no reschedule wished,
no signal pending, interrupts enabled in the restricted context, successful
entry) whose exits are an external interrupt, a `cpuid` exit, a hypercall with
`VMCALL_SCHED` and a hypercall with `VMCALL_DOEXIT`. The loop ends through
`do_exit(0)`, not at a `BUG`; after the first bind the log holds exactly four
hardware entries, the `cpuid` after the second, one `schedule` after the third
and nothing after the release of the core that follows the fourth; and the
result code of the VCPU is the one it had. -/
theorem C25_scripted_run (vcpu : Nat) (x1 x2 x3 x4 : Pass) (m : Machine) (v : Nat)
    (q1 : x1.quiet) (q2 : x2.quiet) (q3 : x3.quiet) (q4 : x4.quiet)
    (r1 : x1.vmexit.reason % 2 ^ 32 = 1) (r2 : x2.vmexit.reason % 2 ^ 32 = 10)
    (r3 : x3.vmexit.reason % 2 ^ 32 = 18) (c3 : x3.vmexit.regs VCPU_REGS_RAX = VMCALL_SCHED)
    (r4 : x4.vmexit.reason % 2 ^ 32 = 18) (c4 : x4.vmexit.regs VCPU_REGS_RAX = VMCALL_DOEXIT)
    (hv : (vmx_get_cpu m vcpu).current_vmcs (vmx_get_cpu m vcpu).cpu = some v) :
    (vmx_launch_loop vcpu [x1, x2, x3, x4] false 0 m).1 = Ending.do_exit 0 ∧
    (vmx_launch_loop vcpu [x1, x2, x3, x4] false 0 m).2.log
      = (vmx_get_cpu m vcpu).log ++
        [Event.vmentry (vmx_get_cpu m vcpu).cpu (vmx_get_cpu m vcpu).preempt_count,
          Event.put_cpu,
          Event.get_cpu,
          Event.vmptrld (vmx_get_cpu m vcpu).cpu ((vmx_get_cpu m vcpu).vcpus vcpu).vmcs,
          Event.vmentry (vmx_get_cpu m vcpu).cpu (vmx_get_cpu m vcpu).preempt_count,
          Event.vmwrite (vmx_get_cpu m vcpu).cpu GUEST_RIP (vmx_get_cpu m vcpu).preempt_count,
          Event.put_cpu,
          Event.cpuid (x2.vmexit.regs VCPU_REGS_RAX % 2 ^ 32)
            (x2.vmexit.regs VCPU_REGS_RCX % 2 ^ 32),
          Event.get_cpu,
          Event.vmptrld (vmx_get_cpu m vcpu).cpu ((vmx_get_cpu m vcpu).vcpus vcpu).vmcs,
          Event.vmentry (vmx_get_cpu m vcpu).cpu (vmx_get_cpu m vcpu).preempt_count,
          Event.vmwrite (vmx_get_cpu m vcpu).cpu GUEST_RIP (vmx_get_cpu m vcpu).preempt_count,
          Event.put_cpu,
          Event.schedule,
          Event.get_cpu,
          Event.vmptrld x3.resched_cpu ((vmx_get_cpu m vcpu).vcpus vcpu).vmcs,
          Event.vmentry x3.resched_cpu (vmx_get_cpu m vcpu).preempt_count,
          Event.vmwrite x3.resched_cpu GUEST_RIP (vmx_get_cpu m vcpu).preempt_count,
          Event.put_cpu] ∧
    ((vmx_launch_loop vcpu [x1, x2, x3, x4] false 0 m).2.vcpus vcpu).ret_code
      = ((vmx_get_cpu m vcpu).vcpus vcpu).ret_code := by
  have e1 : toInt32 (x1.vmexit.reason % 2 ^ 32) = EXIT_REASON_EXTERNAL_INTERRUPT := by
    rw [r1]
    rfl
  have e2 : toInt32 (x2.vmexit.reason % 2 ^ 32) = EXIT_REASON_CPUID := by
    rw [r2]
    rfl
  have e3 : toInt32 (x3.vmexit.reason % 2 ^ 32) = EXIT_REASON_VMCALL := by
    rw [r3]
    rfl
  have e4 : toInt32 (x4.vmexit.reason % 2 ^ 32) = EXIT_REASON_VMCALL := by
    rw [r4]
    rfl
  -- the first pass: an external interrupt
  obtain ⟨d1, p1, a1, b1, _, _, w1, l1⟩ :=
    quiet_pass_exit vcpu x1 false 0 m v q1 hv (by rw [e1]; decide)
  rw [e1, dispatch_extint] at p1
  rw [loop_next vcpu x1 [x2, x3, x4] false 0 m _ _ _ p1]
  clear p1 hv
  generalize vmx_get_cpu m vcpu = M at a1 b1 w1 l1 ⊢
  have hl1 : (d1.vcpus vcpu).launched ≠ 0 := by
    rw [w1]
    exact Nat.one_ne_zero
  have hm1 : (d1.vcpus vcpu).vmcs = (M.vcpus vcpu).vmcs := by
    rw [w1]
    rfl
  have hc1 : (d1.vcpus vcpu).ret_code = (M.vcpus vcpu).ret_code := by
    rw [w1]
    rfl
  -- the second pass: a cpuid exit
  obtain ⟨g1, ga1, gb1, gc1, _, ge1⟩ := get_cpu_launched_facts d1 vcpu hl1
  obtain ⟨d2, p2, a2, b2, _, _, w2, l2⟩ :=
    quiet_pass_step vcpu x2 (decide (x1.hardirqs_enabled_nr = 1 ∧ x1.rcu_scheduler_active = 0))
      EXIT_REASON_EXTERNAL_INTERRUPT d1 _ q2 g1 (Or.inr e2)
  rw [e2, dispatch_cpuid] at p2
  rw [loop_next vcpu x2 [x3, x4] _ _ d1 _ _ _ p2]
  clear p2
  obtain ⟨ha2, hb2, hc2, hd2, he2, hf2⟩ := handle_cpuid_facts d2 vcpu
  have hra2 : (d2.vcpus vcpu).regs VCPU_REGS_RAX = x2.vmexit.regs VCPU_REGS_RAX := by
    rw [w2]
    exact entered_regs _ _ q2.2.2.2 _ (by decide) (by decide)
  have hrc2 : (d2.vcpus vcpu).regs VCPU_REGS_RCX = x2.vmexit.regs VCPU_REGS_RCX := by
    rw [w2]
    exact entered_regs _ _ q2.2.2.2 _ (by decide) (by decide)
  rw [hra2, hrc2] at hf2
  have k2 := entered_kept ((vmx_get_cpu d1 vcpu).vcpus vcpu) x2.vmexit
  rw [← w2, gc1] at k2
  rw [k2.1] at hc2
  rw [k2.2.1] at hd2
  rw [k2.2.2.1] at he2
  generalize vmx_handle_cpuid d2 vcpu = s2 at ha2 hb2 hc2 hd2 he2 hf2 ⊢
  have hl2 : (s2.vcpus vcpu).launched ≠ 0 := by
    rw [hc2]
    exact Nat.one_ne_zero
  have c3r : (x3.vmexit.regs VCPU_REGS_RAX = VMCALL_SCHED) := c3
  have c4r : (x4.vmexit.regs VCPU_REGS_RAX = VMCALL_DOEXIT) := c4
  -- the third pass: the hypercall VMCALL_SCHED
  obtain ⟨g2, ga2, gb2, gc2, _, ge2⟩ := get_cpu_launched_facts s2 vcpu hl2
  obtain ⟨d3, p3, a3, b3, i3, _, w3, l3⟩ :=
    quiet_pass_step vcpu x3 (decide (x2.hardirqs_enabled_nr = 1 ∧ x2.rcu_scheduler_active = 0))
      EXIT_REASON_CPUID s2 _ q3 g2 (Or.inl e3)
  rw [e3, dispatch_sched vcpu x3 _ d3 i3
    (by rw [w3, entered_regs _ _ q3.2.2.2 _ (by decide) (by decide)]; exact c3r)] at p3
  rw [loop_next vcpu x3 [x4] _ _ s2 _ _ _ p3]
  clear p3
  have hl3 : ((schedule d3 x3.resched_cpu).vcpus vcpu).launched ≠ 0 := by
    show (d3.vcpus vcpu).launched ≠ 0
    rw [w3]
    exact Nat.one_ne_zero
  -- the fourth pass: the hypercall VMCALL_DOEXIT
  obtain ⟨g3, ga3, gb3, gc3, _, ge3⟩ :=
    get_cpu_launched_facts (schedule d3 x3.resched_cpu) vcpu hl3
  obtain ⟨d4, p4, a4, b4, i4, _, w4, l4⟩ :=
    quiet_pass_step vcpu x4 false EXIT_REASON_VMCALL (schedule d3 x3.resched_cpu) _ q4 g3
      (Or.inl e4)
  rw [e4, dispatch_doexit vcpu x4 _ d4 i4
    (by rw [w4, entered_regs _ _ q4.2.2.2 _ (by decide) (by decide)]; exact c4r)] at p4
  rw [loop_stop vcpu x4 [] _ _ _ _ _ p4]
  clear p4
  have s3log : (schedule d3 x3.resched_cpu).log = d3.log ++ [Event.schedule] := rfl
  have s3cpu : (schedule d3 x3.resched_cpu).cpu = x3.resched_cpu := rfl
  have s3pc : (schedule d3 x3.resched_cpu).preempt_count = d3.preempt_count := rfl
  have s3vc : (schedule d3 x3.resched_cpu).vcpus = d3.vcpus := rfl
  have k3 := entered_kept ((vmx_get_cpu s2 vcpu).vcpus vcpu) x3.vmexit
  rw [← w3, gc2] at k3
  have k4 := entered_kept ((vmx_get_cpu (schedule d3 x3.resched_cpu) vcpu).vcpus vcpu) x4.vmexit
  rw [← w4, gc3, s3vc] at k4
  refine ⟨rfl, ?_, ?_⟩
  · show d4.log = _
    rw [l4, ge3, ga3, gb3, s3log, s3cpu, s3pc, s3vc, l3, ge2, ga2, gb2, b3, gb2, k3.2.1, hd2,
      hm1, ha2, hb2, hf2, l2, ge1, ga1, gb1, a2, ga1, b2, gb1, hm1, a1, b1, l1]
    simp only [List.append_assoc, List.cons_append, List.nil_append, Int.sub_add_cancel]
  · show (d4.vcpus vcpu).ret_code = _
    rw [k4.2.2.1, k3.2.2.1, he2]
    exact hc1

/-- The sample script run on the sample state satisfies the hypotheses of C25:
the loop ends through `do_exit(0)` after four hardware entries and one call of
`schedule`, with the result code 0. -/
theorem C25_scripted_run_witness :
    (plain_pass 1 0).quiet ∧ (plain_pass 10 7).quiet ∧ (plain_pass 18 VMCALL_SCHED).quiet ∧
    (plain_pass 18 VMCALL_DOEXIT).quiet ∧
    (vmx_get_cpu loop_machine 100).current_vmcs (vmx_get_cpu loop_machine 100).cpu
      = some 0x5000 ∧
    (vmx_launch_loop 100 sample_script false 0 loop_machine).1 = Ending.do_exit 0 ∧
    ((vmx_launch_loop 100 sample_script false 0 loop_machine).2.vcpus 100).ret_code = 0 ∧
    (vmx_launch_loop 100 sample_script false 0 loop_machine).2.log.count Event.schedule = 1 ∧
    entry_binds (vmx_launch_loop 100 sample_script false 0 loop_machine).2.log
      = [1, 1, 1, 1] :=
  ⟨⟨rfl, rfl, rfl, rfl⟩, ⟨rfl, rfl, rfl, rfl⟩, ⟨rfl, rfl, rfl, rfl⟩, ⟨rfl, rfl, rfl, rfl⟩,
    by decide,
    (C25_scripted_run 100 (plain_pass 1 0) (plain_pass 10 7) (plain_pass 18 VMCALL_SCHED)
      (plain_pass 18 VMCALL_DOEXIT) loop_machine 0x5000 ⟨rfl, rfl, rfl, rfl⟩ ⟨rfl, rfl, rfl, rfl⟩
      ⟨rfl, rfl, rfl, rfl⟩ ⟨rfl, rfl, rfl, rfl⟩ (by decide) (by decide) (by decide) rfl
      (by decide) rfl (by decide)).1,
    by decide, by decide, by decide⟩


/-- C26 fails as stated for `vmx_enable`: on the sample state the first run on
core 0 succeeds (`__vmx_enable` returns 0, the failure counter stays 0), and a
second run finds `CR4.VMXE` set, gets `-EBUSY` from `__vmx_enable` and counts a
failure: the state after two runs differs from the state after one. -/
theorem C26_second_enable_reports_failure :
    (__vmx_enable sample_host (sample_host.vmxarea 0)).1 = 0 ∧
    (vmx_enable sample_host).vmx_enable_failed = 0 ∧
    (__vmx_enable (vmx_enable sample_host) ((vmx_enable sample_host).vmxarea 0)).1 = -EBUSY ∧
    (vmx_enable (vmx_enable sample_host)).vmx_enable_failed = 1 ∧
    (vmx_enable (vmx_enable sample_host)).vmx_enable_failed
      ≠ (vmx_enable sample_host).vmx_enable_failed := by
  decide

/-- C26 (amended): `vmx_disable` is idempotent on the whole state. A second run
of `vmx_enable` leaves `CR4`, the flag `vmx_enabled` and everything else as the
first run left them, except the failure counter: it finds `CR4.VMXE` set, gets
`-EBUSY` from `__vmx_enable` and counts one more failure. In the state a run of
`vmx_enable` leaves, `CR4.VMXE` is set on the core; after `vmx_disable` on a
core whose flag is set the bit and the flag are clear. -/
theorem C26_enable_disable_twice (h : Host) :
    vmx_disable (vmx_disable h) = vmx_disable h ∧
    vmx_enable (vmx_enable h)
      = { vmx_enable h with vmx_enable_failed := (vmx_enable h).vmx_enable_failed + 1 } ∧
    (__vmx_enable (vmx_enable h) ((vmx_enable h).vmxarea (vmx_enable h).m.cpu)).1 = -EBUSY ∧
    (vmx_enable (vmx_enable h)).cr4 = (vmx_enable h).cr4 ∧
    (vmx_enable (vmx_enable h)).vmx_enabled = (vmx_enable h).vmx_enabled ∧
    (vmx_enable h).cr4 (vmx_enable h).m.cpu &&& X86_CR4_VMXE ≠ 0 ∧
    (h.vmx_enabled h.m.cpu ≠ 0 →
      (vmx_disable h).cr4 h.m.cpu &&& X86_CR4_VMXE = 0 ∧
      (vmx_disable h).vmx_enabled h.m.cpu = 0) := by
  have hs := vmx_enable_sets h
  have hb := vmx_enable_busy (vmx_enable h) hs
  refine ⟨?_, hb.2, ?_, ?_, ?_, hs, ?_⟩
  · by_cases he : h.vmx_enabled h.m.cpu ≠ 0
    · have e : vmx_disable h =
          { h with
              vmx_operation := upd h.vmx_operation h.m.cpu false
              cr4 := upd h.cr4 h.m.cpu (h.cr4 h.m.cpu &&& lnot64 X86_CR4_VMXE)
              vmx_enabled := upd h.vmx_enabled h.m.cpu 0 } := by
        unfold vmx_disable
        rw [if_pos he]
      rw [e]
      unfold vmx_disable
      rw [if_neg]
      show ¬ upd h.vmx_enabled h.m.cpu 0 h.m.cpu ≠ 0
      rw [upd_same]
      exact fun hne => hne rfl
    · have e : vmx_disable h = h := by
        unfold vmx_disable
        rw [if_neg he]
      rw [e, e]
  · rw [hb.1]
  · rw [hb.2]
  · rw [hb.2]
  · intro he
    have e : vmx_disable h =
        { h with
            vmx_operation := upd h.vmx_operation h.m.cpu false
            cr4 := upd h.cr4 h.m.cpu (h.cr4 h.m.cpu &&& lnot64 X86_CR4_VMXE)
            vmx_enabled := upd h.vmx_enabled h.m.cpu 0 } := by
      unfold vmx_disable
      rw [if_pos he]
    rw [e]
    constructor
    · show upd h.cr4 h.m.cpu _ h.m.cpu &&& X86_CR4_VMXE = 0
      rw [upd_same, Nat.and_assoc]
      have : lnot64 X86_CR4_VMXE &&& X86_CR4_VMXE = 0 := by decide
      rw [this, Nat.and_zero]
    · show upd h.vmx_enabled h.m.cpu 0 h.m.cpu = 0
      rw [upd_same]

/-- The sample state after one run of `vmx_enable` on core 0 has the flag
`vmx_enabled` set there, as the last part of the amended C26 supposes:
`vmx_disable` clears `CR4.VMXE` and the flag, and a second `vmx_disable`
changes nothing. -/
theorem C26_enable_disable_twice_witness :
    (vmx_enable sample_host).vmx_enabled (vmx_enable sample_host).m.cpu ≠ 0 ∧
    ((vmx_disable (vmx_enable sample_host)).cr4 (vmx_enable sample_host).m.cpu
        &&& X86_CR4_VMXE = 0 ∧
      (vmx_disable (vmx_enable sample_host)).vmx_enabled (vmx_enable sample_host).m.cpu = 0) ∧
    vmx_disable (vmx_disable (vmx_enable sample_host)) = vmx_disable (vmx_enable sample_host) :=
  ⟨by decide,
    (C26_enable_disable_twice (vmx_enable sample_host)).2.2.2.2.2.2 (by decide),
    (C26_enable_disable_twice (vmx_enable sample_host)).1⟩


/-- C27: let `ind`, `ctx` and `glob` be bits 24, 25 and 26 of the EPT capability
word (the three INVEPT scopes the processor advertises). The function
`ept_sync_individual_addr` changes nothing but the log, to which it adds at most
one `invept`: the single-address one (with the address) when `ind` is set,
otherwise the single-context one when `ctx` is set, otherwise the global one
when `glob` is set, and nothing exactly when none of the three is set. The
function `ept_sync_context` does the same with `ctx` and `glob` only. -/
theorem C27_invept_narrowest_scope (m : Machine) (eptp gpa : Nat) :
    (∃ l, ept_sync_individual_addr m eptp gpa = { m with log := m.log ++ l } ∧
      l.length ≤ 1 ∧
      (m.vmx_capability.ept.testBit 24 = true →
        l = [Event.invept m.cpu VMX_EPT_EXTENT_INDIVIDUAL_ADDR eptp gpa]) ∧
      (m.vmx_capability.ept.testBit 24 = false → m.vmx_capability.ept.testBit 25 = true →
        l = [Event.invept m.cpu VMX_EPT_EXTENT_CONTEXT eptp 0]) ∧
      (m.vmx_capability.ept.testBit 24 = false → m.vmx_capability.ept.testBit 25 = false →
        m.vmx_capability.ept.testBit 26 = true →
        l = [Event.invept m.cpu VMX_EPT_EXTENT_GLOBAL 0 0]) ∧
      (l = [] ↔ m.vmx_capability.ept.testBit 24 = false ∧
        m.vmx_capability.ept.testBit 25 = false ∧ m.vmx_capability.ept.testBit 26 = false)) ∧
    (∃ l, ept_sync_context m eptp = { m with log := m.log ++ l } ∧
      l.length ≤ 1 ∧
      (m.vmx_capability.ept.testBit 25 = true →
        l = [Event.invept m.cpu VMX_EPT_EXTENT_CONTEXT eptp 0]) ∧
      (m.vmx_capability.ept.testBit 25 = false → m.vmx_capability.ept.testBit 26 = true →
        l = [Event.invept m.cpu VMX_EPT_EXTENT_GLOBAL 0 0]) ∧
      (l = [] ↔ m.vmx_capability.ept.testBit 25 = false ∧
        m.vmx_capability.ept.testBit 26 = false)) ∧
    VMX_EPT_EXTENT_INDIVIDUAL_ADDR < VMX_EPT_EXTENT_CONTEXT ∧
    VMX_EPT_EXTENT_CONTEXT < VMX_EPT_EXTENT_GLOBAL := by
  have hnil : { m with log := m.log ++ [] } = m := by
    rw [List.append_nil]
  refine ⟨?_, ?_, by decide, by decide⟩
  · rw [ept_sync_individual_eq, ept_sync_context_eq]
    cases h24 : m.vmx_capability.ept.testBit 24
    · cases h25 : m.vmx_capability.ept.testBit 25
      · cases h26 : m.vmx_capability.ept.testBit 26
        · exact ⟨[], hnil.symm, Nat.zero_le 1, nofun, nofun, nofun, by simp⟩
        · exact ⟨[Event.invept m.cpu VMX_EPT_EXTENT_GLOBAL 0 0], rfl, Nat.le_refl 1, nofun, nofun,
            fun _ _ _ => rfl, by simp⟩
      · exact ⟨[Event.invept m.cpu VMX_EPT_EXTENT_CONTEXT eptp 0], rfl, Nat.le_refl 1, nofun,
          fun _ _ => rfl, nofun, by simp⟩
    · exact ⟨[Event.invept m.cpu VMX_EPT_EXTENT_INDIVIDUAL_ADDR eptp gpa], rfl, Nat.le_refl 1,
        fun _ => rfl, nofun, nofun, by simp⟩
  · rw [ept_sync_context_eq]
    cases h25 : m.vmx_capability.ept.testBit 25
    · cases h26 : m.vmx_capability.ept.testBit 26
      · exact ⟨[], hnil.symm, Nat.zero_le 1, nofun, nofun, by simp⟩
      · exact ⟨[Event.invept m.cpu VMX_EPT_EXTENT_GLOBAL 0 0], rfl, Nat.le_refl 1, nofun,
          fun _ _ => rfl, by simp⟩
    · exact ⟨[Event.invept m.cpu VMX_EPT_EXTENT_CONTEXT eptp 0], rfl, Nat.le_refl 1,
        fun _ => rfl, nofun, by simp⟩


/-- C28: for every list of ranges, in any order, whose ends `base + length`
stay below `2^64`, and every limit `L`, `e820_end_paddr(L)` is
`min(L, max_arch_pfn, M) << PAGE_SHIFT`, where `M = last_end_pfn L map` is the
largest end page-frame number over the ranges whose start page frame is below
`L`: no such range ends above `M`, one of them ends at `M`, and without such a
range `M` and the result are 0. The result is a multiple of the page size, and
it is the same for every reordering of the list. -/
theorem C28_e820_end_paddr (map : List e820entry) (L : Nat)
    (hov : ∀ e, e ∈ map → e.addr + e.size < 2 ^ 64) :
    e820_end_paddr map L
      = min L (min (MAXMEM >>> PAGE_SHIFT) (last_end_pfn L map)) <<< PAGE_SHIFT ∧
    (∀ e, e ∈ map → e.addr >>> PAGE_SHIFT < L →
      (e.addr + e.size) >>> PAGE_SHIFT ≤ last_end_pfn L map) ∧
    ((∃ e, e ∈ map ∧ e.addr >>> PAGE_SHIFT < L) →
      ∃ e, e ∈ map ∧ e.addr >>> PAGE_SHIFT < L ∧
        (e.addr + e.size) >>> PAGE_SHIFT = last_end_pfn L map) ∧
    ((¬ ∃ e, e ∈ map ∧ e.addr >>> PAGE_SHIFT < L) → e820_end_paddr map L = 0) ∧
    e820_end_paddr map L % 2 ^ PAGE_SHIFT = 0 ∧
    (∀ map1, map.Perm map1 → e820_end_paddr map1 L = e820_end_paddr map L) := by
  have sh : ∀ x, x >>> PAGE_SHIFT = x / 4096 := fun x => Nat.shiftRight_eq_div_pow x 12
  have e3 : (2 : Nat) ^ PAGE_SHIFT = 4096 := by decide
  simp only [sh]
  rw [Nat.shiftLeft_eq, e3, e820_end_paddr_eq map L hov]
  refine ⟨rfl, fun e he hs => last_end_pfn_ge L map e he hs, last_end_pfn_mem L map, ?_, ?_, ?_⟩
  · intro h
    rw [last_end_pfn_none L map h]
    omega
  · exact Nat.mul_mod_left _ _
  · intro map1 p
    have hov1 : ∀ e, e ∈ map1 → e.addr + e.size < 2 ^ 64 :=
      fun e he => hov e (p.mem_iff.mpr he)
    rw [e820_end_paddr_eq map1 L hov1, last_end_pfn_perm L map map1 p]

/-- The sample map satisfies the hypothesis of C28: with the limit `2^34` page
frames the result is the end of the range at 4GB, `0x140000000`, and with the
limit `0x80000` page frames (2GB) it is the end of the range at 1MB. -/
theorem C28_e820_end_paddr_witness :
    (∀ e, e ∈ sample_e820 → e.addr + e.size < 2 ^ 64) ∧
    e820_end_paddr sample_e820 (2 ^ 34) = 0x140000000 ∧
    e820_end_paddr sample_e820 0x80000 = 0x40000000 ∧
    e820_end_paddr sample_e820 (2 ^ 34)
      = min (2 ^ 34) (min (MAXMEM >>> PAGE_SHIFT) (last_end_pfn (2 ^ 34) sample_e820))
          <<< PAGE_SHIFT :=
  ⟨by decide, by decide, by decide,
    (C28_e820_end_paddr sample_e820 (2 ^ 34) (by decide)).1⟩


/-- C29: for `u32` operands, with `ctl = ((ctl_min | ctl_opt) & high) | low`,
the function `adjust_vmx_controls` returns `-EIO` exactly when some bit of
`ctl_min` is clear in `ctl`, and then `*result` keeps its old content;
otherwise it returns 0 and stores `ctl`, which is a `u32` that contains every
bit of `ctl_min` and every bit of `low` and has no bit outside `high | low`. -/
theorem C29_adjust_vmx_controls (ctl_min ctl_opt low high result : Nat)
    (hmin : ctl_min < 2 ^ 32) (hlow : low < 2 ^ 32) (hhigh : high < 2 ^ 32) :
    ((adjust_vmx_controls ctl_min ctl_opt low high result).1 = - EIO ↔
      ∃ i, ctl_min.testBit i = true ∧
        ((((ctl_min ||| ctl_opt) &&& high) ||| low).testBit i = false)) ∧
    ((adjust_vmx_controls ctl_min ctl_opt low high result).1 = - EIO →
      (adjust_vmx_controls ctl_min ctl_opt low high result).2 = result) ∧
    ((adjust_vmx_controls ctl_min ctl_opt low high result).1 ≠ - EIO →
      (adjust_vmx_controls ctl_min ctl_opt low high result).1 = 0 ∧
      (adjust_vmx_controls ctl_min ctl_opt low high result).2
        = ((ctl_min ||| ctl_opt) &&& high) ||| low ∧
      ctl_min &&& (((ctl_min ||| ctl_opt) &&& high) ||| low) = ctl_min ∧
      low &&& (((ctl_min ||| ctl_opt) &&& high) ||| low) = low ∧
      (((ctl_min ||| ctl_opt) &&& high) ||| low) &&& (high ||| low)
        = ((ctl_min ||| ctl_opt) &&& high) ||| low ∧
      ((ctl_min ||| ctl_opt) &&& high) ||| low < 2 ^ 32) := by
  have hc : ((ctl_min ||| ctl_opt) &&& high) ||| low < 2 ^ 32 :=
    Nat.or_lt_two_pow (Nat.and_lt_two_pow _ hhigh) hlow
  have key := and_lnot32_ne_zero ctl_min _ hmin hc
  unfold adjust_vmx_controls
  by_cases h : ctl_min &&& lnot32 (((ctl_min ||| ctl_opt) &&& high) ||| low) ≠ 0
  · rw [if_pos h]
    exact ⟨⟨fun _ => key.mp h, fun _ => rfl⟩, fun _ => rfl, fun hne => absurd rfl hne⟩
  · rw [if_neg h]
    have hne : (0 : Int) ≠ - EIO := by decide
    refine ⟨⟨fun e => absurd e hne, fun e => absurd (key.mpr e) h⟩, fun e => absurd e hne,
      fun _ => ⟨rfl, rfl, ?_, ?_, ?_, hc⟩⟩
    · apply and_eq_left_of_bits
      intro i hi
      by_contra hcl
      have hf : ((((ctl_min ||| ctl_opt) &&& high) ||| low).testBit i = false) := by
        cases hb : (((ctl_min ||| ctl_opt) &&& high) ||| low).testBit i
        · rfl
        · exact absurd hb hcl
      exact h (key.mpr ⟨i, hi, hf⟩)
    · apply and_eq_left_of_bits
      intro i hi
      rw [Nat.testBit_or, hi, Bool.or_true]
    · apply and_eq_left_of_bits
      intro i hi
      rw [Nat.testBit_or, Nat.testBit_and] at hi
      rw [Nat.testBit_or]
      cases hh : high.testBit i
      · rw [hh, Bool.and_false, Bool.false_or] at hi
        rw [hi]
        rfl
      · rfl

/-- The operands `ctl_min = 0x3`, `ctl_opt = 0x4`, `low = 0x10`, `high = 0x1b`
satisfy the hypotheses of C29: bits 0 and 1 are allowed, so the call succeeds
and stores `0x13`; with `high = 0x19` bit 1 is missing and the call fails. -/
theorem C29_adjust_vmx_controls_witness :
    (0x3 : Nat) < 2 ^ 32 ∧ (0x10 : Nat) < 2 ^ 32 ∧ (0x1b : Nat) < 2 ^ 32 ∧
    adjust_vmx_controls 0x3 0x4 0x10 0x1b 0 = (0, 0x13) ∧
    adjust_vmx_controls 0x3 0x4 0x10 0x19 0x77 = (- EIO, 0x77) ∧
    (0x3 : Nat) &&& 0x13 = 0x3 :=
  ⟨by decide, by decide, by decide, by decide, by decide,
    ((C29_adjust_vmx_controls 0x3 0x4 0x10 0x1b 0 (by decide) (by decide) (by decide)).2.2
      (by decide)).2.2.1⟩


/-- C30: let `vt_ept_2M_init` return the root `root` for the extent `E`, which
it maps as `n = round_up(E, 1GB) / 1GB` gigabytes, and let the table then be
modified by any sequence of `split_2M_mapping` and `replace_ept_page` calls with
addresses of the mapped range. The sequence runs through without the `BUG_ON`
of `find_pt_entry` firing, and in the state it leaves, for every address `p` of
the mapped range: `replace_ept_page` returns; whenever its call of
`split_2M_mapping` returns non-zero, `find_pt_entry` passes its `BUG_ON` and
returns the leaf; and the PDPT, PD and PT indices that `find_pt_entry` computes
are the natural numbers `p / 1GB`, `(p mod 1GB) / 2MB` and `(p mod 2MB) / 4K`,
all below 512. -/
theorem C30_find_pt_entry_no_bug (E : Nat) (s : Kernel) (hE : E ≤ MAXMEM)
    (hp : PoolOK s.pages) (root : Nat) (s0 : Kernel)
    (h : vt_ept_2M_init E s = some (root, s0)) (hr : root ≠ 0) (cs : List EptCall)
    (hcs : ∀ c, c ∈ cs → c.paddr < (E + (2 ^ 30 - 1)) / 2 ^ 30 * 2 ^ 30) :
    ∃ s1, ept_run root cs s0 = some s1 ∧
      ∀ p, p < (E + (2 ^ 30 - 1)) / 2 ^ 30 * 2 ^ 30 →
        (∃ r s2, replace_ept_page s1 root p = some (r, s2)) ∧
        (∀ r s2, split_2M_mapping s1 root (p &&& lnot64 (PAGESIZE2M - 1)) = (r, s2) → r ≠ 0 →
          ∃ leaf, find_pt_entry s2 root p = some leaf) ∧
        toInt32 ((p &&& lnot64 (GIGABYTE - 1)) >>> GIGABYTE_SHIFT)
          = ((p / 2 ^ 30 : Nat) : Int) ∧
        p / 2 ^ 30 < 512 ∧
        toInt32 ((p &&& (GIGABYTE - 1)) >>> PAGESIZE2M_SHIFT)
          = ((p % 2 ^ 30 / 2 ^ 21 : Nat) : Int) ∧
        p % 2 ^ 30 / 2 ^ 21 < 512 ∧
        toInt32 ((p &&& (PAGESIZE2M - 1)) >>> PAGESIZE_SHIFT)
          = ((p % 2 ^ 21 / 2 ^ 12 : Nat) : Int) ∧
        p % 2 ^ 21 / 2 ^ 12 < 512 := by
  have I0 := init_inv s s0 root _ hp (init_post E s hE hp root s0 h hr)
  obtain ⟨s1, L1, h1, I1⟩ := run_inv root _ cs s0 _ I0 hcs
  refine ⟨s1, h1, fun p hpp => ?_⟩
  obtain ⟨r, s2, _, h2, _⟩ := replace_step s1 root _ L1 I1 p hpp
  exact ⟨⟨r, s2, h2⟩, find_pt_entry_safe s1 root _ L1 I1 p hpp⟩

/-- The table built for 1GB from the sample state, modified by a replacement of
the page at `0x305000`, a split of the region at `0x600000`, a replacement in
that region and a second replacement of `0x305000`, satisfies the hypotheses of
C30: the four calls run through, and afterwards `replace_ept_page` returns for
the last page of the gigabyte. -/
theorem C30_find_pt_entry_no_bug_witness :
    GIGABYTE ≤ MAXMEM ∧ PoolOK sample_kernel.pages ∧
    vt_ept_2M_init GIGABYTE sample_kernel
      = some ((sample_built GIGABYTE).1, (sample_built GIGABYTE).2) ∧
    (sample_built GIGABYTE).1 ≠ 0 ∧
    (∀ c, c ∈ [EptCall.replace 0x305000, EptCall.split 0x600000, EptCall.replace 0x601000,
        EptCall.replace 0x305000] →
      c.paddr < (GIGABYTE + (2 ^ 30 - 1)) / 2 ^ 30 * 2 ^ 30) ∧
    ∃ s1, ept_run (sample_built GIGABYTE).1
        [EptCall.replace 0x305000, EptCall.split 0x600000, EptCall.replace 0x601000,
          EptCall.replace 0x305000] (sample_built GIGABYTE).2 = some s1 ∧
      ∃ r s2, replace_ept_page s1 (sample_built GIGABYTE).1 0x3FFFF000 = some (r, s2) := by
  have hc : ∀ c, c ∈ [EptCall.replace 0x305000, EptCall.split 0x600000,
      EptCall.replace 0x601000, EptCall.replace 0x305000] →
      c.paddr < (GIGABYTE + (2 ^ 30 - 1)) / 2 ^ 30 * 2 ^ 30 := by
    intro c hc
    simp only [List.mem_cons, List.mem_singleton, List.not_mem_nil, or_false] at hc
    rcases hc with e | e | e | e <;> rw [e] <;> decide
  obtain ⟨s1, h1, h2⟩ := C30_find_pt_entry_no_bug GIGABYTE sample_kernel
    (by norm_num [GIGABYTE, MAXMEM]) sample_pool _ _ (sample_built_eq _ (by decide!))
    (by decide!) _ hc
  exact ⟨by norm_num [GIGABYTE, MAXMEM], sample_pool, sample_built_eq _ (by decide!),
    by decide!, hc, s1, h1, (h2 0x3FFFF000 (by decide)).1⟩

end Okernel
